import Mathlib

/-!
# bwip-js `psc.js`: the PostScript cross-compiler

A shallow embedding of the compiler engine of `src/psc.js` (the symbolic
operand-stack tracker, the context manager, the operator table, `devar`)
together with theorems about it.

Conventions of the embedding

* JavaScript strings are Lean strings; the functions that inspect them work
  on the list of characters (`String.data`).
* A regular expression of the source is a value of `RE`, interpreted by a
  backtracking matcher with the JavaScript rules (greedy quantifiers, ordered
  alternatives, an iteration of `*` that consumes nothing is rejected).
* The mutable variables of `PSC` (`st`, `sp`, `block`, `seq`, `tvarno`, ...)
  are the fields of the record `PSC`; every function of the source that
  mutates them is a function `PSC → PSC` or `PSC → Except Err PSC`.
* `st` is a JavaScript array that may hold stale objects above `sp`; it is a
  list here and `sp` is kept beside it.  Array slots never alias one another in
  the source (every copy goes through `clone`), so entries are values.
* Integers that the source handles as JavaScript numbers are `Nat`/`Int`;
  where the source would leave the range in which doubles are exact the
  embedding stops with `Err.unmodelled`.
* The value of a number token and the text `'' + val` made of it are computed
  on doubles (`JSNum`): decimal text is rounded to the nearest double, ties to
  the even mantissa, and a double is printed with the fewest digits that
  denote it.
-/

namespace PSCompiler

/-! ## Characters and strings -/

/-- Membership in the class `\w` of JavaScript regular expressions. -/
def isWordChar (c : Char) : Bool := c.isAlphanum || c == '_'

/-- Membership in the class `\d`. -/
def isDigitChar (c : Char) : Bool := c.isDigit

/-- The characters `.` does not match (the line terminators). -/
def isLineTerminator (c : Char) : Bool :=
  c == '\n' || c == '\r' || c.toNat == 0x2028 || c.toNat == 0x2029

/-- The class `\s` of JavaScript patterns. -/
def isJsSpace (c : Char) : Bool :=
  c == ' ' || c == '\t' || c == '\n' || c == '\r' || c.toNat == 0x0b || c.toNat == 0x0c ||
  c.toNat == 0xa0 || c.toNat == 0x1680 || (0x2000 ≤ c.toNat && c.toNat ≤ 0x200a) ||
  c.toNat == 0x2028 || c.toNat == 0x2029 || c.toNat == 0x202f || c.toNat == 0x205f ||
  c.toNat == 0x3000 || c.toNat == 0xfeff

/-- Whether `p` is an initial segment of `s`. -/
def startsWithL : List Char → List Char → Bool
  | [], _ => true
  | _ :: _, [] => false
  | a :: p, b :: s => a == b && startsWithL p s

/-- Position of the first occurrence of `p` in `s` (`String.prototype.indexOf`). -/
def indexOfL (p : List Char) : List Char → Option Nat
  | [] => if p.isEmpty then some 0 else none
  | c :: s =>
    if startsWithL p (c :: s) then some 0
    else (indexOfL p s).map (· + 1)

/-- Position of the last occurrence of `p` in `s` (`lastIndexOf`). -/
def lastIndexOfL (p : List Char) : List Char → Option Nat
  | [] => if p.isEmpty then some 0 else none
  | c :: s =>
    match lastIndexOfL p s with
    | some i => some (i + 1)
    | none => if startsWithL p (c :: s) then some 0 else none

/-- The decimal digit of a number below ten. -/
def digitChar (n : Nat) : Char := Char.ofNat (48 + n)

/-- Digits of `n` in base `base`, most significant first, prepended to `v`: the
loop `while (n >= base) { v = digit[n % base] + v; n = (n / base)|0 }` followed
by `digit[n] + v`.  The first argument bounds the number of rounds. -/
def radixLoop (base : Nat) (digit : Nat → Char) : Nat → Nat → List Char → List Char
  | 0, n, v => digit n :: v
  | f + 1, n, v =>
    if base ≤ n then radixLoop base digit f (n / base) (digit (n % base) :: v)
    else digit n :: v

/-- Decimal digits of `n` prepended to `acc`. -/
def decLoop (f n : Nat) (acc : List Char) : List Char := radixLoop 10 digitChar f n acc

/-- The text `'' + n` of a non-negative integer. -/
def natStr (n : Nat) : String := String.mk (decLoop n n [])

/-- The text `'' + n` of an integer (`-0` prints as `0`). -/
def intStr : Int → String
  | Int.ofNat n => natStr n
  | Int.negSucc n => String.mk ('-' :: decLoop (n + 1) (n + 1) [])

/-- Value of a run of decimal digits. -/
def parseDigits (cs : List Char) : Nat :=
  cs.foldl (fun a c => 10 * a + (c.toNat - 48)) 0

/-- The largest magnitude up to which every integer is an exact double. -/
def maxSafe : Nat := 2 ^ 53

/-- The number `+text` for a text of the form `-?[0-9]+` whose magnitude is below
`2^53`; `none` for every other text (not modelled). -/
def intOfText (t : String) : Option Int :=
  match t.data with
  | '-' :: ds =>
    if !ds.isEmpty && ds.all isDigitChar && parseDigits ds < maxSafe
    then some (-(parseDigits ds : Int)) else none
  | ds =>
    if !ds.isEmpty && ds.all isDigitChar && parseDigits ds < maxSafe
    then some (parseDigits ds : Int) else none

/-- The conversion `ToInt32` applied by `~~` to an integral value. -/
def toInt32 (x : Int) : Int := (x + 2 ^ 31) % 2 ^ 32 - 2 ^ 31

/-! ## Numbers

The values of the type Number that the compiler computes with: the value of a
number token (`parseFloat`, `parseInt`), the test `val % 1` and the text
`'' + val`.  A finite value is kept as a mantissa and a binary exponent; the
conversions from and to decimal text work on exact fractions. -/

/-- A value of the type Number: `NaN`, an infinity, or the finite value
`m * 2^e` with its sign (a zero has `m = 0`).  The values built by `ofRat`
are doubles: `m < 2^53`, `-1074 ≤ e ≤ 971`, and `2^52 ≤ m` unless `e = -1074`. -/
inductive JSNum where
  | nan
  | inf (neg : Bool)
  | fin (neg : Bool) (m : Nat) (e : Int)
  deriving DecidableEq, Repr

/-- Numerator and denominator of the fraction `p / q / b^x`. -/
def scaleRat (b p q : Nat) (x : Int) : Nat × Nat :=
  if x < 0 then (p * b ^ (-x).toNat, q) else (p, q * b ^ x.toNat)

/-- The number of binary digits of `n`; the first argument bounds the number of
rounds. -/
def bitLength : Nat → Nat → Nat
  | 0, _ => 0
  | f + 1, n => if n = 0 then 0 else bitLength f (n / 2) + 1

/-- The double nearest to the fraction `p / q` (`0 < p`, `0 < q`), ties going to
the even mantissa: mantissa and exponent, `none` when the result is beyond the
largest double. -/
def roundRat (p q : Nat) : Option (Nat × Int) :=
  let e0 : Int := (bitLength p p : Int) - (bitLength q q : Int) - 52
  let n0 := scaleRat 2 p q e0
  let e1 : Int := if n0.1 / n0.2 < 2 ^ 52 then e0 - 1 else e0
  let e2 : Int := if e1 < -1074 then -1074 else e1
  let n := scaleRat 2 p q e2
  let m := n.1 / n.2
  let r := n.1 % n.2
  let m1 := if n.2 < 2 * r || (2 * r == n.2 && m % 2 == 1) then m + 1 else m
  let e3 : Int := if m1 = 2 ^ 53 then e2 + 1 else e2
  let m2 := if m1 = 2 ^ 53 then 2 ^ 52 else m1
  if 971 < e3 then none else some (m2, e3)

/-- The Number value of the fraction `p / q` with the sign `neg`. -/
def JSNum.ofRat (neg : Bool) (p q : Nat) : JSNum :=
  if p = 0 then .fin neg 0 0
  else
    match roundRat p q with
    | some (m, e) => if m = 0 then .fin neg 0 0 else .fin neg m e
    | none => .inf neg

/-- The Number value of `d * 10^x` with the sign `neg`. -/
def JSNum.ofDec (neg : Bool) (d : Nat) (x : Int) : JSNum :=
  JSNum.ofRat neg (scaleRat 10 d 1 (-x)).1 (scaleRat 10 d 1 (-x)).2

/-- The part `[eE][+-]?[0-9]+` of a decimal literal at the head of `cs`: its
value and the text behind it; `0` and `cs` when there is none. -/
def scanExponent (cs : List Char) : Int × List Char :=
  match cs with
  | c :: t =>
    if c == 'e' || c == 'E' then
      let neg := t.head? == some '-'
      let t1 := if t.head? == some '-' || t.head? == some '+' then t.drop 1 else t
      let ds := t1.span isDigitChar
      if ds.1.isEmpty then (0, cs)
      else (if neg then -(parseDigits ds.1 : Int) else (parseDigits ds.1 : Int), ds.2)
    else (0, cs)
  | [] => (0, cs)

/-- The longest head of `cs` that is an unsigned decimal literal
(`Infinity`, `12`, `12.`, `12.5`, `.5`, each of the last four with an optional
exponent): `none` for `Infinity` or the pair `(d, x)` for the value `d * 10^x`,
and the text behind it; `none` when no head is one. -/
def scanUnsigned (cs : List Char) : Option (Option (Nat × Int) × List Char) :=
  if startsWithL "Infinity".data cs then some (none, cs.drop 8)
  else
    let i := cs.span isDigitChar
    match i.2 with
    | '.' :: t =>
      let d := t.span isDigitChar
      if i.1.isEmpty && d.1.isEmpty then none
      else
        let x := scanExponent d.2
        some (some (parseDigits (i.1 ++ d.1), x.1 - (d.1.length : Int)), x.2)
    | _ =>
      if i.1.isEmpty then none
      else
        let x := scanExponent i.2
        some (some (parseDigits i.1, x.1), x.2)

/-- The longest head of `cs` that is a decimal literal with an optional sign:
its value and the text behind it. -/
def scanDecimal (cs : List Char) : Option (JSNum × List Char) :=
  let neg := cs.head? == some '-'
  let t := if cs.head? == some '-' || cs.head? == some '+' then cs.drop 1 else cs
  match scanUnsigned t with
  | none => none
  | some (none, rest) => some (.inf neg, rest)
  | some (some (d, x), rest) => some (JSNum.ofDec neg d x, rest)

/-- The function `parseFloat`. -/
def parseFloat (s : String) : JSNum :=
  match scanDecimal (s.data.dropWhile isJsSpace) with
  | some (v, _) => v
  | none => .nan

/-- The integral part of a finite value with its sign; 0 for the others. -/
def JSNum.trunc : JSNum → Int
  | .fin neg m e =>
    let a : Nat := if e < 0 then m / 2 ^ (-e).toNat else m * 2 ^ e.toNat
    if neg then -(a : Int) else (a : Int)
  | _ => 0

/-- The value of a digit in a radix up to 36. -/
def digitValue (c : Char) : Option Nat :=
  if c.isDigit then some (c.toNat - 48)
  else if c.isLower then some (c.toNat - 87)
  else if c.isUpper then some (c.toNat - 55)
  else none

/-- Whether `c` is a digit of the radix `r`. -/
def isRadixDigit (r : Nat) (c : Char) : Bool :=
  match digitValue c with
  | some v => v < r
  | none => false

/-- Value of a run of digits in the radix `r`. -/
def parseRadix (r : Nat) (cs : List Char) : Nat :=
  cs.foldl (fun a c => r * a + (digitValue c).getD 0) 0

/-- The function `parseInt(s, radix)`; the integer read is rounded to the
nearest double. -/
def parseInt (s : String) (radix : JSNum) : JSNum :=
  let t := s.data.dropWhile isJsSpace
  let neg := t.head? == some '-'
  let t1 := if t.head? == some '-' || t.head? == some '+' then t.drop 1 else t
  let r0 := toInt32 radix.trunc
  if r0 ≠ 0 ∧ (r0 < 2 ∨ 36 < r0) then .nan
  else
    let hex := (r0 = 0 ∨ r0 = 16) ∧ (startsWithL "0x".data t1 ∨ startsWithL "0X".data t1)
    let r : Nat := if hex then 16 else if r0 = 0 then 10 else r0.toNat
    let t2 := if hex then t1.drop 2 else t1
    let ds := t2.takeWhile (isRadixDigit r)
    if ds.isEmpty then .nan else JSNum.ofRat neg (parseRadix r ds) 1

/-- The test `val % 1` of the source: true for a finite value that is not an
integer. -/
def JSNum.hasFraction : JSNum → Bool
  | .fin _ m e => e < 0 && m % 2 ^ (-e).toNat != 0
  | _ => false

/-- The largest `k` with `q * 10^k ≤ p`, counted up from `k` (for `q ≤ p`). -/
def decExpUp : Nat → Nat → Nat → Nat → Nat
  | 0, _, _, k => k
  | f + 1, p, q, k => if q * 10 ≤ p then decExpUp f p (q * 10) (k + 1) else k

/-- The least `k` with `q ≤ p * 10^k`, counted up from `k`. -/
def decExpDown : Nat → Nat → Nat → Nat → Nat
  | 0, _, _, k => k
  | f + 1, p, q, k => if p < q then decExpDown f (p * 10) q (k + 1) else k

/-- The exponent `n` with `10^(n-1) ≤ p / q < 10^n`. -/
def decExp (p q : Nat) : Int :=
  if q ≤ p then (decExpUp 400 p q 0 : Int) + 1 else 1 - (decExpDown 400 p q 0 : Int)

/-- The search for the shortest decimal that denotes the double `v = p / q`:
with `k` digits the two candidates are the multiples of `10^(n-k)` next to `v`;
one that rounds to `v` is taken (the nearer one, the even one at a tie, when
both do), otherwise the search goes on with one digit more.  The result is the
pair `(s, x)` for the decimal `s * 10^x`; with no fuel left it is the nearer
candidate. -/
def shortest (v : JSNum) (p q : Nat) (n : Int) : Nat → Nat → Nat × Int
  | 0, k =>
    let t := scaleRat 10 p q (n - k)
    if 2 * (t.1 % t.2) < t.2 then (t.1 / t.2, n - k) else (t.1 / t.2 + 1, n - k)
  | f + 1, k =>
    let t := scaleRat 10 p q (n - k)
    let lo := t.1 / t.2
    let r := t.1 % t.2
    let okLo := decide (JSNum.ofDec false lo (n - k) = v)
    let okHi := decide (JSNum.ofDec false (lo + 1) (n - k) = v)
    if okLo && okHi then
      if 2 * r < t.2 || (2 * r == t.2 && lo % 2 == 0) then (lo, n - k) else (lo + 1, n - k)
    else if okLo then (lo, n - k)
    else if okHi then (lo + 1, n - k)
    else shortest v p q n f (k + 1)

/-- The digits of `s` without the zeros at the end, and their number. -/
def stripZeros : Nat → Nat → Nat → Nat × Nat
  | 0, s, z => (s, z)
  | f + 1, s, z => if s % 10 = 0 ∧ s ≠ 0 then stripZeros f (s / 10) (z + 1) else (s, z)

/-- The text of a positive finite value from its digits `ds` and the exponent
`n` (the value is `0.ds * 10^n`), as `Number::toString` lays it out. -/
def layoutDigits (ds : List Char) (n : Int) : List Char :=
  let k : Int := ds.length
  if k ≤ n ∧ n ≤ 21 then ds ++ List.replicate (n - k).toNat '0'
  else if 0 < n ∧ n ≤ 21 then ds.take n.toNat ++ '.' :: ds.drop n.toNat
  else if -6 < n ∧ n ≤ 0 then '0' :: '.' :: (List.replicate (-n).toNat '0' ++ ds)
  else
    let ex := (if n - 1 < 0 then '-' else '+') :: (natStr (n - 1).natAbs).data
    if ds.length = 1 then ds ++ 'e' :: ex
    else ds.take 1 ++ '.' :: (ds.drop 1 ++ 'e' :: ex)

/-- The text `'' + val`. -/
def JSNum.toString : JSNum → String
  | .nan => "NaN"
  | .inf neg => if neg then "-Infinity" else "Infinity"
  | .fin neg m e =>
    if m = 0 then "0"
    else
      let pq := scaleRat 2 m 1 (-e)
      let n := decExp pq.1 pq.2
      let sx := shortest (.fin false m e) pq.1 pq.2 n 17 1
      let sz := stripZeros 400 sx.1 0
      let ds := (natStr sz.1).data
      String.mk ((if neg then ['-'] else []) ++ layoutDigits ds ((ds.length : Int) + sz.2 + sx.2))

/-- The comparison `val < 0`. -/
def JSNum.ltZero : JSNum → Bool
  | .nan => false
  | .inf neg => neg
  | .fin neg m _ => neg && m != 0

/-- The negation `-val`. -/
def JSNum.neg : JSNum → JSNum
  | .nan => .nan
  | .inf neg => .inf (!neg)
  | .fin neg m e => .fin (!neg) m e

/-- The quotient `a / b` of two Number values, rounded to the nearest double. -/
def JSNum.div : JSNum → JSNum → JSNum
  | .nan, _ => .nan
  | _, .nan => .nan
  | .inf _, .inf _ => .nan
  | .inf n, .fin m _ _ => .inf (n != m)
  | .fin n _ _, .inf m => .fin (n != m) 0 0
  | .fin n a x, .fin m b y =>
    if b = 0 then (if a = 0 then .nan else .inf (n != m))
    else JSNum.ofRat (n != m) (scaleRat 2 a b (y - x)).1 (scaleRat 2 a b (y - x)).2

/-- The number `+text`: the value of a text that is a numeric literal between
optional white space, 0 for a text of white space, `NaN` for every other. -/
def toNumber (s : String) : JSNum :=
  let t := ((s.data.dropWhile isJsSpace).reverse.dropWhile isJsSpace).reverse
  let r : Nat :=
    if startsWithL "0x".data t || startsWithL "0X".data t then 16
    else if startsWithL "0o".data t || startsWithL "0O".data t then 8
    else if startsWithL "0b".data t || startsWithL "0B".data t then 2
    else 0
  if t.isEmpty then .fin false 0 0
  else if r != 0 && !(t.drop 2).isEmpty && (t.drop 2).all (isRadixDigit r) then
    JSNum.ofRat false (parseRadix r (t.drop 2)) 1
  else
    match scanDecimal t with
    | some (v, []) => v
    | _ => .nan

/-- The value of a number token (lines 787-794): a radix number `n#...` or
`nn#...` is read by `parseInt` with the radix `parseFloat` finds at the head of
the token, every other token by `parseFloat`. -/
def numberOfToken (tkn : String) : JSNum :=
  match tkn.data with
  | _ :: '#' :: rest => parseInt (String.mk rest) (parseFloat tkn)
  | _ :: c :: '#' :: rest =>
    if c.toNat < 0x10000 then parseInt (String.mk rest) (parseFloat tkn) else parseFloat tkn
  | _ => parseFloat tkn

/-! ## Regular expressions -/

/-- The captures of a match: group number and captured text. -/
abbrev Caps := List (Nat × List Char)

/-- Text captured by group `i`, `none` when the group did not take part. -/
def Caps.get (c : Caps) (i : Nat) : Option (List Char) :=
  (c.find? (fun p => p.1 == i)).map (·.2)

/-- The regular expressions used by the source.  `^` is not a constructor: a
pattern that starts with `^` is run with `RE.execStart`, any other one with
`RE.search`. -/
inductive RE where
  | eps : RE
  | chr : Char → RE
  | cls : (Char → Bool) → RE
  | seq : RE → RE → RE
  | alt : RE → RE → RE
  | star : RE → RE
  | group : Nat → RE → RE
  | eos : RE

namespace RE

/-- The pattern matching exactly the characters of `s`. -/
def lit (s : String) : RE := s.data.foldr (fun c r => seq (chr c) r) eps

/-- The quantifier `+`. -/
def plus (r : RE) : RE := seq r (star r)

/-- The quantifier `?`. -/
def opt (r : RE) : RE := alt r eps

/-- The pattern `.`. -/
def dot : RE := cls (fun c => !isLineTerminator c)

/-- Sequence of several patterns. -/
def cat : List RE → RE
  | [] => eps
  | [r] => r
  | r :: rs => seq r (cat rs)

/-- Greedy iteration: one more round of `step` is tried first, and a round that
consumed nothing is rejected; then the continuation. -/
def starLoop {α : Type} (step : List Char → Caps → (List Char → Caps → Option α) → Option α) :
    Nat → List Char → Caps → (List Char → Caps → Option α) → Option α
  | 0, s, c, k => k s c
  | n + 1, s, c, k =>
    match step s c (fun s1 c1 =>
        if s1.length < s.length then starLoop step n s1 c1 k else none) with
    | some r => some r
    | none => k s c

/-- Backtracking matcher: `run r s c k` matches `r` at the head of `s` and hands
the rest of the input and the captures to `k`; the first success wins. -/
def run {α : Type} : RE → List Char → Caps → (List Char → Caps → Option α) → Option α
  | eps, s, c, k => k s c
  | chr x, s, c, k =>
    match s with
    | y :: t => if x == y then k t c else none
    | [] => none
  | cls p, s, c, k =>
    match s with
    | y :: t => if p y then k t c else none
    | [] => none
  | seq a b, s, c, k => run a s c (fun s1 c1 => run b s1 c1 k)
  | alt a b, s, c, k =>
    match run a s c k with
    | some r => some r
    | none => run b s c k
  | star r, s, c, k => starLoop (fun s1 c1 k1 => run r s1 c1 k1) (s.length + 1) s c k
  | group i r, s, c, k =>
    run r s c (fun s1 c1 => k s1 ((i, s.take (s.length - s1.length)) :: c1))
  | eos, s, c, k => if s.isEmpty then k s c else none

/-- Match at the start of the input: the unmatched rest and the captures. -/
def execStart (r : RE) (s : List Char) : Option (List Char × Caps) :=
  run r s [] (fun s1 c1 => some (s1, c1))

/-- The method `test` of a pattern that starts with `^`. -/
def testStart (r : RE) (s : String) : Bool := (execStart r s.data).isSome

/-- Leftmost match: the text before it, the matched text, the rest, the captures. -/
def searchL (r : RE) : List Char → Option (List Char × List Char × List Char × Caps)
  | [] => (execStart r []).map (fun p => ([], [], p.1, p.2))
  | c :: s =>
    match execStart r (c :: s) with
    | some p => some ([], (c :: s).take ((c :: s).length - p.1.length), p.1, p.2)
    | none => (searchL r s).map (fun q => (c :: q.1, q.2.1, q.2.2.1, q.2.2.2))

/-- The method `test` of a pattern without `^`. -/
def test (r : RE) (s : String) : Bool := (searchL r s.data).isSome

/-- Global replacement `s.replace(/r/g, f)`, `f` computing the replacement from
the matched text and the captures. -/
def replaceAllL (r : RE) (f : List Char → Caps → List Char) : Nat → List Char → List Char
  | 0, s => s
  | n + 1, s =>
    match searchL r s with
    | none => s
    | some (pre, m, rest, caps) =>
      if m.isEmpty then
        match rest with
        | [] => pre ++ f m caps
        | c :: rest1 => pre ++ f m caps ++ c :: replaceAllL r f n rest1
      else pre ++ f m caps ++ replaceAllL r f n rest

/-- Global replacement on strings. -/
def replaceAll (r : RE) (f : List Char → Caps → List Char) (s : String) : String :=
  String.mk (replaceAllL r f (s.data.length + 1) s.data)

end RE

/-! ## Data model -/

/-- A lexical token with the line on which it began (`{ token, lnbr }`). -/
structure Token where
  token : String
  lnbr : Nat
  deriving DecidableEq, Repr

/-- An entry of the trace stack `st`: `{ type, expr, seq }`, or
`{ type, tokens, seq }` for a captured block (then `expr` is `undefined`). -/
structure Entry where
  type : Nat
  expr : Option String
  tokens : Option (List Token)
  seq : Nat
  deriving DecidableEq, Repr

/-- A line of the current code block: `{ code, lnbr, seq }`. -/
structure Line where
  code : String
  lnbr : Nat
  seq : Nat
  deriving DecidableEq, Repr

/-- A saved context: `{ st, sp, block, depth }`. -/
structure Ctx where
  st : List Entry
  sp : Nat
  block : List Line
  depth : Nat
  deriving DecidableEq, Repr

/-- State of `PSLEX`.  `stack` is the stack of pushed token streams (its top is
the head of the list).  `raw` stands for the raw text: it is the list of tokens
that the line tokenizer (lines 91-173) still has to deliver. -/
structure Lexer where
  stack : List (List Token)
  raw : List Token
  token : Option String
  lnbr : Nat
  deriving DecidableEq, Repr

/-- The configuration `cfg`. -/
structure Cfg where
  devar : Bool
  coverage : Bool
  deriving DecidableEq, Repr

/-- What stops a compilation: a thrown string, a thrown `Error`, a `TypeError`
of the JavaScript runtime, a point the embedding does not model, or the
exhaustion of the recursion budget of the embedding. -/
inductive Err where
  | thrown (msg : String)
  | error (msg : String)
  | typeError (what : String)
  | unmodelled (what : String)
  | fuel
  deriving DecidableEq, Repr

deriving instance DecidableEq for Except

/-- The mutable variables of `PSC`.  `context` has its top at the head.  A line
number 0 stands for `undefined`. -/
structure PSC where
  lex : Lexer
  cfg : Cfg
  dict : List (String × Nat)
  dlvl : Int
  context : List Ctx
  st : List Entry
  sp : Nat
  tvarno : Nat
  branchno : Int
  block : List Line
  depth : Nat
  seq : Nat
  allowunknown : Bool
  deriving DecidableEq, Repr

def TYPE_UNKNOWN : Nat := 0x0000
def TYPE_INTLIT : Nat := 0x0001
def TYPE_INTVAL : Nat := 0x0002
def TYPE_INTTYP : Nat := 0x0003
def TYPE_NUMLIT : Nat := 0x0004
def TYPE_NUMVAL : Nat := 0x0008
def TYPE_NUMTYP : Nat := 0x000f
def TYPE_STRLIT : Nat := 0x0010
def TYPE_STRVAL : Nat := 0x0020
def TYPE_STRTYP : Nat := 0x0030
def TYPE_ARRAY : Nat := 0x0040
def TYPE_DICT : Nat := 0x0080
def TYPE_NULL : Nat := 0x0100
def TYPE_BOOLEAN : Nat := 0x0200
def TYPE_IDENT : Nat := 0x0400
def TYPE_IENAME : Nat := 0x0800
def TYPE_TOKENS : Nat := 0x1000
def TYPE_FUNCTION : Nat := 0x2000
def TYPE_PRECALC : Nat := 0x4000

/-- The test `t & mask` of the source (truthy when some bit is shared). -/
def hasType (t mask : Nat) : Bool := t &&& mask != 0

/-- The text an expression contributes to a string concatenation
(`undefined` prints as such). -/
def exprStr : Option String → String
  | some x => x
  | none => "undefined"

/-- The state in which `PSC` starts compiling the tokens `raw`. -/
def PSC.init (cfg : Cfg) (raw : List Token) : PSC :=
  { lex := { stack := [], raw := raw, token := none, lnbr := 0 }
    cfg := cfg, dict := [], dlvl := 0, context := [], st := [], sp := 0
    tvarno := 0, branchno := -1, block := [], depth := 0, seq := 0
    allowunknown := false }

/-- The entries that are tracked: `st[0] .. st[sp-1]`, bottom first. -/
def PSC.tracked (s : PSC) : List Entry := s.st.take s.sp

/-- The assignment `st[i] = e` for `i` not beyond the length of the array. -/
def stSet (st : List Entry) (i : Nat) (e : Entry) : List Entry :=
  st.take i ++ e :: st.drop (i + 1)

/-- The read `st[i]`; reading a property of `undefined` is a `TypeError`. -/
def stGet (st : List Entry) (i : Int) : Except Err Entry :=
  if i < 0 then .error (.typeError "st[i] is undefined")
  else match st[i.toNat]? with
    | some e => .ok e
    | none => .error (.typeError "st[i] is undefined")

/-- The function `clone`: type and expression are copied, `tokens` is not. -/
def clone (x : Entry) (seq : Nat) : Entry :=
  { type := x.type, expr := x.expr, tokens := none, seq := seq }

/-! ## Lexer (token streams) -/

/-- The method `PSLEX.next`: the next token of the innermost pushed stream, of
the raw text when no stream is pushed; `none` is `null`. -/
def Lexer.next (l : Lexer) : Option String × Lexer :=
  match l.stack with
  | [] :: _ => (none, l)
  | (t :: ts) :: rest =>
    (some t.token, { l with stack := ts :: rest, token := some t.token, lnbr := t.lnbr })
  | [] =>
    match l.raw with
    | [] => (none, { l with token := none })
    | t :: ts => (some t.token, { l with raw := ts, token := some t.token, lnbr := t.lnbr })

/-- The method `PSLEX.peek`: it looks only at a pushed stream, and records the
token and its line in the lexer as `next` would. -/
def Lexer.peek (l : Lexer) : Option String × Lexer :=
  match l.stack with
  | [] => (none, l)
  | [] :: _ => (none, l)
  | (t :: _) :: _ => (some t.token, { l with token := some t.token, lnbr := t.lnbr })

/-- The method `PSLEX.push`. -/
def Lexer.push (l : Lexer) (tokens : List Token) : Lexer :=
  { l with stack := tokens :: l.stack }

/-- The method `PSLEX.pop`. -/
def Lexer.pop (l : Lexer) : Lexer := { l with stack := l.stack.tail }

/-! ## Temporaries, `need`, `emit`, `ctxflush` -/

/-- The character set `_b62`. -/
def b62Chars : List Char :=
  "0123456789ABCDEFGHIJKLMNOPQRSTUVWXYZabcdefghijklmnopqrstuvwxyz".data

/-- The character `_b62[n]`. -/
def b62Char (n : Nat) : Char := b62Chars.getD n '?'

/-- The loop of `b62`: `v` is the text built so far. -/
def b62Loop (f n : Nat) (v : List Char) : List Char := radixLoop 62 b62Char f n v

/-- The name `tvar()` returns when `tvarno` is `n`. -/
def tvar (n : Nat) : String := String.mk ('_' :: b62Loop n n [])

/-- One round of the loop of `need`: pop the real stack into a fresh temporary
and put an entry of unknown type for it at the bottom of the trace stack. -/
def needStep (s : PSC) : PSC :=
  { s with
    tvarno := s.tvarno + 1
    block := s.block ++ [{ code := "var " ++ tvar s.tvarno ++ "=$k[--$j];",
                           lnbr := s.lex.lnbr, seq := s.seq + 1 }]
    st := { type := TYPE_UNKNOWN, expr := some (tvar s.tvarno), tokens := none,
            seq := s.seq + 2 } :: s.st
    sp := s.sp + 1
    depth := s.depth + 1
    seq := s.seq + 2 }

/-- The function `need(n)`. -/
def need (n : Int) (s : PSC) : PSC := needStep^[(n - s.sp).toNat] s

/-- The function `emit(code)` for a string. -/
def emit (code : String) (s : PSC) : PSC :=
  { s with block := s.block ++ [{ code := code, lnbr := s.lex.lnbr, seq := s.seq + 1 }]
           seq := s.seq + 1 }

/-- The function `emit(line)` for a line object: its own line number is kept
unless it is falsy. -/
def emitLine (l : Line) (s : PSC) : PSC :=
  { s with block := s.block ++ [{ code := l.code,
                                  lnbr := if l.lnbr = 0 then s.lex.lnbr else l.lnbr,
                                  seq := s.seq + 1 }]
           seq := s.seq + 1 }

/-- The function `append(lines)`. -/
def append (lines : List Line) (s : PSC) : PSC :=
  lines.foldl (fun s l => { s with block := s.block ++ [{ code := l.code, lnbr := l.lnbr,
                                                           seq := s.seq + 1 }]
                                   seq := s.seq + 1 }) s

/-- The loop of `ctxflush` over the entries that exist. -/
def flushEntries (lnbr : Nat) : List Entry → List Line → Nat → Except Err (List Line × Nat)
  | [], b, q => .ok (b, q)
  | e :: es, b, q =>
    match e.expr with
    | none => .error (.thrown "ctxflush: missing expression")
    | some x =>
      flushEntries lnbr es
        (b ++ [{ code := "$k[$j++]=" ++ x ++ ";", lnbr := lnbr, seq := q + 1 }]) (q + 1)

/-- The function `ctxflush`.  The loop visits `st[0] .. st[sp-1]`; a slot past
the end of the array is `undefined` and reading its `expr` is a `TypeError`. -/
def ctxflush (s : PSC) : Except Err PSC :=
  match flushEntries s.lex.lnbr (s.st.take s.sp) s.block s.seq with
  | .error e => .error e
  | .ok (b, q) =>
    if s.st.length < s.sp then .error (.typeError "st[i] is undefined")
    else .ok { s with block := b, seq := q, sp := 0 }

/-- The function `ctxpush(tokens)`. -/
def ctxpush (tokens : List Token) (s : PSC) : PSC :=
  { s with
    context := { st := s.st, sp := s.sp, block := s.block, depth := s.depth } :: s.context
    lex := s.lex.push tokens
    st := [], sp := 0, block := [], depth := 0
    seq := s.seq + 100 }

/-- The function `ctxpop`: the lines of the finished block and the restored state. -/
def ctxpop (s : PSC) : Except Err (List Line × PSC) :=
  match ctxflush s with
  | .error e => .error e
  | .ok s1 =>
    match s1.context with
    | [] => .error (.typeError "ctx is undefined")
    | ctx :: rest =>
      .ok (s1.block, { s1 with lex := s1.lex.pop, context := rest, st := ctx.st, sp := ctx.sp,
                               depth := ctx.depth, block := ctx.block })

/-! ## `parens`, `unanorxo` -/

/-- The class `[\w_$.]`. -/
def isDotWordChar (c : Char) : Bool := isWordChar c || c == '$' || c == '.'

/-- The class `[\w$_]` (also written `[\w_$]` and `[\w$]`). -/
def isDollarWordChar (c : Char) : Bool := isWordChar c || c == '$'

/-- The class `[A-Za-z_]`. -/
def isIdentStart (c : Char) : Bool := c.isAlpha || c == '_'

/-- The pattern `/^[A-Za-z_$][\w_$.]*$/` (a "dot" expression). -/
def reDotExpr : RE :=
  RE.cat [RE.cls (fun c => isIdentStart c || c == '$'), RE.star (RE.cls isDotWordChar), RE.eos]

/-- The pattern `/^-?[0-9.]+$/` (a number literal). -/
def reNumLit : RE :=
  RE.cat [RE.opt (RE.chr '-'), RE.plus (RE.cls (fun c => c.isDigit || c == '.')), RE.eos]

/-- The pattern `/^"([^"\\]|\\.)*"$/` (a string literal). -/
def reStrLit : RE :=
  RE.cat [RE.chr '"',
    RE.star (RE.group 1 (RE.alt (RE.cls (fun c => c != '"' && c != '\\'))
                               (RE.seq (RE.chr '\\') RE.dot))),
    RE.chr '"', RE.eos]

/-- The pattern `/^[\w_$.]+\([^;()]*\)$/` (a function call). -/
def reCall : RE :=
  RE.cat [RE.plus (RE.cls isDotWordChar), RE.chr '(',
    RE.star (RE.cls (fun c => c != ';' && c != '(' && c != ')')), RE.chr ')', RE.eos]

/-- The function `parens`: does the expression need parentheses. -/
def parens (x : String) : String :=
  if RE.testStart reDotExpr x || RE.testStart reNumLit x || RE.testStart reStrLit x
      || RE.testStart reCall x then x
  else "(" ++ x ++ ")"

/-- The pattern `/\$(an|or|xo)\(([\w$]+),([\w$]+)\)/`. -/
def reAnOrXo : RE :=
  RE.cat [RE.chr '$', RE.group 1 (RE.alt (RE.lit "an") (RE.alt (RE.lit "or") (RE.lit "xo"))),
    RE.chr '(', RE.group 2 (RE.plus (RE.cls isDollarWordChar)), RE.chr ',',
    RE.group 3 (RE.plus (RE.cls isDollarWordChar)), RE.chr ')']

/-- The replacement function of `unanorxo`. -/
def anOrXoRepl (_m : List Char) (c : Caps) : List Char :=
  let a := (c.get 2).getD []
  let b := (c.get 3).getD []
  if c.get 1 = some "an".data then "(".data ++ a ++ "&&".data ++ b ++ ")".data
  else if c.get 1 = some "or".data then "(".data ++ a ++ "||".data ++ b ++ ")".data
  else "(!".data ++ a ++ "&&".data ++ b ++ "||".data ++ a ++ "&&!".data ++ b ++ ")".data

/-- The function `unanorxo`. -/
def unanorxo (expr : String) : String := RE.replaceAll reAnOrXo anOrXoRepl expr

/-! ## `devar` -/

/-- The pattern `restack`: `/(\$j)|(\$k)|(\$[ad]\(\))/`. -/
def restack : RE :=
  RE.alt (RE.group 1 (RE.lit "$j"))
    (RE.alt (RE.group 2 (RE.lit "$k"))
      (RE.group 3 (RE.cat [RE.chr '$', RE.cls (fun c => c == 'a' || c == 'd'), RE.lit "()"])))

/-- The pattern `redecl`:
`/^var (_[\w$_]+)=([\w_$.]+(\(.*\))?(\[.+\])?(\.[\w_$]+)*);(\/\*[^;]*\*\/)?$/`. -/
def redecl : RE :=
  RE.cat [RE.lit "var ",
    RE.group 1 (RE.seq (RE.chr '_') (RE.plus (RE.cls isDollarWordChar))),
    RE.chr '=',
    RE.group 2 (RE.cat [RE.plus (RE.cls isDotWordChar),
      RE.opt (RE.group 3 (RE.cat [RE.chr '(', RE.star RE.dot, RE.chr ')'])),
      RE.opt (RE.group 4 (RE.cat [RE.chr '[', RE.plus RE.dot, RE.chr ']'])),
      RE.star (RE.group 5 (RE.seq (RE.chr '.') (RE.plus (RE.cls isDollarWordChar))))]),
    RE.chr ';',
    RE.opt (RE.group 6 (RE.cat [RE.lit "/*", RE.star (RE.cls (fun c => c != ';')), RE.lit "*/"])),
    RE.eos]

/-- The pattern `/"([^\\"]|\\.)*"/`. -/
def reDqString : RE :=
  RE.cat [RE.chr '"',
    RE.star (RE.group 1 (RE.alt (RE.cls (fun c => c != '\\' && c != '"'))
                               (RE.seq (RE.chr '\\') RE.dot))),
    RE.chr '"']

/-- The pattern with single quotes, `/'([^\\']|\\.)*'/`. -/
def reSqString : RE :=
  RE.cat [RE.chr (Char.ofNat 39),
    RE.star (RE.group 1 (RE.alt (RE.cls (fun c => c != '\\' && c != Char.ofNat 39))
                               (RE.seq (RE.chr '\\') RE.dot))),
    RE.chr (Char.ofNat 39)]

/-- The line with its string literals removed (the two `replace` calls of the
inner loop of `devar`). -/
def destring (code : String) : List Char :=
  let l1 := RE.replaceAllL reDqString (fun _ _ => []) (code.data.length + 1) code.data
  RE.replaceAllL reSqString (fun _ _ => []) (l1.length + 1) l1

/-- The replacement text of `String.prototype.replace` for a string pattern:
`$$` is a dollar, `$&` the matched text, a dollar before a backtick or an
apostrophe the text before or after the match; any other dollar stands for itself. -/
def expandRepl (m before after : List Char) : List Char → List Char
  | '$' :: c :: rest =>
    if c == '$' then '$' :: expandRepl m before after rest
    else if c == '&' then m ++ expandRepl m before after rest
    else if c == Char.ofNat 96 then before ++ expandRepl m before after rest
    else if c == Char.ofNat 39 then after ++ expandRepl m before after rest
    else '$' :: expandRepl m before after (c :: rest)
  | c :: rest => c :: expandRepl m before after rest
  | [] => []

/-- The call `code.replace(pat, repl)` for a string pattern: the first
occurrence only. -/
def replaceFirst (pat repl : List Char) (code : List Char) : List Char :=
  match indexOfL pat code with
  | none => code
  | some i =>
    code.take i ++ expandRepl pat (code.take i) (code.drop (i + pat.length)) repl
      ++ code.drop (i + pat.length)

/-- The text `decl[2].replace(/\$/g, '$&$&')`: every dollar doubled. -/
def doubleDollars : List Char → List Char
  | [] => []
  | c :: cs => if c == '$' then '$' :: '$' :: doubleDollars cs else c :: doubleDollars cs

/-- What the inner loop of `devar` leaves in `where`, `assign` and `jkref`
(`none` is `Infinity`) after scanning the lines from index `j` on, for the
declared name `d1` and expression `d2`. -/
def devarScan (d1 d2 : List Char) : Nat → List Line → Int → Option Nat → Int × Int × Option Nat
  | _, [], w, jk => (w, 0, jk)
  | j, l :: ls, w, jk =>
    let line := destring l.code
    let jk1 := if jk.isNone && (RE.searchL restack line).isSome then some j else jk
    let fst := indexOfL d1 line
    let lst := lastIndexOfL d1 line
    if fst.isSome && (w != 0 || lst != fst) then (-1, 0, jk1)
    else
      let w1 : Int := if fst.isSome then j else w
      if indexOfL (d2 ++ ['=']) line = some 0 then (w1, w1, jk1)
      else if startsWithL ['\x7d'] line then (w1, 0, jk1)
      else devarScan d1 d2 (j + 1) ls w1 jk1

/-- Whether `jkref <= where`. -/
def jkrefLe (jk : Option Nat) (w : Int) : Bool :=
  match jk with
  | none => false
  | some j => (j : Int) ≤ w

/-- The line `lines[where]` rewritten, for `where = i + 1 + k`. -/
def devarSubst (d1 d2 : List Char) (k : Nat) (rest : List Line) : List Line :=
  rest.modify (fun l => { l with code := String.mk (replaceFirst d1 (doubleDollars d2) l.code.data) }) k

/-- The outer loop of `devar` at index `i`: `rest` is `lines[i..]`, the result is
what `lines[i..]` has become when the loop ends.  An elimination removes
`lines[i]` and looks at the same index again. -/
def devarLoop : Nat → Nat → List Line → List Line
  | 0, _, rest => rest
  | _ + 1, _, [] => []
  | f + 1, i, l :: rest =>
    match RE.execStart redecl l.code.data with
    | none => l :: devarLoop f (i + 1) rest
    | some (_, caps) =>
      let d1 := (caps.get 1).getD []
      let d2 := (caps.get 2).getD []
      if startsWithL "$$.".data d2 then l :: devarLoop f (i + 1) rest
      else
        match devarScan d1 d2 (i + 1) rest 0 none with
        | (w, assign, jk) =>
          if 0 < w then
            if (RE.searchL restack d2).isSome && jkrefLe jk w then l :: devarLoop f (i + 1) rest
            else if assign != 0 && assign < w then l :: devarLoop f (i + 1) rest
            else devarLoop f i (devarSubst d1 d2 (w.toNat - (i + 1)) rest)
          else l :: devarLoop f (i + 1) rest

/-- The function `devar(lines)`: the list as it is after the in-place edits. -/
def devar (lines : List Line) : List Line := devarLoop lines.length 0 lines

/-! ## The operators that work on the trace stack alone -/

/-- The literal pushes `st[sp++] = { type, expr, seq:++seq }`. -/
def pushEntry (ty : Nat) (expr : String) (s : PSC) : PSC :=
  { s with st := stSet s.st s.sp { type := ty, expr := some expr, tokens := none,
                                   seq := s.seq + 1 }
           sp := s.sp + 1, seq := s.seq + 1 }

/-- The pattern `/^\$j-=\d+;/`. -/
def reDecr : RE := RE.cat [RE.lit "$j-=", RE.plus (RE.cls isDigitChar), RE.chr ';']

/-- The pattern `/\d+/`. -/
def reDigitRun : RE := RE.plus (RE.cls isDigitChar)

/-- The number `+(/\d+/.exec(code)[0])`. -/
def firstNumber (code : String) : Nat :=
  match RE.searchL reDigitRun code.data with
  | some (_, m, _, _) => parseDigits m
  | none => 0

/-- The operator `$.pop`. -/
def opPop (s : PSC) : Except Err PSC :=
  if 0 < s.sp then .ok { s with sp := s.sp - 1 }
  else
    match s.block.getLast? with
    | some l =>
      if l.code = "$j--;" then
        .ok { s with block := s.block.dropLast ++ [{ l with code := "$j-=2;" }] }
      else if RE.testStart reDecr l.code then
        if firstNumber l.code + 1 < maxSafe then
          .ok { s with block := s.block.dropLast ++
                  [{ l with code := "$j-=" ++ natStr (firstNumber l.code + 1) ++ ";" }] }
        else .error (.unmodelled "pop: count beyond 2^53")
      else .ok (emit "$j--;" s)
    | none => .ok (emit "$j--;" s)

/-- The operator `$.exch`. -/
def opExch (s : PSC) : Except Err PSC :=
  let s1 := need 2 s
  match stGet s1.st ((s1.sp : Int) - 1), stGet s1.st ((s1.sp : Int) - 2) with
  | .ok t, .ok u =>
    .ok { s1 with st := stSet (stSet s1.st (s1.sp - 1) { u with seq := s1.seq + 2 })
                          (s1.sp - 2) { t with seq := s1.seq + 1 }
                  seq := s1.seq + 2 }
  | .error e, _ => .error e
  | _, .error e => .error e

/-- The pattern `/^_[\w$_]+$/` (a temporary). -/
def reTemp : RE := RE.cat [RE.chr '_', RE.plus (RE.cls isDollarWordChar), RE.eos]

/-- The operator `$.dup`. -/
def opDup (s : PSC) : Except Err PSC :=
  let s1 := need 1 s
  match stGet s1.st ((s1.sp : Int) - 1) with
  | .error e => .error e
  | .ok t =>
    if hasType t.type (TYPE_INTLIT ||| TYPE_NUMLIT ||| TYPE_STRLIT)
        || RE.testStart reTemp (exprStr t.expr) then
      .ok { s1 with st := stSet s1.st s1.sp (clone t (s1.seq + 1))
                    sp := s1.sp + 1, seq := s1.seq + 1 }
    else
      let tid := tvar s1.tvarno
      let s2 := emit ("var " ++ tid ++ "=" ++ exprStr t.expr ++ ";") { s1 with tvarno := s1.tvarno + 1 }
      let t2 := { t with expr := some tid }
      .ok { s2 with st := stSet (stSet s2.st (s2.sp - 1) t2) s2.sp (clone t2 (s2.seq + 1))
                    sp := s2.sp + 1, seq := s2.seq + 1 }

/-- The loop `while (num-- > 0) st[sp++] = clone(st[idx++])` of `$.copy`. -/
def copyLoop : Nat → Int → PSC → Except Err PSC
  | 0, _, s => .ok s
  | n + 1, idx, s =>
    match stGet s.st idx with
    | .error e => .error e
    | .ok x =>
      copyLoop n (idx + 1)
        { s with st := stSet s.st s.sp (clone x (s.seq + 1)), sp := s.sp + 1, seq := s.seq + 1 }

/-- The operator `$.copy`. -/
def opCopy (s : PSC) : Except Err PSC :=
  match stGet s.st ((s.sp : Int) - 1) with
  | .error e => .error e
  | .ok arg =>
    if hasType arg.type TYPE_INTLIT then
      match arg.expr.bind intOfText with
      | none => .error (.unmodelled "copy: count is not a decimal integer")
      | some num =>
        let s1 := need num { s with sp := s.sp - 1 }
        copyLoop num.toNat ((s1.sp : Int) - num) s1
    else if hasType arg.type TYPE_STRVAL then
      let s1 := need 2 s
      match stGet s1.st ((s1.sp : Int) - 2), stGet s1.st ((s1.sp : Int) - 1) with
      | .ok src, .ok dst =>
        let tid := tvar s1.tvarno
        let s2 := emit ("var " ++ tid ++ "=$strcpy(" ++ exprStr dst.expr ++ "," ++
                        exprStr src.expr ++ ");") { s1 with tvarno := s1.tvarno + 1 }
        .ok { s2 with st := stSet s2.st (s2.sp - 2)
                              { type := TYPE_STRVAL, expr := some tid, tokens := none,
                                seq := s2.seq + 1 }
                      sp := s2.sp - 1, seq := s2.seq + 1 }
      | .error e, _ => .error e
      | _, .error e => .error e
    else .error (.thrown "TBD")

/-- The method `Array.prototype.splice(start, deleteCount)`: the removed elements
and what is left. -/
def jsSplice (l : List Entry) (start count : Int) : List Entry × List Entry :=
  let st0 : Nat := if start < 0 then ((l.length : Int) + start).toNat else min start.toNat l.length
  let cnt : Nat := min count.toNat (l.length - st0)
  ((l.drop st0).take cnt, l.take st0 ++ l.drop (st0 + cnt))

/-- The method `splice(start, 0, ...items)`. -/
def jsInsert (l : List Entry) (start : Int) (items : List Entry) : List Entry :=
  let st0 : Nat := if start < 0 then ((l.length : Int) + start).toNat else min start.toNat l.length
  l.take st0 ++ items ++ l.drop st0

/-- The loop `for (i = sp-n; i < sp-1; i++) st[i].seq = ++seq` of `$.roll`, the
index running over the `cnt` positions from `i` on. -/
def restamp : Nat → Int → List Entry → Nat → Except Err (List Entry × Nat)
  | 0, _, st, q => .ok (st, q)
  | cnt + 1, i, st, q =>
    match stGet st i with
    | .error e => .error e
    | .ok x => restamp cnt (i + 1) (stSet st i.toNat { x with seq := q + 1 }) (q + 1)

/-- The part of `$.roll` after `need(n)`: the two splices and the re-stamping
of the rolled entries (lines 1039-1047). -/
def rollTail (s1 : PSC) (dv nv : Int) : Except Err PSC :=
  let r := if dv < 0 then jsSplice s1.st ((s1.sp : Int) - nv) (-dv)
           else jsSplice s1.st ((s1.sp : Int) - nv) (nv - dv)
  let st2 := jsInsert r.2 ((s1.sp : Int) - r.1.length) r.1
  match restamp (((s1.sp : Int) - 1) - ((s1.sp : Int) - nv)).toNat ((s1.sp : Int) - nv)
          st2 s1.seq with
  | .error e => .error e
  | .ok (st3, q) => .ok { s1 with st := st3, seq := q }

/-- The first lines of `$.roll` (lines 1031-1035): the two operands `d` and
`n` are taken from the trace stack and their types are tested.  The state is
the one in which the test is made, with the pointer below the two operands
(the model does not show a pointer below 0) and nothing emitted; the result is
the pair of operands or what is thrown.  `d.type` is read first: an operand
`d` that is missing gives a `TypeError`, one that is not an integer literal
the error of `roll` whatever `n` is. -/
def rollOperands (s : PSC) : PSC × Except Err (Entry × Entry) :=
  let s1 := { s with sp := s.sp - 2 }
  match stGet s.st ((s.sp : Int) - 1) with
  | .error e => (s1, .error e)
  | .ok d =>
    if d.type != TYPE_INTLIT then (s1, .error (.error "roll: parameters not constant."))
    else
      match stGet s.st ((s.sp : Int) - 2) with
      | .error e => (s1, .error e)
      | .ok n =>
        if n.type != TYPE_INTLIT then (s1, .error (.error "roll: parameters not constant."))
        else (s1, .ok (d, n))

/-- The operator `$.roll`. -/
def opRoll (s : PSC) : Except Err PSC :=
  match rollOperands s with
  | (_, .error e) => .error e
  | (s1, .ok (d, n)) =>
    match d.expr.bind intOfText, n.expr.bind intOfText with
    | some dv, some nv => rollTail (need nv s1) dv nv
    | _, _ => .error (.unmodelled "roll: parameter is not a decimal integer")

/-- The operator `$.index`. -/
def opIndex (s : PSC) : Except Err PSC :=
  let s1 := need 1 s
  match stGet s1.st ((s1.sp : Int) - 1) with
  | .error e => .error e
  | .ok v =>
    let s2 := { s1 with sp := s1.sp - 1 }
    if v.type = TYPE_INTLIT then
      match v.expr.bind intOfText with
      | none => .error (.unmodelled "index: not a decimal integer")
      | some k =>
        let s3 := need (k + 1) s2
        match stGet s3.st ((s3.sp : Int) - (k + 1)) with
        | .error e => .error e
        | .ok x =>
          .ok { s3 with st := stSet s3.st s3.sp (clone x (s3.seq + 1))
                        sp := s3.sp + 1, seq := s3.seq + 1 }
    else
      let tid := tvar s2.tvarno
      match ctxflush { s2 with tvarno := s2.tvarno + 1 } with
      | .error e => .error e
      | .ok s3 =>
        .ok (pushEntry TYPE_UNKNOWN tid
              (emit ("var " ++ tid ++ "=$k[$j-1-" ++ parens (exprStr v.expr) ++ "];") s3))

/-- The function `binarith(op)`. -/
def binarith (op : String) (s : PSC) : Except Err PSC :=
  let s1 := need 2 s
  match stGet s1.st ((s1.sp : Int) - 1), stGet s1.st ((s1.sp : Int) - 2) with
  | .ok a, .ok b =>
    let ty := if hasType a.type TYPE_INTTYP && hasType b.type TYPE_INTTYP && op != "/"
              then TYPE_INTVAL else TYPE_NUMVAL
    .ok { s1 with st := stSet s1.st (s1.sp - 2)
                          { b with type := ty
                                   expr := some (parens (exprStr b.expr) ++ op ++
                                                 parens (exprStr a.expr))
                                   seq := s1.seq + 1 }
                  sp := s1.sp - 1, seq := s1.seq + 1 }
  | .error e, _ => .error e
  | _, .error e => .error e

/-- The function `binbool(ariop, funop)`: `a` is the entry on top, `b` the one
below it. -/
def binbool (ariop funop : String) (s : PSC) : Except Err PSC :=
  let s1 := need 2 s
  match stGet s1.st ((s1.sp : Int) - 1), stGet s1.st ((s1.sp : Int) - 2) with
  | .ok a, .ok b =>
    let expr :=
      if hasType a.type TYPE_NUMTYP || hasType b.type TYPE_NUMTYP ||
          hasType a.type TYPE_BOOLEAN || hasType b.type TYPE_BOOLEAN then
        parens (exprStr b.expr) ++ ariop ++ parens (exprStr a.expr)
      else funop ++ "(" ++ exprStr b.expr ++ "," ++ exprStr a.expr ++ ")"
    .ok { s1 with st := stSet s1.st (s1.sp - 2)
                          { b with type := TYPE_BOOLEAN, expr := some expr, seq := s1.seq + 1 }
                  sp := s1.sp - 1, seq := s1.seq + 1 }
  | .error e, _ => .error e
  | _, .error e => .error e

/-- The common shape of `$.and` and `$.or`: the arithmetic operator when one of
the two operands is of a numeric type, `binbool` otherwise. -/
def andOr (bitop logop funop : String) (s : PSC) : Except Err PSC :=
  let s1 := need 2 s
  match stGet s1.st ((s1.sp : Int) - 1), stGet s1.st ((s1.sp : Int) - 2) with
  | .ok a, .ok b =>
    if hasType a.type TYPE_NUMTYP || hasType b.type TYPE_NUMTYP then binarith bitop s1
    else binbool logop funop s1
  | .error e, _ => .error e
  | _, .error e => .error e

/-- The operator `$.and`. -/
def opAnd (s : PSC) : Except Err PSC := andOr "&" "&&" "$an" s

/-- The operator `$.or`. -/
def opOr (s : PSC) : Except Err PSC := andOr "|" "||" "$or" s

/-- The operator `$.xor`. -/
def opXor (s : PSC) : Except Err PSC :=
  let s1 := need 2 s
  match stGet s1.st ((s1.sp : Int) - 1), stGet s1.st ((s1.sp : Int) - 2) with
  | .ok a, .ok b =>
    if hasType a.type TYPE_NUMTYP || hasType b.type TYPE_NUMTYP then binarith "^" s1
    else
      let ty := if hasType a.type TYPE_BOOLEAN || hasType b.type TYPE_BOOLEAN
                then TYPE_BOOLEAN else TYPE_UNKNOWN
      .ok { s1 with st := stSet s1.st (s1.sp - 2)
                            { b with type := ty
                                     expr := some ("$xo(" ++ exprStr b.expr ++ "," ++
                                                   exprStr a.expr ++ ")") }
                    sp := s1.sp - 1 }
  | .error e, _ => .error e
  | _, .error e => .error e

/-- The operator `$.neg` (lines 1801-1808). -/
def opNeg (s : PSC) : Except Err PSC :=
  let s1 := need 1 s
  match stGet s1.st ((s1.sp : Int) - 1) with
  | .error e => .error e
  | .ok t =>
    .ok { s1 with st := stSet s1.st (s1.sp - 1)
                          { t with expr := some ("-" ++ parens (exprStr t.expr))
                                   type := if t.type = 0 then TYPE_NUMVAL else t.type
                                   seq := s1.seq + 1 }
                  seq := s1.seq + 1 }

/-- The text `'' + ~~(+a / +b)` for two texts of decimal integers below `2^53`
in magnitude: the quotient of doubles is then the exact quotient rounded, its
integral part is that of the exact quotient, and `~~` wraps it to 32 bits; a
division by zero gives an infinity or `NaN`, which `~~` turns into 0. -/
def idivLit (a b : String) : Option String :=
  match intOfText a, intOfText b with
  | some x, some y => if y = 0 then some "0" else some (intStr (toInt32 (Int.tdiv x y)))
  | _, _ => none

/-- The operator `$.idiv`.  Two literals are folded: by `idivLit` when both are
texts of decimal integers below `2^53`, through the quotient of the two
doubles otherwise. -/
def opIdiv (s : PSC) : Except Err PSC :=
  let s1 := need 2 s
  match stGet s1.st ((s1.sp : Int) - 1), stGet s1.st ((s1.sp : Int) - 2) with
  | .ok a, .ok b =>
    if hasType a.type (TYPE_INTLIT ||| TYPE_NUMLIT) && hasType b.type (TYPE_INTLIT ||| TYPE_NUMLIT) then
      match idivLit (exprStr b.expr) (exprStr a.expr) with
      | none =>
        let q := intStr (toInt32 (JSNum.div (toNumber (exprStr b.expr))
                                            (toNumber (exprStr a.expr))).trunc)
        .ok { s1 with st := stSet s1.st (s1.sp - 2)
                              { b with type := TYPE_INTLIT, expr := some q, seq := s1.seq + 1 }
                      sp := s1.sp - 1, seq := s1.seq + 1 }
      | some q =>
        .ok { s1 with st := stSet s1.st (s1.sp - 2)
                              { b with type := TYPE_INTLIT, expr := some q, seq := s1.seq + 1 }
                      sp := s1.sp - 1, seq := s1.seq + 1 }
    else
      .ok { s1 with st := stSet s1.st (s1.sp - 2)
                            { b with type := TYPE_INTVAL
                                     expr := some ("~~(" ++ parens (exprStr b.expr) ++ "/" ++
                                                   parens (exprStr a.expr) ++ ")")
                                     seq := s1.seq + 1 }
                    sp := s1.sp - 1, seq := s1.seq + 1 }
  | .error e, _ => .error e
  | _, .error e => .error e

/-! ## Dictionary of known symbols -/

/-- The read `dict[k]` (`none` is `undefined`). -/
def dictGet (d : List (String × Nat)) (k : String) : Option Nat :=
  (d.find? (fun p => p.1 == k)).map (·.2)

/-- The assignment `dict[k] = v`. -/
def dictSet (d : List (String × Nat)) (k : String) (v : Nat) : List (String × Nat) :=
  (k, v) :: d

/-- The symbols every global function starts with (lines 1194-1202). -/
def seedDict : List (String × Nat) :=
  [("bwipjs_dontdraw", TYPE_BOOLEAN), ("pixs", TYPE_ARRAY), ("pixy", TYPE_INTVAL),
   ("pixx", TYPE_INTVAL), ("opt", TYPE_DICT), ("$error", TYPE_DICT)]

/-- The names `$` and `dict` inherit from `Object.prototype`; a token or a
name that is one of them is not modelled. -/
def protoNames : List String :=
  ["constructor", "hasOwnProperty", "isPrototypeOf", "propertyIsEnumerable", "toString",
   "valueOf", "toLocaleString", "__proto__", "__defineGetter__", "__defineSetter__",
   "__lookupGetter__", "__lookupSetter__"]

/-- The keys of the operator table `$`. -/
def opNames : List String :=
  ["debug", "stack", "return", "begin", "end", "dict", "known", "handleerror", "quit", "exec",
   "exch", "dup", "copy", "roll", "index", "cvi", "cvlit", "cvn", "cvs", "cvx", "cvr", "cvrs",
   "type", "true", "false", "null", "pop", "length", "bind", "def", "load", "get", "put", "eq",
   "ne", "lt", "le", "gt", "ge", "and", "or", "xor", "not", "if", "ifelse", "forall", "for",
   "repeat", "loop", "exit", "mark", "counttomark", "cleartomark", "clear", "mul", "div", "mod",
   "add", "sub", "idiv", "exp", "ln", "log", "neg", "abs", "round", "floor", "ceiling", "sqrt",
   "bitshift", "array", "aload", "astore", "string", "getinterval", "putinterval", "search",
   "gsave", "grestore", "setextent", "currentpoint", "scale", "translate", "dtransform",
   "currentfont", "findfont", "scalefont", "setfont", "ashow", "show", "charpath", "pathbbox",
   "stringwidth", "imagemask", "setlinewidth", "setcolor", "setlinecap", "setlinejoin", "stroke",
   "newpath", "closepath", "moveto", "lineto", "rlineto", "rmoveto", "fill", "arc", "arcn"]

/-! ## Operators that emit code -/

/-- The text of a line number in a string concatenation. -/
def lnbrStr (n : Nat) : String := if n = 0 then "undefined" else natStr n

/-- The substring `x.substr(1, x.length-2)`. -/
def unquote (x : String) : String := String.mk ((x.data.drop 1).take (x.data.length - 2))

/-- The pattern `/^[A-Za-z_]\w*$/`. -/
def reIdent : RE := RE.cat [RE.cls isIdentStart, RE.star (RE.cls isWordChar), RE.eos]

/-- The pattern `/^[$A-Za-z_]\w*$/`. -/
def reIdentDollar : RE :=
  RE.cat [RE.cls (fun c => c == '$' || isIdentStart c), RE.star (RE.cls isWordChar), RE.eos]

/-- The pattern `/^"[A-Za-z_]\w*"$/`. -/
def reQuotedIdent : RE :=
  RE.cat [RE.chr '"', RE.cls isIdentStart, RE.star (RE.cls isWordChar), RE.chr '"', RE.eos]

/-- The pattern `/^"[A-Za-z_$][\w_$]*"$/`. -/
def reQuotedKey : RE :=
  RE.cat [RE.chr '"', RE.cls (fun c => isIdentStart c || c == '$'),
    RE.star (RE.cls isDollarWordChar), RE.chr '"', RE.eos]

/-- The pattern `/^".*"$/`. -/
def reQuoted : RE := RE.cat [RE.chr '"', RE.star RE.dot, RE.chr '"', RE.eos]

/-- The pattern `/^\d+$/`. -/
def reDigits : RE := RE.cat [RE.plus (RE.cls isDigitChar), RE.eos]

/-- The text `tkn.replace(/[\\"]/g, '\\$&')`. -/
def escapeQuotes (t : String) : String :=
  String.mk (t.data.foldr (fun c r => if c == '\\' || c == '"' then '\\' :: c :: r else c :: r) [])

/-- The text `x.replace(/\\(.)/g, '$1')`. -/
def unescape (t : String) : String :=
  RE.replaceAll (RE.seq (RE.chr '\\') (RE.group 1 RE.dot)) (fun _ c => (c.get 1).getD []) t

/-- The function `newbranch`. -/
def newbranch (s : PSC) : PSC :=
  if -1 < s.branchno then
    emit ("$bwipjs_coverage[" ++ intStr s.branchno ++ "]=1;") { s with branchno := s.branchno + 1 }
  else s

/-- The operator `$.begin`. -/
def opBegin (s : PSC) : Except Err PSC :=
  let s1 := need 1 s
  let s2 := emit ("var $" ++ intStr (s1.dlvl + 1) ++ "=\x7b\x7d;") { s1 with dlvl := s1.dlvl + 1 }
  .ok { s2 with sp := s2.sp - 1 }

/-- The operator `$.end`. -/
def opEnd (s : PSC) : Except Err PSC := .ok { s with dlvl := s.dlvl - 1 }

/-- The operator `$.dict`.  With an empty trace stack the source writes the
property `-1` of the array, which is not modelled. -/
def opDict (s : PSC) : Except Err PSC :=
  if s.sp = 0 then .error (.unmodelled "dict on an empty trace stack")
  else .ok { s with st := stSet s.st (s.sp - 1) { type := TYPE_DICT, expr := some "\x7b\x7d",
                                                  tokens := none, seq := s.seq + 1 }
                    seq := s.seq + 1 }

/-- The operator `$.array`. -/
def opArray (s : PSC) : Except Err PSC :=
  let s1 := need 1 s
  match stGet s1.st ((s1.sp : Int) - 1) with
  | .error e => .error e
  | .ok x =>
    let tid := tvar s1.tvarno
    let s2 := emit ("var " ++ tid ++ "=$a(" ++ exprStr x.expr ++ ");")
                { s1 with tvarno := s1.tvarno + 1 }
    .ok { s2 with st := stSet s2.st (s2.sp - 1) { type := TYPE_ARRAY, expr := some tid,
                                                  tokens := none, seq := s2.seq + 1 }
                  seq := s2.seq + 1 }

/-- The operator `$.get`. -/
def opGet (s : PSC) : Except Err PSC :=
  let s1 := need 2 s
  let tid := tvar s1.tvarno
  match stGet s1.st ((s1.sp : Int) - 1), stGet s1.st ((s1.sp : Int) - 2) with
  | .ok k, .ok o =>
    let id := exprStr k.expr
    let code :=
      if RE.testStart reQuotedKey id then
        "var " ++ tid ++ "=" ++ exprStr o.expr ++ "." ++ unquote id ++ ";"
      else if RE.testStart reQuoted id then
        "var " ++ tid ++ "=" ++ exprStr o.expr ++ "[" ++ id ++ "];"
      else "var " ++ tid ++ "=$get(" ++ exprStr o.expr ++ "," ++ id ++ ");"
    let s2 := emit code { s1 with tvarno := s1.tvarno + 1 }
    let ty := if hasType o.type TYPE_STRTYP then TYPE_INTVAL else TYPE_UNKNOWN
    .ok { s2 with st := stSet s2.st (s2.sp - 2) { type := ty, expr := some tid, tokens := none,
                                                  seq := s2.seq + 1 }
                  sp := s2.sp - 1, seq := s2.seq + 1 }
  | .error e, _ => .error e
  | _, .error e => .error e

/-- The operator `$.put`. -/
def opPut (s : PSC) : Except Err PSC :=
  let s1 := need 3 s
  match stGet s1.st ((s1.sp : Int) - 2), stGet s1.st ((s1.sp : Int) - 3),
        stGet s1.st ((s1.sp : Int) - 1) with
  | .ok k, .ok o, .ok v =>
    let id := exprStr k.expr
    let code :=
      if RE.testStart reQuotedKey id then
        exprStr o.expr ++ "." ++ unquote id ++ "=" ++ exprStr v.expr ++ ";"
      else if RE.testStart reQuoted id then
        exprStr o.expr ++ "[" ++ id ++ "]=" ++ exprStr v.expr ++ ";"
      else "$put(" ++ exprStr o.expr ++ "," ++ id ++ "," ++ exprStr v.expr ++ ");"
    let s2 := emit code s1
    .ok { s2 with sp := s2.sp - 3 }
  | .error e, _, _ => .error e
  | _, .error e, _ => .error e
  | _, _, .error e => .error e

/-- The operator `$.counttomark`. -/
def opCounttomark (s : PSC) : Except Err PSC :=
  let tid := tvar s.tvarno
  let code := if s.sp != 0 then "var " ++ tid ++ "=$counttomark()+" ++ natStr s.sp ++ ";"
              else "var " ++ tid ++ "=$counttomark();"
  .ok (pushEntry TYPE_INTVAL tid (emit code { s with tvarno := s.tvarno + 1 }))

/-- The operator `$.mark`. -/
def opMark (s : PSC) : Except Err PSC :=
  match ctxflush s with
  | .error e => .error e
  | .ok s1 => .ok (emit "$k[$j++]=Infinity;" s1)

/-- The operator `$.exec`. -/
def opExec (s : PSC) : Except Err PSC :=
  let s1 := need 1 s
  match stGet s1.st ((s1.sp : Int) - 1) with
  | .error e => .error e
  | .ok x =>
    let s2 := { s1 with sp := s1.sp - 1 }
    if x.type = TYPE_IENAME then
      match ctxflush s2 with
      | .error e => .error e
      | .ok s3 => .ok (emit (exprStr x.expr ++ "();") s3)
    else if hasType x.type TYPE_STRTYP then .error (.error "eval of string-type not supported")
    else
      match ctxflush s2 with
      | .error e => .error e
      | .ok s3 => .ok (emit (parens (exprStr x.expr) ++ "();") s3)

/-- The operator `$.aload`. -/
def opAload (s : PSC) : Except Err PSC :=
  let s1 := need 1 s
  let lnbr := s1.lex.lnbr
  match stGet s1.st ((s1.sp : Int) - 1) with
  | .error e => .error e
  | .ok x =>
    let (pk, lx) := s1.lex.peek
    if pk != some "pop" then .error (.thrown ("#" ++ lnbrStr lnbr ++ ": aload without pop"))
    else
      match ctxflush { s1 with sp := s1.sp - 1, lex := lx } with
      | .error e => .error e
      | .ok s2 =>
        let s3 := emit ("$aload(" ++ exprStr x.expr ++ ");") s2
        .ok { s3 with lex := s3.lex.next.2 }

/-! ## The other operators without a nested block -/

/-- The assignment `st[sp-1] = { type, expr, seq:++seq }`. -/
def setTop (ty : Nat) (expr : String) (s : PSC) : PSC :=
  { s with st := stSet s.st (s.sp - 1) { type := ty, expr := some expr, tokens := none,
                                         seq := s.seq + 1 }
           seq := s.seq + 1 }

/-- The shape of the operators that flush the trace stack and emit one line
(`ctxflush(); emit(code)`). -/
def flushEmit (code : String) (s : PSC) : Except Err PSC :=
  match ctxflush s with
  | .error e => .error e
  | .ok s1 => .ok (emit code s1)

/-- The shape of the operators that hand one operand to a function:
`need(1)`, the expression of `st[sp-1]` is read, `sp -= 1`, and the call
`pre + expr + post` is emitted. -/
def emitCall1 (pre post : String) (s : PSC) : Except Err PSC :=
  let s1 := need 1 s
  match stGet s1.st ((s1.sp : Int) - 1) with
  | .error e => .error e
  | .ok x => .ok (emit (pre ++ exprStr x.expr ++ post) { s1 with sp := s1.sp - 1 })

/-- The shape of the operators that hand two operands to a function:
`need(2)`, the expressions `x` of `st[sp-2]` and `y` of `st[sp-1]` are read,
`sp -= 2`, and the call `pre + x + ',' + y + ');'` is emitted. -/
def emitCall2 (pre : String) (s : PSC) : Except Err PSC :=
  let s1 := need 2 s
  match stGet s1.st ((s1.sp : Int) - 2), stGet s1.st ((s1.sp : Int) - 1) with
  | .ok x, .ok y =>
    .ok (emit (pre ++ exprStr x.expr ++ "," ++ exprStr y.expr ++ ");") { s1 with sp := s1.sp - 2 })
  | .error e, _ => .error e
  | _, .error e => .error e

/-- The shape of `$.round`, `$.floor`, `$.ceiling`, `$.sqrt` and `$.ln`:
`need(1)` and `st[sp-1] = { type, expr: pre + st[sp-1].expr + ')', seq:++seq }`. -/
def mathCall (ty : Nat) (pre : String) (s : PSC) : Except Err PSC :=
  let s1 := need 1 s
  match stGet s1.st ((s1.sp : Int) - 1) with
  | .error e => .error e
  | .ok x => .ok (setTop ty (pre ++ exprStr x.expr ++ ")") s1)

/-- The operator `$.debug`: `dump` writes to the console and reads no property
of an entry; the state is left as it is. -/
def opDebug (s : PSC) : Except Err PSC := .ok s

/-- The operator `$.stack`. -/
def opStack (s : PSC) : Except Err PSC := .ok (emit "$stack();" s)

/-- The operator `$.return`. -/
def opReturn (s : PSC) : Except Err PSC := .ok (emit "return;" s)

/-- The pattern `/^(var (_[\w_$]+)=[\s\S]+);(\/\*[^;]*\*\/)?$/`. -/
def reKnown : RE :=
  RE.cat [RE.group 1 (RE.cat [RE.lit "var ",
            RE.group 2 (RE.cat [RE.chr '_', RE.plus (RE.cls isDollarWordChar)]),
            RE.chr '=', RE.plus (RE.cls (fun _ => true))]),
    RE.chr ';',
    RE.opt (RE.group 3 (RE.cat [RE.lit "/*", RE.star (RE.cls (fun c => c != ';')), RE.lit "*/"])),
    RE.eos]

/-- The operator `$.known`: `$.get()`, then the line it emitted is rewritten
and the entry it left becomes a boolean. -/
def opKnown (s : PSC) : Except Err PSC :=
  match opGet s with
  | .error e => .error e
  | .ok s1 =>
    match s1.block.getLast? with
    | none => .error (.typeError "block[block.length-1] is undefined")
    | some l =>
      match RE.execStart reKnown l.code.data with
      | none => .error (.thrown "known: could not parse $.get output")
      | some (_, caps) =>
        let code := String.mk ((caps.get 1).getD []) ++ "!==undefined;" ++
                    String.mk ((caps.get 3).getD [])
        .ok { s1 with block := s1.block.dropLast ++ [{ l with code := code }]
                      st := stSet s1.st (s1.sp - 1)
                              { type := TYPE_BOOLEAN, expr := (caps.get 2).map String.mk,
                                tokens := none, seq := s1.seq + 1 }
                      seq := s1.seq + 1 }

/-- The operator `$.handleerror`. -/
def opHandleerror (s : PSC) : Except Err PSC :=
  .ok (emit "throw new Error($0.$error.errorname+\": \"+$0.$error.errorinfo);" s)

/-- The operator `$.cvi`. -/
def opCvi (s : PSC) : Except Err PSC :=
  let s1 := need 1 s
  match stGet s1.st ((s1.sp : Int) - 1) with
  | .error e => .error e
  | .ok x =>
    if hasType x.type TYPE_NUMTYP then .ok (setTop TYPE_INTVAL ("~~" ++ parens (exprStr x.expr)) s1)
    else .ok (setTop TYPE_INTVAL ("~~$z(" ++ exprStr x.expr ++ ")") s1)

/-- The pattern `/^[\w_$.\[\]]+$/`. -/
def reIndexExpr : RE :=
  RE.cat [RE.plus (RE.cls (fun c => isWordChar c || c == '$' || c == '.' || c == '[' || c == ']')),
    RE.eos]

/-- The operator `$.cvlit`. -/
def opCvlit (s : PSC) : Except Err PSC :=
  let s1 := need 1 s
  match stGet s1.st ((s1.sp : Int) - 1) with
  | .error e => .error e
  | .ok x =>
    if RE.testStart reIndexExpr (exprStr x.expr) then
      .ok (setTop TYPE_STRVAL ("\"\"+" ++ exprStr x.expr) s1)
    else .ok (setTop TYPE_STRVAL ("\"\"+" ++ parens (exprStr x.expr)) s1)

/-- The operator `$.cvs`. -/
def opCvs (s : PSC) : Except Err PSC :=
  let s1 := need 2 s
  match stGet s1.st ((s1.sp : Int) - 1), stGet s1.st ((s1.sp : Int) - 2) with
  | .ok str, .ok any =>
    .ok (emit ("$cvs(" ++ exprStr str.expr ++ "," ++ exprStr any.expr ++ ");")
          { s1 with sp := s1.sp - 2 })
  | .error e, _ => .error e
  | _, .error e => .error e

/-- The operator `$.cvr`. -/
def opCvr (s : PSC) : Except Err PSC :=
  let s1 := need 1 s
  match stGet s1.st ((s1.sp : Int) - 1) with
  | .error e => .error e
  | .ok x => .ok (setTop TYPE_NUMVAL ("+" ++ parens (exprStr x.expr)) s1)

/-- The operator `$.cvrs`. -/
def opCvrs (s : PSC) : Except Err PSC :=
  let s1 := need 3 s
  match stGet s1.st ((s1.sp : Int) - 3), stGet s1.st ((s1.sp : Int) - 2),
        stGet s1.st ((s1.sp : Int) - 1) with
  | .ok val, .ok rdx, .ok dst =>
    let tid := tvar s1.tvarno
    let s2 := emit ("var " ++ tid ++ "=$cvrs(" ++ exprStr dst.expr ++ "," ++ exprStr val.expr ++
                    "," ++ exprStr rdx.expr ++ ");") { s1 with tvarno := s1.tvarno + 1 }
    .ok { s2 with st := stSet s2.st (s2.sp - 3) { type := TYPE_STRVAL, expr := some tid,
                                                  tokens := none, seq := s2.seq + 1 }
                  sp := s2.sp - 2, seq := s2.seq + 1 }
  | .error e, _, _ => .error e
  | _, .error e, _ => .error e
  | _, _, .error e => .error e

/-- The operator `$.type`. -/
def opType (s : PSC) : Except Err PSC :=
  let s1 := need 1 s
  match stGet s1.st ((s1.sp : Int) - 1) with
  | .error e => .error e
  | .ok x =>
    let tid := tvar s1.tvarno
    .ok (pushEntry TYPE_STRVAL tid
          (emit ("var " ++ tid ++ "=$type(" ++ exprStr x.expr ++ ");")
            { s1 with tvarno := s1.tvarno + 1, sp := s1.sp - 1 }))

/-- The operator `$.length`. -/
def opLength (s : PSC) : Except Err PSC :=
  let s1 := need 1 s
  match stGet s1.st ((s1.sp : Int) - 1) with
  | .error e => .error e
  | .ok x =>
    .ok { s1 with st := stSet s1.st (s1.sp - 1)
                          { x with expr := some (exprStr x.expr ++ ".length"), type := TYPE_INTVAL
                                   seq := s1.seq + 1 }
                  seq := s1.seq + 1 }

/-- The operator `$.load`. -/
def opLoad (s : PSC) : Except Err PSC :=
  let s1 := need 1 s
  match stGet s1.st ((s1.sp : Int) - 1) with
  | .error e => .error e
  | .ok x =>
    let tid := tvar s1.tvarno
    .ok (setTop TYPE_UNKNOWN tid
          (emit ("var " ++ tid ++ "=$1[" ++ exprStr x.expr ++ "];")
            { s1 with tvarno := s1.tvarno + 1 }))

/-- The operator `$.not`. -/
def opNot (s : PSC) : Except Err PSC :=
  let s1 := need 1 s
  match stGet s1.st ((s1.sp : Int) - 1) with
  | .error e => .error e
  | .ok x =>
    let expr :=
      if hasType x.type TYPE_NUMTYP then "~" ++ parens (exprStr x.expr)
      else if hasType x.type TYPE_BOOLEAN then "!" ++ parens (exprStr x.expr)
      else "$nt(" ++ exprStr x.expr ++ ")"
    .ok { s1 with st := stSet s1.st (s1.sp - 1) { x with expr := some expr, seq := s1.seq + 1 }
                  seq := s1.seq + 1 }

/-- The operator `$.exp`. -/
def opExp (s : PSC) : Except Err PSC :=
  let s1 := need 2 s
  match stGet s1.st ((s1.sp : Int) - 1), stGet s1.st ((s1.sp : Int) - 2) with
  | .ok expo, .ok base =>
    .ok (pushEntry TYPE_NUMVAL ("Math.pow(" ++ exprStr base.expr ++ "," ++ exprStr expo.expr ++ ")")
          { s1 with sp := s1.sp - 2 })
  | .error e, _ => .error e
  | _, .error e => .error e

/-- The operator `$.log`. -/
def opLog (s : PSC) : Except Err PSC :=
  let s1 := need 1 s
  match stGet s1.st ((s1.sp : Int) - 1) with
  | .error e => .error e
  | .ok x => .ok (setTop TYPE_NUMVAL ("Math.log(" ++ parens (exprStr x.expr) ++ "/Math.LN10)") s1)

/-- The operator `$.abs`. -/
def opAbs (s : PSC) : Except Err PSC :=
  let s1 := need 1 s
  match stGet s1.st ((s1.sp : Int) - 1) with
  | .error e => .error e
  | .ok x =>
    .ok { s1 with st := stSet s1.st (s1.sp - 1)
                          { x with expr := some ("Math.abs(" ++ exprStr x.expr ++ ")")
                                   type := if x.type = 0 then TYPE_NUMVAL else x.type
                                   seq := s1.seq + 1 }
                  seq := s1.seq + 1 }

/-- The operator `$.bitshift`.  The shift of the first branch is the number
`+sft.expr`; in the second branch the assignment `sft.expr = tid` changes the
entry of the shift, which stays in the array above the pointer. -/
def opBitshift (s : PSC) : Except Err PSC :=
  let s1 := need 2 s
  match stGet s1.st ((s1.sp : Int) - 1), stGet s1.st ((s1.sp : Int) - 2) with
  | .ok sft, .ok v =>
    let val := exprStr v.expr
    let s2 := { s1 with sp := s1.sp - 2 }
    if sft.type = TYPE_INTLIT then
      let bits := match sft.expr with
        | some x => toNumber x
        | none => JSNum.nan
      if bits.ltZero then
        .ok (pushEntry TYPE_INTVAL (parens val ++ ">>>" ++ bits.neg.toString) s2)
      else .ok (pushEntry TYPE_INTVAL (parens val ++ "<<" ++ bits.toString) s2)
    else if RE.testStart reTemp (exprStr sft.expr) then
      let sx := exprStr sft.expr
      .ok (pushEntry TYPE_INTVAL ("(" ++ parens sx ++ "<0?" ++ parens val ++ ">>>" ++ "-" ++ sx ++
            ":" ++ parens val ++ "<<" ++ parens sx ++ ")") s2)
    else
      let tid := tvar s2.tvarno
      let s3 := emit ("var " ++ tid ++ "=" ++ exprStr sft.expr ++ ";")
                  { s2 with tvarno := s2.tvarno + 1 }
      let s4 := { s3 with st := stSet s3.st (s1.sp - 1) { sft with expr := some tid } }
      .ok (pushEntry TYPE_INTVAL ("(" ++ parens tid ++ "<0?" ++ parens val ++ ">>>" ++ "-" ++ tid ++
            ":" ++ parens val ++ "<<" ++ parens tid ++ ")") s4)
  | .error e, _ => .error e
  | _, .error e => .error e

/-- The operator `$.astore`. -/
def opAstore (s : PSC) : Except Err PSC :=
  let s1 := need 1 s
  match stGet s1.st ((s1.sp : Int) - 1) with
  | .error e => .error e
  | .ok x => flushEmit ("$astore(" ++ exprStr x.expr ++ ");") { s1 with sp := s1.sp - 1 }

/-- The operator `$.string`. -/
def opString (s : PSC) : Except Err PSC :=
  let s1 := need 1 s
  match stGet s1.st ((s1.sp : Int) - 1) with
  | .error e => .error e
  | .ok x =>
    let tid := tvar s1.tvarno
    .ok (setTop TYPE_STRVAL tid
          (emit ("var " ++ tid ++ "=$s(" ++ exprStr x.expr ++ ");")
            { s1 with tvarno := s1.tvarno + 1 }))

/-- The operator `$.getinterval`; `typ` is the type of the entry on top. -/
def opGetinterval (s : PSC) : Except Err PSC :=
  let s1 := need 3 s
  match stGet s1.st ((s1.sp : Int) - 1), stGet s1.st ((s1.sp : Int) - 2),
        stGet s1.st ((s1.sp : Int) - 3) with
  | .ok len, .ok off, .ok src =>
    let tid := tvar s1.tvarno
    let s2 := emit ("var " ++ tid ++ "=$geti(" ++ exprStr src.expr ++ "," ++ exprStr off.expr ++
                    "," ++ exprStr len.expr ++ ");")
                { s1 with sp := s1.sp - 3, tvarno := s1.tvarno + 1 }
    if hasType len.type TYPE_STRTYP then .ok (pushEntry TYPE_INTVAL tid s2)
    else .ok (pushEntry TYPE_UNKNOWN tid s2)
  | .error e, _, _ => .error e
  | _, .error e, _ => .error e
  | _, _, .error e => .error e

/-- The operator `$.putinterval`. -/
def opPutinterval (s : PSC) : Except Err PSC :=
  let s1 := need 3 s
  match stGet s1.st ((s1.sp : Int) - 1), stGet s1.st ((s1.sp : Int) - 2),
        stGet s1.st ((s1.sp : Int) - 3) with
  | .ok src, .ok off, .ok dst =>
    .ok (emit ("$puti(" ++ exprStr dst.expr ++ "," ++ exprStr off.expr ++ "," ++
               exprStr src.expr ++ ");") { s1 with sp := s1.sp - 3 })
  | .error e, _, _ => .error e
  | _, .error e, _ => .error e
  | _, _, .error e => .error e

/-- The operator `$.search`. -/
def opSearch (s : PSC) : Except Err PSC :=
  let s1 := need 2 s
  match stGet s1.st ((s1.sp : Int) - 1), stGet s1.st ((s1.sp : Int) - 2) with
  | .ok sub, .ok src =>
    flushEmit ("$search(" ++ exprStr src.expr ++ "," ++ exprStr sub.expr ++ ");")
      { s1 with sp := s1.sp - 2 }
  | .error e, _ => .error e
  | _, .error e => .error e

/-- The operator `$.currentpoint`. -/
def opCurrentpoint (s : PSC) : Except Err PSC :=
  let tid := tvar s.tvarno
  .ok (pushEntry TYPE_NUMVAL (tid ++ ".y")
        (pushEntry TYPE_NUMVAL (tid ++ ".x")
          (emit ("var " ++ tid ++ "=$$.currpos();") { s with tvarno := s.tvarno + 1 })))

/-- The operator `$.dtransform`: `need(3); sp--`. -/
def opDtransform (s : PSC) : Except Err PSC :=
  let s1 := need 3 s
  .ok { s1 with sp := s1.sp - 1 }

/-- The operator `$.currentfont`. -/
def opCurrentfont (s : PSC) : Except Err PSC :=
  let tid := tvar s.tvarno
  .ok (pushEntry TYPE_DICT tid
        (emit ("var " ++ tid ++ "=$$.currfont();") { s with tvarno := s.tvarno + 1 }))

/-- The operator `$.findfont`. -/
def opFindfont (s : PSC) : Except Err PSC :=
  let s1 := need 1 s
  match stGet s1.st ((s1.sp : Int) - 1) with
  | .error e => .error e
  | .ok f =>
    let tid := tvar s1.tvarno
    .ok (pushEntry TYPE_DICT tid
          (emit ("var " ++ tid ++ "=$$.findfont(" ++ exprStr f.expr ++ ");")
            { s1 with sp := s1.sp - 1, tvarno := s1.tvarno + 1 }))

/-- The operator `$.scalefont`; the entry it pushes has the expression of the
font as it is, `undefined` included. -/
def opScalefont (s : PSC) : Except Err PSC :=
  let s1 := need 2 s
  match stGet s1.st ((s1.sp : Int) - 1), stGet s1.st ((s1.sp : Int) - 2) with
  | .ok x, .ok f =>
    let s2 := emit (parens (exprStr f.expr) ++ ".FontSize=" ++ exprStr x.expr ++ ";")
                { s1 with sp := s1.sp - 2 }
    .ok { s2 with st := stSet s2.st s2.sp { type := TYPE_DICT, expr := f.expr, tokens := none,
                                            seq := s2.seq + 1 }
                  sp := s2.sp + 1, seq := s2.seq + 1 }
  | .error e, _ => .error e
  | _, .error e => .error e

/-- The operator `$.ashow`. -/
def opAshow (s : PSC) : Except Err PSC :=
  let s1 := need 3 s
  match stGet s1.st ((s1.sp : Int) - 3), stGet s1.st ((s1.sp : Int) - 2),
        stGet s1.st ((s1.sp : Int) - 1) with
  | .ok dx, .ok dy, .ok str =>
    .ok (emit ("$$.show(" ++ exprStr str.expr ++ "," ++ exprStr dx.expr ++ "," ++
               exprStr dy.expr ++ ");") { s1 with sp := s1.sp - 3 })
  | .error e, _, _ => .error e
  | _, .error e, _ => .error e
  | _, _, .error e => .error e

/-- The operator `$.pathbbox`. -/
def opPathbbox (s : PSC) : Except Err PSC :=
  let tid := tvar s.tvarno
  .ok (pushEntry TYPE_NUMVAL (tid ++ ".ury")
        (pushEntry TYPE_NUMVAL (tid ++ ".urx")
          (pushEntry TYPE_NUMVAL (tid ++ ".lly")
            (pushEntry TYPE_NUMVAL (tid ++ ".llx")
              (emit ("var " ++ tid ++ "=$$.pathbbox();") { s with tvarno := s.tvarno + 1 })))))

/-- The operator `$.stringwidth`. -/
def opStringwidth (s : PSC) : Except Err PSC :=
  let s1 := need 1 s
  match stGet s1.st ((s1.sp : Int) - 1) with
  | .error e => .error e
  | .ok x =>
    let tid := tvar s1.tvarno
    .ok (pushEntry TYPE_NUMVAL (tid ++ ".h")
          (pushEntry TYPE_NUMVAL (tid ++ ".w")
            (emit ("var " ++ tid ++ "=$$.stringwidth(" ++ exprStr x.expr ++ ");")
              { s1 with sp := s1.sp - 1, tvarno := s1.tvarno + 1 })))

/-- The five operands of `$.imagemask`, `$.arc` and `$.arcn`, read from the top
down after `need(5)`: the state with the pointer lowered by five and the
entries `st[sp-5] .. st[sp-1]`. -/
def fiveOperands (s : PSC) : Except Err (PSC × Entry × Entry × Entry × Entry × Entry) :=
  let s1 := need 5 s
  match stGet s1.st ((s1.sp : Int) - 1), stGet s1.st ((s1.sp : Int) - 2),
        stGet s1.st ((s1.sp : Int) - 3), stGet s1.st ((s1.sp : Int) - 4),
        stGet s1.st ((s1.sp : Int) - 5) with
  | .ok e1, .ok e2, .ok e3, .ok e4, .ok e5 => .ok ({ s1 with sp := s1.sp - 5 }, e5, e4, e3, e2, e1)
  | .error e, _, _, _, _ => .error e
  | _, .error e, _, _, _ => .error e
  | _, _, .error e, _, _ => .error e
  | _, _, _, .error e, _ => .error e
  | _, _, _, _, .error e => .error e

/-- The operator `$.imagemask`. -/
def opImagemask (s : PSC) : Except Err PSC :=
  match fiveOperands s with
  | .error e => .error e
  | .ok (s1, width, height, _, _, datasrc) =>
    .ok (emit ("$$.imagemask(" ++ exprStr width.expr ++ "," ++ exprStr height.expr ++ "," ++
               exprStr datasrc.expr ++ ");") s1)

/-- The operator `$.setlinecap`: `need(1); sp -= 1`. -/
def opSetlinecap (s : PSC) : Except Err PSC :=
  let s1 := need 1 s
  .ok { s1 with sp := s1.sp - 1 }

/-- The operator `$.setlinejoin`: `need(1); sp -= 1`. -/
def opSetlinejoin (s : PSC) : Except Err PSC :=
  let s1 := need 1 s
  .ok { s1 with sp := s1.sp - 1 }

/-- The operators `$.arc` (`dir` is `1`) and `$.arcn` (`dir` is `0`). -/
def opArc (dir : String) (s : PSC) : Except Err PSC :=
  match fiveOperands s with
  | .error e => .error e
  | .ok (s1, x, y, r, a1, a2) =>
    .ok (emit ("$$.arc(" ++ exprStr x.expr ++ "," ++ exprStr y.expr ++ "," ++ exprStr r.expr ++
               "," ++ exprStr a1.expr ++ "," ++ exprStr a2.expr ++ "," ++ dir ++ ");") s1)

/-! ## Nested contexts, `ifelse`, `bind`, `def` and the main loop -/

/-- The collecting loop of `readtokens(end)` over the stream being read: the
tokens collected and the rest of the stream behind the closing token (`some`),
or the end of the stream (`none`); in both cases the last token read. -/
def readtokensL (endTok : String) :
    List Token → Int → List Token → Option Token → Option (List Token × List Token) × Option Token
  | [], _, _, last => (none, last)
  | t :: ts, count, acc, _ =>
    let count1 : Int :=
      if t.token = "\x7b" || t.token = "<<" || t.token = "[" then count + 1
      else if t.token = "\x7d" || t.token = ">>" || t.token = "]" then count - 1
      else count
    if t.token = endTok && count1 < 0 then (some (acc, ts), some t)
    else readtokensL endTok ts count1 (acc ++ [t]) (some t)

/-- The function `readtokens(end)`: `none` is the `undefined` the source returns
when the stream ends before the closing token. -/
def readtokens (endTok : String) (l : Lexer) : Option (List Token) × Lexer :=
  match l.stack with
  | cur :: rest =>
    match readtokensL endTok cur 0 [] none with
    | (some (acc, ts), some t) =>
      (some acc, { l with stack := ts :: rest, token := some t.token, lnbr := t.lnbr })
    | (_, some t) => (none, { l with stack := [] :: rest, token := some t.token, lnbr := t.lnbr })
    | (_, none) => (none, l)
  | [] =>
    match readtokensL endTok l.raw 0 [] none with
    | (some (acc, ts), some t) =>
      (some acc, { l with raw := ts, token := some t.token, lnbr := t.lnbr })
    | (_, _) => (none, { l with raw := [], token := none })

/-- A compilation of the rest of the current stream; the operators that compile
a nested block receive the main loop through it. -/
abbrev Comp := PSC → Except Err PSC

/-- The function `ctxprep`. -/
def ctxprep (exec : Entry) (s : PSC) : Except Err PSC :=
  if exec.type = TYPE_IENAME then .ok s
  else if exec.type = TYPE_PRECALC then .ok s
  else if exec.type = TYPE_TOKENS then
    match exec.tokens with
    | some ts => .ok (ctxpush ts s)
    | none => .error (.typeError "tokens is undefined")
  else .error (.thrown "ctxprep: unknown exec-type")

/-- The function `ctxexec`. -/
def ctxexec (compile : Comp) (exec : Entry) (s : PSC) : Except Err (List Line × PSC) :=
  if exec.type = TYPE_IENAME then
    .ok ([{ code := exprStr exec.expr ++ "();", lnbr := s.lex.lnbr, seq := s.seq + 1 }],
         { s with seq := s.seq + 1 })
  else if exec.type = TYPE_PRECALC then
    .ok ([{ code := exprStr exec.expr, lnbr := s.lex.lnbr, seq := s.seq + 1 }],
         { s with seq := s.seq + 1 })
  else if exec.type = TYPE_TOKENS then
    match compile s with
    | .error e => .error e
    | .ok s1 => ctxpop s1
  else .error (.typeError "lines is undefined")

/-- The token `exec.tokens[i].token`, when there are exactly `n` tokens. -/
def tokenAt (exec : Entry) (n i : Nat) : Option String :=
  match exec.tokens with
  | some ts => if ts.length = n then (ts[i]?).map (·.token) else none
  | none => none

/-- The first odd-ball test of `$.ifelse` (`{{0}} {{1}} ifelse`): both blocks
have three tokens, the first an opening brace and the second a run of digits.
The result is the pair of second tokens. -/
def ifelsePrecalc (texec fexec : Entry) : Option (String × String) :=
  match tokenAt texec 3 0, tokenAt fexec 3 0, tokenAt texec 3 1, tokenAt fexec 3 1 with
  | some t0, some f0, some t1, some f1 =>
    if t0 = "\x7b" && f0 = "\x7b" && RE.testStart reDigits t1 && RE.testStart reDigits f1
    then some (t1, f1) else none
  | _, _, _, _ => none

/-- The second odd-ball test of `$.ifelse` (`{5} {1} ifelse`): both blocks are a
single token that is a run of digits.  The result is the pair of tokens. -/
def ifelseConst (texec fexec : Entry) : Option (String × String) :=
  match tokenAt texec 1 0, tokenAt fexec 1 0 with
  | some t0, some f0 =>
    if RE.testStart reDigits t0 && RE.testStart reDigits f0 then some (t0, f0) else none
  | _, _ => none

/-- The general path of `$.ifelse`, from `ctxflush()` on. -/
def ifelseGeneral (compile : Comp) (expr : String) (texec fexec : Entry) (s : PSC) :
    Except Err PSC :=
  match ctxflush s with
  | .error e => .error e
  | .ok s3 =>
    match ctxprep texec s3 with
    | .error e => .error e
    | .ok s4 =>
      match ctxexec compile texec s4 with
      | .error e => .error e
      | .ok (tlines, s5) =>
        match ctxprep fexec s5 with
        | .error e => .error e
        | .ok s6 =>
          match ctxexec compile fexec s6 with
          | .error e => .error e
          | .ok (flines, s7) =>
            .ok (emit "\x7d"
              (append flines (newbranch (emit "\x7delse\x7b"
                (append tlines (newbranch (emit ("if(" ++ expr ++ ")\x7b") s7)))))))

/-- The operator `$.ifelse`. -/
def opIfelse (compile : Comp) (s : PSC) : Except Err PSC :=
  let s1 := need 3 s
  match stGet s1.st ((s1.sp : Int) - 3), stGet s1.st ((s1.sp : Int) - 2),
        stGet s1.st ((s1.sp : Int) - 1) with
  | .ok c, .ok texec, .ok fexec =>
    match c.expr with
    | none => .error (.typeError "expr is undefined")
    | some cx =>
      let expr := unanorxo cx
      let s2 := { s1 with sp := s1.sp - 3 }
      match ifelsePrecalc texec fexec with
      | some (a, b) =>
        let tid := tvar s2.tvarno
        .ok (pushEntry TYPE_PRECALC ("$k[$j++]=" ++ tid)
              (emit ("var " ++ tid ++ "=" ++ parens expr ++ "?" ++ a ++ ":" ++ b ++ ";")
                { s2 with tvarno := s2.tvarno + 1 }))
      | none =>
        match ifelseConst texec fexec with
        | some (a, b) =>
          let tid := tvar s2.tvarno
          .ok (pushEntry TYPE_INTVAL tid
                (emit ("var " ++ tid ++ "=" ++ parens expr ++ "?" ++ a ++ ":" ++ b ++ ";")
                  { s2 with tvarno := s2.tvarno + 1 }))
        | none => ifelseGeneral compile expr texec fexec s2
  | .error e, _, _ => .error e
  | _, .error e, _ => .error e
  | _, _, .error e => .error e

/-- The pattern `/^_\w+$/`. -/
def reTempWord : RE := RE.cat [RE.chr '_', RE.plus (RE.cls isWordChar), RE.eos]

/-- The step of the `exch` case of `$.if` that turns the expression of the
entry `st[i]` into a variable reference (lines 1467-1476). -/
def bindVar (i : Nat) (s : PSC) : Except Err PSC :=
  match stGet s.st (i : Int) with
  | .error e => .error e
  | .ok t =>
    if RE.testStart reTempWord (exprStr t.expr) then .ok s
    else
      let tid := tvar s.tvarno
      let s1 := emit ("var " ++ tid ++ "=" ++ exprStr t.expr ++ ";")
        { s with tvarno := s.tvarno + 1 }
      .ok { s1 with st := stSet s1.st i { t with expr := some tid } }

/-- The case `{exch} if` of `$.if` (lines 1464-1483), after `sp -= 2`. -/
def ifExch (expr : String) (s : PSC) : Except Err PSC :=
  match bindVar (s.sp - 1) s with
  | .error e => .error e
  | .ok s1 =>
    match bindVar (s1.sp - 2) s1 with
    | .error e => .error e
    | .ok s2 =>
      match stGet s2.st ((s2.sp : Int) - 1), stGet s2.st ((s2.sp : Int) - 2) with
      | .ok a, .ok b =>
        .ok (emit "\x7d"
          (emit (exprStr b.expr ++ "=_;")
            (emit (exprStr a.expr ++ "=" ++ exprStr b.expr ++ ";")
              (emit ("var _=" ++ exprStr a.expr ++ ";")
                (emit ("if(" ++ expr ++ ")\x7b") s2)))))
      | .error e, _ => .error e
      | _, .error e => .error e

/-- The operator `$.if` (lines 1453-1491). -/
def opIf (compile : Comp) (s : PSC) : Except Err PSC :=
  let s1 := need 2 s
  match stGet s1.st ((s1.sp : Int) - 2), stGet s1.st ((s1.sp : Int) - 1) with
  | .ok c, .ok exec =>
    match c.expr with
    | none => .error (.typeError "expr is undefined")
    | some cx =>
      let expr := unanorxo cx
      let s2 := { s1 with sp := s1.sp - 2 }
      if 2 ≤ s2.sp && tokenAt exec 1 0 = some "exch" then ifExch expr s2
      else
        match ctxflush s2 with
        | .error e => .error e
        | .ok s3 =>
          match ctxprep exec s3 with
          | .error e => .error e
          | .ok s4 =>
            match ctxexec compile exec (newbranch (emit ("if(" ++ expr ++ ")\x7b") s4)) with
            | .error e => .error e
            | .ok (lines, s5) => .ok (emit "\x7d" (append lines s5))
  | .error e, _ => .error e
  | _, .error e => .error e

/-- The text of a function built by `$.bind` from the lines of its body
(coverage instrumentation as in lines 1236-1263). -/
def functionCode (global : Bool) (coverage : Bool) (fname : String) (branchno thisbranchno : Int)
    (lines : List Line) : String :=
  let head :=
    if global && coverage && fname != "" then
      "var $bwipjs_coverage=\x7b" ++ intStr branchno ++ ":1\x7d;\n" ++ "try \x7b\n"
    else if !global && coverage then "$bwipjs_coverage[" ++ intStr thisbranchno ++ "]=1;\n"
    else ""
  let body := lines.foldl (fun acc l => acc ++ l.code ++ "/*" ++ lnbrStr l.lnbr ++ "*/\n") ""
  let tail :=
    if global && coverage && fname != "" then
      "\x7dcatch(e)\x7b\n" ++ "throw e;\n" ++ "\x7dfinally\x7b\n" ++
      "typeof require===\"function\"&&" ++ "require(\"fs\").appendFileSync(\"coverage/" ++
      unquote fname ++ "\"," ++ "Object.keys($bwipjs_coverage).join(\"\\n\")+\"\\n\"," ++
      "\"binary\");\n" ++ "\x7d\n"
    else ""
  "function()\x7b\n" ++ head ++ body ++ tail ++ "\x7d"

/-- The first pass of `$.bind` for a global function (lines 1186-1215): the
global state is reset, the body is compiled with unknown identifiers allowed
and the result is thrown away; what stays is the dictionary. -/
def bindPass1 (compile : Comp) (tkns : List Token) (s : PSC) : Except Err PSC :=
  let s1 := { s with allowunknown := true, tvarno := 0, seq := 0, dict := seedDict,
                     branchno := -1 }
  match compile (ctxpush tkns s1) with
  | .error e => .error e
  | .ok s2 =>
    match ctxpop s2 with
    | .error e => .error e
    | .ok (_, s3) =>
      .ok { s3 with allowunknown := false, tvarno := 0, seq := 0,
                    branchno := if s3.cfg.coverage then 0 else s3.branchno }

/-- The operator `$.bind`. -/
def opBind (compile : Comp) (s : PSC) : Except Err PSC :=
  match stGet s.st ((s.sp : Int) - 1) with
  | .error e => .error e
  | .ok x =>
    match x.tokens with
    | none => .error (.thrown "bind: exec not tokens")
    | some tkns =>
      let s0 := { s with sp := s.sp - 1 }
      match (if s0.dlvl = 0 then bindPass1 compile tkns s0 else .ok s0) with
      | .error e => .error e
      | .ok s1 =>
        let counted := s1.dlvl != 0 && s1.cfg.coverage
        let thisbranchno : Int := if counted then s1.branchno else 0
        let s2 := if counted then { s1 with branchno := s1.branchno + 1 } else s1
        match compile (ctxpush tkns s2) with
        | .error e => .error e
        | .ok s3 =>
          match ctxpop s3 with
          | .error e => .error e
          | .ok (lines0, s4) =>
            let lines := if s4.cfg.devar then devar lines0 else lines0
            let fname :=
              match (if s4.sp = 0 then none else s4.st[s4.sp - 1]?) with
              | some top => if top.type = TYPE_IDENT then exprStr top.expr else ""
              | none => ""
            let global := decide (s4.dlvl = 0)
            let s5 := if global && s4.cfg.coverage && fname != "" then
                        emit ("$bwipjs_functions.push(" ++ fname ++ ");") s4 else s4
            let code := functionCode global s5.cfg.coverage fname s5.branchno thisbranchno lines
            let s6 := if global && s5.cfg.coverage && fname != "" then
                        { s5 with branchno := -1 } else s5
            if s4.sp != 0 && s4.st.length < s4.sp then .error (.typeError "st[sp-1] is undefined")
            else
              .ok { s6 with st := stSet s6.st s6.sp { type := TYPE_FUNCTION, expr := some code,
                                                      tokens := none, seq := s6.seq + 1 }
                            sp := s6.sp + 1, seq := s6.seq + 1 }

/-- The operator `$.def`. -/
def opDef (compile : Comp) (s : PSC) : Except Err PSC :=
  let s1 := need 2 s
  match stGet s1.st ((s1.sp : Int) - 1) with
  | .error e => .error e
  | .ok top =>
    match (if top.type = TYPE_TOKENS then opBind compile s1 else .ok s1) with
    | .error e => .error e
    | .ok s2 =>
      match stGet s2.st ((s2.sp : Int) - 2), stGet s2.st ((s2.sp : Int) - 1) with
      | .ok k, .ok v =>
        let id := k.expr
        let ty := if hasType v.type (TYPE_STRLIT ||| TYPE_INTLIT ||| TYPE_NUMLIT)
                  then v.type <<< 1 else v.type
        let kty := if RE.testStart reStrLit (exprStr id) then TYPE_STRLIT else k.type
        let st1 := stSet s2.st (s2.sp - 2) { k with type := kty }
        let s3 := { s2 with st := st1 }
        if kty = TYPE_STRLIT || kty = TYPE_IDENT then
          match id with
          | none => .error (.typeError "id is undefined")
          | some idx =>
            let code :=
              if RE.testStart reQuotedIdent idx then
                "$" ++ intStr s3.dlvl ++ "." ++ unquote idx ++ "=" ++ exprStr v.expr ++ ";"
              else "$" ++ intStr s3.dlvl ++ "[" ++ idx ++ "]=" ++ exprStr v.expr ++ ";"
            if unescape (unquote idx) ∈ protoNames then .error (.unmodelled "inherited name")
            else
              let s4 := emit code s3
              .ok { s4 with dict := dictSet s4.dict (unescape (unquote idx)) ty, sp := s4.sp - 2 }
        else
          let s4 := emit ("$" ++ intStr s3.dlvl ++ "[" ++ exprStr id ++ "]=" ++
                          exprStr v.expr ++ ";") s3
          .ok { s4 with sp := s4.sp - 2 }
      | .error e, _ => .error e
      | _, .error e => .error e

/-- The operator `$.for`.  The number `+einc` of an increment that is an integer
literal is read by `intOfText` when the text is a decimal integer below `2^53`,
by `toNumber` otherwise. -/
def opFor (compile : Comp) (s : PSC) : Except Err PSC :=
  if s.sp < 4 then .error (.thrown "for: INSUFFICIENT PARAMETERS")
  else
    match stGet s.st ((s.sp : Int) - 4), stGet s.st ((s.sp : Int) - 3),
          stGet s.st ((s.sp : Int) - 2), stGet s.st ((s.sp : Int) - 1) with
    | .ok ini, .ok inc, .ok lim, .ok exec =>
      let eini := exprStr ini.expr
      let einc := exprStr inc.expr
      let elim := exprStr lim.expr
      let s1 := { s with sp := s.sp - 4 }
      let vlim := if lim.type != TYPE_INTLIT then tvar s1.tvarno else elim
      let s2 := if lim.type != TYPE_INTLIT then { s1 with tvarno := s1.tvarno + 1 } else s1
      let tid := tvar s2.tvarno
      let limInit := if lim.type != TYPE_INTLIT then "," ++ vlim ++ "=" ++ elim else ""
      match ctxflush { s2 with tvarno := s2.tvarno + 1 } with
      | .error e => .error e
      | .ok s3 =>
        let opened : Except Err PSC :=
          if inc.type != TYPE_INTLIT then
            let vinc := tvar s3.tvarno
            .ok (emit ("for(var " ++ tid ++ "=" ++ eini ++ "," ++ vinc ++ "=" ++ einc ++ limInit ++
                       ";" ++ vinc ++ "<0?" ++ tid ++ ">=" ++ vlim ++ ":" ++ tid ++ "<=" ++ vlim ++
                       ";" ++ tid ++ "+=" ++ vinc ++ ")\x7b")
                  { s3 with tvarno := s3.tvarno + 1 })
          else
            match intOfText einc with
            | none =>
              if (toNumber einc).ltZero then
                .ok (emit ("for(var " ++ tid ++ "=" ++ eini ++ limInit ++ ";" ++ tid ++ ">=" ++
                           vlim ++ ";" ++ tid ++ "-=" ++ (toNumber einc).neg.toString ++ ")\x7b") s3)
              else
                .ok (emit ("for(var " ++ tid ++ "=" ++ eini ++ limInit ++ ";" ++ tid ++ "<=" ++
                           vlim ++ ";" ++ tid ++ "+=" ++ einc ++ ")\x7b") s3)
            | some v =>
              if v < 0 then
                .ok (emit ("for(var " ++ tid ++ "=" ++ eini ++ limInit ++ ";" ++ tid ++ ">=" ++
                           vlim ++ ";" ++ tid ++ "-=" ++ intStr (-v) ++ ")\x7b") s3)
              else
                .ok (emit ("for(var " ++ tid ++ "=" ++ eini ++ limInit ++ ";" ++ tid ++ "<=" ++
                           vlim ++ ";" ++ tid ++ "+=" ++ einc ++ ")\x7b") s3)
        match opened with
        | .error e => .error e
        | .ok s4 =>
          match ctxprep exec s4 with
          | .error e => .error e
          | .ok s5 =>
            match ctxexec compile exec (newbranch (pushEntry TYPE_INTVAL tid s5)) with
            | .error e => .error e
            | .ok (lines, s6) => .ok (emit "\x7d" (append lines s6))
    | .error e, _, _, _ => .error e
    | _, .error e, _, _ => .error e
    | _, _, .error e, _ => .error e
    | _, _, _, .error e => .error e

/-- The operator `$.forall` (lines 1560-1641). -/
def opForall (compile : Comp) (s : PSC) : Except Err PSC :=
  let s1 := need 2 s
  match stGet s1.st ((s1.sp : Int) - 2), stGet s1.st ((s1.sp : Int) - 1) with
  | .ok o, .ok exec =>
    let s2 := { s1 with sp := s1.sp - 2 }
    if hasType o.type (TYPE_ARRAY ||| TYPE_STRTYP) then
      let tid := tvar s2.tvarno
      let len := tvar (s2.tvarno + 1)
      let val := tvar (s2.tvarno + 2)
      match ctxflush { s2 with tvarno := s2.tvarno + 3 } with
      | .error e => .error e
      | .ok s3 =>
        match ctxprep exec s3 with
        | .error e => .error e
        | .ok s4 =>
          let s5 := emit ("var " ++ val ++ "=$get(" ++ exprStr o.expr ++ "," ++ tid ++ ");")
            (newbranch (emit ("for(var " ++ tid ++ "=0," ++ len ++ "=" ++ exprStr o.expr ++
              ".length;" ++ tid ++ "<" ++ len ++ ";" ++ tid ++ "++)\x7b") s4))
          match ctxexec compile exec
              (pushEntry (if hasType o.type TYPE_ARRAY then TYPE_UNKNOWN else TYPE_INTVAL) val s5) with
          | .error e => .error e
          | .ok (lines, s6) => .ok (emit "\x7d" (append lines s6))
    else if hasType o.type TYPE_DICT then
      match o.expr with
      | none => .error (.typeError "o.expr is undefined")
      | some ox =>
        let tid := tvar s2.tvarno
        let val := tvar (s2.tvarno + 1)
        let obj := if ox.data.head? = some '_' then ox else tvar (s2.tvarno + 2)
        let s2a := if ox.data.head? = some '_' then { s2 with tvarno := s2.tvarno + 2 }
                   else { s2 with tvarno := s2.tvarno + 3 }
        match ctxflush s2a with
        | .error e => .error e
        | .ok s3 =>
          match ctxprep exec s3 with
          | .error e => .error e
          | .ok s4 =>
            let s4a := if obj != ox then emit ("var " ++ obj ++ "=" ++ ox ++ ";") s4 else s4
            let s5 := emit ("var " ++ val ++ "=" ++ obj ++ "[" ++ tid ++ "];")
              (newbranch (emit ("for(var " ++ tid ++ " in " ++ obj ++ ")\x7b") s4a))
            match ctxexec compile exec
                (pushEntry TYPE_UNKNOWN val (pushEntry TYPE_STRVAL tid s5)) with
            | .error e => .error e
            | .ok (lines, s6) => .ok (emit "\x7d" (append lines s6))
    else
      match ctxflush s2 with
      | .error e => .error e
      | .ok s3 =>
        if exec.type = TYPE_TOKENS && exec.tokens.isNone then
          .error (.typeError "exec.tokens is undefined")
        else if exec.type = TYPE_TOKENS && exec.tokens = some [] then
          .ok (emit ("$forall(" ++ exprStr o.expr ++ ");") s3)
        else
          match ctxprep exec s3 with
          | .error e => .error e
          | .ok s4 =>
            match ctxexec compile exec
                (newbranch (emit ("$forall(" ++ exprStr o.expr ++ ",function()\x7b") s4)) with
            | .error e => .error e
            | .ok (lines, s5) => .ok (emit "\x7d);" (append lines s5))
  | .error e, _ => .error e
  | _, .error e => .error e

/-- The operator `$.repeat`. -/
def opRepeat (compile : Comp) (s : PSC) : Except Err PSC :=
  let s1 := need 2 s
  match stGet s1.st ((s1.sp : Int) - 2), stGet s1.st ((s1.sp : Int) - 1) with
  | .ok n, .ok exec =>
    let tid := tvar s1.tvarno
    let lim := tvar (s1.tvarno + 1)
    match ctxflush { s1 with tvarno := s1.tvarno + 2, sp := s1.sp - 2 } with
    | .error e => .error e
    | .ok s2 =>
      match ctxprep exec
          (emit ("for(var " ++ tid ++ "=0," ++ lim ++ "=" ++ exprStr n.expr ++ ";" ++ tid ++ "<" ++
                 lim ++ ";" ++ tid ++ "++)\x7b") s2) with
      | .error e => .error e
      | .ok s3 =>
        match ctxexec compile exec (newbranch s3) with
        | .error e => .error e
        | .ok (lines, s4) => .ok (emit "\x7d" (append lines s4))
  | .error e, _ => .error e
  | _, .error e => .error e

/-- The operator `$.loop`. -/
def opLoop (compile : Comp) (s : PSC) : Except Err PSC :=
  let s1 := need 1 s
  match stGet s1.st ((s1.sp : Int) - 1) with
  | .error e => .error e
  | .ok exec =>
    match ctxflush { s1 with sp := s1.sp - 1 } with
    | .error e => .error e
    | .ok s2 =>
      match ctxprep exec s2 with
      | .error e => .error e
      | .ok s3 =>
        match ctxexec compile exec (newbranch (emit "for(;;)\x7b" s3)) with
        | .error e => .error e
        | .ok (lines, s4) => .ok (emit "\x7d" (append lines s4))

/-- The operators of the table `$`; `none` for every other token. -/
def opTable (compile : Comp) (tkn : String) : Option Comp :=
  if tkn = "pop" then some opPop
  else if tkn = "dup" then some opDup
  else if tkn = "exch" then some opExch
  else if tkn = "copy" then some opCopy
  else if tkn = "roll" then some opRoll
  else if tkn = "index" then some opIndex
  else if tkn = "add" then some (binarith "+")
  else if tkn = "sub" then some (binarith "-")
  else if tkn = "mul" then some (binarith "*")
  else if tkn = "div" then some (binarith "/")
  else if tkn = "mod" then some (binarith "%")
  else if tkn = "idiv" then some opIdiv
  else if tkn = "and" then some opAnd
  else if tkn = "or" then some opOr
  else if tkn = "xor" then some opXor
  else if tkn = "ifelse" then some (opIfelse compile)
  else if tkn = "for" then some (opFor compile)
  else if tkn = "aload" then some opAload
  else if tkn = "bind" then some (opBind compile)
  else if tkn = "def" then some (opDef compile)
  else if tkn = "begin" then some opBegin
  else if tkn = "end" then some opEnd
  else if tkn = "dict" then some opDict
  else if tkn = "array" then some opArray
  else if tkn = "get" then some opGet
  else if tkn = "put" then some opPut
  else if tkn = "counttomark" then some opCounttomark
  else if tkn = "mark" then some opMark
  else if tkn = "exec" then some opExec
  else if tkn = "true" then some (fun s => .ok (pushEntry TYPE_BOOLEAN "true" s))
  else if tkn = "false" then some (fun s => .ok (pushEntry TYPE_BOOLEAN "false" s))
  else if tkn = "null" then some (fun s => .ok (pushEntry TYPE_NULL "null" s))
  else if tkn = "cvn" then some (fun s => .ok s)
  else if tkn = "cvx" then some (fun s => .ok s)
  else if tkn = "quit" then some (fun s => .ok s)
  else if tkn = "if" then some (opIf compile)
  else if tkn = "neg" then some opNeg
  else if tkn = "debug" then some opDebug
  else if tkn = "stack" then some opStack
  else if tkn = "return" then some opReturn
  else if tkn = "known" then some opKnown
  else if tkn = "handleerror" then some opHandleerror
  else if tkn = "cvi" then some opCvi
  else if tkn = "cvlit" then some opCvlit
  else if tkn = "cvs" then some opCvs
  else if tkn = "cvr" then some opCvr
  else if tkn = "cvrs" then some opCvrs
  else if tkn = "type" then some opType
  else if tkn = "length" then some opLength
  else if tkn = "load" then some opLoad
  else if tkn = "eq" then some (binbool "==" "$eq")
  else if tkn = "ne" then some (binbool "!=" "$ne")
  else if tkn = "lt" then some (binbool "<" "$lt")
  else if tkn = "le" then some (binbool "<=" "$le")
  else if tkn = "gt" then some (binbool ">" "$gt")
  else if tkn = "ge" then some (binbool ">=" "$ge")
  else if tkn = "not" then some opNot
  else if tkn = "forall" then some (opForall compile)
  else if tkn = "repeat" then some (opRepeat compile)
  else if tkn = "loop" then some (opLoop compile)
  else if tkn = "exit" then some (flushEmit "break;")
  else if tkn = "cleartomark" then some (flushEmit "$cleartomark();")
  else if tkn = "clear" then some (flushEmit "$j=0;")
  else if tkn = "exp" then some opExp
  else if tkn = "ln" then some (mathCall TYPE_NUMVAL "Math.log(")
  else if tkn = "log" then some opLog
  else if tkn = "abs" then some opAbs
  else if tkn = "round" then some (mathCall TYPE_INTVAL "Math.round(")
  else if tkn = "floor" then some (mathCall TYPE_INTVAL "Math.floor(")
  else if tkn = "ceiling" then some (mathCall TYPE_INTVAL "Math.ceil(")
  else if tkn = "sqrt" then some (mathCall TYPE_NUMVAL "Math.sqrt(")
  else if tkn = "bitshift" then some opBitshift
  else if tkn = "astore" then some opAstore
  else if tkn = "string" then some opString
  else if tkn = "getinterval" then some opGetinterval
  else if tkn = "putinterval" then some opPutinterval
  else if tkn = "search" then some opSearch
  else if tkn = "gsave" then some (fun s => .ok (emit "$$.save();" s))
  else if tkn = "grestore" then some (fun s => .ok (emit "$$.restore();" s))
  else if tkn = "setextent" then some (fun s => .ok (emit "$$.setextent();" s))
  else if tkn = "currentpoint" then some opCurrentpoint
  else if tkn = "scale" then some (emitCall2 "$$.scale(")
  else if tkn = "translate" then some (emitCall2 "$$.translate(")
  else if tkn = "dtransform" then some opDtransform
  else if tkn = "currentfont" then some opCurrentfont
  else if tkn = "findfont" then some opFindfont
  else if tkn = "scalefont" then some opScalefont
  else if tkn = "setfont" then some (emitCall1 "$$.setfont(" ");")
  else if tkn = "ashow" then some opAshow
  else if tkn = "show" then some (emitCall1 "$$.show(" ",0,0);")
  else if tkn = "charpath" then some (emitCall2 "$$.charpath(")
  else if tkn = "pathbbox" then some opPathbbox
  else if tkn = "stringwidth" then some opStringwidth
  else if tkn = "imagemask" then some opImagemask
  else if tkn = "setlinewidth" then some (emitCall1 "$$.setlinewidth(" ");")
  else if tkn = "setcolor" then some (emitCall1 "$$.setcolor(" ");")
  else if tkn = "setlinecap" then some opSetlinecap
  else if tkn = "setlinejoin" then some opSetlinejoin
  else if tkn = "stroke" then some (fun s => .ok (emit "$$.stroke();" s))
  else if tkn = "newpath" then some (fun s => .ok (emit "$$.newpath();" s))
  else if tkn = "closepath" then some (fun s => .ok (emit "$$.closepath();" s))
  else if tkn = "moveto" then some (emitCall2 "$$.moveto(")
  else if tkn = "lineto" then some (emitCall2 "$$.lineto(")
  else if tkn = "rlineto" then some (emitCall2 "$$.rlineto(")
  else if tkn = "rmoveto" then some (emitCall2 "$$.rmoveto(")
  else if tkn = "fill" then some (fun s => .ok (emit "$$.fill();" s))
  else if tkn = "arc" then some (opArc "1")
  else if tkn = "arcn" then some (opArc "0")
  else none

/-- The branch of `compile` for a bare identifier (lines 833-881). -/
def compileIdent (tkn : String) (lnbr : Nat) (s : PSC) : Except Err PSC :=
  if (dictGet s.dict tkn).isSome || s.allowunknown then
    if dictGet s.dict tkn = some TYPE_FUNCTION then
      match ctxflush s with
      | .error e => .error e
      | .ok s1 =>
        if RE.testStart reIdent tkn then
          .ok (emit ("$" ++ intStr s1.dlvl ++ "." ++ tkn ++ "();") s1)
        else .ok (emit ("$" ++ intStr s1.dlvl ++ "[\"" ++ escapeQuotes tkn ++ "\"]();") s1)
    else if RE.testStart reIdentDollar tkn then
      let tid := tvar s.tvarno
      .ok (pushEntry ((dictGet s.dict tkn).getD TYPE_UNKNOWN) tid
            (emit ("var " ++ tid ++ "=$" ++ intStr s.dlvl ++ "." ++ tkn ++ ";")
              { s with tvarno := s.tvarno + 1 }))
    else
      let tid := tvar s.tvarno
      .ok (pushEntry ((dictGet s.dict tkn).getD TYPE_UNKNOWN) tid
            (emit ("var " ++ tid ++ "=$" ++ intStr s.dlvl ++ "[\"" ++ escapeQuotes tkn ++ "\"];")
              { s with tvarno := s.tvarno + 1 }))
  else .error (.thrown ("UNKNOWN IDENT: (" ++ tkn ++ ") #" ++ lnbrStr lnbr))

/-- The pattern `/^var [^=]+=.*\$k\[--\$j\]/`. -/
def reVarPop : RE :=
  RE.cat [RE.lit "var ", RE.plus (RE.cls (fun c => c != '=')), RE.chr '=', RE.star RE.dot,
    RE.lit "$k[--$j]"]

/-- The pattern `/^var [^=]+=/`. -/
def reVarDecl : RE := RE.cat [RE.lit "var ", RE.plus (RE.cls (fun c => c != '=')), RE.chr '=']

/-- The pattern `/^\$k\[\$j\+\+\]=/`. -/
def rePushHead : RE := RE.lit "$k[$j++]="

/-- The pattern `/^\$k\[\$j\+\+\]=([\s\S]+);(\/\*[^;]*\*\/)?$/`. -/
def rePushExpr : RE :=
  RE.cat [RE.lit "$k[$j++]=", RE.group 1 (RE.plus (RE.cls (fun _ => true))), RE.chr ';',
    RE.opt (RE.group 2 (RE.cat [RE.lit "/*", RE.star (RE.cls (fun c => c != ';')), RE.lit "*/"])),
    RE.eos]

/-- The class of the two quote characters. -/
def isQuoteChar (c : Char) : Bool := c == Char.ofNat 39 || c == '"'

/-- The pattern with which a key is recognised and extracted, a push of a text
between quote characters: `$k[$j++]=`, a quote, `(.*)`, a quote, `;`. -/
def reKeyPush : RE :=
  RE.cat [RE.lit "$k[$j++]=", RE.cls isQuoteChar, RE.group 1 (RE.star RE.dot), RE.cls isQuoteChar,
    RE.chr ';']

/-- The pattern `/^"\w+"$/`. -/
def reQuotedWord : RE := RE.cat [RE.chr '"', RE.plus (RE.cls isWordChar), RE.chr '"', RE.eos]

/-- The expression `a[1]` that `rePushExpr` extracts from a push line; `none`
when the line does not match (the source then reads a property of `null`). -/
def pushedExpr (code : String) : Option String :=
  match RE.execStart rePushExpr code.data with
  | some (_, caps) => (caps.get 1).map String.mk
  | none => none

/-- The key `n[1]` that `reKeyPush` extracts from a push line. -/
def pushedKey (code : String) : Option String :=
  match RE.execStart reKeyPush code.data with
  | some (_, caps) => (caps.get 1).map String.mk
  | none => none

/-- The loop that decides whether an array literal is static (lines 640-648):
the number of lines passed before the loop stops. -/
def arrayScan : List Line → Nat
  | [] => 0
  | l :: ls =>
    if RE.testStart reVarPop l.code then 0
    else if !RE.testStart rePushHead l.code && !RE.testStart reVarDecl l.code then 0
    else arrayScan ls + 1

/-- The loop that builds a static array (lines 655-663): declarations are
hoisted, the pushed expressions are joined with commas in `code`. -/
def arrayBuild : List Line → String → PSC → Except Err (String × PSC)
  | [], code, s => .ok (code, s)
  | l :: ls, code, s =>
    if startsWithL "var ".data l.code.data then arrayBuild ls code (emitLine l s)
    else
      match pushedExpr l.code with
      | none => .error (.typeError "a is null")
      | some e => arrayBuild ls (code ++ (if code.data.isEmpty then "" else ",") ++ e) s

/-- The branch of `compile` for the token `[` (lines 626-698). -/
def compileArray (compile : Comp) (s : PSC) : Except Err PSC :=
  match readtokens "]" s.lex with
  | (none, _) => .error (.typeError "tokens is undefined")
  | (some tokens, lx) =>
    match compile (ctxpush tokens { s with lex := lx }) with
    | .error e => .error e
    | .ok s1 =>
      match ctxpop s1 with
      | .error e => .error e
      | .ok (lines, s2) =>
        let tid := tvar s2.tvarno
        let s3 := { s2 with tvarno := s2.tvarno + 1 }
        if arrayScan lines = lines.length then
          match arrayBuild lines "" s3 with
          | .error e => .error e
          | .ok (code, s4) =>
            .ok (pushEntry TYPE_ARRAY tid (emit ("var " ++ tid ++ "=$a([" ++ code ++ "]);") s4))
        else
          let top := if s3.sp = 0 then none else s3.st[s3.sp - 1]?
          let isIdent := match top with
            | some t => decide (t.type = TYPE_IDENT)
            | none => false
          let pk := if isIdent then s3.lex.peek else (none, s3.lex)
          let defsym : Option String :=
            match top with
            | some t => if isIdent && pk.1 = some "def" then some (t.expr.getD "") else none
            | none => none
          let s4 := { s3 with lex := pk.2, sp := if defsym.isSome then s3.sp - 1 else s3.sp }
          if s3.sp != 0 && s3.st.length < s3.sp then .error (.typeError "st[sp-1] is undefined")
          else
            match ctxflush s4 with
            | .error e => .error e
            | .ok s5 =>
              let s6 := lines.foldl (fun acc l => emitLine l acc) (emit "$k[$j++]=Infinity;" s5)
              match defsym with
              | some d =>
                if d = "" then
                  .ok (pushEntry TYPE_ARRAY tid (emit ("var " ++ tid ++ "=$a();") s6))
                else if unquote d ∈ protoNames then .error (.unmodelled "inherited name")
                else
                  let s7 :=
                    if RE.testStart reQuotedWord d then
                      emit ("$" ++ intStr s6.dlvl ++ "." ++ unquote d ++ "=$a();") s6
                    else emit ("$" ++ intStr s6.dlvl ++ "[" ++ d ++ "]=$a();") s6
                  .ok { s7 with lex := s7.lex.next.2, dict := dictSet s7.dict (unquote d) TYPE_ARRAY }
              | none => .ok (pushEntry TYPE_ARRAY tid (emit ("var " ++ tid ++ "=$a();") s6))

/-- One of the two loops `while (/^var [^=]+=/.test(lines[i].code)) i++` of the
scan of a dictionary literal: the lines left when it stops; `none` when it runs
past the end of the list (`lines[i]` is then `undefined`). -/
def skipDecls : List Line → Option (List Line)
  | [] => none
  | l :: ls => if RE.testStart reVarDecl l.code then skipDecls ls else some (l :: ls)

/-- The loop that decides whether a dictionary literal is static (lines
717-735): `some true` when it reaches the end of the list, `some false` when it
breaks, `none` when it reads a line past the end (a `TypeError`).  The first
argument bounds the number of rounds. -/
def dictScan : Nat → List Line → Option Bool
  | 0, _ => some false
  | _ + 1, [] => some true
  | f + 1, l :: ls =>
    match skipDecls (l :: ls) with
    | none => none
    | some [] => none
    | some (k :: rest) =>
      if !(RE.execStart reKeyPush k.code.data).isSome then some false
      else
        match skipDecls rest with
        | none => none
        | some [] => none
        | some (v :: rest1) =>
          if !RE.testStart rePushHead v.code then some false
          else dictScan f rest1

/-- The hoisting loop `while (lines[i].code.indexOf('var ') == 0)` of the build
of a static dictionary: the state after the hoisted lines and the lines left. -/
def hoistDecls : List Line → PSC → Option (List Line × PSC)
  | [], _ => none
  | l :: ls, s =>
    if startsWithL "var ".data l.code.data then hoistDecls ls (emitLine l s) else some (l :: ls, s)

/-- The loop that builds a static dictionary (lines 742-772); `first` says that
the index `i` is still 0. -/
def dictBuild : Nat → List Line → Bool → String → PSC → Except Err (String × PSC)
  | 0, _, _, _, _ => .error .fuel
  | _ + 1, [], _, code, s => .ok (code, s)
  | f + 1, l :: ls, first, code, s =>
    let code1 := code ++ (if first then "" else ",")
    match hoistDecls (l :: ls) s with
    | none => .error (.typeError "lines[i] is undefined")
    | some ([], _) => .error (.typeError "lines[i] is undefined")
    | some (k :: rest, s1) =>
      match pushedKey k.code with
      | none => .error (.typeError "n is null")
      | some n =>
        match hoistDecls rest s1 with
        | none => .error (.typeError "lines[i] is undefined")
        | some ([], _) => .error (.typeError "lines[i] is undefined")
        | some (v :: rest1, s2) =>
          match pushedExpr v.code with
          | none => .error (.typeError "a is null")
          | some a =>
            let item := if RE.testStart reIdent n then n ++ ":" ++ a else "\"" ++ n ++ "\":" ++ a
            dictBuild f rest1 false (code1 ++ item) s2

/-- The branch of `compile` for the token `<<` (lines 699-785). -/
def compileDict (compile : Comp) (s : PSC) : Except Err PSC :=
  match readtokens ">>" s.lex with
  | (none, _) => .error (.typeError "tokens is undefined")
  | (some tokens, lx) =>
    match compile (ctxpush tokens { s with lex := lx }) with
    | .error e => .error e
    | .ok s1 =>
      match ctxpop s1 with
      | .error e => .error e
      | .ok (lines, s2) =>
        match dictScan (lines.length + 1) lines with
        | none => .error (.typeError "lines[i] is undefined")
        | some isStatic =>
          let tid := tvar s2.tvarno
          let s3 := { s2 with tvarno := s2.tvarno + 1 }
          if isStatic then
            match dictBuild (lines.length + 1) lines true "\x7b\n" s3 with
            | .error e => .error e
            | .ok (code, s4) =>
              .ok (pushEntry TYPE_DICT tid (emit ("var " ++ tid ++ "=" ++ code ++ "\n\x7d;") s4))
          else
            match ctxflush s3 with
            | .error e => .error e
            | .ok s4 =>
              let s5 := lines.foldl (fun acc l => emitLine l acc) (emit "$k[$j++]=Infinity;" s4)
              .ok (pushEntry TYPE_DICT tid (emit ("var " ++ tid ++ "=$d();") s5))

/-- The pattern `/\/\/[A-Za-z_]\w*$/`. -/
def reIEName : RE := RE.cat [RE.lit "//", RE.cls isIdentStart, RE.star (RE.cls isWordChar), RE.eos]

/-- The body of the loop of `compile` for the token `tkn` read on line `lnbr`.
A number token that is a decimal integer below `2^53` is an exact double and
prints as it is read; every other number token goes through `numberOfToken`. -/
def compileToken (compile : Comp) (tkn : String) (lnbr : Nat) (s : PSC) : Except Err PSC :=
  if tkn = "\x7b" then
    let (tokens, lx) := readtokens "\x7d" s.lex
    .ok { s with lex := lx
                 st := stSet s.st s.sp { type := TYPE_TOKENS, expr := none, tokens := tokens,
                                         seq := s.seq + 1 }
                 sp := s.sp + 1, seq := s.seq + 1 }
  else if tkn = "[" then compileArray compile s
  else if tkn = "<<" then compileDict compile s
  else
    match tkn.data with
    | [] => .error (.unmodelled "empty token")
    | c :: rest =>
      if c == '-' || c.isDigit || c == '.' then
        match intOfText tkn with
        | some v => .ok (pushEntry TYPE_INTLIT (intStr v) s)
        | none =>
          let val := numberOfToken tkn
          if val.hasFraction then .ok (pushEntry TYPE_NUMLIT val.toString s)
          else .ok (pushEntry TYPE_INTLIT val.toString s)
      else if c == '(' then .ok (pushEntry TYPE_STRLIT ("\"" ++ unquote tkn ++ "\"") s)
      else if c == '/' then
        if rest.head? = some '/' then
          if String.mk (rest.drop 1) ∈ protoNames then .error (.unmodelled "inherited name")
          else
            let expr := if RE.test reIEName tkn then "$0." ++ String.mk (rest.drop 1)
                        else "$0[\"" ++ String.mk (rest.drop 1) ++ "\"]"
            let s1 := pushEntry TYPE_IENAME expr s
            .ok { s1 with dict := dictSet s1.dict (String.mk (rest.drop 1)) TYPE_IENAME }
        else if String.mk rest ∈ protoNames then .error (.unmodelled "inherited name")
        else
          let s1 := pushEntry TYPE_IDENT ("\"" ++ String.mk rest ++ "\"") s
          match dictGet s1.dict (String.mk rest) with
          | none => .ok { s1 with dict := dictSet s1.dict (String.mk rest) TYPE_IDENT }
          | some v =>
            if v = 0 then .ok { s1 with dict := dictSet s1.dict (String.mk rest) TYPE_IDENT }
            else .ok s1
      else
        match opTable compile tkn with
        | some op => op s
        | none =>
          if tkn ∈ protoNames then .error (.unmodelled "inherited name")
          else compileIdent tkn lnbr s

/-- The function `compile`: the loop `while (lex.next() !== null)`.  The first
argument bounds the number of tokens handled plus the depth of nesting; when it
is used up the result is `Err.fuel`. -/
def compile : Nat → PSC → Except Err PSC
  | 0, _ => .error .fuel
  | f + 1, s =>
    match s.lex.next with
    | (none, lx) => .ok { s with lex := lx }
    | (some tkn, lx) =>
      match compileToken (compile f) tkn lx.lnbr { s with lex := lx } with
      | .error e => .error e
      | .ok s1 => compile f s1

/-- The function `PSC` on the tokens of the source text: the text it returns. -/
def PSCmain (fuel : Nat) (cfg : Cfg) (raw : List Token) : Except Err String :=
  let s0 := PSC.init cfg raw
  let s1 := if cfg.coverage then emit "var $bwipjs_functions=[];" s0 else s0
  match compile fuel s1 with
  | .error e => .error e
  | .ok s2 =>
    let s3 := if cfg.coverage then
        emit ("typeof require==\"function\"&&" ++ "require(\"fs\").writeFileSync(\"coverage/functions\"," ++
              "$bwipjs_functions.join(\"\\n\")+\"\\n\",\"binary\");") s2
      else s2
    .ok (s3.block.foldl (fun acc l => acc ++ l.code ++ "\n") "")

/-! ## `PSLEX` on raw text

The state and the methods of `PSLEX` while no token stream is pushed.  A text is
a list of characters; positions count characters. -/

/-- The variables of `PSLEX` that the raw-text path of `next` uses, and the
fields `token` and `lnbr` of the object.  `token` is `none` for `null`. -/
structure PSLEX where
  str : List Char
  idx : Nat
  off : Nat
  tks : List String
  lnr : Nat
  token : Option String
  lnbr : Nat
  deriving DecidableEq, Repr

/-- The state of `new PSLEX(str)`. -/
def PSLEX.init (str : String) : PSLEX :=
  { str := str.data, idx := 0, off := 0, tks := [], lnr := 0, token := none, lnbr := 0 }

/-- The class `[ \t]`. -/
def isBlankChar (c : Char) : Bool := c == ' ' || c == '\t'

/-- The characters that the tokenizing pattern matches one at a time, the
carriage return apart: `<>[](){}%\"`. -/
def isDelimChar (c : Char) : Bool :=
  c == '<' || c == '>' || c == '[' || c == ']' || c == '(' || c == ')' || c == '\x7b' ||
  c == '\x7d' || c == '%' || c == '\\' || c == '"'

/-- The text between two matches, pushed when it is not empty. -/
def flushText (cur : List Char) : List String := if cur.isEmpty then [] else [String.mk cur]

/-- The loop of `_next` that cuts a line into tokens with the pattern
`/<<|>>|[ \t]+|[\r<>\[\](){}%\\"]/g`: `cur` is the text read since the last
token was pushed, `blank` says that it is a run of blanks being matched by
`[ \t]+`.  A carriage return is matched and not pushed. -/
def tokenizeFrom : Bool → List Char → List Char → List String
  | _, cur, [] => flushText cur
  | blank, cur, c :: r =>
    match r with
    | c2 :: r2 =>
      if (c == '<' && c2 == '<') || (c == '>' && c2 == '>') then
        flushText cur ++ String.mk [c, c2] :: tokenizeFrom false [] r2
      else if c == '\r' then flushText cur ++ tokenizeFrom false [] (c2 :: r2)
      else if isDelimChar c then flushText cur ++ String.mk [c] :: tokenizeFrom false [] (c2 :: r2)
      else if isBlankChar c == blank || cur.isEmpty then
        tokenizeFrom (isBlankChar c) (cur ++ [c]) (c2 :: r2)
      else flushText cur ++ tokenizeFrom (isBlankChar c) [c] (c2 :: r2)
    | [] =>
      if c == '\r' then flushText cur
      else if isDelimChar c then flushText cur ++ [String.mk [c]]
      else if isBlankChar c == blank || cur.isEmpty then flushText (cur ++ [c])
      else flushText cur ++ [String.mk [c]]

/-- The tokens `tks` of a line. -/
def tokenize (line : List Char) : List String := tokenizeFrom false [] line

/-- The function `_next`: blank lines are counted and skipped, the next line
is cut into tokens; `false` at the end of the text. -/
def PSLEX._next (l : PSLEX) : Bool × PSLEX :=
  let k := ((l.str.drop l.off).takeWhile (fun c => c == '\n')).length
  let rest := l.str.drop (l.off + k)
  if rest.isEmpty then (false, { l with off := l.off + k, lnr := l.lnr + k })
  else
    let line := rest.takeWhile (fun c => c != '\n')
    (true, { l with off := l.off + k + line.length + 1, lnr := l.lnr + k + 1,
                    tks := tokenize line, idx := 0 })

/-- The test `/^[ \t]/`. -/
def startsBlank (t : String) : Bool :=
  match t.data with
  | c :: _ => isBlankChar c
  | [] => false

/-- The loop `while (idx < tks.length && /^[ \t]/.test(tks[idx])) idx++`. -/
def skipBlanks (tks : List String) (idx : Nat) : Nat :=
  idx + ((tks.drop idx).takeWhile startsBlank).length

/-- The loop `while (idx >= tks.length || tks[idx] == '%')` of `next`: lines are
read until a token that is not a blank stands at `idx` on a line, outside a
comment; `false` at the end of the text.  The first argument bounds the number
of lines read. -/
def PSLEX.seek : Nat → PSLEX → Except Err (Bool × PSLEX)
  | 0, _ => .error .fuel
  | f + 1, l =>
    if l.tks.length ≤ l.idx || l.tks[l.idx]? = some "%" then
      match l._next with
      | (false, l1) => .ok (false, { l1 with token := none })
      | (true, l1) => PSLEX.seek f { l1 with idx := skipBlanks l1.tks l1.idx }
    else .ok (true, l)

/-- How the inner loop of the `()` branch ends on a line: with the closing
parenthesis (`rest` are the tokens behind it, `idx` is then left on the
parenthesis), with a backslash as last token of
the line, or with the tokens used up. -/
inductive ParenScan where
  | closed (s : String) (rest : List String)
  | escEnd (s : String) (l : Int)
  | lineEnd (s : String) (l : Int)
  deriving DecidableEq, Repr

/-- The inner loop `while (idx < tks.length)` of the `()` branch over the
tokens that are left on the line: `s` is the text collected, `l` the nesting
level.  A backslash is passed over and the token behind it is taken as it is. -/
def parenScan : List String → String → Int → ParenScan
  | [], s, l => .lineEnd s l
  | t :: ts, s, l =>
    if t = "\\" then
      match ts with
      | [] => .escEnd s l
      | u :: ts1 => parenScan ts1 (s ++ u) l
    else if t = "\"" then parenScan ts (s ++ "\\\"") l
    else if t = "(" then parenScan ts (s ++ t) (l + 1)
    else if t = ")" then
      if l - 1 = 0 then .closed s ts else parenScan ts (s ++ t) (l - 1)
    else parenScan ts (s ++ t) l

/-- The loop `done: while (true)` of the `()` branch.  When the tokens of a
line are used up, the source calls the result of `_next` as a function, which
is a `TypeError`.  After a backslash at the end of a line the next line is
read and its first token is taken as it is (`undefined` when it has none).  The
first argument bounds the number of lines read. -/
def PSLEX.parenLoop : Nat → PSLEX → String → Int → PSLEX × Except Err String
  | 0, l, _, _ => (l, .error .fuel)
  | f + 1, l, s, lv =>
    match parenScan (l.tks.drop l.idx) s lv with
    | .closed s1 rest => ({ l with idx := l.tks.length - rest.length - 1 }, .ok s1)
    | .lineEnd _ _ =>
      ({ l with idx := l.tks.length }._next.2,
       .error (.typeError "_next.call(...) is not a function"))
    | .escEnd s1 lv1 =>
      match { l with idx := l.tks.length }._next with
      | (false, l1) => (l1, .error (.thrown "Unexpected end of string"))
      | (true, l1) =>
        PSLEX.parenLoop f { l1 with idx := 1 } (s1 ++ (l1.tks.head?).getD "undefined") lv1

/-- The class `[a-zA-Z0-9]`. -/
def isAlnumChar (c : Char) : Bool := c.isAlphanum

/-- How the inner loop of the `<>` branch ends on a line: with the closing
`>`, with the tokens used up, or with a token that is rejected (`rest` are the
tokens behind it). -/
inductive HexScan where
  | closed (s : List Char) (rest : List String)
  | lineEnd (s : List Char)
  | invalid (t : String) (rest : List String)
  deriving DecidableEq, Repr

/-- The inner loop `while (idx < tks.length)` of the `<>` branch over the
tokens that are left on the line: `s` is the text collected. -/
def hexScan : List String → List Char → HexScan
  | [], s => .lineEnd s
  | t :: ts, s =>
    if t = ">" then .closed s ts
    else
      let u := t.data.filter (fun c => !isJsSpace c)
      if !u.isEmpty && !u.all isAlnumChar then .invalid (String.mk u) ts
      else hexScan ts (s ++ u)

/-- The loop `done: while (true)` of the `<>` branch.  The first argument
bounds the number of lines read. -/
def PSLEX.hexLoop : Nat → PSLEX → List Char → PSLEX × Except Err (List Char)
  | 0, l, _ => (l, .error .fuel)
  | f + 1, l, s =>
    match hexScan (l.tks.drop l.idx) s with
    | .closed s1 rest => ({ l with idx := l.tks.length - rest.length - 1 }, .ok s1)
    | .invalid u rest =>
      ({ l with idx := l.tks.length - rest.length - 1 },
       .error (.thrown ("Invalid hex string: \"" ++ u ++ "\"")))
    | .lineEnd s1 =>
      match { l with idx := l.tks.length }._next with
      | (false, l1) => (l1, .error (.thrown "Unexpected end of string"))
      | (true, l1) => PSLEX.hexLoop f l1 s1

/-- The loop `for (i = 0; i < s.length; i += 2) t += '\\x' + s.substr(i, 2)`. -/
def hexPairs : List Char → List Char
  | [] => []
  | [a] => ['\\', 'x', a]
  | a :: b :: r => '\\' :: 'x' :: a :: b :: hexPairs r

/-- The method `next` on raw text: the token returned (`none` is `null`) or
the value thrown, and the state of the lexer afterwards. -/
def PSLEX.next (l : PSLEX) : PSLEX × Except Err (Option String) :=
  match PSLEX.seek (l.str.length + 2) { l with idx := skipBlanks l.tks l.idx } with
  | .error e => (l, .error e)
  | .ok (false, l1) => (l1, .ok none)
  | .ok (true, l1) =>
    let l2 := { l1 with lnbr := l1.lnr }
    match l2.tks[l2.idx]? with
    | none => (l2, .error (.typeError "tks[idx] is undefined"))
    | some t =>
      if t = "(" then
        match PSLEX.parenLoop (l2.str.length + 2) { l2 with idx := l2.idx + 1 } "" 1 with
        | (l3, .error e) => (l3, .error e)
        | (l3, .ok s) =>
          ({ l3 with idx := l3.idx + 1, token := some ("(" ++ s ++ ")") },
           .ok (some ("(" ++ s ++ ")")))
      else if t = "<" then
        match PSLEX.hexLoop (l2.str.length + 2) { l2 with idx := l2.idx + 1 } [] with
        | (l3, .error e) => (l3, .error e)
        | (l3, .ok s) =>
          let s1 := if s.length % 2 = 1 then s ++ ['0'] else s
          ({ l3 with idx := l3.idx + 1, token := some ("(" ++ String.mk (hexPairs s1) ++ ")") },
           .ok (some ("(" ++ String.mk (hexPairs s1) ++ ")")))
      else ({ l2 with idx := l2.idx + 1, token := some t }, .ok (some t))

/-- The tokens that successive calls of `next` return, each with the line
number `lnbr` the lexer records for it, up to the end of the text or to the
first value thrown.  The first argument bounds the number of calls. -/
def PSLEX.tokens : Nat → PSLEX → List Token × Option Err
  | 0, _ => ([], some .fuel)
  | f + 1, l =>
    match l.next with
    | (_, .error e) => ([], some e)
    | (_, .ok none) => ([], none)
    | (l1, .ok (some t)) =>
      let r := PSLEX.tokens f l1
      ({ token := t, lnbr := l1.lnbr } :: r.1, r.2)

/-! ## Lists of lines and entries used to state the results -/

/-- The lines `$k[$j++]=x;` for the expressions `xs`, stamped from `q + 1` on. -/
def pushLines (lnbr : Nat) : Nat → List String → List Line
  | _, [] => []
  | q, x :: xs => { code := "$k[$j++]=" ++ x ++ ";", lnbr := lnbr, seq := q + 1 } ::
      pushLines lnbr (q + 1) xs

/-- The lines `var T=$k[--$j];` of `k` rounds of `need`, the first temporary
being number `t` and the stamps starting after `q`. -/
def popLines (lnbr : Nat) : Nat → Nat → Nat → List Line
  | 0, _, _ => []
  | k + 1, t, q => { code := "var " ++ tvar t ++ "=$k[--$j];", lnbr := lnbr, seq := q + 1 } ::
      popLines lnbr k (t + 1) (q + 2)

/-- The entries of `k` rounds of `need`, bottom first: the temporary popped
last is at the bottom, the one popped first (number `t`) on top. -/
def popEntries : Nat → Nat → Nat → List Entry
  | 0, _, _ => []
  | k + 1, t, q => popEntries k (t + 1) (q + 2) ++
      [{ type := TYPE_UNKNOWN, expr := some (tvar t), tokens := none, seq := q + 2 }]

/-! ## Definitions used to state the theorems -/

/-- A state for the witnesses of `ctxflush` and `need`: two tracked entries. -/
def flushWitnessState : PSC :=
  { PSC.init { devar := true, coverage := false } [] with
    st := [{ type := TYPE_UNKNOWN, expr := some "_0", tokens := none, seq := 1 },
           { type := TYPE_INTLIT, expr := some "5", tokens := none, seq := 2 }]
    sp := 2, seq := 2, tvarno := 1 }

/-- Position of a character in `_b62`. -/
def b62Val (c : Char) : Nat := b62Chars.indexOf c

/-- The state `$.idiv` leaves when it rewrites the entry `lo` at `st[sp-2]`. -/
def idivResult (s : PSC) (lo : Entry) (ty : Nat) (expr : String) : PSC :=
  { s with st := stSet s.st (s.sp - 2) { lo with type := ty, expr := some expr, seq := s.seq + 1 }
           sp := s.sp - 1, seq := s.seq + 1 }

/-- The trace stack holding the literals of the tokens `-2147483648` and `-1`. -/
def idivOverflowState : PSC :=
  pushEntry TYPE_INTLIT (intStr (-1))
    (pushEntry TYPE_INTLIT (intStr (-2147483648)) (PSC.init { devar := true, coverage := false } []))

/-- A trace stack for the witness: the literals of the tokens `-5` and `2`. -/
def idivWitnessState : PSC :=
  pushEntry TYPE_INTLIT (intStr 2)
    (pushEntry TYPE_INTLIT (intStr (-5)) (PSC.init { devar := true, coverage := false } []))

/-- A trace stack for the witness: `true {1} {2}`. -/
def ifelseWitnessState : PSC :=
  { PSC.init { devar := true, coverage := false } [] with
    st := [{ type := TYPE_BOOLEAN, expr := some "true", tokens := none, seq := 1 },
           { type := TYPE_TOKENS, expr := none, tokens := some [{ token := "1", lnbr := 1 }], seq := 2 },
           { type := TYPE_TOKENS, expr := none, tokens := some [{ token := "2", lnbr := 1 }], seq := 3 }]
    sp := 3, seq := 3 }

/-- A state for the witness: inside a block, `_0 _1 aload pop`. -/
def aloadWitnessState : PSC :=
  { PSC.init { devar := true, coverage := false } [] with
    lex := { stack := [[{ token := "pop", lnbr := 7 }]], raw := [], token := some "aload", lnbr := 6 }
    st := [{ type := TYPE_UNKNOWN, expr := some "_0", tokens := none, seq := 1 },
           { type := TYPE_ARRAY, expr := some "_1", tokens := none, seq := 2 }]
    sp := 2, seq := 2 }

/-- The tokens of a source text, all on line `n`. -/
def tokensOnLine (n : Nat) (ts : List String) : List Token :=
  ts.map (fun t => { token := t, lnbr := n })

/-- The source `/f { /arr 3 array def arr 0 get arr 0 5 put /x exch def } bind def`:
the element 0 of `arr` is read, then overwritten with 5, and the value read is
stored in `x`. -/
def progGetPut : List Token :=
  tokensOnLine 1 ["/f", "\x7b", "/arr", "3", "array", "def", "arr", "0", "get", "arr", "0", "5",
    "put", "/x", "exch", "def", "\x7d", "bind", "def"]

/-- The source `/f { /arr 3 array def arr 0 get arr 0 5 put } bind def`: as
`progGetPut`, the value read being left on the operand stack. -/
def progGetPutStack : List Token :=
  tokensOnLine 1 ["/f", "\x7b", "/arr", "3", "array", "def", "arr", "0", "get", "arr", "0", "5",
    "put", "\x7d", "bind", "def"]

/-- The source `/f { /x exch counttomark /n exch def def } bind def`: the number
of operands above the mark is stored in `n` while the operand that was on top
is still on the stack, and then this operand is stored in `x`. -/
def progCountToMark : List Token :=
  tokensOnLine 1 ["/f", "\x7b", "/x", "exch", "counttomark", "/n", "exch", "def", "def", "\x7d",
    "bind", "def"]

/-- The state in which the first pass of a global `bind` compiles the body
`tkns` (lines 1188-1204). -/
def pass1Start (tkns : List Token) (s : PSC) : PSC :=
  ctxpush tkns { s with allowunknown := true, tvarno := 0, seq := 0, dict := seedDict,
                        branchno := -1 }

/-- The source `/A { B } bind def` on line 1 and `/B { 1 } bind def` on line 2:
the top-level procedure `A` calls the top-level procedure `B` defined later. -/
def progForwardTop : List Token :=
  tokensOnLine 1 ["/A", "\x7b", "B", "\x7d", "bind", "def"] ++
  tokensOnLine 2 ["/B", "\x7b", "1", "\x7d", "bind", "def"]

/-- The source `/A { /f { g } bind def /g { 1 } bind def f } bind def`: the two
definitions stand in the body of `A` at dictionary level 0, where `bind` takes
each of them for the definition of a global function (line 1186). -/
def progForwardLevel0 : List Token :=
  tokensOnLine 1 ["/A", "\x7b", "/f", "\x7b", "g", "\x7d", "bind", "def",
    "/g", "\x7b", "1", "\x7d", "bind", "def", "f", "\x7d", "bind", "def"]

/-- Type and expression of an entry, what `clone` keeps. -/
def Entry.te (e : Entry) : Nat × Option String := (e.type, e.expr)

/-- A state for the witnesses of `roll`: `_0 _1 _2 3 1`. -/
def rollWitnessState : PSC :=
  { PSC.init { devar := true, coverage := false } [] with
    st := [{ type := TYPE_UNKNOWN, expr := some "_0", tokens := none, seq := 1 },
           { type := TYPE_UNKNOWN, expr := some "_1", tokens := none, seq := 2 },
           { type := TYPE_UNKNOWN, expr := some "_2", tokens := none, seq := 3 },
           { type := TYPE_INTLIT, expr := some "3", tokens := none, seq := 4 },
           { type := TYPE_INTLIT, expr := some "1", tokens := none, seq := 5 }]
    sp := 5, seq := 5, tvarno := 3 }

/-- The test of `$.dup` for an entry that is duplicated as it is: a number or
string literal, or an expression that is a temporary. -/
def dupAsIs (t : Entry) : Bool :=
  hasType t.type (TYPE_INTLIT ||| TYPE_NUMLIT ||| TYPE_STRLIT) || RE.testStart reTemp (exprStr t.expr)

/-- A state for the witness of `copy`: `_0 _1 _2 2`. -/
def copyWitnessState : PSC :=
  { rollWitnessState with
    st := rollWitnessState.st.set 3 { type := TYPE_INTLIT, expr := some "2", tokens := none, seq := 4 }
    sp := 4 }

/-- A state for the witness of `index`: `_0 _1 _2 1`. -/
def indexWitnessState : PSC :=
  { rollWitnessState with
    st := rollWitnessState.st.set 3 { type := TYPE_INTLIT, expr := some "1", tokens := none, seq := 4 }
    sp := 4 }

/-- The source `/g { pop } bind def` on line 1 and `/f { 1 1 3 //g for } bind def`
on line 2: the body of the loop is the immediately evaluated name `g`. -/
def progForName : List Token :=
  tokensOnLine 1 ["/g", "\x7b", "pop", "\x7d", "bind", "def"] ++
  tokensOnLine 2 ["/f", "\x7b", "1", "1", "3", "//g", "for", "\x7d", "bind", "def"]

/-- The same loop with a captured block as body:
`/f { 1 1 3 { pop } for } bind def`. -/
def progForBlock : List Token :=
  tokensOnLine 2 ["/f", "\x7b", "1", "1", "3", "\x7b", "pop", "\x7d", "for", "\x7d", "bind", "def"]

/-- The state in which `for` is reached in the body of `progForName`: the
trace stack holds `1 1 3 //g`. -/
def forNameState : PSC :=
  { PSC.init { devar := false, coverage := false } [] with
    st := [{ type := TYPE_INTLIT, expr := some "1", tokens := none, seq := 1 },
           { type := TYPE_INTLIT, expr := some "1", tokens := none, seq := 2 },
           { type := TYPE_INTLIT, expr := some "3", tokens := none, seq := 3 },
           { type := TYPE_IENAME, expr := some "$0.g", tokens := none, seq := 4 }]
    sp := 4
    seq := 4 }

/-- The source `/f { /x 1 def << x pop >> } bind def`: the body of the
dictionary literal leaves nothing on the operand stack, its only line is the
declaration `var _0=$0.x;`. -/
def progDictDeclOnly : List Token :=
  tokensOnLine 1 ["/f", "\x7b", "/x", "1", "def", "<<", "x", "pop", ">>", "\x7d", "bind", "def"]

/-- The source `/f { << /a >> } bind def`: a key without a value. -/
def progDictKeyOnly : List Token :=
  tokensOnLine 1 ["/f", "\x7b", "<<", "/a", ">>", "\x7d", "bind", "def"]

/-- The source `/f { << /a 1 /b (x) >> } bind def`. -/
def progDictStatic : List Token :=
  tokensOnLine 1 ["/f", "\x7b", "<<", "/a", "1", "/b", "(x)", ">>", "\x7d", "bind", "def"]

/-- The source `/f { << 1 2 >> } bind def`: the key is not a name. -/
def progDictRuntime : List Token :=
  tokensOnLine 1 ["/f", "\x7b", "<<", "1", "2", ">>", "\x7d", "bind", "def"]

/-- The body of `/A { /f { 1 } bind def x } bind def`: a procedure is bound at
dictionary level 0 inside the body, then the unknown name `x` is used. -/
def bodyNestedBind : List Token :=
  tokensOnLine 1 ["/f", "\x7b", "1", "\x7d", "bind", "def", "x"]

/-- The body of `/A { /x 1 def /f { 1 } bind def x } bind def`: as
`bodyNestedBind`, the name `x` being defined first in the same body. -/
def bodyNestedBindDefined : List Token :=
  tokensOnLine 1 ["/x", "1", "def", "/f", "\x7b", "1", "\x7d", "bind", "def", "x"]

/-- The source `/A { /x 1 def /f { 1 } bind def x } bind def`: the body
defines `x`, binds a procedure and then uses `x`. -/
def progNestedBind : List Token :=
  tokensOnLine 1 ["/A", "\x7b", "/x", "1", "def", "/f", "\x7b", "1", "\x7d", "bind", "def", "x",
    "\x7d", "bind", "def"]

/-- The same source without the procedure `f`. -/
def progNoNestedBind : List Token :=
  tokensOnLine 1 ["/A", "\x7b", "/x", "1", "def", "x", "\x7d", "bind", "def"]

/-- The same source with the body inside `1 dict begin ... end`: the procedure
`f` is bound at dictionary level 1. -/
def progNestedBindDict : List Token :=
  tokensOnLine 1 ["/A", "\x7b", "1", "dict", "begin", "/x", "1", "def", "/f", "\x7b", "1", "\x7d",
    "bind", "def", "x", "end", "\x7d", "bind", "def"]

/-- The state in which the first pass of `bind` starts for the top-level
procedure `A` with the body `body`: the name is tracked, the entry of the body
has just been taken off the trace stack. -/
def topLevelBindState (body : List Token) : PSC :=
  { PSC.init { devar := true, coverage := false } [] with
    st := [{ type := TYPE_IDENT, expr := some "\"A\"", tokens := none, seq := 1 },
           { type := TYPE_TOKENS, expr := none, tokens := some body, seq := 2 }]
    sp := 1
    seq := 2 }

/-- The tokens that reach the identifier branch of `compile` (lines 830-881):
not a bracket that opens a block or a literal, not a number, a string or a name
literal, and not an operator of the table `$`. -/
def reachesIdent (comp : Comp) (tkn : String) : Bool :=
  tkn != "\x7b" && tkn != "[" && tkn != "<<" &&
  (match tkn.data with
   | [] => false
   | c :: _ => !(c == '-' || c.isDigit || c == '.') && !(c == '(') && !(c == '/')) &&
  (opTable comp tkn).isNone && !decide (tkn ∈ opNames) && !decide (tkn ∈ protoNames)

/-- The token region `{ }`: an empty block. -/
def regionEmptyBlock : List Token := tokensOnLine 1 ["\x7b", "\x7d"]

/-- The token region `1 2 add 7`. -/
def regionSum : List Token := tokensOnLine 1 ["1", "2", "add", "7"]

/-- The child state in which the compilation of `regionSum` ends when the
parent is `flushWitnessState`. -/
def regionSumChild : PSC :=
  match compile 10 (ctxpush regionSum flushWitnessState) with
  | .ok s => s
  | .error _ => flushWitnessState

/-- The token region `1.5 16#FF mul sqrt 2 3 moveto`: numbers that are not
decimal integers and operators that emit calls. -/
def regionReal : List Token :=
  tokensOnLine 1 ["1.5", "16#FF", "mul", "sqrt", "2", "3", "moveto"]

/-- The child state in which the compilation of `regionReal` ends when the
parent is `flushWitnessState`. -/
def regionRealChild : PSC :=
  match compile 10 (ctxpush regionReal flushWitnessState) with
  | .ok s => s
  | .error _ => flushWitnessState

/-- The text pushed by a line of the form `$k[$j++]=e;` with `e` not empty;
`none` for every other line. -/
def pushText (code : String) : Option String :=
  if startsWithL "$k[$j++]=".data code.data && code.data.getLast? == some ';'
      && 10 < code.data.length then
    some (String.mk ((code.data.drop 9).dropLast))
  else none

/-- A declaration that does not read the real stack, as the scan of an array
literal recognises it: `var <name>=` and no `$k[--$j]` behind it on the line. -/
def isDeclLine (l : Line) : Bool :=
  RE.testStart reVarDecl l.code && !RE.testStart reVarPop l.code

/-- A line of a static array body: such a declaration or a push `$k[$j++]=e;`. -/
def isStaticLine (l : Line) : Bool := isDeclLine l || (pushText l.code).isSome

/-- The expressions pushed by the lines of a static array body, in order. -/
def staticExprs (lines : List Line) : List String :=
  lines.filterMap (fun l => pushText l.code)

/-- The declarations among the lines of a static array body, in order. -/
def declLines (lines : List Line) : List Line := lines.filter isDeclLine

/-- The texts joined with commas. -/
def joinComma : List String → String
  | [] => ""
  | [x] => x
  | x :: y :: r => x ++ "," ++ joinComma (y :: r)

/-- A state for the witness of the array literal: two tracked entries, and the
tokens `1 2 3 ]` still to be read behind the opening bracket. -/
def arrayWitnessState : PSC :=
  { flushWitnessState with
    lex := { stack := [], raw := tokensOnLine 1 ["1", "2", "3", "]"], token := some "[",
             lnbr := 1 } }

/-- The lexer of `arrayWitnessState` once the tokens of the literal are read. -/
def arrayWitnessLex : Lexer := (readtokens "]" arrayWitnessState.lex).2

/-- The child state in which the body `1 2 3` is compiled. -/
def arrayWitnessChild : PSC :=
  match compile 10 (ctxpush (tokensOnLine 1 ["1", "2", "3"])
      { arrayWitnessState with lex := arrayWitnessLex }) with
  | .ok s => s
  | .error _ => arrayWitnessState

/-- The lines and the state that `ctxpop` returns for `arrayWitnessChild`. -/
def arrayWitnessPop : List Line × PSC :=
  match ctxpop arrayWitnessChild with
  | .ok r => r
  | .error _ => ([], arrayWitnessState)

/-- Whether `p` is a final segment of `s`. -/
def endsWithL (p s : List Char) : Bool := startsWithL p.reverse s.reverse

/-- The change of the real-stack pointer `$j` that a line of a block performs:
`$j--;` pops one value, a coalesced `$j-=k;` pops `k`, a line `$k[$j++]=...`
pushes one, a declaration `var ...=$k[--$j];` pops one; every other line leaves
the pointer alone. -/
def lineEffect (code : String) : Int :=
  if code = "$j--;" then -1
  else if RE.testStart reDecr code then -(firstNumber code : Int)
  else if startsWithL "$k[$j++]=".data code.data then 1
  else if startsWithL "var ".data code.data && endsWithL "=$k[--$j];".data code.data then -1
  else 0

/-- The net number of real-stack pushes minus pops that the lines of a block
perform. -/
def net (block : List Line) : Int := (block.map (fun l => lineEffect l.code)).sum

/-- A value of the operand stack as a direct interpretation of straight-line
code sees it: an integer that is known as a literal, or any other value. -/
inductive RVal where
  | lit (n : Int)
  | other
  deriving DecidableEq, Repr

/-- The operators of straight-line code: the push of an integer literal, the
push of a string literal, and the operators on the operand stack. -/
inductive SLOp where
  | int (n : Int)
  | str (t : String)
  | pop
  | dup
  | exch
  | copy
  | index
  | roll
  | add
  | sub
  | mul
  | div
  | mod
  deriving DecidableEq, Repr

/-- The token of the source for an operator. -/
def SLOp.token : SLOp → String
  | .int n => intStr n
  | .str t => "(" ++ t ++ ")"
  | .pop => "pop"
  | .dup => "dup"
  | .exch => "exch"
  | .copy => "copy"
  | .index => "index"
  | .roll => "roll"
  | .add => "add"
  | .sub => "sub"
  | .mul => "mul"
  | .div => "div"
  | .mod => "mod"

/-- The tokens of a sequence of operators, all on line `lnbr`. -/
def slTokens (lnbr : Nat) (ops : List SLOp) : List Token :=
  ops.map (fun op => { token := op.token, lnbr := lnbr })

/-- Direct interpretation of one operator on the operand stack (top first);
`none` when the operand stack is too short or when the count of `copy`, `index`
or `roll` is not an integer known as a literal.  `n d roll` shifts the top `n`
values circularly by `d` positions, a positive `d` being towards the top. -/
def interpStep : SLOp → List RVal → Option (List RVal)
  | .int n, R => some (.lit n :: R)
  | .str _, R => some (.other :: R)
  | .pop, _ :: R => some R
  | .dup, v :: R => some (v :: v :: R)
  | .exch, a :: b :: R => some (b :: a :: R)
  | .copy, .lit n :: R =>
    if 0 ≤ n ∧ n.toNat ≤ R.length then some (R.take n.toNat ++ R) else none
  | .index, .lit k :: R =>
    if 0 ≤ k then (R[k.toNat]?).map (fun v => v :: R) else none
  | .roll, .lit d :: .lit n :: R =>
    if 0 ≤ n ∧ n.toNat ≤ R.length then
      some ((R.take n.toNat).rotate (d % n).toNat ++ R.drop n.toNat)
    else none
  | .add, _ :: _ :: R => some (.other :: R)
  | .sub, _ :: _ :: R => some (.other :: R)
  | .mul, _ :: _ :: R => some (.other :: R)
  | .div, _ :: _ :: R => some (.other :: R)
  | .mod, _ :: _ :: R => some (.other :: R)
  | _, _ => none

/-- Direct interpretation of a sequence of operators. -/
def interp : List SLOp → List RVal → Option (List RVal)
  | [], R => some R
  | op :: ops, R =>
    match interpStep op R with
    | some R1 => interp ops R1
    | none => none

/-- Whether the operator, when it is `roll` on the operand stack `R`, has a
shift `d` with `-n <= d <= n`. -/
def rollInRange : SLOp → List RVal → Bool
  | .roll, .lit d :: .lit n :: _ => decide (-n ≤ d) && decide (d ≤ n)
  | _, _ => true

/-- Whether every `roll` of the sequence, interpreted from `R`, has a shift
`d` with `-n <= d <= n`, and every integer literal is below `2^53` in
magnitude. -/
def inRange : List SLOp → List RVal → Bool
  | [], _ => true
  | op :: ops, R =>
    rollInRange op R &&
    (match op with
     | .int n => decide (n.natAbs < maxSafe)
     | _ => true) &&
    (match interpStep op R with
     | some R1 => inRange ops R1
     | none => true)

/-- The value that direct interpretation has for a tracked entry: an entry of
type integer literal stands for the integer of its text. -/
def absVal (e : Entry) : RVal :=
  if e.type = TYPE_INTLIT then
    match e.expr.bind intOfText with
    | some n => .lit n
    | none => .other
  else .other

/-- An expression that does not end with a read of the real stack (`$j]`):
bound to a temporary by `dup`, it gives a line that is not a pop. -/
def goodExpr (x : String) : Bool := !endsWithL "$j]".data x.data

/-- A tracked entry as the compiler makes them: it has an expression, the
expression does not end with a read of the real stack (`$j]`), and the
expression of an integer literal is the decimal text of its value. -/
def goodEntry (e : Entry) : Bool :=
  match e.expr with
  | none => false
  | some x =>
    goodExpr x &&
    (e.type != TYPE_INTLIT ||
      (match intOfText x with
       | some n => x == intStr n
       | none => false))

/-- A state whose tracked entries exist and are as the compiler makes them. -/
def trackerOk (s : PSC) : Bool := decide (s.sp ≤ s.st.length) && s.tracked.all goodEntry

/-- The number of pops that the last line of the block stands for when it is a
decrement of the real-stack pointer: 1 for `$j--;`, `k` for a coalesced
`$j-=k;`, 0 for every other line. -/
def decrCount (block : List Line) : Nat :=
  match block.getLast? with
  | some l =>
    if l.code = "$j--;" then 1
    else if RE.testStart reDecr l.code then firstNumber l.code
    else 0
  | none => 0

/-- Whether `m` further pops can still be counted in the last line of the
block: the count stays below `2^53`. -/
def decrRoom (block : List Line) (m : Nat) : Bool := decide (decrCount block + m < maxSafe)

/-- The operand stack (top first) that a state of the compiler stands for: the
values of the tracked entries above `b` values of the real stack, of which
nothing is known. -/
def logical (s : PSC) (b : Nat) : List RVal :=
  (s.tracked.map absVal).reverse ++ List.replicate b RVal.other

/-- What the compilation of one operator has to achieve, from the state `s`
that stands for an operand stack with `b` values on the real stack: it ends in
a state that stands for the operand stack `R1`, the change of the real-stack
pointer by the emitted lines being the change of the number of values on the
real stack. -/
def StepOk (s : PSC) (b m : Nat) (R1 : List RVal) (res : Except Err PSC) : Prop :=
  ∃ (s1 : PSC) (b1 : Nat), res = .ok s1 ∧ trackerOk s1 = true ∧ logical s1 b1 = R1 ∧
    net s1.block - net s.block = (b1 : Int) - (b : Int) ∧ s1.lex = s.lex ∧
    decrRoom s1.block (m - 1) = true

/-- The operator `pop` compiled `k` times in a row. -/
def popN : Nat → PSC → Except Err PSC
  | 0, s => .ok s
  | k + 1, s =>
    match popN k s with
    | .ok s1 => opPop s1
    | .error e => .error e

/-- The line that `k` consecutive pops on an empty trace stack leave. -/
def popLineCode (k : Nat) : String := if k = 1 then "$j--;" else "$j-=" ++ natStr k ++ ";"

/-- Whether the last line of the block is a decrement of the real-stack
pointer, `$j--;` or `$j-=k;`. -/
def lastIsDecrement (block : List Line) : Bool :=
  match block.getLast? with
  | some l => l.code == "$j--;" || RE.testStart reDecr l.code
  | none => false

/-- The state in which the two top entries are replaced by the entry `e`, the
stamp counter becoming `q`. -/
def replaceTop2 (s : PSC) (e : Entry) (q : Nat) : PSC :=
  { s with st := stSet s.st (s.sp - 2) e, sp := s.sp - 1, seq := q }

/-- The type `binarith` gives its result for the operands `a` (below) and `b`
(top). -/
def arithType (a b : Entry) (op : String) : Nat :=
  if hasType b.type TYPE_INTTYP && hasType a.type TYPE_INTTYP && op != "/" then TYPE_INTVAL
  else TYPE_NUMVAL

/-- Whether an entry is of a numeric type. -/
def isNumeric (e : Entry) : Bool := hasType e.type TYPE_NUMTYP

/-- Whether an entry is of type boolean. -/
def isBoolean (e : Entry) : Bool := hasType e.type TYPE_BOOLEAN

/-- A state with two tracked entries of the given types, with the expressions
`a` (below) and `b` (top). -/
def pairState (ta tb : Nat) : PSC :=
  pushEntry tb "b" (pushEntry ta "a" (PSC.init { devar := true, coverage := false } []))

/-- What the `()` branch collects from the text of a literal that lies on one
line: `e` says that a backslash has just been passed over.  The backslash is
left out and the character behind it is taken as it is; a carriage return is
left out; a double quote that is not escaped gets a backslash. -/
def escText : Bool → List Char → List Char
  | _, [] => []
  | true, c :: r => if c == '\r' then escText true r else c :: escText false r
  | false, c :: r =>
    if c == '\r' then escText false r
    else if c == '\\' then escText true r
    else if c == '"' then '\\' :: '"' :: escText false r
    else c :: escText false r

/-- The nesting level after the text `body`, starting at level `l`, where an
escaped character does not count: `none` when a parenthesis that is not escaped
closes level 1 inside the text, or when the text ends in a backslash. -/
def escLevel : Bool → Int → List Char → Option Int
  | e, l, [] => if e then none else some l
  | true, l, c :: r => if c == '\r' then escLevel true l r else escLevel false l r
  | false, l, c :: r =>
    if c == '\r' then escLevel false l r
    else if c == '\\' then escLevel true l r
    else if c == '(' then escLevel false (l + 1) r
    else if c == ')' then (if l - 1 = 0 then none else escLevel false (l - 1) r)
    else escLevel false l r

/-- The text of a literal without backslash as the token holds it: carriage
returns are left out and each double quote gets a backslash. -/
def quoteText : List Char → List Char
  | [] => []
  | c :: r =>
    if c == '\r' then quoteText r
    else if c == '"' then '\\' :: '"' :: quoteText r
    else c :: quoteText r

/-- The nesting level after a text without backslash, starting at level `l`:
`none` when a closing parenthesis closes level 1 inside the text. -/
def levelAfter : Int → List Char → Option Int
  | l, [] => some l
  | l, c :: r =>
    if c == '(' then levelAfter (l + 1) r
    else if c == ')' then (if l - 1 = 0 then none else levelAfter (l - 1) r)
    else levelAfter l r

/-- The backslash token in front of the tokens still to come, when an escape
is open. -/
def escPrefix (e : Bool) : List String := if e then ["\\"] else []

/-- A lexer that has returned the token `a` of the line `a (x (y) "z" % [ ) b`. -/
def parenWitness : PSLEX := (PSLEX.init "a (x (y) \"z\" % [ ) b").next.1

/-- The same lexer standing on the opening parenthesis. -/
def parenWitnessFound : PSLEX := { parenWitness with idx := 2 }

/-- A lexer at the start of the text `(a\)b \"c\\) d`. -/
def escapeWitness : PSLEX := PSLEX.init "(a\\)b \\\"c\\\\) d"

/-- The same lexer standing on the opening parenthesis of line 1. -/
def escapeWitnessFound : PSLEX := escapeWitness._next.2

/-- A hexadecimal digit: `0-9`, `a-f`, `A-F`. -/
def isHexDigit (c : Char) : Bool :=
  (48 ≤ c.toNat && c.toNat ≤ 57) || (97 ≤ c.toNat && c.toNat ≤ 102) ||
  (65 ≤ c.toNat && c.toNat ≤ 70)

/-- A character of the content of a hexadecimal literal: a digit or white
space. -/
def isHexContent (c : Char) : Bool := isHexDigit c || isJsSpace c

/-- The text without its white space. -/
def dropSpace (x : List Char) : List Char := x.filter (fun c => !isJsSpace c)

/-- The text that `_next` finds behind the line breaks at `off`. -/
def PSLEX.rest (l : PSLEX) : List Char := (l.str.drop l.off).dropWhile (fun c => c == '\n')

/-- The number of line breaks at `off`. -/
def PSLEX.breaks (l : PSLEX) : Nat := ((l.str.drop l.off).takeWhile (fun c => c == '\n')).length

/-- The line that `_next` cuts into tokens. -/
def PSLEX.line (l : PSLEX) : List Char := l.rest.takeWhile (fun c => c != '\n')

/-- The digits with a `0` appended when their number is odd. -/
def padEven (h : List Char) : List Char := if h.length % 2 = 1 then h ++ ['0'] else h

/-- A lexer at the start of a text with a literal over three lines. -/
def hexWitness : PSLEX := PSLEX.init "<48 65\n\n 6c7> x"

/-- The text of the line that starts at position `p`. -/
def lineAt (str : List Char) (p : Nat) : List Char :=
  (str.drop p).takeWhile (fun c => c != '\n')

/-- The 1-based index of the line that holds position `p`: one more than the
number of line breaks before `p`. -/
def lineNo (str : List Char) (p : Nat) : Nat := (str.take p).count '\n' + 1

/-- The counter `lnr` is the number of line breaks before `off`, while `off`
is inside the text. -/
def LineCount (l : PSLEX) : Prop :=
  l.off ≤ l.str.length → l.lnr = (l.str.take l.off).count '\n'

/-- The position `off` is the start of the text, or stands behind a line
break, or is behind the end of the text. -/
def AtBreak (l : PSLEX) : Prop :=
  l.off = 0 ∨ l.str[l.off - 1]? = some '\n' ∨ l.str.length < l.off

/-- The line at hand is the line that starts at position `p`: the position
`off` up to which the text is read stands directly behind the line break that
ends this line, the tokens `tks` are those of the line, and `lnr` is the index
of the line. -/
def OnLine (l : PSLEX) (p : Nat) : Prop :=
  p < l.str.length ∧ (p = 0 ∨ l.str[p - 1]? = some '\n') ∧
  l.tks = tokenize (lineAt l.str p) ∧ l.lnr = lineNo l.str p ∧
  l.off = p + (lineAt l.str p).length + 1

/-- A token that is not `%` stands at `idx`. -/
def TokenAt (l : PSLEX) : Prop := ∃ t, l.tks[l.idx]? = some t ∧ t ≠ "%"

/-- What holds between two calls of `next`: the counter follows the position,
and when a token is to be had on the line at hand, the tokens are those of a
line of the text and `lnr` is its index. -/
def LexInv (l : PSLEX) : Prop :=
  LineCount l ∧ AtBreak l ∧
  (TokenAt { l with idx := skipBlanks l.tks l.idx } → ∃ p, OnLine l p)

/-- The lexer after `n` calls of `next` none of which has thrown. -/
def PSLEX.reach : Nat → PSLEX → Option PSLEX
  | 0, l => some l
  | n + 1, l =>
    match l.next with
    | (l1, .ok _) => PSLEX.reach n l1
    | (_, .error _) => none

/-- A text with two equal lines, two blank lines, a comment line, and a string
that goes on over the end of line 6. -/
def lineWitnessText : String := "a\na\n\n\n% c\n  a (b\\\nc) d"

/-- The lexer after the first three tokens `a` of that text. -/
def lineWitness : PSLEX := (PSLEX.init lineWitnessText).next.1.next.1.next.1

/-- The lexer after `n` calls of `next`. -/
def Lexer.nexts : Nat → Lexer → Lexer
  | 0, l => l
  | n + 1, l => Lexer.nexts n l.next.2

/-- A lexer with two tokens left in the raw text and one outer stream. -/
def streamWitness : Lexer :=
  { stack := [[{ token := "outer", lnbr := 7 }]]
    raw := [{ token := "raw1", lnbr := 8 }, { token := "raw2", lnbr := 9 }]
    token := none, lnbr := 0 }

/-- A stream of two tokens. -/
def streamWitnessTokens : List Token := [{ token := "a", lnbr := 3 }, { token := "b", lnbr := 4 }]

/-- Lines with the given texts, all of source line 1. -/
def codeLines (cs : List String) : List Line := cs.map (fun c => { code := c, lnbr := 1, seq := 0 })

/-- The texts of a list of lines. -/
def lineCodes (ls : List Line) : List String := ls.map (fun l => l.code)

/-- The source `/f { 3 -5 sub } bind def`. -/
def progSubNegative : List Token :=
  tokensOnLine 1 ["/f", "\x7b", "3", "-5", "sub", "\x7d", "bind", "def"]

/-- The source `/f { -5 neg } bind def`. -/
def progNegNegative : List Token :=
  tokensOnLine 1 ["/f", "\x7b", "-5", "neg", "\x7d", "bind", "def"]

/-- The source `/f { dup 5 true {exch} if } bind def`: the operand is
duplicated, 5 is pushed, and the two top operands are exchanged. -/
def progExchIf : List Token :=
  tokensOnLine 1 ["/f", "\x7b", "dup", "5", "true", "\x7b", "exch", "\x7d", "if", "\x7d", "bind",
    "def"]

/-- The source `/x-y 1 def /x-z 2 def /f { x-y x-z /x-y exch def /x-z exch def } bind def`:
the body of `f` swaps the values of `x-y` and `x-z`. -/
def progSwapQuoted : List Token :=
  tokensOnLine 1 ["/x-y", "1", "def", "/x-z", "2", "def", "/f", "\x7b", "x-y", "x-z", "/x-y",
    "exch", "def", "/x-z", "exch", "def", "\x7d", "bind", "def"]

/-- The same source with the names `xy` and `xz`. -/
def progSwapPlain : List Token :=
  tokensOnLine 1 ["/xy", "1", "def", "/xz", "2", "def", "/f", "\x7b", "xy", "xz", "/xy",
    "exch", "def", "/xz", "exch", "def", "\x7d", "bind", "def"]

/-- The line that constructs a static array, for the temporary number `n` and
the joined expressions `code`. -/
def constructionCode (n : Nat) (code : String) : String :=
  "var " ++ tvar n ++ "=$a([" ++ code ++ "]);"

/-- The lines that the rewrite of a static array body `lines` adds to the
block: the declarations of the body in their order, then the construction of
the array with the temporary number `n`. -/
def staticArrayOutput (lines : List Line) (n : Nat) : List Line :=
  declLines lines ++
    [{ code := constructionCode n (joinComma (staticExprs lines)), lnbr := 1, seq := 0 }]

/-- The source `/f { [ [ 1 2 ] pop ] } bind def`: the lines of the body of the
outer literal are the output of the rewrite of the inner one, the line
`var _0=$a([1,2]);`. -/
def progStaticAgain : List Token :=
  tokensOnLine 1 ["/f", "\x7b", "[", "[", "1", "2", "]", "pop", "]", "\x7d", "bind", "def"]

/-- The source `/f { << << /a 1 >> pop >> } bind def`: the lines of the body
of the outer literal are the output of the rewrite of the inner one. -/
def progStaticDictAgain : List Token :=
  tokensOnLine 1 ["/f", "\x7b", "<<", "<<", "/a", "1", ">>", "pop", ">>", "\x7d", "bind", "def"]

/-- The source `/f { << /a 1 >> } bind def`. -/
def progStaticDictOnce : List Token :=
  tokensOnLine 1 ["/f", "\x7b", "<<", "/a", "1", ">>", "\x7d", "bind", "def"]

/-- A static body: a declaration and two pushes. -/
def staticAgainWitness : List Line :=
  codeLines ["var _0=$0.x;", "$k[$j++]=1;", "$k[$j++]=_0;"]

/-- The text of a call of a helper: `$`, the name, `(`, the first argument,
`,`, the second argument, `)`. -/
def callText (nm A B : List Char) : List Char :=
  '$' :: (nm ++ '(' :: (A ++ ',' :: (B ++ [')'])))

/-- One of the names `an`, `or`, `xo`. -/
def isHelperName (nm : List Char) : Bool :=
  nm == "an".data || nm == "or".data || nm == "xo".data

/-- A text of the class `[\w$]+`. -/
def isIdentText (A : List Char) : Bool := !A.isEmpty && A.all isDollarWordChar

/-- The text by which `unanorxo` replaces the call `callText nm A B`. -/
def replText (nm A B : List Char) : List Char :=
  if nm = "an".data then "(".data ++ A ++ "&&".data ++ B ++ ")".data
  else if nm = "or".data then "(".data ++ A ++ "||".data ++ B ++ ")".data
  else "(!".data ++ A ++ "&&".data ++ B ++ "||".data ++ A ++ "&&!".data ++ B ++ ")".data

/-- A Boolean expression of JavaScript over variables. -/
inductive BExp where
  | var (x : List Char)
  | not (e : BExp)
  | and (e f : BExp)
  | or (e f : BExp)

/-- The value of a Boolean expression, the variables holding Boolean values. -/
def BExp.eval (env : List Char → Bool) : BExp → Bool
  | .var x => env x
  | .not e => !(e.eval env)
  | .and e f => e.eval env && f.eval env
  | .or e f => e.eval env || f.eval env

/-- Parentheses around a text, where they are needed. -/
def parenIf (b : Bool) (t : List Char) : List Char :=
  if b then '(' :: (t ++ [')']) else t

/-- The JavaScript text of a Boolean expression as an operand at a level of
precedence: 0 an operand of `||`, 1 an operand of `&&`, 2 an operand of `!`.
Both binary operators group to the left. -/
def BExp.text : Nat → BExp → List Char
  | _, .var x => x
  | _, .not e => '!' :: e.text 2
  | p, .and e f => parenIf (decide (1 < p)) (e.text 1 ++ "&&".data ++ f.text 2)
  | p, .or e f => parenIf (decide (0 < p)) (e.text 0 ++ "||".data ++ f.text 1)

/-- The helper calls of the witness. -/
def unanorxoWitness : String := "x=$xo(a,$1);if($an(_0,b))"

/-- The state in which the compilation of the operators `ops` starts when
nothing is tracked and nothing has been emitted: their tokens are the pushed
token stream. -/
def slStart (ops : List SLOp) : PSC :=
  { PSC.init { devar := false, coverage := false } [] with
    lex := { stack := [slTokens 1 ops], raw := [], token := none, lnbr := 0 } }

/-- The source `0 1 0 0 3 -4 roll copy`: the roll shifts the top three values
by four positions. -/
def rollProg : List SLOp :=
  [.int 0, .int 1, .int 0, .int 0, .int 3, .int (-4), .roll, .copy]

/-- A sequence with every operator of straight-line code. -/
def slWitness : List SLOp :=
  [.pop, .int 2, .exch, .dup, .add, .int 2, .copy, .int 1, .index, .int 3, .int (-1), .roll,
   .str "ab", .pop, .mul, .sub, .int 3, .div, .int 2, .mod, .pop, .pop, .pop, .pop, .pop]

/-- A name for a procedure: an identifier (`/^[A-Za-z_]\w*$/`) that is not a key
of the operator table, not inherited from `Object.prototype` and not one of the
seeded symbols. -/
def isProcName (x : String) : Bool :=
  RE.testStart reIdent x && !decide (x ∈ opNames) && !decide (x ∈ protoNames) &&
  (dictGet seedDict x).isNone

/-- The body `1 dict begin /f { g } bind def /g { 1 } bind def f end`: the
procedure `f` calls the procedure `g`, which the same body defines later. -/
def forwardBody (f g : String) : List Token :=
  tokensOnLine 1 ["1", "dict", "begin", "/" ++ f, "\x7b", g, "\x7d", "bind", "def",
    "/" ++ g, "\x7b", "1", "\x7d", "bind", "def", f, "end"]

/-- The source `/A { 1 dict begin /f { g } bind def /g { 1 } bind def f end } bind def`. -/
def progForward (A f g : String) : List Token :=
  tokensOnLine 1 ["/" ++ A, "\x7b"] ++ forwardBody f g ++ tokensOnLine 1 ["\x7d", "bind", "def"]

/-! # Theorems -/

theorem flushEntries_ok (lnbr : Nat) (es : List Entry) :
    ∀ (xs : List String) (b : List Line) (q : Nat), es.map (·.expr) = xs.map some →
      flushEntries lnbr es b q = .ok (b ++ pushLines lnbr q xs, q + es.length) := by
  induction es with
  | nil =>
    intro xs b q h
    cases xs with
    | nil => simp [flushEntries, pushLines]
    | cons x xs => simp at h
  | cons e es ih =>
    intro xs b q h
    cases xs with
    | nil => simp at h
    | cons x xs =>
      simp only [List.map_cons, List.cons.injEq] at h
      obtain ⟨h1, h2⟩ := h
      simp only [flushEntries, h1, pushLines, List.length_cons]
      rw [ih xs _ _ h2]
      simp [Nat.add_assoc, Nat.add_comm 1]

theorem flushEntries_missing (lnbr : Nat) (es : List Entry) :
    ∀ (b : List Line) (q : Nat), (∃ e ∈ es, e.expr = none) →
      flushEntries lnbr es b q = .error (.thrown "ctxflush: missing expression") := by
  induction es with
  | nil => intro b q h; simp at h
  | cons e es ih =>
    intro b q h
    cases hx : e.expr with
    | none => simp [flushEntries, hx]
    | some x =>
      simp only [flushEntries, hx]
      apply ih
      obtain ⟨e', he', hn⟩ := h
      rcases List.mem_cons.mp he' with rfl | hm
      · rw [hx] at hn; cases hn
      · exact ⟨e', hm, hn⟩

theorem ctxflush_tracked (s : PSC) (hsp : s.sp ≤ s.st.length) :
    (∀ xs : List String, s.tracked.map (·.expr) = xs.map some →
      ctxflush s = .ok { s with block := s.block ++ pushLines s.lex.lnbr s.seq xs,
                                seq := s.seq + s.sp, sp := 0 }) ∧
    ((∃ e ∈ s.tracked, e.expr = none) →
      ctxflush s = .error (.thrown "ctxflush: missing expression")) := by
  constructor
  · intro xs h
    unfold PSC.tracked at h
    have hl : (s.st.take s.sp).length = s.sp := by simp [hsp]
    unfold ctxflush
    rw [flushEntries_ok _ _ xs _ _ h, hl]
    simp [Nat.not_lt.mpr hsp]
  · intro h
    unfold PSC.tracked at h
    unfold ctxflush
    rw [flushEntries_missing _ _ _ _ h]

theorem pushLines_length (lnbr : Nat) (xs : List String) : ∀ q, (pushLines lnbr q xs).length = xs.length := by
  induction xs with
  | nil => intro q; rfl
  | cons x xs ih => intro q; simp [pushLines, ih]

theorem popLines_snoc (lnbr : Nat) : ∀ (k t q : Nat),
    popLines lnbr (k + 1) t q =
      popLines lnbr k t q ++ [{ code := "var " ++ tvar (t + k) ++ "=$k[--$j];", lnbr := lnbr,
                                 seq := q + 2 * k + 1 }] := by
  intro k
  induction k with
  | zero => intro t q; simp [popLines]
  | succ k ih =>
    intro t q
    rw [popLines, ih (t + 1) (q + 2)]
    simp only [popLines, List.cons_append]
    have h1 : t + 1 + k = t + (k + 1) := by omega
    have h2 : q + 2 + 2 * k + 1 = q + 2 * (k + 1) + 1 := by omega
    rw [h1, h2]

theorem popEntries_cons : ∀ (k t q : Nat),
    popEntries (k + 1) t q =
      { type := TYPE_UNKNOWN, expr := some (tvar (t + k)), tokens := none, seq := q + 2 * k + 2 } ::
        popEntries k t q := by
  intro k
  induction k with
  | zero => intro t q; simp [popEntries]
  | succ k ih =>
    intro t q
    rw [popEntries, ih (t + 1) (q + 2)]
    simp only [popEntries, List.cons_append]
    have h1 : t + 1 + k = t + (k + 1) := by omega
    have h2 : q + 2 + 2 * k + 2 = q + 2 * (k + 1) + 2 := by omega
    rw [h1, h2]

theorem popEntries_length : ∀ (k t q : Nat), (popEntries k t q).length = k := by
  intro k
  induction k with
  | zero => intro t q; rfl
  | succ k ih => intro t q; simp [popEntries, ih]

theorem popLines_length (lnbr : Nat) : ∀ (k t q : Nat), (popLines lnbr k t q).length = k := by
  intro k
  induction k with
  | zero => intro t q; rfl
  | succ k ih => intro t q; simp [popLines, ih]

theorem popEntries_type : ∀ (k t q : Nat), ∀ e ∈ popEntries k t q, e.type = TYPE_UNKNOWN := by
  intro k
  induction k with
  | zero => intro t q e he; simp [popEntries] at he
  | succ k ih =>
    intro t q e he
    simp only [popEntries, List.mem_append, List.mem_singleton] at he
    rcases he with he | rfl
    · exact ih _ _ e he
    · rfl

theorem needStep_iterate (s : PSC) (k : Nat) :
    needStep^[k] s =
      { s with tvarno := s.tvarno + k
               block := s.block ++ popLines s.lex.lnbr k s.tvarno s.seq
               st := popEntries k s.tvarno s.seq ++ s.st
               sp := s.sp + k
               depth := s.depth + k
               seq := s.seq + 2 * k } := by
  induction k with
  | zero => simp [popLines, popEntries]
  | succ k ih =>
    rw [Function.iterate_succ_apply', ih, popLines_snoc, popEntries_cons]
    simp only [needStep, List.append_assoc, List.cons_append]
    congr 1

theorem need_eq (s : PSC) (n : Int) :
    need n s =
      { s with tvarno := s.tvarno + (n - s.sp).toNat
               block := s.block ++ popLines s.lex.lnbr (n - s.sp).toNat s.tvarno s.seq
               st := popEntries (n - s.sp).toNat s.tvarno s.seq ++ s.st
               sp := s.sp + (n - s.sp).toNat
               depth := s.depth + (n - s.sp).toNat
               seq := s.seq + 2 * (n - s.sp).toNat } ∧
    ((need n s).sp : Int) = max (s.sp : Int) n ∧
    ((need n s).block.length = s.block.length + (n - s.sp).toNat) ∧
    (∀ e ∈ popEntries (n - s.sp).toNat s.tvarno s.seq, e.type = TYPE_UNKNOWN) ∧
    (need n s).tracked = popEntries (n - s.sp).toNat s.tvarno s.seq ++ s.tracked ∧
    (n ≤ s.sp → need n s = s) := by
  have hneed : need n s = _ := needStep_iterate s (n - s.sp).toNat
  refine ⟨hneed, ?_, ?_, ?_, ?_, ?_⟩
  · rw [hneed]
    simp only [Nat.cast_add]
    omega
  · rw [hneed]
    simp [popLines_length]
  · intro e he
    exact popEntries_type _ _ _ e he
  · rw [hneed]
    simp only [PSC.tracked]
    rw [List.take_append_eq_append_take]
    simp [popEntries_length]
  · intro hle
    have hk : (n - s.sp).toNat = 0 := by omega
    rw [hneed, hk]
    simp [popLines, popEntries]

/-- C1.  `ctxflush` on a state whose `sp` tracked entries exist: when they
have the expressions `xs` (bottom first), exactly one line `$k[$j++]=x;` per
entry is appended to the current block in that order, the earlier lines are
kept and `sp` becomes 0; when some tracked entry has no expression the error
`ctxflush: missing expression` is raised. -/
theorem ctxflush_spec (s : PSC) (hsp : s.sp ≤ s.st.length) :
    (∀ xs : List String, s.tracked.map (·.expr) = xs.map some →
      ctxflush s = .ok { s with block := s.block ++ pushLines s.lex.lnbr s.seq xs,
                                seq := s.seq + s.sp, sp := 0 }) ∧
    ((∃ e ∈ s.tracked, e.expr = none) →
      ctxflush s = .error (.thrown "ctxflush: missing expression")) :=
  ctxflush_tracked s hsp

/-- C2.  `need(n)` changes the state as follows, `k` being `n - sp` when that is
positive and 0 otherwise: `k` lines `var T=$k[--$j];` are appended, one per
fresh temporary (numbers `tvarno`, `tvarno + 1`, ...); `k` entries of unknown
type whose expressions are these temporaries are put below the tracked entries,
the temporary popped first uppermost; the tracked entries keep their order,
types and expressions; the trace stack then holds `max(sp, n)` entries; and
when `sp >= n` the state is unchanged. -/
theorem need_spec (s : PSC) (n : Int) :
    need n s =
      { s with tvarno := s.tvarno + (n - s.sp).toNat
               block := s.block ++ popLines s.lex.lnbr (n - s.sp).toNat s.tvarno s.seq
               st := popEntries (n - s.sp).toNat s.tvarno s.seq ++ s.st
               sp := s.sp + (n - s.sp).toNat
               depth := s.depth + (n - s.sp).toNat
               seq := s.seq + 2 * (n - s.sp).toNat } ∧
    ((need n s).sp : Int) = max (s.sp : Int) n ∧
    ((need n s).block.length = s.block.length + (n - s.sp).toNat) ∧
    (∀ e ∈ popEntries (n - s.sp).toNat s.tvarno s.seq, e.type = TYPE_UNKNOWN) ∧
    (need n s).tracked = popEntries (n - s.sp).toNat s.tvarno s.seq ++ s.tracked ∧
    (n ≤ s.sp → need n s = s) :=
  need_eq s n

theorem ctxflush_spec_witness :
    (ctxflush flushWitnessState).map (fun s => (s.block.map (·.code), s.sp)) =
      .ok (["$k[$j++]=_0;", "$k[$j++]=5;"], 0) ∧
    ctxflush { flushWitnessState with
               st := [{ type := TYPE_TOKENS, expr := none, tokens := some [], seq := 1 }], sp := 1 } =
      .error (.thrown "ctxflush: missing expression") := by
  constructor
  · rw [(ctxflush_spec flushWitnessState (by decide)).1 ["_0", "5"] (by decide)]
    decide
  · exact (ctxflush_spec { flushWitnessState with
        st := [{ type := TYPE_TOKENS, expr := none, tokens := some [], seq := 1 }], sp := 1 }
      (by decide)).2 ⟨_, List.mem_singleton.mpr rfl, rfl⟩

theorem need_spec_witness :
    need 2 flushWitnessState = flushWitnessState ∧
    (need 4 flushWitnessState).block.map (·.code) = ["var _1=$k[--$j];", "var _2=$k[--$j];"] ∧
    (need 4 flushWitnessState).tracked.map (·.expr) = [some "_2", some "_1", some "_0", some "5"] := by
  refine ⟨(need_spec flushWitnessState 2).2.2.2.2.2 (by decide), ?_, ?_⟩
  · rw [(need_spec flushWitnessState 4).1]
    decide
  · rw [(need_spec flushWitnessState 4).2.2.2.2.1]
    decide

/-! ## Printing and reading numbers -/

theorem radixLoop_foldl (base : Nat) (digit : Nat → Char) (val : Char → Nat) (hb : 2 ≤ base)
    (hval : ∀ d, d < base → val (digit d) = d) :
    ∀ (f n : Nat) (v : List Char), n ≤ f →
      (radixLoop base digit f n v).foldl (fun a c => base * a + val c) 0 =
        v.foldl (fun a c => base * a + val c) n := by
  intro f
  induction f with
  | zero =>
    intro n v hn
    have h0 : n = 0 := by omega
    subst h0
    simp [radixLoop, hval 0 (by omega)]
  | succ f ih =>
    intro n v hn
    unfold radixLoop
    split
    · rename_i hbn
      have hlt : n / base < n := Nat.div_lt_self (by omega) (by omega)
      rw [ih (n / base) _ (by omega)]
      simp only [List.foldl_cons, hval (n % base) (Nat.mod_lt _ (by omega))]
      rw [Nat.div_add_mod]
    · rename_i hbn
      simp [hval n (by omega)]

theorem radixLoop_all (base : Nat) (digit : Nat → Char) (p : Char → Bool) (hb : 2 ≤ base)
    (hp : ∀ d, d < base → p (digit d) = true) :
    ∀ (f n : Nat) (v : List Char), n ≤ f → v.all p = true →
      (radixLoop base digit f n v).all p = true := by
  intro f
  induction f with
  | zero =>
    intro n v hn hv
    have h0 : n = 0 := by omega
    subst h0
    simp only [radixLoop, List.all_cons, hp 0 (by omega), hv, Bool.and_self]
  | succ f ih =>
    intro n v hn hv
    unfold radixLoop
    split
    · have hlt : n / base < n := Nat.div_lt_self (by omega) (by omega)
      apply ih _ _ (by omega)
      simp only [List.all_cons, hp (n % base) (Nat.mod_lt _ (by omega)), hv, Bool.and_self]
    · rename_i hbn
      simp only [List.all_cons, hp n (by omega), hv, Bool.and_self]

theorem radixLoop_ne_nil (base : Nat) (digit : Nat → Char) :
    ∀ (f n : Nat) (v : List Char), radixLoop base digit f n v ≠ [] := by
  intro f
  induction f with
  | zero => intro n v; simp [radixLoop]
  | succ f ih =>
    intro n v
    unfold radixLoop
    split
    · exact ih _ _
    · simp

theorem digitChar_val : ∀ d, d < 10 → (digitChar d).toNat - 48 = d := by decide

theorem digitChar_isDigit : ∀ d, d < 10 → isDigitChar (digitChar d) = true := by decide

theorem digitChar_ne_minus : ∀ d, d < 10 → (digitChar d == '-') = false := by decide

theorem parseDigits_decLoop (n : Nat) : parseDigits (decLoop n n []) = n := by
  unfold parseDigits decLoop
  rw [radixLoop_foldl 10 digitChar (fun c => c.toNat - 48) (by omega) digitChar_val n n [] (le_refl _)]
  rfl

theorem decLoop_all_digits (n : Nat) : (decLoop n n []).all isDigitChar = true :=
  radixLoop_all 10 digitChar isDigitChar (by omega) digitChar_isDigit n n [] (le_refl _) rfl

theorem decLoop_ne_nil (n : Nat) : decLoop n n [] ≠ [] := radixLoop_ne_nil _ _ _ _ _

theorem decLoop_head_ne_minus (n : Nat) : ∀ c cs, decLoop n n [] = c :: cs → c ≠ '-' := by
  intro c cs h
  have hall := decLoop_all_digits n
  rw [h] at hall
  simp only [List.all_cons, Bool.and_eq_true] at hall
  intro hc
  subst hc
  exact absurd hall.1 (by decide)

theorem intOfText_natStr (n : Nat) (hn : n < maxSafe) : intOfText (natStr n) = some (n : Int) := by
  unfold intOfText natStr
  simp only
  cases h : decLoop n n [] with
  | nil => exact absurd h (decLoop_ne_nil n)
  | cons c cs =>
    have hc : c ≠ '-' := decLoop_head_ne_minus n c cs h
    have hp : parseDigits (c :: cs) = n := by rw [← h]; exact parseDigits_decLoop n
    have ha : (c :: cs).all isDigitChar = true := by rw [← h]; exact decLoop_all_digits n
    split
    · rename_i ds heq
      simp only [List.cons.injEq] at heq
      exact absurd heq.1 hc
    · rename_i ds hne
      simp [hp, ha, hn]

theorem intOfText_intStr (x : Int) (hx : x.natAbs < maxSafe) : intOfText (intStr x) = some x := by
  cases x with
  | ofNat n =>
    simp only [intStr]
    exact intOfText_natStr n (by simpa using hx)
  | negSucc n =>
    simp only [intStr, intOfText]
    have hp : parseDigits (decLoop (n + 1) (n + 1) []) = n + 1 := parseDigits_decLoop (n + 1)
    have ha := decLoop_all_digits (n + 1)
    have hne := decLoop_ne_nil (n + 1)
    have hlt : n + 1 < maxSafe := by simpa [Int.natAbs] using hx
    simp [hp, ha, hne, hlt, Int.negSucc_eq]

/-! ## Temporaries are distinct -/

theorem b62Val_b62Char : ∀ d, d < 62 → b62Val (b62Char d) = d := by decide

theorem tvar_injective : Function.Injective tvar := by
  intro a b h
  unfold tvar at h
  have h1 : b62Loop a a [] = b62Loop b b [] := by
    have := congrArg String.data h
    simpa using this
  have ha := radixLoop_foldl 62 b62Char b62Val (by omega) b62Val_b62Char a a [] (le_refl _)
  have hb := radixLoop_foldl 62 b62Char b62Val (by omega) b62Val_b62Char b b [] (le_refl _)
  unfold b62Loop at h1
  rw [h1] at ha
  rw [ha] at hb
  simpa using hb

/-! ## Reading the trace stack -/

theorem stGet_sub (st : List Entry) (sp k : Nat) (e : Entry) (hk : k ≤ sp)
    (h : st[sp - k]? = some e) : stGet st ((sp : Int) - (k : Int)) = .ok e := by
  unfold stGet
  have h1 : ¬ ((sp : Int) - (k : Int) < 0) := by omega
  have h2 : ((sp : Int) - (k : Int)).toNat = sp - k := by omega
  simp [h1, h2, h]

theorem need_of_le (s : PSC) (n : Nat) (h : n ≤ s.sp) : need (n : Int) s = s :=
  (need_eq s n).2.2.2.2.2 (by exact_mod_cast h)

/-! ## `idiv` -/

theorem toInt32_of_range (q : Int) (h1 : -2 ^ 31 ≤ q) (h2 : q < 2 ^ 31) : toInt32 q = q := by
  unfold toInt32
  norm_num at h1 h2 ⊢
  omega

theorem tdiv_range (x y : Int) (hx1 : -2 ^ 31 ≤ x) (hx2 : x < 2 ^ 31)
    (hq : ¬ (x = -2 ^ 31 ∧ y = -1)) :
    -2 ^ 31 ≤ Int.tdiv x y ∧ Int.tdiv x y < 2 ^ 31 := by
  have habs : (Int.tdiv x y).natAbs = x.natAbs / y.natAbs := Int.natAbs_tdiv x y
  have hxa : x.natAbs ≤ 2 ^ 31 := by norm_num at hx1 hx2 ⊢; omega
  have hle : x.natAbs / y.natAbs ≤ x.natAbs := Nat.div_le_self _ _
  by_cases hlt : x.natAbs / y.natAbs < 2 ^ 31
  · norm_num at hlt ⊢; omega
  · have heq : x.natAbs / y.natAbs = x.natAbs := by omega
    have hx : x = -2 ^ 31 := by norm_num at hx1 hx2 hxa hlt ⊢; omega
    have hy1 : y.natAbs = 1 := by
      by_contra hne
      have hy0 : y.natAbs ≠ 0 := by
        intro h0
        rw [h0, Nat.div_zero] at heq
        norm_num at hlt
        omega
      have := Nat.div_lt_self (n := x.natAbs) (k := y.natAbs) (by norm_num at hlt; omega) (by omega)
      omega
    have hy : y = 1 := by
      rcases Int.natAbs_eq y with h | h
      · rw [h, hy1]; rfl
      · exfalso; apply hq; refine ⟨hx, ?_⟩; rw [h, hy1]; rfl
    subst hy
    rw [Int.tdiv_one]
    norm_num at hx1 hx2 ⊢
    omega

/-- C7 (as amended).  `$.idiv` on a trace stack whose two top entries are `lo`
(below) and `hi` (top): when both are integer literals with the decimal texts of
`x` and `y`, both in the 32-bit range, `y` not zero and the pair not
`-2147483648`, `-1`, the two entries are replaced by one integer-literal entry
whose expression is the decimal text of `x / y` truncated toward zero and no
line is emitted; when the operands are not both number literals the entry gets
the type integer value and the expression `~~(` parens(lo) `/` parens(hi) `)`. -/
theorem idiv_truncates (s : PSC) (lo hi : Entry) (hsp : 2 ≤ s.sp)
    (hlo : s.st[s.sp - 2]? = some lo) (hhi : s.st[s.sp - 1]? = some hi) :
    (∀ x y : Int, lo.type = TYPE_INTLIT → hi.type = TYPE_INTLIT →
      lo.expr = some (intStr x) → hi.expr = some (intStr y) →
      -2 ^ 31 ≤ x → x < 2 ^ 31 → -2 ^ 31 ≤ y → y < 2 ^ 31 → y ≠ 0 →
      ¬ (x = -2 ^ 31 ∧ y = -1) →
      opIdiv s = .ok (idivResult s lo TYPE_INTLIT (intStr (Int.tdiv x y)))) ∧
    (¬ (hasType hi.type (TYPE_INTLIT ||| TYPE_NUMLIT) = true ∧
        hasType lo.type (TYPE_INTLIT ||| TYPE_NUMLIT) = true) →
      opIdiv s = .ok (idivResult s lo TYPE_INTVAL
        ("~~(" ++ parens (exprStr lo.expr) ++ "/" ++ parens (exprStr hi.expr) ++ ")"))) := by
  have hn : need 2 s = s := need_of_le s 2 hsp
  have g1 : stGet s.st ((s.sp : Int) - 1) = .ok hi := by
    have := stGet_sub s.st s.sp 1 hi (by omega) hhi
    simpa using this
  have g2 : stGet s.st ((s.sp : Int) - 2) = .ok lo := by
    have := stGet_sub s.st s.sp 2 lo hsp hlo
    simpa using this
  constructor
  · intro x y htlo hthi hxlo hxhi hx1 hx2 hy1 hy2 hy0 hq
    have hxs : x.natAbs < maxSafe := by unfold maxSafe; norm_num at hx1 hx2 ⊢; omega
    have hys : y.natAbs < maxSafe := by unfold maxSafe; norm_num at hy1 hy2 ⊢; omega
    have hr := tdiv_range x y hx1 hx2 hq
    have hlit : idivLit (intStr x) (intStr y) = some (intStr (Int.tdiv x y)) := by
      unfold idivLit
      rw [intOfText_intStr x hxs, intOfText_intStr y hys]
      simp [hy0, toInt32_of_range _ hr.1 hr.2]
    unfold opIdiv
    simp only [hn, g1, g2, htlo, hthi, hxlo, hxhi, exprStr, hlit, idivResult]
    rfl
  · intro hnot
    unfold opIdiv
    simp only [hn, g1, g2, idivResult]
    have : (hasType hi.type (TYPE_INTLIT ||| TYPE_NUMLIT) &&
            hasType lo.type (TYPE_INTLIT ||| TYPE_NUMLIT)) = false := by
      simpa [Bool.and_eq_true] using hnot
    simp [this]

/-- C7, the claim as stated fails: for the integer literals `-2147483648` and
`-1`, both in the 32-bit range, `idiv` leaves the text `-2147483648`, which is
not the decimal text of the quotient truncated toward zero, `2147483648`. -/
theorem idiv_overflow_counterexample :
    (opIdiv idivOverflowState).map (fun s => s.tracked.map (fun e => (e.type, e.expr))) =
      .ok [(TYPE_INTLIT, some "-2147483648")] ∧
    intStr (Int.tdiv (-2147483648) (-1)) = "2147483648" := by
  decide

theorem idiv_truncates_witness :
    (opIdiv idivWitnessState).map (fun s => s.tracked.map (fun e => (e.type, e.expr))) =
      .ok [(TYPE_INTLIT, some "-2")] := by
  have h := (idiv_truncates idivWitnessState
    { type := TYPE_INTLIT, expr := some (intStr (-5)), tokens := none, seq := 1 }
    { type := TYPE_INTLIT, expr := some (intStr 2), tokens := none, seq := 2 }
    (by decide) (by decide) (by decide)).1 (-5) 2 rfl rfl rfl rfl (by decide) (by decide)
    (by decide) (by decide) (by decide) (by decide)
  rw [h]
  decide

/-! ## `ifelse` with two constant branches -/

theorem starLoop_digits_eos (t : List Char) :
    ∀ (n : Nat) (c : Caps), t.all isDigitChar = true → t.length < n →
      RE.starLoop (fun s1 c1 k1 => RE.run (RE.cls isDigitChar) s1 c1 k1) n t c
        (fun s1 c1 => RE.run RE.eos s1 c1 (fun s2 c2 => some (s2, c2))) = some ([], c) := by
  induction t with
  | nil =>
    intro n c _ hn
    cases n with
    | zero => omega
    | succ n => simp [RE.starLoop, RE.run]
  | cons x t ih =>
    intro n c hall hn
    cases n with
    | zero => omega
    | succ n =>
      simp only [List.all_cons, Bool.and_eq_true] at hall
      simp only [List.length_cons] at hn
      have ih1 := ih n c hall.2 (by omega)
      simp only [RE.run] at ih1
      simp only [RE.starLoop, RE.run, hall.1, if_true, List.length_cons, Nat.lt_succ_self]
      rw [ih1]

theorem reDigits_test (a : String) (hne : a.data ≠ []) (hall : a.data.all isDigitChar = true) :
    RE.testStart reDigits a = true := by
  unfold RE.testStart RE.execStart reDigits
  cases h : a.data with
  | nil => exact absurd h hne
  | cons x t =>
    rw [h] at hall
    simp only [List.all_cons, Bool.and_eq_true] at hall
    have h1 := starLoop_digits_eos t (t.length + 1) [] hall.2 (by omega)
    simp only [RE.run] at h1
    simp only [RE.cat, RE.plus, RE.run, hall.1, if_true]
    rw [h1]
    rfl

/-- C8.  `$.ifelse` on a trace stack whose three top entries are a condition
with the expression `cx` and two blocks that each consist of the single token
`a`, `b`, both runs of decimal digits: whatever the compilation of a nested
block would do (`comp` is never called), one line `var T=`parens(unanorxo(cx))`?a:b;`
is appended for the next temporary `T`, and the three entries are replaced by one
entry of type integer value with the expression `T`; the lexer, the saved
contexts and the dictionary are untouched. -/
theorem ifelse_constant_branches (comp : Comp) (s : PSC) (c texec fexec : Entry)
    (cx a b : String) (la lb : Nat) (hsp : 3 ≤ s.sp)
    (hc : s.st[s.sp - 3]? = some c) (ht : s.st[s.sp - 2]? = some texec)
    (hf : s.st[s.sp - 1]? = some fexec) (hcx : c.expr = some cx)
    (hta : texec.tokens = some [{ token := a, lnbr := la }])
    (hfb : fexec.tokens = some [{ token := b, lnbr := lb }])
    (ha : a.data ≠ [] ∧ a.data.all isDigitChar = true)
    (hb : b.data ≠ [] ∧ b.data.all isDigitChar = true) :
    opIfelse comp s =
      .ok { s with
            tvarno := s.tvarno + 1
            block := s.block ++ [{ code := "var " ++ tvar s.tvarno ++ "=" ++
                                     parens (unanorxo cx) ++ "?" ++ a ++ ":" ++ b ++ ";",
                                   lnbr := s.lex.lnbr, seq := s.seq + 1 }]
            st := stSet s.st (s.sp - 3) { type := TYPE_INTVAL, expr := some (tvar s.tvarno),
                                          tokens := none, seq := s.seq + 2 }
            sp := s.sp - 2
            seq := s.seq + 2 } := by
  have hn : need 3 s = s := need_of_le s 3 hsp
  have g1 : stGet s.st ((s.sp : Int) - 1) = .ok fexec := by
    simpa using stGet_sub s.st s.sp 1 fexec (by omega) hf
  have g2 : stGet s.st ((s.sp : Int) - 2) = .ok texec := by
    simpa using stGet_sub s.st s.sp 2 texec (by omega) ht
  have g3 : stGet s.st ((s.sp : Int) - 3) = .ok c := by
    simpa using stGet_sub s.st s.sp 3 c hsp hc
  have hp : ifelsePrecalc texec fexec = none := by
    simp [ifelsePrecalc, tokenAt, hta]
  have hk : ifelseConst texec fexec = some (a, b) := by
    simp [ifelseConst, tokenAt, hta, hfb, reDigits_test a ha.1 ha.2, reDigits_test b hb.1 hb.2]
  unfold opIfelse
  simp only [hn, g1, g2, g3, hcx, hp, hk, pushEntry, emit]
  have h3 : s.sp - 3 + 1 = s.sp - 2 := by omega
  simp [h3, Nat.add_assoc]

theorem ifelse_constant_branches_witness :
    (opIfelse (fun _ => .error .fuel) ifelseWitnessState).map
        (fun s => (s.block.map (·.code), s.tracked.map (fun e => (e.type, e.expr)))) =
      .ok (["var _0=true?1:2;"], [(TYPE_INTVAL, some "_0")]) := by
  rw [ifelse_constant_branches (fun _ => .error .fuel) ifelseWitnessState _ _ _ "true" "1" "2" 1 1
    (by decide) rfl rfl rfl rfl rfl rfl (by decide) (by decide)]
  decide

/-! ## `aload` -/

theorem need_lex (s : PSC) (n : Int) : (need n s).lex = s.lex := by
  rw [(need_eq s n).1]

/-- C9 (as amended).  `$.aload`, `x` being the entry on top of the trace stack
once `need(1)` has run.  When no token stream is pushed (the operator stands in
the raw text, whatever follows it there), when the innermost pushed stream is
exhausted, or when its next token is not `pop`, the error `aload without pop`
naming the line of `aload` is raised.  When the next token of the innermost
pushed stream is `pop` and the entries below `x` have the expressions `xs`, the
lines appended after those of `need(1)` are the flush of these entries followed
by `$aload(x);`, the trace stack is left empty and `pop` is consumed, no line
being emitted for it. -/
theorem aload_contract (s : PSC) (x : Entry)
    (hx : (need 1 s).st[(need 1 s).sp - 1]? = some x) :
    (s.lex.stack = [] →
      opAload s = .error (.thrown ("#" ++ lnbrStr s.lex.lnbr ++ ": aload without pop"))) ∧
    (∀ rest, s.lex.stack = [] :: rest →
      opAload s = .error (.thrown ("#" ++ lnbrStr s.lex.lnbr ++ ": aload without pop"))) ∧
    (∀ t ts rest, s.lex.stack = (t :: ts) :: rest → t.token ≠ "pop" →
      opAload s = .error (.thrown ("#" ++ lnbrStr s.lex.lnbr ++ ": aload without pop"))) ∧
    (∀ t ts rest xs, s.lex.stack = (t :: ts) :: rest → t.token = "pop" →
      ((need 1 s).st.take ((need 1 s).sp - 1)).map (·.expr) = xs.map some →
      opAload s = .ok { need 1 s with
        lex := { s.lex with stack := ts :: rest, token := some "pop", lnbr := t.lnbr }
        block := (need 1 s).block ++ pushLines t.lnbr (need 1 s).seq xs ++
                   [{ code := "$aload(" ++ exprStr x.expr ++ ");", lnbr := t.lnbr,
                      seq := (need 1 s).seq + ((need 1 s).sp - 1) + 1 }]
        seq := (need 1 s).seq + ((need 1 s).sp - 1) + 1
        sp := 0 }) := by
  have hsp1 : 1 ≤ (need 1 s).sp := by
    have := (need_eq s 1).2.1
    omega
  have g : stGet (need 1 s).st (((need 1 s).sp : Int) - 1) = .ok x := by
    simpa using stGet_sub (need 1 s).st (need 1 s).sp 1 x hsp1 hx
  have hlex := need_lex s 1
  refine ⟨?_, ?_, ?_, ?_⟩
  · intro h
    unfold opAload
    simp [g, hlex, Lexer.peek, h]
  · intro rest h
    unfold opAload
    simp [g, hlex, Lexer.peek, h]
  · intro t ts rest h hne
    unfold opAload
    simp [g, hlex, Lexer.peek, h, hne]
  · intro t ts rest xs h heq hxs
    have hlen : (need 1 s).sp - 1 ≤ (need 1 s).st.length := by
      have := (List.getElem?_eq_some.mp hx).1
      omega
    have hfl := (ctxflush_tracked
      { need 1 s with sp := (need 1 s).sp - 1
                      lex := { s.lex with token := some t.token, lnbr := t.lnbr } } hlen).1 xs
      (by simpa [PSC.tracked] using hxs)
    unfold opAload
    simp only [g, hlex, Lexer.peek, h, heq]
    simp only [heq, h] at hfl
    rw [hfl]
    simp [emit, Lexer.next, heq]

/-- C9, the claim as stated fails: in the raw text (no token stream pushed)
`aload` is rejected although the token that follows it is `pop`. -/
theorem aload_toplevel_counterexample :
    PSCmain 10 { devar := true, coverage := false }
      [{ token := "1", lnbr := 1 }, { token := "array", lnbr := 1 },
       { token := "aload", lnbr := 1 }, { token := "pop", lnbr := 1 }] =
      .error (.thrown "#1: aload without pop") := by
  decide

theorem aload_contract_witness :
    (opAload aloadWitnessState).map (fun s => (s.block.map (·.code), s.sp, s.lex.stack)) =
      .ok (["$k[$j++]=_0;", "$aload(_1);"], 0, [[]]) ∧
    opAload { aloadWitnessState with lex := { aloadWitnessState.lex with stack := [] } } =
      .error (.thrown "#6: aload without pop") := by
  constructor
  · rw [(aload_contract aloadWitnessState
      { type := TYPE_ARRAY, expr := some "_1", tokens := none, seq := 2 } (by decide)).2.2.2
      { token := "pop", lnbr := 7 } [] [] ["_0"] rfl rfl (by decide)]
    decide
  · exact (aload_contract { aloadWitnessState with lex := { aloadWitnessState.lex with stack := [] } }
      { type := TYPE_ARRAY, expr := some "_1", tokens := none, seq := 2 } (by decide)).1 rfl

/-! ## Programs on which `devar` changes the meaning of the code -/

/-- C4, the code at the failing input: with `devar` the text returned for
`progGetPutStack` pushes the element read by `$get` after the `$put` that
overwrites it, so that it leaves 5 on the operand stack where the source leaves
the initial element of the array. -/
theorem psc_roundtrip_failing_input :
    PSCmain 40 { devar := true, coverage := false } progGetPutStack =
      .ok ("$0.f=function()\x7b\n$0.arr=$a(3);/*1*/\n$put($0.arr,0,5);/*1*/\n" ++
           "$k[$j++]=$get($0.arr,0);/*1*/\n\x7d;\n") := by
  decide!

/-- C5, the code at the failing input: without `devar` the body of
`progGetPut` reads the element (`var _2=$get(_1,0);`) before the `$put`; with
`devar` the declaration of `_2` is eliminated and the `$get` is evaluated after
the `$put` to the same element. -/
theorem devar_moves_get_after_put :
    PSCmain 40 { devar := false, coverage := false } progGetPut =
      .ok ("$0.f=function()\x7b\nvar _0=$a(3);/*1*/\n$0.arr=_0;/*1*/\nvar _1=$0.arr;/*1*/\n" ++
           "var _2=$get(_1,0);/*1*/\nvar _3=$0.arr;/*1*/\n$put(_3,0,5);/*1*/\n$0.x=_2;/*1*/\n\x7d;\n") ∧
    PSCmain 40 { devar := true, coverage := false } progGetPut =
      .ok ("$0.f=function()\x7b\n$0.arr=$a(3);/*1*/\n$put($0.arr,0,5);/*1*/\n" ++
           "$0.x=$get($0.arr,0);/*1*/\n\x7d;\n") := by
  decide!

/-- C6, the code at the failing input: the declaration `var _0=$k[--$j];` of
`progCountToMark` is eliminated although the line `var _1=$counttomark()+2;`
stands between it and the line that uses `_0`; the pop is then executed after
`$counttomark()` has inspected the real stack. -/
theorem devar_crosses_counttomark :
    PSCmain 40 { devar := false, coverage := false } progCountToMark =
      .ok ("$0.f=function()\x7b\nvar _0=$k[--$j];/*1*/\nvar _1=$counttomark()+2;/*1*/\n" ++
           "$0.n=_1;/*1*/\n$0.x=_0;/*1*/\n\x7d;\n") ∧
    PSCmain 40 { devar := true, coverage := false } progCountToMark =
      .ok ("$0.f=function()\x7b\nvar _1=$counttomark()+2;/*1*/\n$0.n=_1;/*1*/\n" ++
           "$0.x=$k[--$j];/*1*/\n\x7d;\n") := by
  decide!

/-! ## Two passes over a global function -/

/-- C10, the claim as stated fails: a top-level procedure that calls by name a
top-level procedure defined later in the source does not compile; nor does the
call when both definitions stand at dictionary level 0 inside the body of a
third procedure, where `bind` takes them for global functions as well. -/
theorem forward_reference_toplevel_counterexample :
    PSCmain 40 { devar := true, coverage := false } progForwardTop =
      .error (.thrown "UNKNOWN IDENT: (B) #1") ∧
    PSCmain 60 { devar := true, coverage := false } progForwardLevel0 =
      .error (.thrown "UNKNOWN IDENT: (g) #1") := by
  decide!

theorem ctxflush_dict (s s1 : PSC) (h : ctxflush s = .ok s1) :
    s1.dict = s.dict ∧ s1.dlvl = s.dlvl ∧ s1.context = s.context := by
  unfold ctxflush at h
  split at h
  · cases h
  · split at h
    · cases h
    · cases h
      exact ⟨rfl, rfl, rfl⟩

theorem ctxpop_dict (s s1 : PSC) (lines : List Line) (h : ctxpop s = .ok (lines, s1)) :
    s1.dict = s.dict := by
  unfold ctxpop at h
  cases hf : ctxflush s with
  | error e => rw [hf] at h; cases h
  | ok s2 =>
    rw [hf] at h
    have hd := (ctxflush_dict s s2 hf).1
    cases hc : s2.context with
    | nil => simp [hc] at h
    | cons ctx rest =>
      simp only [hc, Except.ok.injEq, Prod.mk.injEq] at h
      rw [← h.2]
      exact hd

/-! ## The trace stack as a list -/

theorem stSet_length (st : List Entry) (i : Nat) (e : Entry) (h : i ≤ st.length) :
    (stSet st i e).length = max st.length (i + 1) := by
  unfold stSet
  simp only [List.length_append, List.length_take, List.length_cons, List.length_drop]
  omega

theorem take_stSet_push (st : List Entry) (sp : Nat) (e : Entry) (h : sp ≤ st.length) :
    (stSet st sp e).take (sp + 1) = st.take sp ++ [e] := by
  unfold stSet
  have hl : (st.take sp).length = sp := by simp [h]
  rw [List.take_append_eq_append_take, hl]
  simp [List.take_of_length_le, hl]

theorem take_stSet_above (st : List Entry) (sp i : Nat) (e : Entry) (h : sp ≤ i) (hi : i ≤ st.length) :
    (stSet st i e).take sp = st.take sp := by
  unfold stSet
  have hl : (st.take i).length = i := by simp [hi]
  rw [List.take_append_eq_append_take, hl]
  have h0 : sp - i = 0 := by omega
  simp [h0, List.take_take, h]

theorem stSet_eq_set (st : List Entry) (i : Nat) (e : Entry) (h : i < st.length) :
    stSet st i e = st.set i e := by
  unfold stSet
  rw [List.set_eq_take_append_cons_drop]
  simp [h]

theorem take_stSet_inside (st : List Entry) (sp i : Nat) (e : Entry) (h : i < sp)
    (hsp : sp ≤ st.length) : (stSet st i e).take sp = (st.take sp).set i e := by
  rw [stSet_eq_set st i e (by omega)]
  rw [List.set_take]

theorem stGet_nat (st : List Entry) (i : Nat) (e : Entry) (h : st[i]? = some e) :
    stGet st (i : Int) = .ok e := by
  unfold stGet
  simp [h]

theorem tracked_length (s : PSC) (h : s.sp ≤ s.st.length) : s.tracked.length = s.sp := by
  simp [PSC.tracked, h]

theorem need_wf (s : PSC) (n : Int) (h : s.sp ≤ s.st.length) :
    (need n s).sp ≤ (need n s).st.length := by
  rw [(need_eq s n).1]
  simp only [List.length_append, popEntries_length]
  omega

theorem need_sp_ge (s : PSC) (n : Nat) : n ≤ (need (n : Int) s).sp := by
  have := (need_eq s n).2.1
  omega

theorem need_idem (s : PSC) (n : Nat) : need (n : Int) (need (n : Int) s) = need (n : Int) s :=
  need_of_le _ n (need_sp_ge s n)

/-! ## `roll`: rejection -/

theorem stGet_error (st : List Entry) (i : Int) (e : Err) (h : stGet st i = .error e) :
    e = .typeError "st[i] is undefined" := by
  unfold stGet at h
  split at h
  · cases h; rfl
  · split at h
    · cases h
    · cases h; rfl

theorem restamp_error (cnt : Nat) : ∀ (i : Int) (st : List Entry) (q : Nat) (e : Err),
    restamp cnt i st q = .error e → e = .typeError "st[i] is undefined" := by
  induction cnt with
  | zero => intro i st q e h; simp [restamp] at h
  | succ cnt ih =>
    intro i st q e h
    unfold restamp at h
    cases hg : stGet st i with
    | error e1 =>
      rw [hg] at h
      simp only [Except.error.injEq] at h
      rw [← h]
      exact stGet_error st i e1 hg
    | ok x =>
      rw [hg] at h
      exact ih _ _ _ e h

/-- The state in which the test of `$.roll` is made: nothing is emitted and no
temporary is taken before it. -/
theorem rollOperands_state (s : PSC) :
    (rollOperands s).1 = { s with sp := s.sp - 2 } := by
  unfold rollOperands
  simp only
  split
  · rfl
  · split
    · rfl
    · split
      · rfl
      · split <;> rfl

/-- What the test of `$.roll` throws is what `$.roll` throws. -/
theorem opRoll_of_operands (s : PSC) (e : Err) (h : (rollOperands s).2 = .error e) :
    opRoll s = .error e := by
  unfold opRoll
  cases hr : rollOperands s with
  | mk s1 r =>
    rw [hr] at h
    simp only at h
    rw [h]

/-- C17.  `$.roll` on a trace stack with at least two entries, `nE` the count
entry (`st[sp-2]`) and `dE` the rotation entry (`st[sp-1]`): the error
`roll: parameters not constant.` is raised if and only if one of the two is not
of the type integer literal.  In that case it is thrown by the test of the
types of the two operands (`rollOperands`), in a state that differs from the
one `$.roll` started in by the pointer only: the code block, the counter of the
temporaries and the entries are those of `s`, so no line has been emitted. -/
theorem roll_rejects_nonconstant (s : PSC) (dE nE : Entry) (hsp : 2 ≤ s.sp)
    (hd : s.st[s.sp - 1]? = some dE) (hn : s.st[s.sp - 2]? = some nE) :
    (opRoll s = .error (.error "roll: parameters not constant.") ↔
      (nE.type ≠ TYPE_INTLIT ∨ dE.type ≠ TYPE_INTLIT)) ∧
    ((nE.type ≠ TYPE_INTLIT ∨ dE.type ≠ TYPE_INTLIT) →
      (rollOperands s).2 = .error (.error "roll: parameters not constant.") ∧
      (rollOperands s).1 = { s with sp := s.sp - 2 } ∧
      (rollOperands s).1.block = s.block ∧ (rollOperands s).1.tvarno = s.tvarno ∧
      (rollOperands s).1.st = s.st) := by
  have g1 : stGet s.st ((s.sp : Int) - 1) = .ok dE := by
    simpa using stGet_sub s.st s.sp 1 dE (by omega) hd
  have g2 : stGet s.st ((s.sp : Int) - 2) = .ok nE := by
    simpa using stGet_sub s.st s.sp 2 nE hsp hn
  have hthrow : (nE.type ≠ TYPE_INTLIT ∨ dE.type ≠ TYPE_INTLIT) →
      (rollOperands s).2 = .error (.error "roll: parameters not constant.") := by
    intro h
    unfold rollOperands
    simp only [g1, g2]
    by_cases hdt : dE.type = TYPE_INTLIT
    · rcases h with h | h
      · simp [hdt, h]
      · exact absurd hdt h
    · simp [hdt]
  refine ⟨⟨?_, fun h => opRoll_of_operands s _ (hthrow h)⟩, fun h => ?_⟩
  · intro h
    by_contra hcon
    have hcon1 : nE.type = TYPE_INTLIT ∧ dE.type = TYPE_INTLIT := by
      constructor
      · by_contra h1; exact hcon (Or.inl h1)
      · by_contra h1; exact hcon (Or.inr h1)
    unfold opRoll rollOperands at h
    simp only [g1, g2, hcon1.1, hcon1.2, bne_self_eq_false, Bool.false_eq_true,
      if_false] at h
    split at h
    · unfold rollTail at h
      simp only at h
      split at h
      · rename_i e hre
        have := restamp_error _ _ _ _ _ hre
        rw [this] at h
        cases h
      · cases h
    · cases h
  · have hs := rollOperands_state s
    refine ⟨hthrow h, hs, ?_, ?_, ?_⟩
    · rw [hs]
    · rw [hs]
    · rw [hs]

theorem roll_rejects_nonconstant_witness :
    opRoll { rollWitnessState with sp := 3 } = .error (.error "roll: parameters not constant.") ∧
    (rollOperands { rollWitnessState with sp := 3 }).1.block = rollWitnessState.block ∧
    opRoll rollWitnessState ≠ .error (.error "roll: parameters not constant.") := by
  refine ⟨?_, ?_, ?_⟩
  · exact ((roll_rejects_nonconstant { rollWitnessState with sp := 3 }
      { type := TYPE_UNKNOWN, expr := some "_2", tokens := none, seq := 3 }
      { type := TYPE_UNKNOWN, expr := some "_1", tokens := none, seq := 2 }
      (by decide) (by decide) (by decide)).1).2 (Or.inl (by decide))
  · exact ((roll_rejects_nonconstant { rollWitnessState with sp := 3 }
      { type := TYPE_UNKNOWN, expr := some "_2", tokens := none, seq := 3 }
      { type := TYPE_UNKNOWN, expr := some "_1", tokens := none, seq := 2 }
      (by decide) (by decide) (by decide)).2 (Or.inl (by decide))).2.2.1
  · intro h
    have := ((roll_rejects_nonconstant rollWitnessState
      { type := TYPE_INTLIT, expr := some "1", tokens := none, seq := 5 }
      { type := TYPE_INTLIT, expr := some "3", tokens := none, seq := 4 }
      (by decide) (by decide) (by decide)).1).1 h
    revert this
    decide

/-! ## `dup` -/

theorem dup_core (s : PSC) (t : Entry)
    (ht : (need 1 s).st[(need 1 s).sp - 1]? = some t) :
    ∃ s' u v, opDup s = .ok s' ∧ s'.sp = (need 1 s).sp + 1 ∧
      s'.tracked = (need 1 s).tracked.dropLast ++ [u, v] ∧
      u.type = t.type ∧ v.type = t.type ∧ u.expr = v.expr ∧
      (dupAsIs t = true → u = t ∧ s'.block = (need 1 s).block ∧ s'.tvarno = (need 1 s).tvarno) ∧
      (dupAsIs t = false →
        u.expr = some (tvar (need 1 s).tvarno) ∧ s'.tvarno = (need 1 s).tvarno + 1 ∧
        s'.block = (need 1 s).block ++
          [{ code := "var " ++ tvar (need 1 s).tvarno ++ "=" ++ exprStr t.expr ++ ";",
             lnbr := s.lex.lnbr, seq := (need 1 s).seq + 1 }]) := by
  have hsp1 : 1 ≤ (need 1 s).sp := need_sp_ge s 1
  have hlt : (need 1 s).sp - 1 < (need 1 s).st.length := (List.getElem?_eq_some.mp ht).1
  have hwf : (need 1 s).sp ≤ (need 1 s).st.length := by omega
  have g : stGet (need 1 s).st (((need 1 s).sp : Int) - 1) = .ok t := by
    simpa using stGet_sub (need 1 s).st (need 1 s).sp 1 t hsp1 ht
  have hlex := need_lex s 1
  have htr : (need 1 s).tracked = (need 1 s).tracked.dropLast ++ [t] := by
    unfold PSC.tracked
    have h1 : (need 1 s).sp = ((need 1 s).sp - 1) + 1 := by omega
    rw [List.dropLast_eq_take, List.length_take, Nat.min_eq_left hwf, List.take_take,
      Nat.min_eq_left (by omega)]
    conv_lhs => rw [h1]
    rw [List.take_succ, ht]
    rfl
  by_cases hc : dupAsIs t = true
  · refine ⟨{ need 1 s with
        st := stSet (need 1 s).st (need 1 s).sp (clone t ((need 1 s).seq + 1))
        sp := (need 1 s).sp + 1, seq := (need 1 s).seq + 1 },
      t, clone t ((need 1 s).seq + 1), ?_, ?_, ?_, rfl, rfl, rfl, ?_, ?_⟩
    · unfold opDup
      unfold dupAsIs at hc
      simp only [g, hc, if_true]
    · rfl
    · simp only [PSC.tracked]
      rw [take_stSet_push _ _ _ hwf]
      have := htr
      unfold PSC.tracked at this
      rw [this]
      simp
    · intro _; exact ⟨rfl, rfl, rfl⟩
    · intro h; rw [h] at hc; cases hc
  · have hc' : dupAsIs t = false := by simpa using hc
    refine ⟨{ emit ("var " ++ tvar (need 1 s).tvarno ++ "=" ++ exprStr t.expr ++ ";")
          { need 1 s with tvarno := (need 1 s).tvarno + 1 } with
        st := stSet (stSet (need 1 s).st ((need 1 s).sp - 1)
                { t with expr := some (tvar (need 1 s).tvarno) }) (need 1 s).sp
                (clone { t with expr := some (tvar (need 1 s).tvarno) } ((need 1 s).seq + 1 + 1))
        sp := (need 1 s).sp + 1, seq := (need 1 s).seq + 1 + 1 },
      { t with expr := some (tvar (need 1 s).tvarno) },
      clone { t with expr := some (tvar (need 1 s).tvarno) } ((need 1 s).seq + 1 + 1),
      ?_, ?_, ?_, rfl, rfl, rfl, ?_, ?_⟩
    · unfold opDup
      unfold dupAsIs at hc'
      simp only [g, hc', emit]
      rfl
    · rfl
    · simp only [PSC.tracked]
      rw [take_stSet_push _ _ _ (by rw [stSet_length _ _ _ (by omega)]; omega)]
      rw [take_stSet_inside _ _ _ _ (by omega) hwf]
      have := htr
      unfold PSC.tracked at this
      rw [this]
      have hl : ((need 1 s).tracked.dropLast).length = (need 1 s).sp - 1 := by
        simp [PSC.tracked, hwf]
      unfold PSC.tracked at hl
      rw [← hl, List.set_append_right _ _ (le_refl _)]
      simp
    · intro h; rw [h] at hc'; cases hc'
    · intro _
      refine ⟨rfl, rfl, ?_⟩
      simp [emit, hlex]

/-- C18 (as amended).  `$.dup`, `t` being the entry on top of the trace stack
once `need(1)` has run (on an empty trace stack `need(1)` first pops the real
stack into a temporary, which emits one line and tracks one entry).  Then the
trace stack has one entry more than after `need(1)`, and its two top entries
`u`, `v` have the type of `t` and the same expression.  When `t` is a number or
string literal or its expression is a temporary, `u` is `t` and no further
line is emitted; otherwise exactly one line `var T=<expr of t>;` is appended,
`T` being the next temporary, and both entries have the expression `T`. -/
theorem dup_spec (s : PSC) (t : Entry)
    (ht : (need 1 s).st[(need 1 s).sp - 1]? = some t) :
    ∃ s' u v, opDup s = .ok s' ∧ s'.sp = (need 1 s).sp + 1 ∧
      s'.tracked = (need 1 s).tracked.dropLast ++ [u, v] ∧
      u.type = t.type ∧ v.type = t.type ∧ u.expr = v.expr ∧
      (dupAsIs t = true → u = t ∧ s'.block = (need 1 s).block ∧ s'.tvarno = (need 1 s).tvarno) ∧
      (dupAsIs t = false →
        u.expr = some (tvar (need 1 s).tvarno) ∧ s'.tvarno = (need 1 s).tvarno + 1 ∧
        s'.block = (need 1 s).block ++
          [{ code := "var " ++ tvar (need 1 s).tvarno ++ "=" ++ exprStr t.expr ++ ";",
             lnbr := s.lex.lnbr, seq := (need 1 s).seq + 1 }]) :=
  dup_core s t ht

/-- C18, the claim as stated fails: on the empty trace stack `dup` leaves two
entries, not one, and emits the line of `need(1)` although the entry that is
duplicated is a temporary. -/
theorem dup_empty_counterexample :
    (PSC.init { devar := true, coverage := false } []).sp = 0 ∧
    (opDup (PSC.init { devar := true, coverage := false } [])).map
        (fun s => (s.sp, s.block.map (·.code), s.tracked.map (·.expr))) =
      .ok (2, ["var _0=$k[--$j];"], [some "_0", some "_0"]) := by
  decide

theorem dup_spec_witness :
    ∃ s', opDup flushWitnessState = .ok s' ∧ s'.sp = 3 ∧ s'.block = [] := by
  obtain ⟨s', u, v, h, hsp, _, _, _, _, h1, _⟩ := dup_spec flushWitnessState
    { type := TYPE_INTLIT, expr := some "5", tokens := none, seq := 2 } (by decide)
  refine ⟨s', h, ?_, ?_⟩
  · rw [hsp]; decide
  · rw [(h1 (by decide)).2.1]; decide

/-! ## `roll` -/

theorem restamp_spec (cnt : Nat) : ∀ (i : Nat) (st : List Entry) (q : Nat),
    i + cnt ≤ st.length →
    ∃ st', restamp cnt (i : Int) st q = .ok (st', q + cnt) ∧ st'.length = st.length ∧
      st'.map Entry.te = st.map Entry.te ∧ st'.take i = st.take i := by
  induction cnt with
  | zero => intro i st q _; exact ⟨st, rfl, rfl, rfl, rfl⟩
  | succ cnt ih =>
    intro i st q h
    have hi : i < st.length := by omega
    have hg : stGet st (i : Int) = .ok st[i] := stGet_nat st i _ (List.getElem?_eq_getElem hi)
    have hset : stSet st i { st[i] with seq := q + 1 } = st.set i { st[i] with seq := q + 1 } :=
      stSet_eq_set st i _ hi
    obtain ⟨st', h1, h2, h3, h4⟩ := ih (i + 1) (st.set i { st[i] with seq := q + 1 }) (q + 1)
      (by simp; omega)
    refine ⟨st', ?_, ?_, ?_, ?_⟩
    · unfold restamp
      simp only [hg, Int.toNat_ofNat, hset]
      have hc : ((i : Int) + 1) = ((i + 1 : Nat) : Int) := by simp
      rw [hc, h1]
      congr 2
      omega
    · simpa using h2
    · rw [h3, List.map_set]
      apply List.ext_getElem
      · simp
      · intro n hn1 hn2
        simp only [List.getElem_set, List.getElem_map]
        split
        · rename_i heq; subst heq; rfl
        · rfl
    · have := congrArg (List.take i) h4
      rw [List.take_take, List.take_take, Nat.min_eq_left (by omega), List.set_take] at this
      rw [this]
      exact List.set_eq_of_length_le (by simp)

theorem jsSplice_mid (A G J : List Entry) (c : Nat) (hc : c ≤ G.length) :
    jsSplice (A ++ G ++ J) (A.length : Int) (c : Int) = (G.take c, A ++ G.drop c ++ J) := by
  unfold jsSplice
  have h1 : ¬ ((A.length : Int) < 0) := by omega
  simp only [h1, if_false, Int.toNat_ofNat, List.length_append]
  have h2 : min A.length (A.length + G.length + J.length) = A.length := by omega
  have h3 : min c (A.length + G.length + J.length - A.length) = c := by omega
  rw [h2, h3]
  simp only [List.append_assoc, List.drop_left, List.take_left]
  refine Prod.ext ?_ ?_
  · simp only
    rw [List.take_append_of_le_length hc]
  · simp only
    rw [← List.drop_drop, List.drop_left, List.drop_append_of_le_length hc]

theorem jsInsert_mid (X J T : List Entry) :
    jsInsert (X ++ J) (X.length : Int) T = X ++ T ++ J := by
  unfold jsInsert
  have h1 : ¬ ((X.length : Int) < 0) := by omega
  simp only [h1, if_false, Int.toNat_ofNat, List.length_append]
  have h2 : min X.length (X.length + J.length) = X.length := by omega
  rw [h2]
  simp

theorem opRoll_eq (s : PSC) (dE nE : Entry) (dv nv : Int) (hsp : 2 ≤ s.sp)
    (hd : s.st[s.sp - 1]? = some dE) (hn : s.st[s.sp - 2]? = some nE)
    (htd : dE.type = TYPE_INTLIT) (htn : nE.type = TYPE_INTLIT)
    (hxd : dE.expr.bind intOfText = some dv) (hxn : nE.expr.bind intOfText = some nv) :
    opRoll s = rollTail (need nv { s with sp := s.sp - 2 }) dv nv := by
  have g1 : stGet s.st ((s.sp : Int) - 1) = .ok dE := by
    simpa using stGet_sub s.st s.sp 1 dE (by omega) hd
  have g2 : stGet s.st ((s.sp : Int) - 2) = .ok nE := by
    simpa using stGet_sub s.st s.sp 2 nE hsp hn
  unfold opRoll rollOperands
  simp only [g1, g2, htd, htn, hxd, hxn, bne_self_eq_false, Bool.false_eq_true, if_false]

theorem rollTail_spec (s1 : PSC) (A G J : List Entry) (dv nv : Int) (c : Nat)
    (hst : s1.st = A ++ G ++ J) (hsp : s1.sp = A.length + G.length)
    (hnv : nv = (G.length : Int)) (hG : 1 ≤ G.length) (hc : c ≤ G.length)
    (hcount : (if dv < 0 then -dv else nv - dv) = (c : Int)) :
    ∃ st3, rollTail s1 dv nv = .ok { s1 with st := st3, seq := s1.seq + (G.length - 1) } ∧
      st3.take A.length = A ∧
      (st3.take s1.sp).map Entry.te = (A ++ G.drop c ++ G.take c).map Entry.te := by
  have hstart : (s1.sp : Int) - nv = (A.length : Int) := by omega
  have hsplice : (if dv < 0 then jsSplice s1.st ((s1.sp : Int) - nv) (-dv)
      else jsSplice s1.st ((s1.sp : Int) - nv) (nv - dv)) = (G.take c, A ++ G.drop c ++ J) := by
    rw [hstart, hst]
    split
    · rename_i hneg
      simp only [hneg, if_true] at hcount
      rw [hcount]
      exact jsSplice_mid A G J c hc
    · rename_i hneg
      simp only [hneg, if_false] at hcount
      rw [hcount]
      exact jsSplice_mid A G J c hc
  have hins : (s1.sp : Int) - ((G.take c).length : Int) = ((A ++ G.drop c).length : Int) := by
    simp only [List.length_take, List.length_append, List.length_drop]
    omega
  have hcnt : (((s1.sp : Int) - 1) - ((s1.sp : Int) - nv)).toNat = G.length - 1 := by omega
  obtain ⟨st3, h1, h2, h3, h4⟩ := restamp_spec (G.length - 1) A.length
    (A ++ G.drop c ++ G.take c ++ J) s1.seq (by
      simp only [List.length_append, List.length_drop, List.length_take]
      omega)
  refine ⟨st3, ?_, ?_, ?_⟩
  · unfold rollTail
    simp only [hsplice]
    rw [hins, jsInsert_mid, hcnt, hstart, h1]
  · rw [h4]
    simp
  · rw [List.map_take, h3, ← List.map_take, hsp]
    congr 1
    have : A.length + G.length = (A ++ G.drop c ++ G.take c).length := by
      simp only [List.length_append, List.length_drop, List.length_take]
      omega
    rw [this, List.take_left]

theorem tracked_split (s : PSC) (k : Nat) (hwf : s.sp ≤ s.st.length) (hk : k ≤ s.sp) :
    s.st = s.tracked.take (s.sp - k) ++ s.tracked.drop (s.sp - k) ++ s.st.drop s.sp ∧
    (s.tracked.take (s.sp - k)).length = s.sp - k ∧
    (s.tracked.drop (s.sp - k)).length = k := by
  have hl := tracked_length s hwf
  refine ⟨?_, ?_, ?_⟩
  · rw [List.take_append_drop]
    unfold PSC.tracked
    rw [List.take_append_drop]
  · rw [List.length_take, hl]; omega
  · rw [List.length_drop, hl]; omega

theorem roll_core (s : PSC) (dE nE : Entry) (d n : Int) (hsp : 2 ≤ s.sp)
    (hd : s.st[s.sp - 1]? = some dE) (hn : s.st[s.sp - 2]? = some nE)
    (htd : dE.type = TYPE_INTLIT) (htn : nE.type = TYPE_INTLIT)
    (hxd : dE.expr = some (intStr d)) (hxn : nE.expr = some (intStr n))
    (hn1 : 1 ≤ n) (hn2 : n < 2 ^ 53) (hd1 : -n ≤ d) (hd2 : d ≤ n) :
    ∃ s', opRoll s = .ok s' ∧
      s'.sp = (need n { s with sp := s.sp - 2 }).sp ∧
      s'.block = (need n { s with sp := s.sp - 2 }).block ∧
      s'.tracked.take (s'.sp - n.toNat) =
        (need n { s with sp := s.sp - 2 }).tracked.take (s'.sp - n.toNat) ∧
      (0 ≤ d → (s'.tracked.drop (s'.sp - n.toNat)).map Entry.te =
        (((need n { s with sp := s.sp - 2 }).tracked.drop (s'.sp - n.toNat)).drop (n - d).toNat ++
         ((need n { s with sp := s.sp - 2 }).tracked.drop (s'.sp - n.toNat)).take (n - d).toNat).map
          Entry.te) ∧
      (d < 0 → (s'.tracked.drop (s'.sp - n.toNat)).map Entry.te =
        (((need n { s with sp := s.sp - 2 }).tracked.drop (s'.sp - n.toNat)).drop (-d).toNat ++
         ((need n { s with sp := s.sp - 2 }).tracked.drop (s'.sp - n.toNat)).take (-d).toNat).map
          Entry.te) := by
  have hlt : s.sp - 1 < s.st.length := (List.getElem?_eq_some.mp hd).1
  have hwf0 : ({ s with sp := s.sp - 2 } : PSC).sp ≤ ({ s with sp := s.sp - 2 } : PSC).st.length := by
    simp only; omega
  have hwf := need_wf { s with sp := s.sp - 2 } n hwf0
  have hge : n.toNat ≤ (need n { s with sp := s.sp - 2 }).sp := by
    have := (need_eq { s with sp := s.sp - 2 } n).2.1
    omega
  generalize hs1 : need n { s with sp := s.sp - 2 } = s1 at hwf hge ⊢
  obtain ⟨hst, hlA, hlG⟩ := tracked_split s1 n.toNat hwf hge
  have hns : n.natAbs < maxSafe := by unfold maxSafe; norm_num at hn2 ⊢; omega
  have hds : d.natAbs < maxSafe := by unfold maxSafe; norm_num at hn2 ⊢; omega
  have heq := opRoll_eq s dE nE d n hsp hd hn htd htn
    (by rw [hxd]; exact intOfText_intStr d hds) (by rw [hxn]; exact intOfText_intStr n hns)
  rw [hs1] at heq
  obtain ⟨st3, h1, h2, h3⟩ := rollTail_spec s1 (s1.tracked.take (s1.sp - n.toNat))
    (s1.tracked.drop (s1.sp - n.toNat)) (s1.st.drop s1.sp) d n
    (if d < 0 then -d else n - d).toNat hst (by rw [hlA, hlG]; omega) (by rw [hlG]; omega)
    (by rw [hlG]; omega) (by rw [hlG]; split <;> omega) (by split <;> omega)
  rw [hlA] at h2
  have htk : ({ s1 with st := st3, seq := s1.seq + ((s1.tracked.drop (s1.sp - n.toNat)).length - 1) }
      : PSC).tracked = st3.take s1.sp := rfl
  have hA : (st3.take s1.sp).take (s1.sp - n.toNat) = s1.tracked.take (s1.sp - n.toNat) := by
    rw [List.take_take, Nat.min_eq_left (by omega), h2]
  have hG : ((st3.take s1.sp).drop (s1.sp - n.toNat)).map Entry.te =
      ((s1.tracked.drop (s1.sp - n.toNat)).drop (if d < 0 then -d else n - d).toNat ++
       (s1.tracked.drop (s1.sp - n.toNat)).take (if d < 0 then -d else n - d).toNat).map
        Entry.te := by
    rw [List.map_drop, h3, List.append_assoc, List.map_append, List.drop_append_eq_append_drop]
    have hlen : (List.map Entry.te (List.take (s1.sp - n.toNat) s1.tracked)).length
        = s1.sp - n.toNat := by rw [List.length_map, hlA]
    rw [List.drop_of_length_le (by omega), hlen, Nat.sub_self, List.drop_zero, List.nil_append]
  refine ⟨_, heq.trans h1, rfl, rfl, ?_, ?_, ?_⟩
  · rw [htk]; exact hA
  · intro h0
    rw [htk, hG]
    have : ¬ d < 0 := by omega
    simp only [this, if_false]
  · intro h0
    rw [htk, hG]
    simp only [h0, if_true]

/-- C16.  `$.roll` on a trace stack whose two top entries are the integer
literals `n` (below) and `d` (top) with `1 <= n` and `-n <= d <= n`.  With `s1`
the state after the two literals are removed and `need(n)` has run, and `G` the
top `n` entries of `s1` (bottom first): no line is emitted beyond those of
`need`, the entries below `G` are unchanged, and the top `n` entries become,
in type and expression, `G` rotated: for `d >= 0` the top `d` entries of `G`
followed by (beneath) the other `n - d`, for `d < 0` the entries of `G` above
its bottom `-d` ones followed by (on top) these `-d` entries. -/
theorem roll_spec (s : PSC) (dE nE : Entry) (d n : Int) (hsp : 2 ≤ s.sp)
    (hd : s.st[s.sp - 1]? = some dE) (hn : s.st[s.sp - 2]? = some nE)
    (htd : dE.type = TYPE_INTLIT) (htn : nE.type = TYPE_INTLIT)
    (hxd : dE.expr = some (intStr d)) (hxn : nE.expr = some (intStr n))
    (hn1 : 1 ≤ n) (hn2 : n < 2 ^ 53) (hd1 : -n ≤ d) (hd2 : d ≤ n) :
    ∃ s', opRoll s = .ok s' ∧
      s'.sp = (need n { s with sp := s.sp - 2 }).sp ∧
      s'.block = (need n { s with sp := s.sp - 2 }).block ∧
      s'.tracked.take (s'.sp - n.toNat) =
        (need n { s with sp := s.sp - 2 }).tracked.take (s'.sp - n.toNat) ∧
      (0 ≤ d → (s'.tracked.drop (s'.sp - n.toNat)).map Entry.te =
        (((need n { s with sp := s.sp - 2 }).tracked.drop (s'.sp - n.toNat)).drop (n - d).toNat ++
         ((need n { s with sp := s.sp - 2 }).tracked.drop (s'.sp - n.toNat)).take (n - d).toNat).map
          Entry.te) ∧
      (d < 0 → (s'.tracked.drop (s'.sp - n.toNat)).map Entry.te =
        (((need n { s with sp := s.sp - 2 }).tracked.drop (s'.sp - n.toNat)).drop (-d).toNat ++
         ((need n { s with sp := s.sp - 2 }).tracked.drop (s'.sp - n.toNat)).take (-d).toNat).map
          Entry.te) :=
  roll_core s dE nE d n hsp hd hn htd htn hxd hxn hn1 hn2 hd1 hd2

theorem roll_spec_witness :
    ∃ s', opRoll rollWitnessState = .ok s' ∧
      s'.tracked.map Entry.te = [(0, some "_2"), (0, some "_0"), (0, some "_1")] := by
  obtain ⟨s', h, hsp, _, hA, hpos, _⟩ := roll_spec rollWitnessState
    { type := TYPE_INTLIT, expr := some "1", tokens := none, seq := 5 }
    { type := TYPE_INTLIT, expr := some "3", tokens := none, seq := 4 } 1 3
    (by decide) (by decide) (by decide) rfl rfl (by decide) (by decide) (by decide) (by decide)
    (by decide) (by decide)
  refine ⟨s', h, ?_⟩
  have hsp3 : s'.sp = 3 := by rw [hsp]; decide
  have h0 := hpos (by decide)
  rw [hsp3] at h0
  have htr : s'.tracked = s'.tracked.drop (3 - (3 : Int).toNat) := rfl
  rw [htr, h0]
  decide

/-! ## `copy` -/

theorem copyLoop_spec (k : Nat) : ∀ (idx : Nat) (s : PSC), idx + k ≤ s.sp → s.sp ≤ s.st.length →
    ∃ s' C, copyLoop k (idx : Int) s = .ok s' ∧ s'.sp = s.sp + k ∧ s'.sp ≤ s'.st.length ∧
      s'.block = s.block ∧ s'.tvarno = s.tvarno ∧ s'.tracked = s.tracked ++ C ∧
      C.map Entry.te = ((s.tracked.drop idx).take k).map Entry.te := by
  induction k with
  | zero =>
    intro idx s _ hwf
    exact ⟨s, [], rfl, rfl, hwf, rfl, rfl, by simp, by simp⟩
  | succ k ih =>
    intro idx s hk hwf
    have hi : idx < s.st.length := by omega
    have hg : stGet s.st (idx : Int) = .ok s.st[idx] := stGet_nat s.st idx _ (List.getElem?_eq_getElem hi)
    have hwf1 : s.sp + 1 ≤ (stSet s.st s.sp (clone s.st[idx] (s.seq + 1))).length := by
      rw [stSet_length _ _ _ hwf]; omega
    obtain ⟨s', C, h1, h2, h3, h4, h5, h6, h7⟩ := ih (idx + 1)
      { s with st := stSet s.st s.sp (clone s.st[idx] (s.seq + 1)), sp := s.sp + 1, seq := s.seq + 1 }
      (by simp only; omega) hwf1
    have htr1 : PSC.tracked
        { s with
          st := stSet s.st s.sp (clone s.st[idx] (s.seq + 1))
          sp := s.sp + 1
          seq := s.seq + 1 } =
        s.tracked ++ [clone s.st[idx] (s.seq + 1)] := by
      simp only [PSC.tracked]
      exact take_stSet_push _ _ _ hwf
    have hl := tracked_length s hwf
    have hx : s.tracked[idx]? = some s.st[idx] := by
      simp only [PSC.tracked]
      rw [List.getElem?_take_of_lt (by omega)]
      exact List.getElem?_eq_getElem hi
    refine ⟨s', clone s.st[idx] (s.seq + 1) :: C, ?_, ?_, h3, ?_, ?_, ?_, ?_⟩
    · unfold copyLoop
      simp only [hg]
      have hc : ((idx : Int) + 1) = ((idx + 1 : Nat) : Int) := by simp
      rw [hc]
      exact h1
    · rw [h2]; simp only; omega
    · rw [h4]
    · rw [h5]
    · rw [h6, htr1]; simp
    · rw [List.map_cons, h7, htr1]
      have hd : s.tracked.drop idx = s.st[idx] :: s.tracked.drop (idx + 1) := by
        rw [List.drop_eq_getElem_cons (by omega)]
        congr 1
        have := hx
        rw [List.getElem?_eq_getElem (by omega)] at this
        exact Option.some.inj this
      rw [hd, List.take_succ_cons, List.map_cons]
      congr 1
      rw [List.drop_append_of_le_length (by omega), List.take_append_of_le_length]
      rw [List.length_drop]; omega

theorem copy_core (s : PSC) (arg : Entry) (hsp : 1 ≤ s.sp)
    (harg : s.st[s.sp - 1]? = some arg) :
    (∀ n : Int, hasType arg.type TYPE_INTLIT = true → arg.expr = some (intStr n) →
      0 ≤ n → n < 2 ^ 53 →
      ∃ s' C, opCopy s = .ok s' ∧
        s'.sp = (need n { s with sp := s.sp - 1 }).sp + n.toNat ∧
        s'.block = (need n { s with sp := s.sp - 1 }).block ∧
        s'.tracked = (need n { s with sp := s.sp - 1 }).tracked ++ C ∧ C.length = n.toNat ∧
        C.map Entry.te = ((need n { s with sp := s.sp - 1 }).tracked.drop
          ((need n { s with sp := s.sp - 1 }).sp - n.toNat)).map Entry.te) ∧
    (hasType arg.type TYPE_INTLIT = false → hasType arg.type TYPE_STRVAL = false →
      opCopy s = .error (.thrown "TBD")) := by
  have g : stGet s.st ((s.sp : Int) - 1) = .ok arg := by
    simpa using stGet_sub s.st s.sp 1 arg hsp harg
  have hlt : s.sp - 1 < s.st.length := (List.getElem?_eq_some.mp harg).1
  constructor
  · intro n hty hx hn0 hn2
    have hns : n.natAbs < maxSafe := by unfold maxSafe; norm_num at hn2 ⊢; omega
    have hwf0 : ({ s with sp := s.sp - 1 } : PSC).sp ≤ ({ s with sp := s.sp - 1 } : PSC).st.length := by
      simp only; omega
    have hwf := need_wf { s with sp := s.sp - 1 } n hwf0
    have hge : n.toNat ≤ (need n { s with sp := s.sp - 1 }).sp := by
      have := (need_eq { s with sp := s.sp - 1 } n).2.1
      omega
    generalize hs1 : need n { s with sp := s.sp - 1 } = s1 at hwf hge ⊢
    obtain ⟨s', C, h1, h2, h3, h4, h5, h6, h7⟩ :=
      copyLoop_spec n.toNat (s1.sp - n.toNat) s1 (by omega) hwf
    have hidx : ((s1.sp : Int) - n) = ((s1.sp - n.toNat : Nat) : Int) := by omega
    have hl := tracked_length s1 hwf
    have hCl : C.length = n.toNat := by
      have := congrArg List.length h7
      simp only [List.length_map, List.length_take, List.length_drop, hl] at this
      omega
    refine ⟨s', C, ?_, h2, h4, h6, hCl, ?_⟩
    · unfold opCopy
      simp only [g, hty, if_true, hx, Option.some_bind, intOfText_intStr n hns, hs1]
      rw [hidx]
      exact h1
    · rw [h7]
      congr 1
      apply List.take_of_length_le
      rw [List.length_drop, hl]; omega
  · intro h1 h2
    unfold opCopy
    simp [g, h1, h2]

/-- C19.  `$.copy` on a trace stack whose top entry `arg` is an integer literal
with the decimal text of `n >= 0`.  With `s1` the state after the literal is
removed and `need(n)` has run: no line is emitted beyond those of `need`, the
entries of `s1` are kept, and `n` entries `C` are pushed which equal, in type
and expression and in the same order, the `n` top entries of `s1`.  When the
type of the top entry has neither the integer-literal bit nor the
computed-string bit, the error `TBD` is raised. -/
theorem copy_spec (s : PSC) (arg : Entry) (hsp : 1 ≤ s.sp)
    (harg : s.st[s.sp - 1]? = some arg) :
    (∀ n : Int, hasType arg.type TYPE_INTLIT = true → arg.expr = some (intStr n) →
      0 ≤ n → n < 2 ^ 53 →
      ∃ s' C, opCopy s = .ok s' ∧
        s'.sp = (need n { s with sp := s.sp - 1 }).sp + n.toNat ∧
        s'.block = (need n { s with sp := s.sp - 1 }).block ∧
        s'.tracked = (need n { s with sp := s.sp - 1 }).tracked ++ C ∧ C.length = n.toNat ∧
        C.map Entry.te = ((need n { s with sp := s.sp - 1 }).tracked.drop
          ((need n { s with sp := s.sp - 1 }).sp - n.toNat)).map Entry.te) ∧
    (hasType arg.type TYPE_INTLIT = false → hasType arg.type TYPE_STRVAL = false →
      opCopy s = .error (.thrown "TBD")) :=
  copy_core s arg hsp harg

theorem copy_spec_witness :
    (∃ s', opCopy copyWitnessState = .ok s' ∧ s'.sp = 5) ∧
    opCopy { rollWitnessState with sp := 3 } = .error (.thrown "TBD") := by
  constructor
  · obtain ⟨s', C, h, hsp, _⟩ := (copy_spec copyWitnessState
      { type := TYPE_INTLIT, expr := some "2", tokens := none, seq := 4 } (by decide)
      (by decide)).1 2 (by decide) (by decide) (by decide) (by decide)
    refine ⟨s', h, ?_⟩
    rw [hsp]
    decide
  · exact (copy_spec { rollWitnessState with sp := 3 }
      { type := TYPE_UNKNOWN, expr := some "_2", tokens := none, seq := 3 } (by decide)
      (by decide)).2 (by decide) (by decide)

/-! ## `index` -/

theorem index_core (s : PSC) (v : Entry)
    (hv : (need 1 s).st[(need 1 s).sp - 1]? = some v) :
    (∀ k : Int, v.type = TYPE_INTLIT → v.expr = some (intStr k) → 0 ≤ k → k < 2 ^ 53 →
      ∃ s' x, opIndex s = .ok s' ∧
        (need (k + 1) { need 1 s with sp := (need 1 s).sp - 1 }).tracked[
          (need (k + 1) { need 1 s with sp := (need 1 s).sp - 1 }).sp - 1 - k.toNat]? = some x ∧
        s'.tracked = (need (k + 1) { need 1 s with sp := (need 1 s).sp - 1 }).tracked ++
          [clone x ((need (k + 1) { need 1 s with sp := (need 1 s).sp - 1 }).seq + 1)] ∧
        s'.block = (need (k + 1) { need 1 s with sp := (need 1 s).sp - 1 }).block ∧
        s'.sp = (need (k + 1) { need 1 s with sp := (need 1 s).sp - 1 }).sp + 1) ∧
    (∀ xs : List String, v.type ≠ TYPE_INTLIT →
      ((need 1 s).st.take ((need 1 s).sp - 1)).map (·.expr) = xs.map some →
      ∃ s', opIndex s = .ok s' ∧
        s'.block = (need 1 s).block ++ pushLines s.lex.lnbr (need 1 s).seq xs ++
          [{ code := "var " ++ tvar (need 1 s).tvarno ++ "=$k[$j-1-" ++ parens (exprStr v.expr) ++ "];",
             lnbr := s.lex.lnbr, seq := (need 1 s).seq + ((need 1 s).sp - 1) + 1 }] ∧
        s'.tracked = [{ type := TYPE_UNKNOWN, expr := some (tvar (need 1 s).tvarno), tokens := none,
                        seq := (need 1 s).seq + ((need 1 s).sp - 1) + 1 + 1 }] ∧
        s'.tvarno = (need 1 s).tvarno + 1) := by
  have hsp1 : 1 ≤ (need 1 s).sp := need_sp_ge s 1
  have hlt : (need 1 s).sp - 1 < (need 1 s).st.length := (List.getElem?_eq_some.mp hv).1
  have g : stGet (need 1 s).st (((need 1 s).sp : Int) - 1) = .ok v := by
    simpa using stGet_sub (need 1 s).st (need 1 s).sp 1 v hsp1 hv
  have hlex := need_lex s 1
  constructor
  · intro k hty hx hk0 hk2
    have hks : k.natAbs < maxSafe := by unfold maxSafe; norm_num at hk2 ⊢; omega
    have hwf0 : ({ need 1 s with sp := (need 1 s).sp - 1 } : PSC).sp ≤
        ({ need 1 s with sp := (need 1 s).sp - 1 } : PSC).st.length := by
      simp only; omega
    have hwf := need_wf { need 1 s with sp := (need 1 s).sp - 1 } (k + 1) hwf0
    have hge : (k + 1).toNat ≤ (need (k + 1) { need 1 s with sp := (need 1 s).sp - 1 }).sp := by
      have := (need_eq { need 1 s with sp := (need 1 s).sp - 1 } (k + 1)).2.1
      omega
    have he : opIndex s =
        (match stGet (need (k + 1) { need 1 s with sp := (need 1 s).sp - 1 }).st
            (((need (k + 1) { need 1 s with sp := (need 1 s).sp - 1 }).sp : Int) - (k + 1)) with
        | .error e => .error e
        | .ok x => .ok { need (k + 1) { need 1 s with sp := (need 1 s).sp - 1 } with
            st := stSet (need (k + 1) { need 1 s with sp := (need 1 s).sp - 1 }).st
              (need (k + 1) { need 1 s with sp := (need 1 s).sp - 1 }).sp
              (clone x ((need (k + 1) { need 1 s with sp := (need 1 s).sp - 1 }).seq + 1))
            sp := (need (k + 1) { need 1 s with sp := (need 1 s).sp - 1 }).sp + 1
            seq := (need (k + 1) { need 1 s with sp := (need 1 s).sp - 1 }).seq + 1 }) := by
      unfold opIndex
      simp only [g, hty, if_true, hx, Option.some_bind, intOfText_intStr k hks]
      try rfl
    generalize hs3 : need (k + 1) { need 1 s with sp := (need 1 s).sp - 1 } = s3 at hwf hge he ⊢
    have hi : s3.sp - 1 - k.toNat < s3.st.length := by omega
    have hidx : ((s3.sp : Int) - (k + 1)) = ((s3.sp - 1 - k.toNat : Nat) : Int) := by omega
    have hg : stGet s3.st ((s3.sp : Int) - (k + 1)) = .ok s3.st[s3.sp - 1 - k.toNat] := by
      rw [hidx]
      exact stGet_nat _ _ _ (List.getElem?_eq_getElem hi)
    rw [hg] at he
    refine ⟨_, s3.st[s3.sp - 1 - k.toNat], he, ?_, ?_, rfl, rfl⟩
    · simp only [PSC.tracked]
      rw [List.getElem?_take_of_lt (by omega)]
      exact List.getElem?_eq_getElem hi
    · simp only [PSC.tracked]
      exact take_stSet_push _ _ _ hwf
  · intro xs hty hxs
    have hfl := (ctxflush_tracked
      { need 1 s with sp := (need 1 s).sp - 1, tvarno := (need 1 s).tvarno + 1 }
      (by simp only; omega)).1 xs (by simpa [PSC.tracked] using hxs)
    have he : opIndex s = .ok (pushEntry TYPE_UNKNOWN (tvar (need 1 s).tvarno)
        (emit ("var " ++ tvar (need 1 s).tvarno ++ "=$k[$j-1-" ++ parens (exprStr v.expr) ++ "];")
          { need 1 s with
            sp := 0
            tvarno := (need 1 s).tvarno + 1
            block := (need 1 s).block ++ pushLines (need 1 s).lex.lnbr (need 1 s).seq xs
            seq := (need 1 s).seq + ((need 1 s).sp - 1) })) := by
      unfold opIndex
      simp only [g, hty, if_false]
      simp only at hfl
      rw [hfl]
    refine ⟨_, he, ?_, ?_, ?_⟩
    · simp [pushEntry, emit, hlex]
    · simp [pushEntry, emit, PSC.tracked, stSet]
    · simp [pushEntry, emit]

/-- C20.  `$.index`, `v` being the entry on top of the trace stack once
`need(1)` has run.  When `v` is an integer literal with the decimal text of
`k >= 0`: with `s3` the state after the literal is removed and `need(k+1)` has
run, no line is emitted beyond those of `need`, the entries of `s3` are kept
and a clone of the entry `x` that lies `k` positions below the top of `s3` is
pushed.  When the type of `v` is not integer literal and the remaining entries
have the expressions `xs`: these entries are flushed, one line
`var T=$k[$j-1-`parens(expr of v)`];` is emitted for the next temporary `T`,
and the trace stack holds the single entry `T` of unknown type. -/
theorem index_spec (s : PSC) (v : Entry)
    (hv : (need 1 s).st[(need 1 s).sp - 1]? = some v) :
    (∀ k : Int, v.type = TYPE_INTLIT → v.expr = some (intStr k) → 0 ≤ k → k < 2 ^ 53 →
      ∃ s' x, opIndex s = .ok s' ∧
        (need (k + 1) { need 1 s with sp := (need 1 s).sp - 1 }).tracked[
          (need (k + 1) { need 1 s with sp := (need 1 s).sp - 1 }).sp - 1 - k.toNat]? = some x ∧
        s'.tracked = (need (k + 1) { need 1 s with sp := (need 1 s).sp - 1 }).tracked ++
          [clone x ((need (k + 1) { need 1 s with sp := (need 1 s).sp - 1 }).seq + 1)] ∧
        s'.block = (need (k + 1) { need 1 s with sp := (need 1 s).sp - 1 }).block ∧
        s'.sp = (need (k + 1) { need 1 s with sp := (need 1 s).sp - 1 }).sp + 1) ∧
    (∀ xs : List String, v.type ≠ TYPE_INTLIT →
      ((need 1 s).st.take ((need 1 s).sp - 1)).map (·.expr) = xs.map some →
      ∃ s', opIndex s = .ok s' ∧
        s'.block = (need 1 s).block ++ pushLines s.lex.lnbr (need 1 s).seq xs ++
          [{ code := "var " ++ tvar (need 1 s).tvarno ++ "=$k[$j-1-" ++ parens (exprStr v.expr) ++ "];",
             lnbr := s.lex.lnbr, seq := (need 1 s).seq + ((need 1 s).sp - 1) + 1 }] ∧
        s'.tracked = [{ type := TYPE_UNKNOWN, expr := some (tvar (need 1 s).tvarno), tokens := none,
                        seq := (need 1 s).seq + ((need 1 s).sp - 1) + 1 + 1 }] ∧
        s'.tvarno = (need 1 s).tvarno + 1) :=
  index_core s v hv

theorem index_spec_witness :
    (∃ s', opIndex indexWitnessState = .ok s' ∧
      s'.tracked.map Entry.te = [(0, some "_0"), (0, some "_1"), (0, some "_2"), (0, some "_1")]) ∧
    (∃ s', opIndex { rollWitnessState with sp := 3 } = .ok s' ∧
      s'.block.map (·.code) = ["$k[$j++]=_0;", "$k[$j++]=_1;", "var _3=$k[$j-1-_2];"]) := by
  constructor
  · obtain ⟨s', x, h, hx, htr, _⟩ := (index_spec indexWitnessState
      { type := TYPE_INTLIT, expr := some "1", tokens := none, seq := 4 } (by decide)).1 1
      rfl (by decide) (by decide) (by decide)
    refine ⟨s', h, ?_⟩
    have hx' : x = { type := TYPE_UNKNOWN, expr := some "_1", tokens := none, seq := 2 } := by
      have h2 : (need (1 + 1) { need 1 indexWitnessState with
          sp := (need 1 indexWitnessState).sp - 1 }).tracked[
          (need (1 + 1) { need 1 indexWitnessState with
            sp := (need 1 indexWitnessState).sp - 1 }).sp - 1 - (1 : Int).toNat]? =
          some { type := TYPE_UNKNOWN, expr := some "_1", tokens := none, seq := 2 } := by decide
      rw [h2] at hx
      exact (Option.some.inj hx).symm
    rw [htr, hx']
    decide
  · obtain ⟨s', h, hb, _⟩ := (index_spec { rollWitnessState with sp := 3 }
      { type := TYPE_UNKNOWN, expr := some "_2", tokens := none, seq := 3 } (by decide)).2
      ["_0", "_1"] (by decide) (by decide)
    refine ⟨s', h, ?_⟩
    rw [hb]
    decide

/-! ## Unknown identifiers, loop bodies that are names, odd dictionary bodies -/

/-- C12, the code at the failing input.  When the body of `for` is an
immediately evaluated name, the entry of the loop value is pushed on the trace
stack of the enclosing block and stays there: `$.for` returns with `sp = 1`, the
call `$0.g();` in the loop is not preceded by a push of the loop value, and the
value is pushed once, after the loop.  With a captured block as body the loop
value is handed to the body and nothing is left. -/
theorem for_name_body_keeps_loop_value :
    (opFor (compile 5) forNameState).map (fun s => (s.sp, s.block.map (·.code))) =
      .ok (1, ["for(var _0=1;_0<=3;_0+=1)\x7b", "$0.g();", "\x7d"]) ∧
    PSCmain 60 { devar := false, coverage := false } progForName =
      .ok ("$0.g=function()\x7b\n$j--;/*1*/\n\x7d;\n" ++
           "$0.f=function()\x7b\nfor(var _0=1;_0<=3;_0+=1)\x7b/*2*/\n$0.g();/*2*/\n\x7d/*2*/\n" ++
           "$k[$j++]=_0;/*2*/\n\x7d;\n") ∧
    PSCmain 60 { devar := false, coverage := false } progForBlock =
      .ok ("$0.f=function()\x7b\nfor(var _0=1;_0<=3;_0+=1)\x7b/*2*/\n\x7d/*2*/\n\x7d;\n") := by
  decide!

/-- C15, the code at the failing input.  The static dictionary `<< /a 1 /b (x) >>`
compiles to one construction line, and a body whose key is not a name is built
at run time behind a sentinel.  But a body whose lines end with a declaration,
or with a key that has no value, is neither: the scan reads the line behind the
last one and the compilation stops with a `TypeError`. -/
theorem dict_literal_scan_past_end :
    PSCmain 60 { devar := false, coverage := false } progDictStatic =
      .ok ("$0.f=function()\x7b\nvar _0=\x7b\na:1,b:\"x\"\n\x7d;/*1*/\n$k[$j++]=_0;/*1*/\n\x7d;\n") ∧
    PSCmain 60 { devar := false, coverage := false } progDictRuntime =
      .ok ("$0.f=function()\x7b\n$k[$j++]=Infinity;/*1*/\n$k[$j++]=1;/*1*/\n$k[$j++]=2;/*1*/\n" ++
           "var _0=$d();/*1*/\n$k[$j++]=_0;/*1*/\n\x7d;\n") ∧
    PSCmain 60 { devar := false, coverage := false } progDictDeclOnly =
      .error (.typeError "lines[i] is undefined") ∧
    PSCmain 60 { devar := false, coverage := false } progDictKeyOnly =
      .error (.typeError "lines[i] is undefined") := by
  decide!

/-- The first pass over the body of a top-level procedure rejects the
identifier `x` when a procedure has been bound at dictionary level 0 earlier in
the body, also when the same body has defined `x` before that. -/
theorem unknown_ident_pass1 :
    bindPass1 (compile 40) bodyNestedBind (topLevelBindState bodyNestedBind) =
      .error (.thrown "UNKNOWN IDENT: (x) #1") ∧
    bindPass1 (compile 40) bodyNestedBindDefined (topLevelBindState bodyNestedBindDefined) =
      .error (.thrown "UNKNOWN IDENT: (x) #1") := by
  decide!

/-- C11, the code at the failing input.  In
`/A { /x 1 def /f { 1 } bind def x } bind def` the body defines `x` before it
uses it, but the bind of `f`, which stands at dictionary level 0, runs the two
passes of a global bind inside the first pass of `A`: it resets the dictionary
and leaves unknown identifiers forbidden, and the first pass of `A` rejects
`x`.  Without `f` the source compiles, and so it does when `f` is bound at
dictionary level 1. -/
theorem nested_bind_forbids_unknown :
    PSCmain 80 { devar := false, coverage := false } progNestedBind =
      .error (.thrown "UNKNOWN IDENT: (x) #1") ∧
    PSCmain 80 { devar := false, coverage := false } progNoNestedBind =
      .ok "$0.A=function()\x7b\n$0.x=1;/*1*/\nvar _0=$0.x;/*1*/\n$k[$j++]=_0;/*1*/\n\x7d;\n" ∧
    PSCmain 80 { devar := false, coverage := false } progNestedBindDict =
      .ok ("$0.A=function()\x7b\nvar $1=\x7b\x7d;/*1*/\n$1.x=1;/*1*/\n$1.f=function()\x7b\n" ++
           "$k[$j++]=1;/*1*/\n\x7d;/*1*/\nvar _0=$1.x;/*1*/\n$k[$j++]=_0;/*1*/\n\x7d;\n") := by
  decide!

theorem flushEntries_error (lnbr : Nat) (es : List Entry) :
    ∀ (b : List Line) (q : Nat) (e : Err), flushEntries lnbr es b q = .error e →
      e = .thrown "ctxflush: missing expression" := by
  induction es with
  | nil => intro b q e h; simp [flushEntries] at h
  | cons x xs ih =>
    intro b q e h
    unfold flushEntries at h
    split at h
    · cases h; rfl
    · exact ih _ _ _ h

theorem ctxflush_error (s : PSC) (e : Err) (h : ctxflush s = .error e) :
    e = .thrown "ctxflush: missing expression" ∨ e = .typeError "st[i] is undefined" := by
  unfold ctxflush at h
  split at h
  · rename_i e1 he
    cases h
    exact Or.inl (flushEntries_error _ _ _ _ _ he)
  · split at h
    · cases h; exact Or.inr rfl
    · cases h

theorem unknown_msg_ne (tkn t : String) :
    "UNKNOWN IDENT: (" ++ tkn ++ t ≠ "ctxflush: missing expression" := by
  intro h
  have h1 := congrArg (fun x => x.data.head?) h
  simp [String.data_append] at h1

theorem compileToken_ident (comp : Comp) (tkn : String) (lnbr : Nat) (s : PSC)
    (h : reachesIdent comp tkn = true) :
    compileToken comp tkn lnbr s = compileIdent tkn lnbr s := by
  unfold reachesIdent at h
  simp only [Bool.and_eq_true, bne_iff_ne, ne_eq, Bool.not_eq_true', decide_eq_false_iff_not,
    Option.isNone_iff_eq_none] at h
  obtain ⟨⟨⟨⟨⟨⟨h1, h2⟩, h3⟩, h4⟩, h5⟩, h6⟩, h7⟩ := h
  unfold compileToken
  rw [if_neg h1, if_neg h2, if_neg h3]
  cases hd : tkn.data with
  | nil => simp [hd] at h4
  | cons c rest =>
    simp only [hd, Bool.and_eq_true, Bool.not_eq_true'] at h4
    obtain ⟨⟨ha, hb⟩, hc⟩ := h4
    simp only [ha, hb, hc, h5, Bool.false_eq_true, if_false, h6, h7]

/-- The rule of the identifier branch, and what a bind at dictionary level 0
leaves.  For a token `tkn` that reaches the identifier branch of
`compile`: (1) while unknown identifiers are allowed, it is never rejected with
`UNKNOWN IDENT`; (2) while they are forbidden, it is rejected with
`UNKNOWN IDENT`, naming the token and its line, if and only if the dictionary
has no entry for it; (3) the first pass of a global `bind` compiles the body
from the seeded dictionary with unknown identifiers allowed, and when it ends
the second pass starts with unknown identifiers forbidden and the dictionary
the first pass has left. -/
theorem unknown_ident_rule (comp : Comp) (tkn : String) (lnbr : Nat) (s : PSC)
    (h : reachesIdent comp tkn = true) :
    (s.allowunknown = true →
      compileToken comp tkn lnbr s ≠
        .error (.thrown ("UNKNOWN IDENT: (" ++ tkn ++ ") #" ++ lnbrStr lnbr))) ∧
    (s.allowunknown = false →
      (compileToken comp tkn lnbr s =
          .error (.thrown ("UNKNOWN IDENT: (" ++ tkn ++ ") #" ++ lnbrStr lnbr)) ↔
        dictGet s.dict tkn = none)) ∧
    (∀ (tkns : List Token) (s0 s1 : PSC), bindPass1 comp tkns s0 = .ok s1 →
      (pass1Start tkns s0).allowunknown = true ∧ (pass1Start tkns s0).dict = seedDict ∧
      s1.allowunknown = false ∧
      ∃ sA, comp (pass1Start tkns s0) = .ok sA ∧ s1.dict = sA.dict) := by
  have hne : ∀ e : Err, (e = .thrown "ctxflush: missing expression" ∨
      e = .typeError "st[i] is undefined") →
      e ≠ .thrown ("UNKNOWN IDENT: (" ++ tkn ++ ") #" ++ lnbrStr lnbr) := by
    intro e he heq
    rcases he with he | he
    · rw [he] at heq
      simp only [Err.thrown.injEq] at heq
      exact unknown_msg_ne tkn (") #" ++ lnbrStr lnbr) (by simpa [String.append_assoc] using heq.symm)
    · rw [he] at heq
      cases heq
  have hacc : ((dictGet s.dict tkn).isSome || s.allowunknown) = true →
      compileIdent tkn lnbr s ≠
        .error (.thrown ("UNKNOWN IDENT: (" ++ tkn ++ ") #" ++ lnbrStr lnbr)) := by
    intro hcond heq
    unfold compileIdent at heq
    rw [if_pos hcond] at heq
    split at heq
    · cases hf : ctxflush s with
      | error e =>
        rw [hf] at heq
        simp only [Except.error.injEq] at heq
        exact hne e (ctxflush_error s e hf) heq
      | ok s1 =>
        rw [hf] at heq
        simp only at heq
        split at heq <;> cases heq
    · split at heq <;> cases heq
  rw [compileToken_ident comp tkn lnbr s h]
  refine ⟨?_, ?_, ?_⟩
  · intro hau
    exact hacc (by simp [hau])
  · intro hau
    constructor
    · intro heq
      by_contra hd
      have hsome : (dictGet s.dict tkn).isSome = true := by
        cases hg : dictGet s.dict tkn with
        | none => exact absurd hg hd
        | some v => rfl
      exact hacc (by simp [hsome]) heq
    · intro hd
      unfold compileIdent
      simp [hd, hau]
  · intro tkns s0 s1 h1
    refine ⟨rfl, rfl, ?_⟩
    unfold bindPass1 at h1
    cases hA : comp (pass1Start tkns s0) with
    | error e =>
      unfold pass1Start at hA
      simp [hA] at h1
    | ok sA =>
      have hA2 := hA
      unfold pass1Start at hA2
      simp only [hA2] at h1
      cases hp : ctxpop sA with
      | error e => simp [hp] at h1
      | ok r =>
        obtain ⟨lines, sB⟩ := r
        simp only [hp, Except.ok.injEq] at h1
        have hd := ctxpop_dict sA sB lines hp
        rw [← h1]
        exact ⟨rfl, sA, rfl, hd⟩

theorem unknown_ident_rule_witness :
    reachesIdent (compile 5) "x" = true ∧
    (compileToken (compile 5) "x" 1 (PSC.init { devar := true, coverage := false } []) =
        .error (.thrown ("UNKNOWN IDENT: (" ++ "x" ++ ") #" ++ lnbrStr 1)) ↔
      dictGet (PSC.init { devar := true, coverage := false } []).dict "x" = none) :=
  ⟨by decide, (unknown_ident_rule (compile 5) "x" 1
      (PSC.init { devar := true, coverage := false } []) (by decide)).2.1 rfl⟩

/-! ## The stack of saved contexts is left as it was by every operator -/

theorem need_context (s : PSC) (n : Int) : (need n s).context = s.context := by
  rw [(need_eq s n).1]

theorem ctxflush_context (s s1 : PSC) (h : ctxflush s = .ok s1) : s1.context = s.context :=
  (ctxflush_dict s s1 h).2.2

theorem newbranch_context (s : PSC) : (newbranch s).context = s.context := by
  unfold newbranch
  split <;> rfl

theorem append_context (lines : List Line) : ∀ s : PSC, (append lines s).context = s.context := by
  induction lines with
  | nil => intro s; rfl
  | cons l ls ih =>
    intro s
    unfold append
    rw [List.foldl_cons]
    exact (ih _).trans rfl

theorem emitLines_context (lines : List Line) :
    ∀ s : PSC, (lines.foldl (fun acc l => emitLine l acc) s).context = s.context := by
  induction lines with
  | nil => intro s; rfl
  | cons l ls ih =>
    intro s
    rw [List.foldl_cons]
    exact (ih _).trans rfl

theorem opPop_context (s s1 : PSC) (h : opPop s = .ok s1) : s1.context = s.context := by
  unfold opPop at h
  repeat' split at h
  all_goals first | (cases h; done) | (cases h; rfl)

theorem opExch_context (s s1 : PSC) (h : opExch s = .ok s1) : s1.context = s.context := by
  unfold opExch at h
  simp only [] at h
  repeat' split at h
  all_goals first | (cases h; done) | (cases h; exact need_context _ _)

theorem opDup_context (s s1 : PSC) (h : opDup s = .ok s1) : s1.context = s.context := by
  unfold opDup at h
  simp only [] at h
  repeat' split at h
  all_goals first | (cases h; done) | (cases h; exact need_context _ _)

theorem copyLoop_context : ∀ (n : Nat) (idx : Int) (s s1 : PSC),
    copyLoop n idx s = .ok s1 → s1.context = s.context := by
  intro n
  induction n with
  | zero => intro idx s s1 h; cases h; rfl
  | succ n ih =>
    intro idx s s1 h
    unfold copyLoop at h
    split at h
    · cases h
    · exact (ih _ _ _ h).trans rfl

theorem opCopy_context (s s1 : PSC) (h : opCopy s = .ok s1) : s1.context = s.context := by
  unfold opCopy at h
  simp only [] at h
  split at h
  · cases h
  · split at h
    · split at h
      · cases h
      · exact (copyLoop_context _ _ _ _ h).trans (need_context _ _)
    · repeat' split at h
      all_goals first | (cases h; done) | (cases h; exact need_context _ _)

theorem opRoll_context (s s1 : PSC) (h : opRoll s = .ok s1) : s1.context = s.context := by
  unfold opRoll at h
  have hs := rollOperands_state s
  cases hr : rollOperands s with
  | mk s0 r =>
    rw [hr] at h hs
    simp only at hs
    subst hs
    cases r with
    | error e => cases h
    | ok p =>
      obtain ⟨d, n⟩ := p
      simp only at h
      split at h
      · unfold rollTail at h
        simp only [] at h
        repeat' split at h
        all_goals first | (cases h; done) | (cases h; exact need_context _ _)
      · cases h

theorem opIndex_context (s s1 : PSC) (h : opIndex s = .ok s1) : s1.context = s.context := by
  unfold opIndex at h
  simp only [] at h
  split at h
  · cases h
  · split at h
    · repeat' split at h
      all_goals first
        | (cases h; done)
        | (cases h; exact (need_context _ _).trans (need_context _ _))
    · split at h
      · cases h
      · rename_i s3 hf
        cases h
        exact (ctxflush_context _ _ hf).trans (need_context _ _)

theorem binarith_context (op : String) (s s1 : PSC) (h : binarith op s = .ok s1) :
    s1.context = s.context := by
  unfold binarith at h
  simp only [] at h
  repeat' split at h
  all_goals first | (cases h; done) | (cases h; exact need_context _ _)

theorem opIdiv_context (s s1 : PSC) (h : opIdiv s = .ok s1) : s1.context = s.context := by
  unfold opIdiv at h
  simp only [] at h
  repeat' split at h
  all_goals first | (cases h; done) | (cases h; exact need_context _ _)

theorem opBegin_context (s s1 : PSC) (h : opBegin s = .ok s1) : s1.context = s.context := by
  unfold opBegin at h
  cases h
  exact need_context _ _

theorem opEnd_context (s s1 : PSC) (h : opEnd s = .ok s1) : s1.context = s.context := by
  unfold opEnd at h
  cases h
  rfl

theorem opDict_context (s s1 : PSC) (h : opDict s = .ok s1) : s1.context = s.context := by
  unfold opDict at h
  split at h
  · cases h
  · cases h; rfl

theorem opArray_context (s s1 : PSC) (h : opArray s = .ok s1) : s1.context = s.context := by
  unfold opArray at h
  simp only [] at h
  repeat' split at h
  all_goals first | (cases h; done) | (cases h; exact need_context _ _)

theorem opGet_context (s s1 : PSC) (h : opGet s = .ok s1) : s1.context = s.context := by
  unfold opGet at h
  simp only [] at h
  repeat' split at h
  all_goals first | (cases h; done) | (cases h; exact need_context _ _)

theorem opPut_context (s s1 : PSC) (h : opPut s = .ok s1) : s1.context = s.context := by
  unfold opPut at h
  simp only [] at h
  repeat' split at h
  all_goals first | (cases h; done) | (cases h; exact need_context _ _)

theorem opCounttomark_context (s s1 : PSC) (h : opCounttomark s = .ok s1) :
    s1.context = s.context := by
  unfold opCounttomark at h
  cases h
  rfl

theorem opMark_context (s s1 : PSC) (h : opMark s = .ok s1) : s1.context = s.context := by
  unfold opMark at h
  split at h
  · cases h
  · rename_i s2 hf
    cases h
    exact ctxflush_context s s2 hf

theorem opExec_context (s s1 : PSC) (h : opExec s = .ok s1) : s1.context = s.context := by
  unfold opExec at h
  simp only [] at h
  split at h
  · cases h
  · split at h
    · split at h
      · cases h
      · rename_i s3 hf
        cases h
        exact (ctxflush_context _ _ hf).trans (need_context _ _)
    · split at h
      · cases h
      · split at h
        · cases h
        · rename_i s3 hf
          cases h
          exact (ctxflush_context _ _ hf).trans (need_context _ _)

theorem opAload_context (s s1 : PSC) (h : opAload s = .ok s1) : s1.context = s.context := by
  unfold opAload at h
  simp only [] at h
  split at h
  · cases h
  · split at h
    · cases h
    · split at h
      · cases h
      · rename_i s3 hf
        cases h
        exact (ctxflush_context _ _ hf).trans (need_context _ _)

theorem ctxpush_context (tokens : List Token) (s : PSC) :
    (ctxpush tokens s).context =
      { st := s.st, sp := s.sp, block := s.block, depth := s.depth } :: s.context := rfl

theorem ctxpop_context (s s1 : PSC) (lines : List Line) (c : Ctx) (rest : List Ctx)
    (hc : s.context = c :: rest) (h : ctxpop s = .ok (lines, s1)) :
    s1.context = rest ∧ s1.st = c.st ∧ s1.sp = c.sp ∧ s1.block = c.block ∧ s1.depth = c.depth := by
  unfold ctxpop at h
  cases hf : ctxflush s with
  | error e => rw [hf] at h; cases h
  | ok s2 =>
    rw [hf] at h
    have hd := ctxflush_context s s2 hf
    rw [hc] at hd
    simp only [hd, Except.ok.injEq, Prod.mk.injEq] at h
    rw [← h.2]
    exact ⟨rfl, rfl, rfl, rfl, rfl⟩

theorem ctxexec_context (comp : Comp)
    (hcomp : ∀ s s1 : PSC, comp s = .ok s1 → s1.context = s.context)
    (exec : Entry) (s s1 s2 s3 : PSC) (lines : List Line)
    (h1 : ctxprep exec s = .ok s1) (h12 : s2.context = s1.context)
    (h2 : ctxexec comp exec s2 = .ok (lines, s3)) : s3.context = s.context := by
  unfold ctxprep at h1
  unfold ctxexec at h2
  by_cases ha : exec.type = TYPE_IENAME
  · rw [if_pos ha] at h1 h2
    cases h1
    cases h2
    exact h12
  · rw [if_neg ha] at h1 h2
    by_cases hb : exec.type = TYPE_PRECALC
    · rw [if_pos hb] at h1 h2
      cases h1
      cases h2
      exact h12
    · rw [if_neg hb] at h1 h2
      by_cases hc : exec.type = TYPE_TOKENS
      · rw [if_pos hc] at h1 h2
        cases ht : exec.tokens with
        | none => rw [ht] at h1; cases h1
        | some ts =>
          rw [ht] at h1
          cases h1
          cases hx : comp s2 with
          | error e => rw [hx] at h2; cases h2
          | ok sx =>
            rw [hx] at h2
            have hsx := hcomp s2 sx hx
            rw [h12, ctxpush_context] at hsx
            exact (ctxpop_context sx s3 lines _ _ hsx h2).1
      · rw [if_neg hc] at h1
        cases h1

theorem ifelseGeneral_context (comp : Comp)
    (hcomp : ∀ s s1 : PSC, comp s = .ok s1 → s1.context = s.context)
    (expr : String) (texec fexec : Entry) (s s1 : PSC)
    (h : ifelseGeneral comp expr texec fexec s = .ok s1) : s1.context = s.context := by
  unfold ifelseGeneral at h
  cases h3 : ctxflush s with
  | error e => rw [h3] at h; cases h
  | ok s3 =>
    rw [h3] at h
    simp only at h
    cases h4 : ctxprep texec s3 with
    | error e => rw [h4] at h; cases h
    | ok s4 =>
      rw [h4] at h
      simp only at h
      cases h5 : ctxexec comp texec s4 with
      | error e => rw [h5] at h; cases h
      | ok r5 =>
        obtain ⟨tlines, s5⟩ := r5
        rw [h5] at h
        simp only at h
        cases h6 : ctxprep fexec s5 with
        | error e => rw [h6] at h; cases h
        | ok s6 =>
          rw [h6] at h
          simp only at h
          cases h7 : ctxexec comp fexec s6 with
          | error e => rw [h7] at h; cases h
          | ok r7 =>
            obtain ⟨flines, s7⟩ := r7
            rw [h7] at h
            cases h
            have e5 := ctxexec_context comp hcomp texec s3 s4 s4 s5 tlines h4 rfl h5
            have e7 := ctxexec_context comp hcomp fexec s5 s6 s6 s7 flines h6 rfl h7
            have e3 := ctxflush_context s s3 h3
            show (append flines (newbranch (emit "\x7delse\x7b"
                (append tlines (newbranch (emit ("if(" ++ expr ++ ")\x7b") s7)))))).context = _
            rw [append_context, newbranch_context]
            show (append tlines (newbranch (emit ("if(" ++ expr ++ ")\x7b") s7))).context = _
            rw [append_context, newbranch_context]
            show s7.context = _
            rw [e7, e5, e3]

theorem opIfelse_context (comp : Comp)
    (hcomp : ∀ s s1 : PSC, comp s = .ok s1 → s1.context = s.context)
    (s s1 : PSC) (h : opIfelse comp s = .ok s1) : s1.context = s.context := by
  unfold opIfelse at h
  simp only [] at h
  split at h
  · split at h
    · cases h
    · split at h
      · cases h
        exact need_context _ _
      · split at h
        · cases h
          exact need_context _ _
        · exact (ifelseGeneral_context comp hcomp _ _ _ _ _ h).trans (need_context _ _)
  · cases h
  · cases h
  · cases h

theorem opFor_context (comp : Comp)
    (hcomp : ∀ s s1 : PSC, comp s = .ok s1 → s1.context = s.context)
    (s s1 : PSC) (h : opFor comp s = .ok s1) : s1.context = s.context := by
  unfold opFor at h
  split at h
  · cases h
  · split at h
    · simp only [] at h
      split at h
      · cases h
      · rename_i s3 h3
        have e3 := ctxflush_context _ _ h3
        split at h
        · cases h
        · rename_i s4 h4
          have e4 : s4.context = s3.context := by
            repeat' split at h4
            all_goals first | (cases h4; done) | (cases h4; rfl)
          split at h
          · cases h
          · rename_i s5 h5
            split at h
            · cases h
            · rename_i lines s6 h6
              cases h
              have e6 := ctxexec_context comp hcomp _ s4 s5 _ s6 lines h5
                (by rw [newbranch_context]; rfl) h6
              show (append lines s6).context = _
              rw [append_context, e6, e4, e3]
              split <;> rfl
    · cases h
    · cases h
    · cases h
    · cases h

theorem bindPass1_context (comp : Comp)
    (hcomp : ∀ s s1 : PSC, comp s = .ok s1 → s1.context = s.context)
    (tkns : List Token) (s s1 : PSC) (h : bindPass1 comp tkns s = .ok s1) :
    s1.context = s.context := by
  unfold bindPass1 at h
  simp only [] at h
  split at h
  · cases h
  · rename_i s2 h2
    split at h
    · cases h
    · rename_i ls s3 h3
      cases h
      have e2 := hcomp _ _ h2
      rw [ctxpush_context] at e2
      exact (ctxpop_context s2 s3 ls _ _ e2 h3).1

theorem opBind_context (comp : Comp)
    (hcomp : ∀ s s1 : PSC, comp s = .ok s1 → s1.context = s.context)
    (s s1 : PSC) (h : opBind comp s = .ok s1) : s1.context = s.context := by
  unfold opBind at h
  split at h
  · cases h
  · split at h
    · cases h
    · simp only [] at h
      split at h
      · cases h
      · rename_i sa ha
        have ea : sa.context = s.context := by
          split at ha
          · exact (bindPass1_context comp hcomp _ _ _ ha).trans rfl
          · cases ha; rfl
        split at h
        · cases h
        · rename_i s3 h3
          have e3 := hcomp _ _ h3
          rw [ctxpush_context] at e3
          split at h
          · cases h
          · rename_i lines0 s4 h4
            have e4 := (ctxpop_context s3 s4 lines0 _ _ e3 h4).1
            split at h
            · cases h
            · cases h
              simp only [apply_ite PSC.context, emit, ite_self]
              rw [e4]
              split <;> exact ea

theorem opDef_context (comp : Comp)
    (hcomp : ∀ s s1 : PSC, comp s = .ok s1 → s1.context = s.context)
    (s s1 : PSC) (h : opDef comp s = .ok s1) : s1.context = s.context := by
  unfold opDef at h
  simp only [] at h
  split at h
  · cases h
  · split at h
    · cases h
    · rename_i s2 h2
      have e2 : s2.context = s.context := by
        split at h2
        · exact (opBind_context comp hcomp _ _ h2).trans (need_context _ _)
        · cases h2
          exact need_context _ _
      repeat' split at h
      all_goals first | (cases h; done) | (cases h; exact e2)

theorem compileIdent_context (tkn : String) (lnbr : Nat) (s s1 : PSC)
    (h : compileIdent tkn lnbr s = .ok s1) : s1.context = s.context := by
  unfold compileIdent at h
  split at h
  · split at h
    · split at h
      · cases h
      · rename_i s2 h2
        have e2 := ctxflush_context _ _ h2
        split at h <;> (cases h; exact e2)
    · split at h <;> (cases h; rfl)
  · cases h

theorem arrayBuild_context : ∀ (lines : List Line) (code : String) (s s1 : PSC) (c : String),
    arrayBuild lines code s = .ok (c, s1) → s1.context = s.context := by
  intro lines
  induction lines with
  | nil =>
    intro code s s1 c h
    unfold arrayBuild at h
    cases h
    rfl
  | cons l ls ih =>
    intro code s s1 c h
    unfold arrayBuild at h
    split at h
    · exact (ih _ _ _ _ h).trans rfl
    · split at h
      · cases h
      · exact ih _ _ _ _ h

theorem hoistDecls_context : ∀ (lines rest : List Line) (s s1 : PSC),
    hoistDecls lines s = some (rest, s1) → s1.context = s.context := by
  intro lines
  induction lines with
  | nil => intro rest s s1 h; cases h
  | cons l ls ih =>
    intro rest s s1 h
    unfold hoistDecls at h
    split at h
    · exact (ih _ _ _ h).trans rfl
    · cases h
      rfl

theorem dictBuild_context : ∀ (f : Nat) (lines : List Line) (first : Bool) (code : String)
    (s s1 : PSC) (c : String),
    dictBuild f lines first code s = .ok (c, s1) → s1.context = s.context := by
  intro f
  induction f with
  | zero => intro lines first code s s1 c h; cases h
  | succ f ih =>
    intro lines first code s s1 c h
    cases lines with
    | nil =>
      unfold dictBuild at h
      cases h
      rfl
    | cons l ls =>
      unfold dictBuild at h
      simp only [] at h
      split at h
      · cases h
      · cases h
      · rename_i k rest sa ha
        split at h
        · cases h
        · split at h
          · cases h
          · cases h
          · rename_i v rest1 sb hb
            split at h
            · cases h
            · have e1 := hoistDecls_context _ _ _ _ ha
              have e2 := hoistDecls_context _ _ _ _ hb
              rw [ih _ _ _ _ _ _ h, e2, e1]

theorem compileArray_context (comp : Comp)
    (hcomp : ∀ s s1 : PSC, comp s = .ok s1 → s1.context = s.context)
    (s s1 : PSC) (h : compileArray comp s = .ok s1) : s1.context = s.context := by
  unfold compileArray at h
  split at h
  · cases h
  · rename_i tokens lx hr
    split at h
    · cases h
    · rename_i sa ha
      have ea := hcomp _ _ ha
      rw [ctxpush_context] at ea
      split at h
      · cases h
      · rename_i lines s2 h2
        have e2 : s2.context = s.context := (ctxpop_context sa s2 lines _ _ ea h2).1
        simp only [] at h
        split at h
        · split at h
          · cases h
          · rename_i code s4 h4
            cases h
            exact (arrayBuild_context _ _ _ _ _ h4).trans e2
        · split at h
          · cases h
          · split at h
            · cases h
            · rename_i s5 h5
              have e5 : s5.context = s.context := (ctxflush_context _ _ h5).trans e2
              have e6 : ∀ t : PSC, t.context = s5.context →
                  (lines.foldl (fun acc l => emitLine l acc) t).context = s.context := by
                intro t ht
                rw [emitLines_context, ht, e5]
              split at h
              · split at h
                · cases h
                  exact e6 _ rfl
                · split at h
                  · cases h
                  · cases h
                    simp only [apply_ite PSC.context, emit, ite_self]
                    exact e6 _ rfl
              · cases h
                exact e6 _ rfl

theorem compileDict_context (comp : Comp)
    (hcomp : ∀ s s1 : PSC, comp s = .ok s1 → s1.context = s.context)
    (s s1 : PSC) (h : compileDict comp s = .ok s1) : s1.context = s.context := by
  unfold compileDict at h
  split at h
  · cases h
  · rename_i tokens lx hr
    split at h
    · cases h
    · rename_i sa ha
      have ea := hcomp _ _ ha
      rw [ctxpush_context] at ea
      split at h
      · cases h
      · rename_i lines s2 h2
        have e2 : s2.context = s.context := (ctxpop_context sa s2 lines _ _ ea h2).1
        split at h
        · cases h
        · split at h
          · simp only [] at h
            split at h
            · cases h
            · rename_i code s4 h4
              cases h
              exact (dictBuild_context _ _ _ _ _ _ _ h4).trans e2
          · simp only [] at h
            split at h
            · cases h
            · rename_i s4 h4
              cases h
              have e4 : s4.context = s.context := (ctxflush_context _ _ h4).trans e2
              show (lines.foldl (fun acc l => emitLine l acc) _).context = _
              rw [emitLines_context]
              exact e4

theorem binbool_context (a f : String) (s s1 : PSC) (h : binbool a f s = .ok s1) :
    s1.context = s.context := by
  unfold binbool at h
  simp only [] at h
  repeat' split at h
  all_goals first | (cases h; done) | (cases h; exact need_context _ _)

theorem andOr_context (x y z : String) (s s1 : PSC) (h : andOr x y z s = .ok s1) :
    s1.context = s.context := by
  unfold andOr at h
  simp only [] at h
  split at h
  · split at h
    · exact (binarith_context _ _ _ h).trans (need_context _ _)
    · exact (binbool_context _ _ _ _ h).trans (need_context _ _)
  · cases h
  · cases h

theorem opXor_context (s s1 : PSC) (h : opXor s = .ok s1) : s1.context = s.context := by
  unfold opXor at h
  simp only [] at h
  split at h
  · split at h
    · exact (binarith_context _ _ _ h).trans (need_context _ _)
    · cases h
      exact need_context _ _
  · cases h
  · cases h

theorem opNeg_context (s s1 : PSC) (h : opNeg s = .ok s1) : s1.context = s.context := by
  unfold opNeg at h
  simp only [] at h
  split at h
  · cases h
  · cases h
    exact need_context _ _

theorem bindVar_context (i : Nat) (s s1 : PSC) (h : bindVar i s = .ok s1) :
    s1.context = s.context := by
  unfold bindVar at h
  split at h
  · cases h
  · split at h
    · cases h
      rfl
    · cases h
      rfl

theorem ifExch_context (expr : String) (s s1 : PSC) (h : ifExch expr s = .ok s1) :
    s1.context = s.context := by
  unfold ifExch at h
  cases h1 : bindVar (s.sp - 1) s with
  | error e => rw [h1] at h; cases h
  | ok s2 =>
    rw [h1] at h
    simp only at h
    cases h2 : bindVar (s2.sp - 2) s2 with
    | error e => rw [h2] at h; cases h
    | ok s3 =>
      rw [h2] at h
      simp only at h
      have e1 := bindVar_context _ _ _ h1
      have e2 := bindVar_context _ _ _ h2
      split at h
      · cases h
        show s3.context = _
        rw [e2, e1]
      · cases h
      · cases h

theorem opIf_context (comp : Comp)
    (hcomp : ∀ s s1 : PSC, comp s = .ok s1 → s1.context = s.context)
    (s s1 : PSC) (h : opIf comp s = .ok s1) : s1.context = s.context := by
  unfold opIf at h
  simp only [] at h
  cases hc : stGet (need 2 s).st (((need 2 s).sp : Int) - 2) with
  | error e =>
    rw [hc] at h
    split at h <;> simp_all
  | ok c =>
    cases he : stGet (need 2 s).st (((need 2 s).sp : Int) - 1) with
    | error e =>
      rw [hc, he] at h
      cases h
    | ok exec =>
      rw [hc, he] at h
      simp only at h
      cases hcx : c.expr with
      | none =>
        rw [hcx] at h
        cases h
      | some cx =>
        rw [hcx] at h
        simp only at h
        split at h
        · exact (ifExch_context _ _ _ h).trans (need_context _ _)
        · cases h3 : ctxflush { need 2 s with sp := (need 2 s).sp - 2 } with
          | error e => rw [h3] at h; cases h
          | ok s3 =>
            rw [h3] at h
            simp only at h
            cases h4 : ctxprep exec s3 with
            | error e => rw [h4] at h; cases h
            | ok s4 =>
              rw [h4] at h
              simp only at h
              cases h5 : ctxexec comp exec
                  (newbranch (emit ("if(" ++ unanorxo cx ++ ")\x7b") s4)) with
              | error e => rw [h5] at h; cases h
              | ok r5 =>
                obtain ⟨lines, s5⟩ := r5
                rw [h5] at h
                cases h
                have e5 := ctxexec_context comp hcomp exec s3 s4 _ s5 lines h4
                  (by rw [newbranch_context]; rfl) h5
                have e3 := ctxflush_context _ s3 h3
                show (append lines s5).context = _
                rw [append_context, e5, e3]
                exact need_context _ _

/-! ### The operators without a nested block -/

theorem flushEmit_context (code : String) (s s1 : PSC) (h : flushEmit code s = .ok s1) :
    s1.context = s.context := by
  unfold flushEmit at h
  split at h
  · cases h
  · rename_i s2 hf
    cases h
    exact ctxflush_context s s2 hf

theorem emitCall1_context (pre post : String) (s s1 : PSC) (h : emitCall1 pre post s = .ok s1) :
    s1.context = s.context := by
  unfold emitCall1 at h
  simp only [] at h
  repeat' split at h
  all_goals first | (cases h; done) | (cases h; exact need_context _ _)

theorem emitCall2_context (pre : String) (s s1 : PSC) (h : emitCall2 pre s = .ok s1) :
    s1.context = s.context := by
  unfold emitCall2 at h
  simp only [] at h
  repeat' split at h
  all_goals first | (cases h; done) | (cases h; exact need_context _ _)

theorem mathCall_context (ty : Nat) (pre : String) (s s1 : PSC) (h : mathCall ty pre s = .ok s1) :
    s1.context = s.context := by
  unfold mathCall at h
  simp only [] at h
  repeat' split at h
  all_goals first | (cases h; done) | (cases h; exact need_context _ _)

theorem opKnown_context (s s1 : PSC) (h : opKnown s = .ok s1) : s1.context = s.context := by
  unfold opKnown at h
  split at h
  · cases h
  · rename_i s2 hg
    have e2 := opGet_context _ _ hg
    repeat' split at h
    all_goals first | (cases h; done) | (cases h; exact e2)

theorem opCvi_context (s s1 : PSC) (h : opCvi s = .ok s1) : s1.context = s.context := by
  unfold opCvi at h
  simp only [] at h
  repeat' split at h
  all_goals first | (cases h; done) | (cases h; exact need_context _ _)

theorem opCvlit_context (s s1 : PSC) (h : opCvlit s = .ok s1) : s1.context = s.context := by
  unfold opCvlit at h
  simp only [] at h
  repeat' split at h
  all_goals first | (cases h; done) | (cases h; exact need_context _ _)

theorem opCvs_context (s s1 : PSC) (h : opCvs s = .ok s1) : s1.context = s.context := by
  unfold opCvs at h
  simp only [] at h
  repeat' split at h
  all_goals first | (cases h; done) | (cases h; exact need_context _ _)

theorem opCvr_context (s s1 : PSC) (h : opCvr s = .ok s1) : s1.context = s.context := by
  unfold opCvr at h
  simp only [] at h
  repeat' split at h
  all_goals first | (cases h; done) | (cases h; exact need_context _ _)

theorem opCvrs_context (s s1 : PSC) (h : opCvrs s = .ok s1) : s1.context = s.context := by
  unfold opCvrs at h
  simp only [] at h
  repeat' split at h
  all_goals first | (cases h; done) | (cases h; exact need_context _ _)

theorem opType_context (s s1 : PSC) (h : opType s = .ok s1) : s1.context = s.context := by
  unfold opType at h
  simp only [] at h
  repeat' split at h
  all_goals first | (cases h; done) | (cases h; exact need_context _ _)

theorem opLength_context (s s1 : PSC) (h : opLength s = .ok s1) : s1.context = s.context := by
  unfold opLength at h
  simp only [] at h
  repeat' split at h
  all_goals first | (cases h; done) | (cases h; exact need_context _ _)

theorem opLoad_context (s s1 : PSC) (h : opLoad s = .ok s1) : s1.context = s.context := by
  unfold opLoad at h
  simp only [] at h
  repeat' split at h
  all_goals first | (cases h; done) | (cases h; exact need_context _ _)

theorem opNot_context (s s1 : PSC) (h : opNot s = .ok s1) : s1.context = s.context := by
  unfold opNot at h
  simp only [] at h
  repeat' split at h
  all_goals first | (cases h; done) | (cases h; exact need_context _ _)

theorem opExp_context (s s1 : PSC) (h : opExp s = .ok s1) : s1.context = s.context := by
  unfold opExp at h
  simp only [] at h
  repeat' split at h
  all_goals first | (cases h; done) | (cases h; exact need_context _ _)

theorem opLog_context (s s1 : PSC) (h : opLog s = .ok s1) : s1.context = s.context := by
  unfold opLog at h
  simp only [] at h
  repeat' split at h
  all_goals first | (cases h; done) | (cases h; exact need_context _ _)

theorem opAbs_context (s s1 : PSC) (h : opAbs s = .ok s1) : s1.context = s.context := by
  unfold opAbs at h
  simp only [] at h
  repeat' split at h
  all_goals first | (cases h; done) | (cases h; exact need_context _ _)

theorem opBitshift_context (s s1 : PSC) (h : opBitshift s = .ok s1) : s1.context = s.context := by
  unfold opBitshift at h
  simp only [] at h
  repeat' split at h
  all_goals first | (cases h; done) | (cases h; exact need_context _ _)

theorem opString_context (s s1 : PSC) (h : opString s = .ok s1) : s1.context = s.context := by
  unfold opString at h
  simp only [] at h
  repeat' split at h
  all_goals first | (cases h; done) | (cases h; exact need_context _ _)

theorem opGetinterval_context (s s1 : PSC) (h : opGetinterval s = .ok s1) : s1.context = s.context := by
  unfold opGetinterval at h
  simp only [] at h
  repeat' split at h
  all_goals first | (cases h; done) | (cases h; exact need_context _ _)

theorem opPutinterval_context (s s1 : PSC) (h : opPutinterval s = .ok s1) : s1.context = s.context := by
  unfold opPutinterval at h
  simp only [] at h
  repeat' split at h
  all_goals first | (cases h; done) | (cases h; exact need_context _ _)

theorem opFindfont_context (s s1 : PSC) (h : opFindfont s = .ok s1) : s1.context = s.context := by
  unfold opFindfont at h
  simp only [] at h
  repeat' split at h
  all_goals first | (cases h; done) | (cases h; exact need_context _ _)

theorem opScalefont_context (s s1 : PSC) (h : opScalefont s = .ok s1) : s1.context = s.context := by
  unfold opScalefont at h
  simp only [] at h
  repeat' split at h
  all_goals first | (cases h; done) | (cases h; exact need_context _ _)

theorem opAshow_context (s s1 : PSC) (h : opAshow s = .ok s1) : s1.context = s.context := by
  unfold opAshow at h
  simp only [] at h
  repeat' split at h
  all_goals first | (cases h; done) | (cases h; exact need_context _ _)

theorem opStringwidth_context (s s1 : PSC) (h : opStringwidth s = .ok s1) : s1.context = s.context := by
  unfold opStringwidth at h
  simp only [] at h
  repeat' split at h
  all_goals first | (cases h; done) | (cases h; exact need_context _ _)

theorem opAstore_context (s s1 : PSC) (h : opAstore s = .ok s1) : s1.context = s.context := by
  unfold opAstore at h
  simp only [] at h
  split at h
  · cases h
  · exact (flushEmit_context _ _ _ h).trans (need_context _ _)

theorem opSearch_context (s s1 : PSC) (h : opSearch s = .ok s1) : s1.context = s.context := by
  unfold opSearch at h
  simp only [] at h
  split at h
  · exact (flushEmit_context _ _ _ h).trans (need_context _ _)
  · cases h
  · cases h

theorem fiveOperands_context (s s1 : PSC) (a b c d e : Entry)
    (h : fiveOperands s = .ok (s1, a, b, c, d, e)) : s1.context = s.context := by
  unfold fiveOperands at h
  simp only [] at h
  repeat' split at h
  all_goals first | (cases h; done) | (cases h; exact need_context _ _)

theorem opImagemask_context (s s1 : PSC) (h : opImagemask s = .ok s1) : s1.context = s.context := by
  unfold opImagemask at h
  split at h
  · cases h
  · rename_i s2 a b c d e hf
    cases h
    exact fiveOperands_context s s2 a b c d e hf

theorem opArc_context (dir : String) (s s1 : PSC) (h : opArc dir s = .ok s1) :
    s1.context = s.context := by
  unfold opArc at h
  split at h
  · cases h
  · rename_i s2 a b c d e hf
    cases h
    exact fiveOperands_context s s2 a b c d e hf

/-! ### The loops -/

theorem opLoop_context (comp : Comp)
    (hcomp : ∀ s s1 : PSC, comp s = .ok s1 → s1.context = s.context)
    (s s1 : PSC) (h : opLoop comp s = .ok s1) : s1.context = s.context := by
  unfold opLoop at h
  simp only [] at h
  split at h
  · cases h
  · rename_i exec hx
    split at h
    · cases h
    · rename_i s2 hf
      split at h
      · cases h
      · rename_i s3 hp
        split at h
        · cases h
        · rename_i lines s4 he
          cases h
          have e4 := ctxexec_context comp hcomp exec s2 s3 _ s4 lines hp
            (by rw [newbranch_context]; rfl) he
          show (append lines s4).context = _
          rw [append_context, e4, ctxflush_context _ _ hf]
          exact need_context _ _

theorem opRepeat_context (comp : Comp)
    (hcomp : ∀ s s1 : PSC, comp s = .ok s1 → s1.context = s.context)
    (s s1 : PSC) (h : opRepeat comp s = .ok s1) : s1.context = s.context := by
  unfold opRepeat at h
  simp only [] at h
  split at h
  · rename_i n exec hn hx
    split at h
    · cases h
    · rename_i s2 hf
      split at h
      · cases h
      · rename_i s3 hp
        split at h
        · cases h
        · rename_i lines s4 he
          cases h
          have e4 := ctxexec_context comp hcomp exec _ s3 _ s4 lines hp
            (newbranch_context _) he
          show (append lines s4).context = _
          rw [append_context, e4]
          show s2.context = _
          rw [ctxflush_context _ _ hf]
          exact need_context _ _
  · cases h
  · cases h

theorem opForall_context (comp : Comp)
    (hcomp : ∀ s s1 : PSC, comp s = .ok s1 → s1.context = s.context)
    (s s1 : PSC) (h : opForall comp s = .ok s1) : s1.context = s.context := by
  unfold opForall at h
  simp only [] at h
  split at h
  · rename_i o exec ho hx
    split at h
    · split at h
      · cases h
      · rename_i s3 hf
        split at h
        · cases h
        · rename_i s4 hp
          split at h
          · cases h
          · rename_i lines s6 he
            cases h
            have e6 := ctxexec_context comp hcomp exec s3 s4 _ s6 lines hp
              (by simp only [pushEntry, emit, newbranch_context]) he
            show (append lines s6).context = _
            rw [append_context, e6, ctxflush_context _ _ hf]
            exact need_context _ _
    · split at h
      · split at h
        · cases h
        · rename_i ox hox
          split at h
          · cases h
          · rename_i s3 hf
            split at h
            · cases h
            · rename_i s4 hp
              split at h
              · cases h
              · rename_i lines s6 he
                cases h
                have hite : ∀ (c : Bool) (code : String),
                    (if c = true then emit code s4 else s4).context = s4.context := by
                  intro c code
                  cases c <;> rfl
                have e6 := ctxexec_context comp hcomp exec s3 s4 _ s6 lines hp
                  (by
                    simp only [pushEntry, emit, newbranch_context]
                    exact hite _ _) he
                show (append lines s6).context = _
                rw [append_context, e6, ctxflush_context _ _ hf]
                split <;> exact need_context _ _
      · split at h
        · cases h
        · rename_i s3 hf
          split at h
          · cases h
          · split at h
            · cases h
              show s3.context = _
              rw [ctxflush_context _ _ hf]
              exact need_context _ _
            · split at h
              · cases h
              · rename_i s4 hp
                split at h
                · cases h
                · rename_i lines s5 he
                  cases h
                  have e5 := ctxexec_context comp hcomp exec s3 s4 _ s5 lines hp
                    (by rw [newbranch_context]; rfl) he
                  show (append lines s5).context = _
                  rw [append_context, e5, ctxflush_context _ _ hf]
                  exact need_context _ _
  · cases h
  · cases h

theorem opTable_context (comp : Comp)
    (hcomp : ∀ s s1 : PSC, comp s = .ok s1 → s1.context = s.context)
    (tkn : String) (op : Comp) (hop : opTable comp tkn = some op)
    (s s1 : PSC) (h : op s = .ok s1) : s1.context = s.context := by
  unfold opTable at hop
  by_cases h0 : tkn = "pop"
  · rw [if_pos h0] at hop
    cases hop
    exact opPop_context _ _ h
  rw [if_neg h0] at hop
  by_cases h1 : tkn = "dup"
  · rw [if_pos h1] at hop
    cases hop
    exact opDup_context _ _ h
  rw [if_neg h1] at hop
  by_cases h2 : tkn = "exch"
  · rw [if_pos h2] at hop
    cases hop
    exact opExch_context _ _ h
  rw [if_neg h2] at hop
  by_cases h3 : tkn = "copy"
  · rw [if_pos h3] at hop
    cases hop
    exact opCopy_context _ _ h
  rw [if_neg h3] at hop
  by_cases h4 : tkn = "roll"
  · rw [if_pos h4] at hop
    cases hop
    exact opRoll_context _ _ h
  rw [if_neg h4] at hop
  by_cases h5 : tkn = "index"
  · rw [if_pos h5] at hop
    cases hop
    exact opIndex_context _ _ h
  rw [if_neg h5] at hop
  by_cases h6 : tkn = "add"
  · rw [if_pos h6] at hop
    cases hop
    exact binarith_context _ _ _ h
  rw [if_neg h6] at hop
  by_cases h7 : tkn = "sub"
  · rw [if_pos h7] at hop
    cases hop
    exact binarith_context _ _ _ h
  rw [if_neg h7] at hop
  by_cases h8 : tkn = "mul"
  · rw [if_pos h8] at hop
    cases hop
    exact binarith_context _ _ _ h
  rw [if_neg h8] at hop
  by_cases h9 : tkn = "div"
  · rw [if_pos h9] at hop
    cases hop
    exact binarith_context _ _ _ h
  rw [if_neg h9] at hop
  by_cases h10 : tkn = "mod"
  · rw [if_pos h10] at hop
    cases hop
    exact binarith_context _ _ _ h
  rw [if_neg h10] at hop
  by_cases h11 : tkn = "idiv"
  · rw [if_pos h11] at hop
    cases hop
    exact opIdiv_context _ _ h
  rw [if_neg h11] at hop
  by_cases h12 : tkn = "and"
  · rw [if_pos h12] at hop
    cases hop
    exact andOr_context _ _ _ _ _ h
  rw [if_neg h12] at hop
  by_cases h13 : tkn = "or"
  · rw [if_pos h13] at hop
    cases hop
    exact andOr_context _ _ _ _ _ h
  rw [if_neg h13] at hop
  by_cases h14 : tkn = "xor"
  · rw [if_pos h14] at hop
    cases hop
    exact opXor_context _ _ h
  rw [if_neg h14] at hop
  by_cases h15 : tkn = "ifelse"
  · rw [if_pos h15] at hop
    cases hop
    exact opIfelse_context comp hcomp _ _ h
  rw [if_neg h15] at hop
  by_cases h16 : tkn = "for"
  · rw [if_pos h16] at hop
    cases hop
    exact opFor_context comp hcomp _ _ h
  rw [if_neg h16] at hop
  by_cases h17 : tkn = "aload"
  · rw [if_pos h17] at hop
    cases hop
    exact opAload_context _ _ h
  rw [if_neg h17] at hop
  by_cases h18 : tkn = "bind"
  · rw [if_pos h18] at hop
    cases hop
    exact opBind_context comp hcomp _ _ h
  rw [if_neg h18] at hop
  by_cases h19 : tkn = "def"
  · rw [if_pos h19] at hop
    cases hop
    exact opDef_context comp hcomp _ _ h
  rw [if_neg h19] at hop
  by_cases h20 : tkn = "begin"
  · rw [if_pos h20] at hop
    cases hop
    exact opBegin_context _ _ h
  rw [if_neg h20] at hop
  by_cases h21 : tkn = "end"
  · rw [if_pos h21] at hop
    cases hop
    exact opEnd_context _ _ h
  rw [if_neg h21] at hop
  by_cases h22 : tkn = "dict"
  · rw [if_pos h22] at hop
    cases hop
    exact opDict_context _ _ h
  rw [if_neg h22] at hop
  by_cases h23 : tkn = "array"
  · rw [if_pos h23] at hop
    cases hop
    exact opArray_context _ _ h
  rw [if_neg h23] at hop
  by_cases h24 : tkn = "get"
  · rw [if_pos h24] at hop
    cases hop
    exact opGet_context _ _ h
  rw [if_neg h24] at hop
  by_cases h25 : tkn = "put"
  · rw [if_pos h25] at hop
    cases hop
    exact opPut_context _ _ h
  rw [if_neg h25] at hop
  by_cases h26 : tkn = "counttomark"
  · rw [if_pos h26] at hop
    cases hop
    exact opCounttomark_context _ _ h
  rw [if_neg h26] at hop
  by_cases h27 : tkn = "mark"
  · rw [if_pos h27] at hop
    cases hop
    exact opMark_context _ _ h
  rw [if_neg h27] at hop
  by_cases h28 : tkn = "exec"
  · rw [if_pos h28] at hop
    cases hop
    exact opExec_context _ _ h
  rw [if_neg h28] at hop
  by_cases h29 : tkn = "true"
  · rw [if_pos h29] at hop
    cases hop
    cases h
    rfl
  rw [if_neg h29] at hop
  by_cases h30 : tkn = "false"
  · rw [if_pos h30] at hop
    cases hop
    cases h
    rfl
  rw [if_neg h30] at hop
  by_cases h31 : tkn = "null"
  · rw [if_pos h31] at hop
    cases hop
    cases h
    rfl
  rw [if_neg h31] at hop
  by_cases h32 : tkn = "cvn"
  · rw [if_pos h32] at hop
    cases hop
    cases h
    rfl
  rw [if_neg h32] at hop
  by_cases h33 : tkn = "cvx"
  · rw [if_pos h33] at hop
    cases hop
    cases h
    rfl
  rw [if_neg h33] at hop
  by_cases h34 : tkn = "quit"
  · rw [if_pos h34] at hop
    cases hop
    cases h
    rfl
  rw [if_neg h34] at hop
  by_cases h35 : tkn = "if"
  · rw [if_pos h35] at hop
    cases hop
    exact opIf_context comp hcomp _ _ h
  rw [if_neg h35] at hop
  by_cases h36 : tkn = "neg"
  · rw [if_pos h36] at hop
    cases hop
    exact opNeg_context _ _ h
  rw [if_neg h36] at hop
  by_cases h37 : tkn = "debug"
  · rw [if_pos h37] at hop
    cases hop
    cases h
    rfl
  rw [if_neg h37] at hop
  by_cases h38 : tkn = "stack"
  · rw [if_pos h38] at hop
    cases hop
    cases h
    rfl
  rw [if_neg h38] at hop
  by_cases h39 : tkn = "return"
  · rw [if_pos h39] at hop
    cases hop
    cases h
    rfl
  rw [if_neg h39] at hop
  by_cases h40 : tkn = "known"
  · rw [if_pos h40] at hop
    cases hop
    exact opKnown_context _ _ h
  rw [if_neg h40] at hop
  by_cases h41 : tkn = "handleerror"
  · rw [if_pos h41] at hop
    cases hop
    cases h
    rfl
  rw [if_neg h41] at hop
  by_cases h42 : tkn = "cvi"
  · rw [if_pos h42] at hop
    cases hop
    exact opCvi_context _ _ h
  rw [if_neg h42] at hop
  by_cases h43 : tkn = "cvlit"
  · rw [if_pos h43] at hop
    cases hop
    exact opCvlit_context _ _ h
  rw [if_neg h43] at hop
  by_cases h44 : tkn = "cvs"
  · rw [if_pos h44] at hop
    cases hop
    exact opCvs_context _ _ h
  rw [if_neg h44] at hop
  by_cases h45 : tkn = "cvr"
  · rw [if_pos h45] at hop
    cases hop
    exact opCvr_context _ _ h
  rw [if_neg h45] at hop
  by_cases h46 : tkn = "cvrs"
  · rw [if_pos h46] at hop
    cases hop
    exact opCvrs_context _ _ h
  rw [if_neg h46] at hop
  by_cases h47 : tkn = "type"
  · rw [if_pos h47] at hop
    cases hop
    exact opType_context _ _ h
  rw [if_neg h47] at hop
  by_cases h48 : tkn = "length"
  · rw [if_pos h48] at hop
    cases hop
    exact opLength_context _ _ h
  rw [if_neg h48] at hop
  by_cases h49 : tkn = "load"
  · rw [if_pos h49] at hop
    cases hop
    exact opLoad_context _ _ h
  rw [if_neg h49] at hop
  by_cases h50 : tkn = "eq"
  · rw [if_pos h50] at hop
    cases hop
    exact binbool_context _ _ _ _ h
  rw [if_neg h50] at hop
  by_cases h51 : tkn = "ne"
  · rw [if_pos h51] at hop
    cases hop
    exact binbool_context _ _ _ _ h
  rw [if_neg h51] at hop
  by_cases h52 : tkn = "lt"
  · rw [if_pos h52] at hop
    cases hop
    exact binbool_context _ _ _ _ h
  rw [if_neg h52] at hop
  by_cases h53 : tkn = "le"
  · rw [if_pos h53] at hop
    cases hop
    exact binbool_context _ _ _ _ h
  rw [if_neg h53] at hop
  by_cases h54 : tkn = "gt"
  · rw [if_pos h54] at hop
    cases hop
    exact binbool_context _ _ _ _ h
  rw [if_neg h54] at hop
  by_cases h55 : tkn = "ge"
  · rw [if_pos h55] at hop
    cases hop
    exact binbool_context _ _ _ _ h
  rw [if_neg h55] at hop
  by_cases h56 : tkn = "not"
  · rw [if_pos h56] at hop
    cases hop
    exact opNot_context _ _ h
  rw [if_neg h56] at hop
  by_cases h57 : tkn = "forall"
  · rw [if_pos h57] at hop
    cases hop
    exact opForall_context comp hcomp _ _ h
  rw [if_neg h57] at hop
  by_cases h58 : tkn = "repeat"
  · rw [if_pos h58] at hop
    cases hop
    exact opRepeat_context comp hcomp _ _ h
  rw [if_neg h58] at hop
  by_cases h59 : tkn = "loop"
  · rw [if_pos h59] at hop
    cases hop
    exact opLoop_context comp hcomp _ _ h
  rw [if_neg h59] at hop
  by_cases h60 : tkn = "exit"
  · rw [if_pos h60] at hop
    cases hop
    exact flushEmit_context _ _ _ h
  rw [if_neg h60] at hop
  by_cases h61 : tkn = "cleartomark"
  · rw [if_pos h61] at hop
    cases hop
    exact flushEmit_context _ _ _ h
  rw [if_neg h61] at hop
  by_cases h62 : tkn = "clear"
  · rw [if_pos h62] at hop
    cases hop
    exact flushEmit_context _ _ _ h
  rw [if_neg h62] at hop
  by_cases h63 : tkn = "exp"
  · rw [if_pos h63] at hop
    cases hop
    exact opExp_context _ _ h
  rw [if_neg h63] at hop
  by_cases h64 : tkn = "ln"
  · rw [if_pos h64] at hop
    cases hop
    exact mathCall_context _ _ _ _ h
  rw [if_neg h64] at hop
  by_cases h65 : tkn = "log"
  · rw [if_pos h65] at hop
    cases hop
    exact opLog_context _ _ h
  rw [if_neg h65] at hop
  by_cases h66 : tkn = "abs"
  · rw [if_pos h66] at hop
    cases hop
    exact opAbs_context _ _ h
  rw [if_neg h66] at hop
  by_cases h67 : tkn = "round"
  · rw [if_pos h67] at hop
    cases hop
    exact mathCall_context _ _ _ _ h
  rw [if_neg h67] at hop
  by_cases h68 : tkn = "floor"
  · rw [if_pos h68] at hop
    cases hop
    exact mathCall_context _ _ _ _ h
  rw [if_neg h68] at hop
  by_cases h69 : tkn = "ceiling"
  · rw [if_pos h69] at hop
    cases hop
    exact mathCall_context _ _ _ _ h
  rw [if_neg h69] at hop
  by_cases h70 : tkn = "sqrt"
  · rw [if_pos h70] at hop
    cases hop
    exact mathCall_context _ _ _ _ h
  rw [if_neg h70] at hop
  by_cases h71 : tkn = "bitshift"
  · rw [if_pos h71] at hop
    cases hop
    exact opBitshift_context _ _ h
  rw [if_neg h71] at hop
  by_cases h72 : tkn = "astore"
  · rw [if_pos h72] at hop
    cases hop
    exact opAstore_context _ _ h
  rw [if_neg h72] at hop
  by_cases h73 : tkn = "string"
  · rw [if_pos h73] at hop
    cases hop
    exact opString_context _ _ h
  rw [if_neg h73] at hop
  by_cases h74 : tkn = "getinterval"
  · rw [if_pos h74] at hop
    cases hop
    exact opGetinterval_context _ _ h
  rw [if_neg h74] at hop
  by_cases h75 : tkn = "putinterval"
  · rw [if_pos h75] at hop
    cases hop
    exact opPutinterval_context _ _ h
  rw [if_neg h75] at hop
  by_cases h76 : tkn = "search"
  · rw [if_pos h76] at hop
    cases hop
    exact opSearch_context _ _ h
  rw [if_neg h76] at hop
  by_cases h77 : tkn = "gsave"
  · rw [if_pos h77] at hop
    cases hop
    cases h
    rfl
  rw [if_neg h77] at hop
  by_cases h78 : tkn = "grestore"
  · rw [if_pos h78] at hop
    cases hop
    cases h
    rfl
  rw [if_neg h78] at hop
  by_cases h79 : tkn = "setextent"
  · rw [if_pos h79] at hop
    cases hop
    cases h
    rfl
  rw [if_neg h79] at hop
  by_cases h80 : tkn = "currentpoint"
  · rw [if_pos h80] at hop
    cases hop
    cases h
    rfl
  rw [if_neg h80] at hop
  by_cases h81 : tkn = "scale"
  · rw [if_pos h81] at hop
    cases hop
    exact emitCall2_context _ _ _ h
  rw [if_neg h81] at hop
  by_cases h82 : tkn = "translate"
  · rw [if_pos h82] at hop
    cases hop
    exact emitCall2_context _ _ _ h
  rw [if_neg h82] at hop
  by_cases h83 : tkn = "dtransform"
  · rw [if_pos h83] at hop
    cases hop
    cases h
    exact need_context _ _
  rw [if_neg h83] at hop
  by_cases h84 : tkn = "currentfont"
  · rw [if_pos h84] at hop
    cases hop
    cases h
    rfl
  rw [if_neg h84] at hop
  by_cases h85 : tkn = "findfont"
  · rw [if_pos h85] at hop
    cases hop
    exact opFindfont_context _ _ h
  rw [if_neg h85] at hop
  by_cases h86 : tkn = "scalefont"
  · rw [if_pos h86] at hop
    cases hop
    exact opScalefont_context _ _ h
  rw [if_neg h86] at hop
  by_cases h87 : tkn = "setfont"
  · rw [if_pos h87] at hop
    cases hop
    exact emitCall1_context _ _ _ _ h
  rw [if_neg h87] at hop
  by_cases h88 : tkn = "ashow"
  · rw [if_pos h88] at hop
    cases hop
    exact opAshow_context _ _ h
  rw [if_neg h88] at hop
  by_cases h89 : tkn = "show"
  · rw [if_pos h89] at hop
    cases hop
    exact emitCall1_context _ _ _ _ h
  rw [if_neg h89] at hop
  by_cases h90 : tkn = "charpath"
  · rw [if_pos h90] at hop
    cases hop
    exact emitCall2_context _ _ _ h
  rw [if_neg h90] at hop
  by_cases h91 : tkn = "pathbbox"
  · rw [if_pos h91] at hop
    cases hop
    cases h
    rfl
  rw [if_neg h91] at hop
  by_cases h92 : tkn = "stringwidth"
  · rw [if_pos h92] at hop
    cases hop
    exact opStringwidth_context _ _ h
  rw [if_neg h92] at hop
  by_cases h93 : tkn = "imagemask"
  · rw [if_pos h93] at hop
    cases hop
    exact opImagemask_context _ _ h
  rw [if_neg h93] at hop
  by_cases h94 : tkn = "setlinewidth"
  · rw [if_pos h94] at hop
    cases hop
    exact emitCall1_context _ _ _ _ h
  rw [if_neg h94] at hop
  by_cases h95 : tkn = "setcolor"
  · rw [if_pos h95] at hop
    cases hop
    exact emitCall1_context _ _ _ _ h
  rw [if_neg h95] at hop
  by_cases h96 : tkn = "setlinecap"
  · rw [if_pos h96] at hop
    cases hop
    cases h
    exact need_context _ _
  rw [if_neg h96] at hop
  by_cases h97 : tkn = "setlinejoin"
  · rw [if_pos h97] at hop
    cases hop
    cases h
    exact need_context _ _
  rw [if_neg h97] at hop
  by_cases h98 : tkn = "stroke"
  · rw [if_pos h98] at hop
    cases hop
    cases h
    rfl
  rw [if_neg h98] at hop
  by_cases h99 : tkn = "newpath"
  · rw [if_pos h99] at hop
    cases hop
    cases h
    rfl
  rw [if_neg h99] at hop
  by_cases h100 : tkn = "closepath"
  · rw [if_pos h100] at hop
    cases hop
    cases h
    rfl
  rw [if_neg h100] at hop
  by_cases h101 : tkn = "moveto"
  · rw [if_pos h101] at hop
    cases hop
    exact emitCall2_context _ _ _ h
  rw [if_neg h101] at hop
  by_cases h102 : tkn = "lineto"
  · rw [if_pos h102] at hop
    cases hop
    exact emitCall2_context _ _ _ h
  rw [if_neg h102] at hop
  by_cases h103 : tkn = "rlineto"
  · rw [if_pos h103] at hop
    cases hop
    exact emitCall2_context _ _ _ h
  rw [if_neg h103] at hop
  by_cases h104 : tkn = "rmoveto"
  · rw [if_pos h104] at hop
    cases hop
    exact emitCall2_context _ _ _ h
  rw [if_neg h104] at hop
  by_cases h105 : tkn = "fill"
  · rw [if_pos h105] at hop
    cases hop
    cases h
    rfl
  rw [if_neg h105] at hop
  by_cases h106 : tkn = "arc"
  · rw [if_pos h106] at hop
    cases hop
    exact opArc_context _ _ _ h
  rw [if_neg h106] at hop
  by_cases h107 : tkn = "arcn"
  · rw [if_pos h107] at hop
    cases hop
    exact opArc_context _ _ _ h
  rw [if_neg h107] at hop
  cases hop

theorem compileToken_context (comp : Comp)
    (hcomp : ∀ s s1 : PSC, comp s = .ok s1 → s1.context = s.context)
    (tkn : String) (lnbr : Nat) (s s1 : PSC) (h : compileToken comp tkn lnbr s = .ok s1) :
    s1.context = s.context := by
  unfold compileToken at h
  by_cases h1 : tkn = "\x7b"
  · rw [if_pos h1] at h
    generalize readtokens "\x7d" s.lex = r at h
    obtain ⟨a, b⟩ := r
    cases h
    rfl
  rw [if_neg h1] at h
  by_cases h2 : tkn = "["
  · rw [if_pos h2] at h
    exact compileArray_context comp hcomp _ _ h
  rw [if_neg h2] at h
  by_cases h3 : tkn = "<<"
  · rw [if_pos h3] at h
    exact compileDict_context comp hcomp _ _ h
  rw [if_neg h3] at h
  cases hd : tkn.data with
  | nil =>
    rw [hd] at h
    cases h
  | cons c rest =>
    rw [hd] at h
    dsimp only at h
    by_cases ha : (c == '-' || c.isDigit || c == '.') = true
    · rw [if_pos ha] at h
      cases hi : intOfText tkn with
      | none =>
        rw [hi] at h
        dsimp only at h
        split at h <;> (cases h; rfl)
      | some v => rw [hi] at h; cases h; rfl
    rw [if_neg ha] at h
    by_cases hb : (c == '(') = true
    · rw [if_pos hb] at h
      cases h
      rfl
    rw [if_neg hb] at h
    by_cases hc : (c == '/') = true
    · rw [if_pos hc] at h
      by_cases hs : rest.head? = some '/'
      · rw [if_pos hs] at h
        by_cases hp : String.mk (rest.drop 1) ∈ protoNames
        · rw [if_pos hp] at h
          cases h
        · rw [if_neg hp] at h
          cases h
          rfl
      · rw [if_neg hs] at h
        by_cases hp : String.mk rest ∈ protoNames
        · rw [if_pos hp] at h
          cases h
        · rw [if_neg hp] at h
          cases hg : dictGet (pushEntry TYPE_IDENT ("\"" ++ String.mk rest ++ "\"") s).dict
              (String.mk rest) with
          | none => rw [hg] at h; cases h; rfl
          | some v =>
            rw [hg] at h
            dsimp only at h
            by_cases hv : v = 0
            · rw [if_pos hv] at h; cases h; rfl
            · rw [if_neg hv] at h; cases h; rfl
    rw [if_neg hc] at h
    cases hop : opTable comp tkn with
    | some op =>
      rw [hop] at h
      exact opTable_context comp hcomp tkn op hop _ _ h
    | none =>
      rw [hop] at h
      dsimp only at h
      by_cases hp : tkn ∈ protoNames
      · rw [if_pos hp] at h; cases h
      rw [if_neg hp] at h
      exact compileIdent_context _ _ _ _ h

theorem compile_context : ∀ (fuel : Nat) (s s1 : PSC),
    compile fuel s = .ok s1 → s1.context = s.context := by
  intro fuel
  induction fuel with
  | zero => intro s s1 h; cases h
  | succ f ih =>
    intro s s1 h
    unfold compile at h
    split at h
    · cases h
      rfl
    · rename_i tkn lx hn
      split at h
      · cases h
      · rename_i s2 h2
        exact (ih _ _ h).trans ((compileToken_context (compile f) ih _ _ _ _ h2).trans rfl)

/-- Every key of the operator table `$` has its operator in `opTable`, and no
other token has one. -/
theorem opTable_total (comp : Comp) (tkn : String) :
    (opTable comp tkn).isSome = decide (tkn ∈ opNames) := by
  unfold opTable
  by_cases h0 : tkn = "pop"
  · rw [if_pos h0, h0, Option.isSome_some]
    decide
  rw [if_neg h0]
  by_cases h1 : tkn = "dup"
  · rw [if_pos h1, h1, Option.isSome_some]
    decide
  rw [if_neg h1]
  by_cases h2 : tkn = "exch"
  · rw [if_pos h2, h2, Option.isSome_some]
    decide
  rw [if_neg h2]
  by_cases h3 : tkn = "copy"
  · rw [if_pos h3, h3, Option.isSome_some]
    decide
  rw [if_neg h3]
  by_cases h4 : tkn = "roll"
  · rw [if_pos h4, h4, Option.isSome_some]
    decide
  rw [if_neg h4]
  by_cases h5 : tkn = "index"
  · rw [if_pos h5, h5, Option.isSome_some]
    decide
  rw [if_neg h5]
  by_cases h6 : tkn = "add"
  · rw [if_pos h6, h6, Option.isSome_some]
    decide
  rw [if_neg h6]
  by_cases h7 : tkn = "sub"
  · rw [if_pos h7, h7, Option.isSome_some]
    decide
  rw [if_neg h7]
  by_cases h8 : tkn = "mul"
  · rw [if_pos h8, h8, Option.isSome_some]
    decide
  rw [if_neg h8]
  by_cases h9 : tkn = "div"
  · rw [if_pos h9, h9, Option.isSome_some]
    decide
  rw [if_neg h9]
  by_cases h10 : tkn = "mod"
  · rw [if_pos h10, h10, Option.isSome_some]
    decide
  rw [if_neg h10]
  by_cases h11 : tkn = "idiv"
  · rw [if_pos h11, h11, Option.isSome_some]
    decide
  rw [if_neg h11]
  by_cases h12 : tkn = "and"
  · rw [if_pos h12, h12, Option.isSome_some]
    decide
  rw [if_neg h12]
  by_cases h13 : tkn = "or"
  · rw [if_pos h13, h13, Option.isSome_some]
    decide
  rw [if_neg h13]
  by_cases h14 : tkn = "xor"
  · rw [if_pos h14, h14, Option.isSome_some]
    decide
  rw [if_neg h14]
  by_cases h15 : tkn = "ifelse"
  · rw [if_pos h15, h15, Option.isSome_some]
    decide
  rw [if_neg h15]
  by_cases h16 : tkn = "for"
  · rw [if_pos h16, h16, Option.isSome_some]
    decide
  rw [if_neg h16]
  by_cases h17 : tkn = "aload"
  · rw [if_pos h17, h17, Option.isSome_some]
    decide
  rw [if_neg h17]
  by_cases h18 : tkn = "bind"
  · rw [if_pos h18, h18, Option.isSome_some]
    decide
  rw [if_neg h18]
  by_cases h19 : tkn = "def"
  · rw [if_pos h19, h19, Option.isSome_some]
    decide
  rw [if_neg h19]
  by_cases h20 : tkn = "begin"
  · rw [if_pos h20, h20, Option.isSome_some]
    decide
  rw [if_neg h20]
  by_cases h21 : tkn = "end"
  · rw [if_pos h21, h21, Option.isSome_some]
    decide
  rw [if_neg h21]
  by_cases h22 : tkn = "dict"
  · rw [if_pos h22, h22, Option.isSome_some]
    decide
  rw [if_neg h22]
  by_cases h23 : tkn = "array"
  · rw [if_pos h23, h23, Option.isSome_some]
    decide
  rw [if_neg h23]
  by_cases h24 : tkn = "get"
  · rw [if_pos h24, h24, Option.isSome_some]
    decide
  rw [if_neg h24]
  by_cases h25 : tkn = "put"
  · rw [if_pos h25, h25, Option.isSome_some]
    decide
  rw [if_neg h25]
  by_cases h26 : tkn = "counttomark"
  · rw [if_pos h26, h26, Option.isSome_some]
    decide
  rw [if_neg h26]
  by_cases h27 : tkn = "mark"
  · rw [if_pos h27, h27, Option.isSome_some]
    decide
  rw [if_neg h27]
  by_cases h28 : tkn = "exec"
  · rw [if_pos h28, h28, Option.isSome_some]
    decide
  rw [if_neg h28]
  by_cases h29 : tkn = "true"
  · rw [if_pos h29, h29, Option.isSome_some]
    decide
  rw [if_neg h29]
  by_cases h30 : tkn = "false"
  · rw [if_pos h30, h30, Option.isSome_some]
    decide
  rw [if_neg h30]
  by_cases h31 : tkn = "null"
  · rw [if_pos h31, h31, Option.isSome_some]
    decide
  rw [if_neg h31]
  by_cases h32 : tkn = "cvn"
  · rw [if_pos h32, h32, Option.isSome_some]
    decide
  rw [if_neg h32]
  by_cases h33 : tkn = "cvx"
  · rw [if_pos h33, h33, Option.isSome_some]
    decide
  rw [if_neg h33]
  by_cases h34 : tkn = "quit"
  · rw [if_pos h34, h34, Option.isSome_some]
    decide
  rw [if_neg h34]
  by_cases h35 : tkn = "if"
  · rw [if_pos h35, h35, Option.isSome_some]
    decide
  rw [if_neg h35]
  by_cases h36 : tkn = "neg"
  · rw [if_pos h36, h36, Option.isSome_some]
    decide
  rw [if_neg h36]
  by_cases h37 : tkn = "debug"
  · rw [if_pos h37, h37, Option.isSome_some]
    decide
  rw [if_neg h37]
  by_cases h38 : tkn = "stack"
  · rw [if_pos h38, h38, Option.isSome_some]
    decide
  rw [if_neg h38]
  by_cases h39 : tkn = "return"
  · rw [if_pos h39, h39, Option.isSome_some]
    decide
  rw [if_neg h39]
  by_cases h40 : tkn = "known"
  · rw [if_pos h40, h40, Option.isSome_some]
    decide
  rw [if_neg h40]
  by_cases h41 : tkn = "handleerror"
  · rw [if_pos h41, h41, Option.isSome_some]
    decide
  rw [if_neg h41]
  by_cases h42 : tkn = "cvi"
  · rw [if_pos h42, h42, Option.isSome_some]
    decide
  rw [if_neg h42]
  by_cases h43 : tkn = "cvlit"
  · rw [if_pos h43, h43, Option.isSome_some]
    decide
  rw [if_neg h43]
  by_cases h44 : tkn = "cvs"
  · rw [if_pos h44, h44, Option.isSome_some]
    decide
  rw [if_neg h44]
  by_cases h45 : tkn = "cvr"
  · rw [if_pos h45, h45, Option.isSome_some]
    decide
  rw [if_neg h45]
  by_cases h46 : tkn = "cvrs"
  · rw [if_pos h46, h46, Option.isSome_some]
    decide
  rw [if_neg h46]
  by_cases h47 : tkn = "type"
  · rw [if_pos h47, h47, Option.isSome_some]
    decide
  rw [if_neg h47]
  by_cases h48 : tkn = "length"
  · rw [if_pos h48, h48, Option.isSome_some]
    decide
  rw [if_neg h48]
  by_cases h49 : tkn = "load"
  · rw [if_pos h49, h49, Option.isSome_some]
    decide
  rw [if_neg h49]
  by_cases h50 : tkn = "eq"
  · rw [if_pos h50, h50, Option.isSome_some]
    decide
  rw [if_neg h50]
  by_cases h51 : tkn = "ne"
  · rw [if_pos h51, h51, Option.isSome_some]
    decide
  rw [if_neg h51]
  by_cases h52 : tkn = "lt"
  · rw [if_pos h52, h52, Option.isSome_some]
    decide
  rw [if_neg h52]
  by_cases h53 : tkn = "le"
  · rw [if_pos h53, h53, Option.isSome_some]
    decide
  rw [if_neg h53]
  by_cases h54 : tkn = "gt"
  · rw [if_pos h54, h54, Option.isSome_some]
    decide
  rw [if_neg h54]
  by_cases h55 : tkn = "ge"
  · rw [if_pos h55, h55, Option.isSome_some]
    decide
  rw [if_neg h55]
  by_cases h56 : tkn = "not"
  · rw [if_pos h56, h56, Option.isSome_some]
    decide
  rw [if_neg h56]
  by_cases h57 : tkn = "forall"
  · rw [if_pos h57, h57, Option.isSome_some]
    decide
  rw [if_neg h57]
  by_cases h58 : tkn = "repeat"
  · rw [if_pos h58, h58, Option.isSome_some]
    decide
  rw [if_neg h58]
  by_cases h59 : tkn = "loop"
  · rw [if_pos h59, h59, Option.isSome_some]
    decide
  rw [if_neg h59]
  by_cases h60 : tkn = "exit"
  · rw [if_pos h60, h60, Option.isSome_some]
    decide
  rw [if_neg h60]
  by_cases h61 : tkn = "cleartomark"
  · rw [if_pos h61, h61, Option.isSome_some]
    decide
  rw [if_neg h61]
  by_cases h62 : tkn = "clear"
  · rw [if_pos h62, h62, Option.isSome_some]
    decide
  rw [if_neg h62]
  by_cases h63 : tkn = "exp"
  · rw [if_pos h63, h63, Option.isSome_some]
    decide
  rw [if_neg h63]
  by_cases h64 : tkn = "ln"
  · rw [if_pos h64, h64, Option.isSome_some]
    decide
  rw [if_neg h64]
  by_cases h65 : tkn = "log"
  · rw [if_pos h65, h65, Option.isSome_some]
    decide
  rw [if_neg h65]
  by_cases h66 : tkn = "abs"
  · rw [if_pos h66, h66, Option.isSome_some]
    decide
  rw [if_neg h66]
  by_cases h67 : tkn = "round"
  · rw [if_pos h67, h67, Option.isSome_some]
    decide
  rw [if_neg h67]
  by_cases h68 : tkn = "floor"
  · rw [if_pos h68, h68, Option.isSome_some]
    decide
  rw [if_neg h68]
  by_cases h69 : tkn = "ceiling"
  · rw [if_pos h69, h69, Option.isSome_some]
    decide
  rw [if_neg h69]
  by_cases h70 : tkn = "sqrt"
  · rw [if_pos h70, h70, Option.isSome_some]
    decide
  rw [if_neg h70]
  by_cases h71 : tkn = "bitshift"
  · rw [if_pos h71, h71, Option.isSome_some]
    decide
  rw [if_neg h71]
  by_cases h72 : tkn = "astore"
  · rw [if_pos h72, h72, Option.isSome_some]
    decide
  rw [if_neg h72]
  by_cases h73 : tkn = "string"
  · rw [if_pos h73, h73, Option.isSome_some]
    decide
  rw [if_neg h73]
  by_cases h74 : tkn = "getinterval"
  · rw [if_pos h74, h74, Option.isSome_some]
    decide
  rw [if_neg h74]
  by_cases h75 : tkn = "putinterval"
  · rw [if_pos h75, h75, Option.isSome_some]
    decide
  rw [if_neg h75]
  by_cases h76 : tkn = "search"
  · rw [if_pos h76, h76, Option.isSome_some]
    decide
  rw [if_neg h76]
  by_cases h77 : tkn = "gsave"
  · rw [if_pos h77, h77, Option.isSome_some]
    decide
  rw [if_neg h77]
  by_cases h78 : tkn = "grestore"
  · rw [if_pos h78, h78, Option.isSome_some]
    decide
  rw [if_neg h78]
  by_cases h79 : tkn = "setextent"
  · rw [if_pos h79, h79, Option.isSome_some]
    decide
  rw [if_neg h79]
  by_cases h80 : tkn = "currentpoint"
  · rw [if_pos h80, h80, Option.isSome_some]
    decide
  rw [if_neg h80]
  by_cases h81 : tkn = "scale"
  · rw [if_pos h81, h81, Option.isSome_some]
    decide
  rw [if_neg h81]
  by_cases h82 : tkn = "translate"
  · rw [if_pos h82, h82, Option.isSome_some]
    decide
  rw [if_neg h82]
  by_cases h83 : tkn = "dtransform"
  · rw [if_pos h83, h83, Option.isSome_some]
    decide
  rw [if_neg h83]
  by_cases h84 : tkn = "currentfont"
  · rw [if_pos h84, h84, Option.isSome_some]
    decide
  rw [if_neg h84]
  by_cases h85 : tkn = "findfont"
  · rw [if_pos h85, h85, Option.isSome_some]
    decide
  rw [if_neg h85]
  by_cases h86 : tkn = "scalefont"
  · rw [if_pos h86, h86, Option.isSome_some]
    decide
  rw [if_neg h86]
  by_cases h87 : tkn = "setfont"
  · rw [if_pos h87, h87, Option.isSome_some]
    decide
  rw [if_neg h87]
  by_cases h88 : tkn = "ashow"
  · rw [if_pos h88, h88, Option.isSome_some]
    decide
  rw [if_neg h88]
  by_cases h89 : tkn = "show"
  · rw [if_pos h89, h89, Option.isSome_some]
    decide
  rw [if_neg h89]
  by_cases h90 : tkn = "charpath"
  · rw [if_pos h90, h90, Option.isSome_some]
    decide
  rw [if_neg h90]
  by_cases h91 : tkn = "pathbbox"
  · rw [if_pos h91, h91, Option.isSome_some]
    decide
  rw [if_neg h91]
  by_cases h92 : tkn = "stringwidth"
  · rw [if_pos h92, h92, Option.isSome_some]
    decide
  rw [if_neg h92]
  by_cases h93 : tkn = "imagemask"
  · rw [if_pos h93, h93, Option.isSome_some]
    decide
  rw [if_neg h93]
  by_cases h94 : tkn = "setlinewidth"
  · rw [if_pos h94, h94, Option.isSome_some]
    decide
  rw [if_neg h94]
  by_cases h95 : tkn = "setcolor"
  · rw [if_pos h95, h95, Option.isSome_some]
    decide
  rw [if_neg h95]
  by_cases h96 : tkn = "setlinecap"
  · rw [if_pos h96, h96, Option.isSome_some]
    decide
  rw [if_neg h96]
  by_cases h97 : tkn = "setlinejoin"
  · rw [if_pos h97, h97, Option.isSome_some]
    decide
  rw [if_neg h97]
  by_cases h98 : tkn = "stroke"
  · rw [if_pos h98, h98, Option.isSome_some]
    decide
  rw [if_neg h98]
  by_cases h99 : tkn = "newpath"
  · rw [if_pos h99, h99, Option.isSome_some]
    decide
  rw [if_neg h99]
  by_cases h100 : tkn = "closepath"
  · rw [if_pos h100, h100, Option.isSome_some]
    decide
  rw [if_neg h100]
  by_cases h101 : tkn = "moveto"
  · rw [if_pos h101, h101, Option.isSome_some]
    decide
  rw [if_neg h101]
  by_cases h102 : tkn = "lineto"
  · rw [if_pos h102, h102, Option.isSome_some]
    decide
  rw [if_neg h102]
  by_cases h103 : tkn = "rlineto"
  · rw [if_pos h103, h103, Option.isSome_some]
    decide
  rw [if_neg h103]
  by_cases h104 : tkn = "rmoveto"
  · rw [if_pos h104, h104, Option.isSome_some]
    decide
  rw [if_neg h104]
  by_cases h105 : tkn = "fill"
  · rw [if_pos h105, h105, Option.isSome_some]
    decide
  rw [if_neg h105]
  by_cases h106 : tkn = "arc"
  · rw [if_pos h106, h106, Option.isSome_some]
    decide
  rw [if_neg h106]
  by_cases h107 : tkn = "arcn"
  · rw [if_pos h107, h107, Option.isSome_some]
    decide
  rw [if_neg h107]
  symm
  rw [Option.isSome_none, decide_eq_false_iff_not]
  unfold opNames
  simp only [List.mem_cons, List.mem_singleton, List.not_mem_nil, or_false, not_or]
  exact ⟨h37, h38, h39, h20, h21, h22, h40, h41, h34, h28, h2, h1, h3, h4, h5, h42, h43, h32, h44, h33, h45, h46, h47, h29, h30, h31, h0, h48, h18, h19, h49, h24, h25, h50, h51, h52, h53, h54, h55, h12, h13, h14, h56, h35, h15, h57, h16, h58, h59, h60, h27, h26, h61, h62, h8, h9, h10, h6, h7, h11, h63, h64, h65, h36, h66, h67, h68, h69, h70, h71, h23, h17, h72, h73, h74, h75, h76, h77, h78, h79, h80, h81, h82, h83, h84, h85, h86, h87, h88, h89, h90, h91, h92, h93, h94, h95, h96, h97, h98, h99, h100, h101, h102, h103, h104, h105, h106, h107⟩

/-- The value and the text of some number tokens: a fraction, radix numbers,
a number with an exponent, the forms `.5` and `5.`, a value printed with an
exponent, a token that is no number, and integers, for which the text is that
of `intStr`. -/
theorem number_token_values :
    ["1.5", "16#FF", "8#17", ".5", "5.", "1e3", "-0.25", "1e21", "0.0000001", "-", "0.1"].map
        (fun t => ((numberOfToken t).toString, (numberOfToken t).hasFraction)) =
      [("1.5", true), ("255", false), ("15", false), ("0.5", true), ("5", false), ("1000", false),
       ("-0.25", true), ("1e+21", false), ("1e-7", true), ("NaN", false), ("0.1", true)] ∧
    [(12 : Int), -7, 0, 9007199254740991].map (fun n => (numberOfToken (intStr n)).toString) =
      [(12 : Int), -7, 0, 9007199254740991].map intStr ∧
    (JSNum.div (toNumber "7.5") (toNumber "2")).trunc = 3 ∧
    (JSNum.div (toNumber "-7") (toNumber "0")).trunc = 0 := by
  decide!

/-! ## Saving and restoring the context around a token region -/

/-- C13, the claim as stated fails: the region `{ }` compiles, the child then
tracks the captured block, an entry without expression, and `ctxpop` raises
`ctxflush: missing expression` instead of returning lines. -/
theorem ctx_restore_block_counterexample :
    (compile 5 (ctxpush regionEmptyBlock (PSC.init { devar := true, coverage := false } []))).toBool
      = true ∧
    ((compile 5 (ctxpush regionEmptyBlock
        (PSC.init { devar := true, coverage := false } []))).bind ctxpop).map (fun r => r.1) =
      .error (.thrown "ctxflush: missing expression") := by
  decide!

/-- C13 (as amended).  Let the compilation of the region `tokens` after
`ctxpush(tokens)` in the parent state `s` end in the child state `s1`, whose
tracked entries exist.  When these entries have the expressions `xs` (bottom
first), `ctxpop` returns the lines of the child in emission order followed by
one line `$k[$j++]=x;` per tracked entry, and the state it leaves has the
trace stack, the pointer, the code block, the depth and the saved contexts of
`s`.  When one of them has no expression, `ctxpop` raises
`ctxflush: missing expression`. -/
theorem ctx_save_restore (fuel : Nat) (tokens : List Token) (s s1 : PSC)
    (h : compile fuel (ctxpush tokens s) = .ok s1) (hsp : s1.sp ≤ s1.st.length) :
    (∀ xs : List String, s1.tracked.map (·.expr) = xs.map some →
      ∃ s2, ctxpop s1 = .ok (s1.block ++ pushLines s1.lex.lnbr s1.seq xs, s2) ∧
        s2.st = s.st ∧ s2.sp = s.sp ∧ s2.block = s.block ∧ s2.depth = s.depth ∧
        s2.context = s.context) ∧
    ((∃ e ∈ s1.tracked, e.expr = none) →
      ctxpop s1 = .error (.thrown "ctxflush: missing expression")) := by
  have hctx := compile_context fuel _ _ h
  rw [ctxpush_context] at hctx
  constructor
  · intro xs hx
    have hf := (ctxflush_tracked s1 hsp).1 xs hx
    unfold ctxpop
    rw [hf]
    simp only [hctx]
    exact ⟨_, rfl, rfl, rfl, rfl, rfl, rfl⟩
  · intro hx
    have hf := (ctxflush_tracked s1 hsp).2 hx
    unfold ctxpop
    rw [hf]

theorem ctx_save_restore_witness :
    (∃ s2, ctxpop regionSumChild =
        .ok (regionSumChild.block ++
              pushLines regionSumChild.lex.lnbr regionSumChild.seq ["1+2", "7"], s2) ∧
      s2.st = flushWitnessState.st ∧ s2.sp = flushWitnessState.sp ∧
      s2.block = flushWitnessState.block ∧ s2.depth = flushWitnessState.depth ∧
      s2.context = flushWitnessState.context) ∧
    (∃ s2, ctxpop regionRealChild =
        .ok (regionRealChild.block ++
              pushLines regionRealChild.lex.lnbr regionRealChild.seq ["Math.sqrt(1.5*255)"], s2) ∧
      s2.st = flushWitnessState.st ∧ s2.sp = flushWitnessState.sp ∧
      s2.block = flushWitnessState.block ∧ s2.depth = flushWitnessState.depth ∧
      s2.context = flushWitnessState.context) ∧
    regionRealChild.block.map (·.code) = ["$$.moveto(2,3);"] :=
  ⟨(ctx_save_restore 10 regionSum flushWitnessState regionSumChild (by decide!) (by decide!)).1
      ["1+2", "7"] (by decide!),
   (ctx_save_restore 10 regionReal flushWitnessState regionRealChild (by decide!) (by decide!)).1
      ["Math.sqrt(1.5*255)"] (by decide!),
   by decide!⟩

/-! ## Static array literals -/

theorem run_lit {α : Type} (p : List Char) : ∀ (s : List Char) (c : Caps)
    (k : List Char → Caps → Option α),
    RE.run (p.foldr (fun c r => RE.seq (RE.chr c) r) RE.eps) s c k =
      if startsWithL p s then k (s.drop p.length) c else none := by
  induction p with
  | nil => intro s c k; simp [RE.run, startsWithL]
  | cons a p ih =>
    intro s c k
    cases s with
    | nil => simp [RE.run, startsWithL]
    | cons b s =>
      simp only [List.foldr_cons, RE.run, startsWithL, List.length_cons, List.drop_succ_cons]
      by_cases hab : (a == b) = true
      · simp only [hab, if_true, Bool.true_and]
        exact ih s c k
      · simp [hab]

theorem startsWithL_append (p s : List Char) : startsWithL p (p ++ s) = true := by
  induction p with
  | nil => simp [startsWithL]
  | cons a p ih => simp [startsWithL, ih]

theorem starLoop_any_semicolon {α : Type} (K : List Char → Caps → Option α) (r : α) (c : Caps)
    (h0 : K [] c = none) (h1 : K [';'] c = some r) (t : List Char) :
    ∀ n : Nat, t.length + 1 < n →
      RE.starLoop (fun s1 c1 k1 => RE.run (RE.cls (fun _ => true)) s1 c1 k1) n (t ++ [';']) c K =
        some r := by
  induction t with
  | nil =>
    intro n hn
    cases n with
    | zero => omega
    | succ n =>
      cases n with
      | zero => simp at hn
      | succ n =>
        simp [RE.starLoop, RE.run, h0, h1]
  | cons y t ih =>
    intro n hn
    cases n with
    | zero => omega
    | succ n =>
      simp only [List.length_cons] at hn
      have ih1 := ih n (by omega)
      simp only [RE.run, if_true] at ih1
      simp only [List.cons_append, RE.starLoop, RE.run, if_true, List.length_cons,
        Nat.lt_succ_self]
      rw [ih1]

theorem run_seq {α : Type} (a b : RE) (s : List Char) (c : Caps)
    (k : List Char → Caps → Option α) :
    RE.run (RE.seq a b) s c k = RE.run a s c (fun s1 c1 => RE.run b s1 c1 k) := by
  simp only [RE.run]

theorem run_group {α : Type} (i : Nat) (a : RE) (s : List Char) (c : Caps)
    (k : List Char → Caps → Option α) :
    RE.run (RE.group i a) s c k =
      RE.run a s c (fun s1 c1 => k s1 ((i, s.take (s.length - s1.length)) :: c1)) := by
  simp only [RE.run]

theorem run_cls_cons {α : Type} (p : Char → Bool) (y : Char) (t : List Char) (c : Caps)
    (k : List Char → Caps → Option α) :
    RE.run (RE.cls p) (y :: t) c k = if p y then k t c else none := by
  simp only [RE.run]

theorem run_star {α : Type} (a : RE) (s : List Char) (c : Caps)
    (k : List Char → Caps → Option α) :
    RE.run (RE.star a) s c k =
      RE.starLoop (fun s1 c1 k1 => RE.run a s1 c1 k1) (s.length + 1) s c k := by
  simp only [RE.run]

theorem run_lit_append {α : Type} (p : String) (s : List Char) (c : Caps)
    (k : List Char → Caps → Option α) :
    RE.run (RE.lit p) (p.data ++ s) c k = k s c := by
  unfold RE.lit
  rw [run_lit, if_pos (startsWithL_append _ _), List.drop_left']
  rfl

theorem execStart_push (x : Char) (t : List Char) :
    RE.execStart rePushExpr ("$k[$j++]=".data ++ (x :: t) ++ [';']) =
      some ([], [(1, x :: t)]) := by
  unfold RE.execStart rePushExpr
  simp only [RE.cat]
  rw [List.append_assoc, run_seq, run_lit_append, run_seq, run_group]
  unfold RE.plus
  rw [run_seq, List.cons_append, run_cls_cons, if_pos rfl, run_star]
  apply starLoop_any_semicolon
  · simp [RE.run]
  · simp [RE.run, RE.opt, RE.lit, RE.cat]
  · simp

theorem startsWithL_eq (p : List Char) : ∀ s : List Char, startsWithL p s = true →
    s = p ++ s.drop p.length := by
  induction p with
  | nil => intro s _; rfl
  | cons a p ih =>
    intro s h
    cases s with
    | nil => simp [startsWithL] at h
    | cons b s =>
      simp only [startsWithL, Bool.and_eq_true, beq_iff_eq] at h
      simp only [List.length_cons, List.drop_succ_cons, List.cons_append, List.cons.injEq]
      exact ⟨h.1.symm, ih s h.2⟩

theorem pushText_code (code e : String) (h : pushText code = some e) :
    code.data = "$k[$j++]=".data ++ e.data ++ [';'] ∧ e.data ≠ [] := by
  unfold pushText at h
  split at h
  · rename_i hc
    simp only [Bool.and_eq_true, beq_iff_eq, decide_eq_true_eq] at hc
    obtain ⟨⟨h1, h2⟩, h3⟩ := hc
    simp only [Option.some.injEq] at h
    rw [← h]
    have hs := startsWithL_eq _ _ h1
    have hlen : "$k[$j++]=".data.length = 9 := by decide
    rw [hlen] at hs
    have hr : 1 < (code.data.drop 9).length := by
      rw [List.length_drop]
      omega
    have hrne : code.data.drop 9 ≠ [] := by
      intro h0
      rw [h0] at hr
      simp at hr
    have hlast : (code.data.drop 9).getLast? = some ';' := by
      rw [hs, List.getLast?_append] at h2
      cases hg : (code.data.drop 9).getLast? with
      | none => exact absurd (List.getLast?_eq_none_iff.mp hg) hrne
      | some v =>
        rw [hg] at h2
        simpa using h2
    have hsplit := List.dropLast_append_getLast? ';' (by rw [hlast]; exact rfl)
    constructor
    · show code.data = "$k[$j++]=".data ++ (code.data.drop 9).dropLast ++ [';']
      rw [List.append_assoc, hsplit]
      exact hs
    · show (code.data.drop 9).dropLast ≠ []
      intro h0
      have hz : ((code.data.drop 9).dropLast).length = 0 := by rw [h0]; rfl
      rw [List.length_dropLast] at hz
      omega
  · cases h

theorem pushedExpr_push (code e : String) (h : pushText code = some e) :
    pushedExpr code = some e := by
  obtain ⟨hd, hne⟩ := pushText_code code e h
  unfold pushedExpr
  rw [hd]
  cases he : e.data with
  | nil => exact absurd he hne
  | cons x t =>
    rw [execStart_push]
    simp only [Caps.get, List.find?, beq_self_eq_true, Option.map_some']
    rw [← he]

theorem push_line_tests (l : Line) (e : String) (h : pushText l.code = some e) :
    RE.testStart reVarPop l.code = false ∧ RE.testStart reVarDecl l.code = false ∧
    RE.testStart rePushHead l.code = true ∧ startsWithL "var ".data l.code.data = false ∧
    isDeclLine l = false := by
  obtain ⟨hd, _⟩ := pushText_code l.code e h
  have hv : startsWithL "var ".data l.code.data = false := by
    rw [hd]
    rfl
  have h1 : RE.testStart reVarPop l.code = false := by
    unfold RE.testStart RE.execStart reVarPop
    simp only [RE.cat]
    rw [run_seq]
    unfold RE.lit
    rw [run_lit, hv]
    rfl
  have h2 : RE.testStart reVarDecl l.code = false := by
    unfold RE.testStart RE.execStart reVarDecl
    simp only [RE.cat]
    rw [run_seq]
    unfold RE.lit
    rw [run_lit, hv]
    rfl
  refine ⟨h1, h2, ?_, hv, ?_⟩
  · unfold RE.testStart RE.execStart rePushHead
    rw [hd, List.append_assoc, run_lit_append]
    rfl
  · unfold isDeclLine
    rw [h2]
    rfl

theorem decl_line_tests (l : Line) (h : isDeclLine l = true) :
    RE.testStart reVarPop l.code = false ∧ RE.testStart reVarDecl l.code = true ∧
    startsWithL "var ".data l.code.data = true ∧ pushText l.code = none := by
  unfold isDeclLine at h
  simp only [Bool.and_eq_true, Bool.not_eq_true'] at h
  have hv : startsWithL "var ".data l.code.data = true := by
    by_contra hn
    have hf : startsWithL "var ".data l.code.data = false := by simpa using hn
    have h2 : RE.testStart reVarDecl l.code = false := by
      unfold RE.testStart RE.execStart reVarDecl
      simp only [RE.cat]
      rw [run_seq]
      unfold RE.lit
      rw [run_lit, hf]
      rfl
    rw [h2] at h
    exact absurd h.1 (by decide)
  refine ⟨h.2, h.1, hv, ?_⟩
  have hs := startsWithL_eq _ _ hv
  unfold pushText
  have hp : startsWithL "$k[$j++]=".data l.code.data = false := by
    rw [hs]
    rfl
  rw [hp]
  rfl

theorem arrayScan_static : ∀ lines : List Line, lines.all isStaticLine = true →
    arrayScan lines = lines.length := by
  intro lines
  induction lines with
  | nil => intro _; rfl
  | cons l ls ih =>
    intro h
    simp only [List.all_cons, Bool.and_eq_true] at h
    have ih1 := ih h.2
    unfold arrayScan
    have hl := h.1
    unfold isStaticLine at hl
    by_cases hd : isDeclLine l = true
    · obtain ⟨h1, h2, _, _⟩ := decl_line_tests l hd
      simp [h1, h2, ih1]
    · simp only [hd, Bool.false_or] at hl
      obtain ⟨e, he⟩ := Option.isSome_iff_exists.mp hl
      obtain ⟨h1, h2, h3, _, _⟩ := push_line_tests l e he
      simp [h1, h3, ih1]

theorem arrayBuild_static : ∀ (lines : List Line) (code : String) (s : PSC),
    lines.all isStaticLine = true →
    arrayBuild lines code s =
      .ok ((staticExprs lines).foldl
              (fun c e => c ++ (if c.data.isEmpty then "" else ",") ++ e) code,
           (declLines lines).foldl (fun acc l => emitLine l acc) s) := by
  intro lines
  induction lines with
  | nil => intro code s _; rfl
  | cons l ls ih =>
    intro code s h
    simp only [List.all_cons, Bool.and_eq_true] at h
    have hl := h.1
    unfold isStaticLine at hl
    unfold arrayBuild
    by_cases hd : isDeclLine l = true
    · obtain ⟨_, _, h3, h4⟩ := decl_line_tests l hd
      rw [if_pos h3, ih _ _ h.2]
      simp [staticExprs, declLines, h4, hd]
    · simp only [hd, Bool.false_or] at hl
      obtain ⟨e, he⟩ := Option.isSome_iff_exists.mp hl
      obtain ⟨_, _, _, h4, h5⟩ := push_line_tests l e he
      rw [if_neg (by rw [h4]; decide), pushedExpr_push _ _ he]
      simp only []
      rw [ih _ _ h.2]
      simp [staticExprs, declLines, he, h5]

theorem foldl_comma_append (es : List String) : ∀ p q : String,
    es.foldl (fun a e => a ++ "," ++ e) (p ++ q) = p ++ es.foldl (fun a e => a ++ "," ++ e) q := by
  induction es with
  | nil => intro p q; rfl
  | cons e es ih =>
    intro p q
    simp only [List.foldl_cons]
    rw [String.append_assoc, String.append_assoc, ih, String.append_assoc]

theorem joinComma_cons (es : List String) : ∀ x : String,
    joinComma (x :: es) = es.foldl (fun a e => a ++ "," ++ e) x := by
  induction es with
  | nil => intro x; rfl
  | cons y r ih =>
    intro x
    simp only [joinComma, List.foldl_cons]
    rw [ih y, foldl_comma_append]

theorem foldl_joinStep_nonempty (es : List String) : ∀ c : String, c.data ≠ [] →
    es.foldl (fun c e => c ++ (if c.data.isEmpty then "" else ",") ++ e) c =
      es.foldl (fun a e => a ++ "," ++ e) c := by
  induction es with
  | nil => intro c _; rfl
  | cons e es ih =>
    intro c hc
    simp only [List.foldl_cons]
    have h1 : c.data.isEmpty = false := by
      cases hd : c.data with
      | nil => exact absurd hd hc
      | cons a b => rfl
    rw [h1]
    simp only [Bool.false_eq_true, if_false]
    apply ih
    intro h0
    have := congrArg List.length h0
    simp [String.data_append] at this

theorem foldl_joinStep (es : List String) (hne : ∀ e ∈ es, e.data ≠ []) :
    es.foldl (fun c e => c ++ (if c.data.isEmpty then "" else ",") ++ e) "" = joinComma es := by
  cases es with
  | nil => rfl
  | cons x es =>
    simp only [List.foldl_cons]
    have hx : ("" : String) ++ (if ("" : String).data.isEmpty then "" else ",") ++ x = x := by
      apply String.ext
      simp [String.data_append]
    rw [hx, foldl_joinStep_nonempty es x (hne x (List.mem_cons_self _ _)), joinComma_cons]

theorem staticExprs_nonempty (lines : List Line) : ∀ e ∈ staticExprs lines, e.data ≠ [] := by
  intro e he
  unfold staticExprs at he
  rw [List.mem_filterMap] at he
  obtain ⟨l, _, hl⟩ := he
  exact (pushText_code l.code e hl).2

theorem emitLines_state (lines : List Line) : ∀ s : PSC,
    ∃ added : List Line,
      (lines.foldl (fun acc l => emitLine l acc) s) =
        { s with block := s.block ++ added, seq := s.seq + lines.length } ∧
      added.map (·.code) = lines.map (·.code) := by
  induction lines with
  | nil => intro s; exact ⟨[], by simp, rfl⟩
  | cons l ls ih =>
    intro s
    obtain ⟨added, h1, h2⟩ := ih (emitLine l s)
    refine ⟨{ code := l.code, lnbr := if l.lnbr = 0 then s.lex.lnbr else l.lnbr,
              seq := s.seq + 1 } :: added, ?_, ?_⟩
    · rw [List.foldl_cons, h1]
      simp only [emitLine, List.append_assoc, List.singleton_append, List.length_cons]
      congr 1
      omega
    · simp [h2]

/-- C14.  An array literal in the state `s`: `tokens` are the tokens up to
the closing bracket, their compilation in a pushed context ends in `s1` and
`ctxpop` returns `lines` and the state `s2`.  When every line is a declaration
that does not read the real stack or a push `$k[$j++]=e;`, the compiler appends
to the block of `s` the declarations in their order followed by the one line
`var T=$a([e1,...,en]);`, `T` being the next temporary and `e1..en` the pushed
expressions in order; every appended line is a declaration, so there is neither
a push nor a sentinel; and one entry of type array with the expression `T` is
put on top of the tracked entries of `s`, which are untouched. -/
theorem static_array_literal (fuel : Nat) (s s1 s2 : PSC) (tokens : List Token) (lx : Lexer)
    (lines : List Line) (hwf : s.sp ≤ s.st.length)
    (hr : readtokens "]" s.lex = (some tokens, lx))
    (hc : compile fuel (ctxpush tokens { s with lex := lx }) = .ok s1)
    (hp : ctxpop s1 = .ok (lines, s2))
    (hl : lines.all isStaticLine = true) :
    ∃ (s' : PSC) (added : List Line) (q : Nat),
      compileArray (compile fuel) s = .ok s' ∧
      s'.block = s.block ++ added ∧
      added.map (·.code) = (declLines lines).map (·.code) ++
        ["var " ++ tvar s2.tvarno ++ "=$a([" ++ joinComma (staticExprs lines) ++ "]);"] ∧
      (∀ l ∈ added, startsWithL "var ".data l.code.data = true) ∧
      s'.tracked = s.tracked ++
        [{ type := TYPE_ARRAY, expr := some (tvar s2.tvarno), tokens := none, seq := q }] ∧
      s'.sp = s.sp + 1 ∧ s'.context = s.context := by
  have hctx := compile_context fuel _ _ hc
  rw [ctxpush_context] at hctx
  obtain ⟨e1, est, esp, eblock, _⟩ := ctxpop_context s1 s2 lines _ _ hctx hp
  simp only at e1 est esp eblock
  obtain ⟨added0, hem, hcode⟩ := emitLines_state (declLines lines)
    { s2 with tvarno := s2.tvarno + 1 }
  have hres : compileArray (compile fuel) s =
      .ok (pushEntry TYPE_ARRAY (tvar s2.tvarno)
        (emit ("var " ++ tvar s2.tvarno ++ "=$a([" ++ joinComma (staticExprs lines) ++ "]);")
          ((declLines lines).foldl (fun acc l => emitLine l acc)
            { s2 with tvarno := s2.tvarno + 1 }))) := by
    unfold compileArray
    rw [hr]
    simp only []
    rw [hc]
    simp only []
    rw [hp]
    simp only []
    rw [if_pos (arrayScan_static lines hl), arrayBuild_static _ _ _ hl,
      foldl_joinStep _ (staticExprs_nonempty lines)]
  rw [hem] at hres
  refine ⟨_, added0 ++ [Line.mk
      ("var " ++ tvar s2.tvarno ++ "=$a([" ++ joinComma (staticExprs lines) ++ "]);")
      s2.lex.lnbr (s2.seq + (declLines lines).length + 1)],
      s2.seq + (declLines lines).length + 1 + 1, hres, ?_, ?_, ?_, ?_, ?_, ?_⟩
  · simp only [pushEntry, emit, eblock, List.append_assoc]
  · simp [hcode]
  · intro l hlm
    rw [List.mem_append] at hlm
    rcases hlm with hlm | hlm
    · have hm : l.code ∈ added0.map (·.code) := List.mem_map_of_mem _ hlm
      rw [hcode, List.mem_map] at hm
      obtain ⟨d, hd, hdc⟩ := hm
      rw [← hdc]
      unfold declLines at hd
      exact (decl_line_tests d (List.mem_filter.mp hd).2).2.2.1
    · rw [List.mem_singleton] at hlm
      rw [hlm]
      simp only [String.data_append, List.append_assoc]
      exact startsWithL_append _ _
  · simp only [PSC.tracked, pushEntry, emit, est, esp]
    exact take_stSet_push s.st s.sp _ hwf
  · simp only [pushEntry, emit, esp]
  · simp only [pushEntry, emit, e1]

theorem static_array_literal_witness :
    (∃ (s' : PSC) (added : List Line) (q : Nat),
      compileArray (compile 10) arrayWitnessState = .ok s' ∧
      s'.block = arrayWitnessState.block ++ added ∧
      added.map (·.code) = (declLines arrayWitnessPop.1).map (·.code) ++
        ["var " ++ tvar arrayWitnessPop.2.tvarno ++ "=$a([" ++
          joinComma (staticExprs arrayWitnessPop.1) ++ "]);"] ∧
      (∀ l ∈ added, startsWithL "var ".data l.code.data = true) ∧
      s'.tracked = arrayWitnessState.tracked ++
        [{ type := TYPE_ARRAY, expr := some (tvar arrayWitnessPop.2.tvarno), tokens := none,
           seq := q }] ∧
      s'.sp = arrayWitnessState.sp + 1 ∧ s'.context = arrayWitnessState.context) ∧
    (compileArray (compile 10) arrayWitnessState).map
        (fun s => (s.block.map (·.code), s.tracked.map (·.expr))) =
      .ok (["var _1=$a([1,2,3]);"], [some "_0", some "5", some "_1"]) ∧
    (compileArray (compile 10)
        { arrayWitnessState with
          lex := { stack := [], raw := tokensOnLine 1 ["]"], token := some "[", lnbr := 1 } }).map
        (fun s => (s.block.map (·.code), s.tracked.map (·.expr))) =
      .ok (["var _1=$a([]);"], [some "_0", some "5", some "_1"]) ∧
    (compileArray (compile 10)
        { arrayWitnessState with
          lex := { stack := [], raw := tokensOnLine 1 ["1.5", "16#FF", "2", "exp", "]"],
                   token := some "[", lnbr := 1 } }).map
        (fun s => (s.block.map (·.code), s.tracked.map (·.expr))) =
      .ok (["var _1=$a([1.5,Math.pow(255,2)]);"], [some "_0", some "5", some "_1"]) :=
  ⟨static_array_literal 10 arrayWitnessState arrayWitnessChild arrayWitnessPop.2
      (tokensOnLine 1 ["1", "2", "3"]) arrayWitnessLex arrayWitnessPop.1
      (by decide) (by decide!) (by decide!) (by decide!) (by decide!),
   by decide!, by decide!, by decide!⟩

/-! ## Straight-line code: the operand stack of the source and of the compiled code -/

theorem net_append (a b : List Line) : net (a ++ b) = net a + net b := by
  simp [net]

theorem net_singleton (l : Line) : net [l] = lineEffect l.code := by
  simp [net]

theorem lineEffect_decr : lineEffect "$j--;" = -1 := by decide

theorem startsWithL_cons_ne (a b : Char) (p s : List Char) (h : a ≠ b) :
    startsWithL (a :: p) (b :: s) = false := by
  simp [startsWithL, h]

theorem testStart_lit_head (r : RE) (p : String) (code : String) (c d : Char) (ps cs : List Char)
    (hp : p.data = c :: ps) (hc : code.data = d :: cs) (hne : c ≠ d) :
    RE.testStart (RE.seq (RE.lit p) r) code = false := by
  unfold RE.testStart RE.execStart
  rw [run_seq]
  unfold RE.lit
  rw [run_lit, hp, hc, startsWithL_cons_ne c d ps cs hne]
  rfl

theorem reDecr_var (cs : List Char) (code : String) (hc : code.data = 'v' :: cs) :
    RE.testStart reDecr code = false := by
  unfold reDecr
  simp only [RE.cat]
  exact testStart_lit_head _ "$j-=" code '$' 'v' _ cs rfl hc (by decide)

theorem lineEffect_var (code : String) (cs : List Char) (hc : code.data = 'v' :: cs) :
    lineEffect code =
      if startsWithL "var ".data code.data && endsWithL "=$k[--$j];".data code.data then -1
      else 0 := by
  unfold lineEffect
  have h1 : code ≠ "$j--;" := by
    intro h
    rw [h] at hc
    cases hc
  have h3 : startsWithL "$k[$j++]=".data code.data = false := by
    rw [hc]
    rfl
  rw [if_neg h1, reDecr_var cs code hc, h3]
  simp

theorem endsWithL_append (a p : List Char) : endsWithL p (a ++ p) = true := by
  unfold endsWithL
  rw [List.reverse_append]
  exact startsWithL_append _ _

theorem lineEffect_popLine (t : String) : lineEffect ("var " ++ t ++ "=$k[--$j];") = -1 := by
  have hd : ("var " ++ t ++ "=$k[--$j];").data = 'v' :: ('a' :: 'r' :: ' ' :: t.data ++
      "=$k[--$j];".data) := by
    simp [String.data_append]
  rw [lineEffect_var _ _ hd]
  have h1 : startsWithL "var ".data ("var " ++ t ++ "=$k[--$j];").data = true := by
    simp only [String.data_append, List.append_assoc]
    exact startsWithL_append _ _
  have h2 : endsWithL "=$k[--$j];".data ("var " ++ t ++ "=$k[--$j];").data = true := by
    simp only [String.data_append]
    exact endsWithL_append _ _
  rw [h1, h2]
  rfl

theorem net_popLines (lnbr : Nat) : ∀ (k t q : Nat), net (popLines lnbr k t q) = -(k : Int) := by
  intro k
  induction k with
  | zero => intro t q; rfl
  | succ k ih =>
    intro t q
    unfold popLines
    have h := net_append [{ code := "var " ++ tvar t ++ "=$k[--$j];", lnbr := lnbr, seq := q + 1 }]
      (popLines lnbr k (t + 1) (q + 2))
    simp only [List.singleton_append] at h
    rw [h, net_singleton, ih, lineEffect_popLine]
    push_cast
    ring

theorem lineEffect_dupLine (t x : String) (hx : goodExpr x = true) :
    lineEffect ("var " ++ t ++ "=" ++ x ++ ";") = 0 := by
  have hd : ("var " ++ t ++ "=" ++ x ++ ";").data = 'v' :: ('a' :: 'r' :: ' ' :: t.data ++
      ('=' :: x.data ++ [';'])) := by
    simp [String.data_append]
  rw [lineEffect_var _ _ hd]
  have h2 : endsWithL "=$k[--$j];".data ("var " ++ t ++ "=" ++ x ++ ";").data = false := by
    unfold goodExpr endsWithL at hx
    unfold endsWithL
    simp only [String.data_append, List.reverse_append, List.append_assoc]
    have hp : "=$k[--$j];".data.reverse = [';', ']', 'j', '$', '-', '-', '[', 'k', '$', '='] := by
      decide
    have hq : "$j]".data.reverse = [']', 'j', '$'] := by decide
    have h1 : ";".data.reverse = [';'] := by decide
    have h3 : "=".data.reverse = ['='] := by decide
    rw [hp, h1, h3]
    rw [hq] at hx
    simp only [Bool.not_eq_true'] at hx
    rcases hr : x.data.reverse with _ | ⟨a, _ | ⟨b, _ | ⟨c, r⟩⟩⟩
    · simp [startsWithL]
    · simp [startsWithL]
    · simp [startsWithL]
    · rw [hr] at hx
      simp only [startsWithL, Bool.and_true, Bool.and_eq_false_imp] at hx
      simp only [List.cons_append, List.nil_append, startsWithL, beq_self_eq_true, Bool.true_and]
      simp only [Bool.and_eq_false_imp]
      intro ha hb hc
      exact absurd (hx ha hb) (by simp [hc])
  rw [h2]
  simp

theorem goodExpr_of_last (x : String) (h : ∀ c, x.data.getLast? = some c → c ≠ ']') :
    goodExpr x = true := by
  unfold goodExpr endsWithL
  have hq : "$j]".data.reverse = [']', 'j', '$'] := by decide
  rw [hq]
  rcases hr : x.data.reverse with _ | ⟨a, r⟩
  · rfl
  · have hl : x.data.getLast? = some a := by
      rw [List.getLast?_eq_head?_reverse, hr]
      rfl
    have := h a hl
    simp [startsWithL, this.symm]

theorem goodExpr_of_all (x : String) (p : Char → Bool) (hp : p ']' = false)
    (h : x.data.all p = true) : goodExpr x = true := by
  apply goodExpr_of_last
  intro c hc heq
  have hm : c ∈ x.data := List.mem_of_getLast?_eq_some hc
  have := List.all_eq_true.mp h c hm
  rw [heq, hp] at this
  cases this

theorem goodExpr_natStr (n : Nat) : goodExpr (natStr n) = true :=
  goodExpr_of_all _ isDigitChar (by decide) (decLoop_all_digits n)

theorem goodExpr_intStr (n : Int) : goodExpr (intStr n) = true := by
  cases n with
  | ofNat k => exact goodExpr_natStr k
  | negSucc k =>
    apply goodExpr_of_all _ (fun c => c == '-' || isDigitChar c) (by decide)
    simp only [intStr, List.all_cons, beq_self_eq_true, Bool.true_or, Bool.true_and]
    have h := decLoop_all_digits (k + 1)
    rw [List.all_eq_true] at h ⊢
    intro c hc
    simp [h c hc]

theorem goodExpr_tvar (n : Nat) : goodExpr (tvar n) = true := by
  apply goodExpr_of_all _ (fun c => c != ']') (by decide)
  unfold tvar b62Loop
  simp only [List.all_cons]
  have h := radixLoop_all 62 b62Char (fun c => c != ']') (by omega) (by decide) n n []
    (le_refl _) rfl
  rw [h]
  rfl

theorem goodExpr_quoted (u : String) : goodExpr ("\"" ++ u ++ "\"") = true := by
  apply goodExpr_of_last
  intro c hc
  simp only [String.data_append, List.getLast?_append] at hc
  have h1 : "\"".data.getLast? = some '"' := by decide
  rw [h1] at hc
  have h2 : c = '"' := by
    simpa [Option.or] using hc.symm
  rw [h2]
  decide

theorem parens_cases (x : String) : parens x = x ∨ parens x = "(" ++ x ++ ")" := by
  unfold parens
  split
  · exact Or.inl rfl
  · exact Or.inr rfl

theorem goodExpr_arith (a b op : String) (c : Char) (hop : op.data = [c])
    (h1 : c ≠ ']') (h2 : c ≠ 'j') (h3 : c ≠ '$') (ha : goodExpr a = true) :
    goodExpr (parens b ++ op ++ parens a) = true := by
  unfold goodExpr endsWithL at ha ⊢
  have hq : "$j]".data.reverse = [']', 'j', '$'] := by decide
  rw [hq] at ha ⊢
  simp only [String.data_append, List.reverse_append, hop, List.reverse_cons, List.reverse_nil,
    List.nil_append, List.append_assoc, List.singleton_append, Bool.not_eq_true'] at ha ⊢
  rcases parens_cases a with hp | hp
  · rw [hp]
    rcases hr : a.data.reverse with _ | ⟨x, _ | ⟨y, _ | ⟨z, r⟩⟩⟩
    · simp [startsWithL, Ne.symm h1]
    · simp [startsWithL, Ne.symm h2]
    · simp [startsWithL, Ne.symm h3]
    · rw [hr] at ha
      simpa [startsWithL] using ha
  · rw [hp]
    simp [String.data_append, startsWithL]

theorem absVal_congr (e1 e2 : Entry) (h : e1.te = e2.te) : absVal e1 = absVal e2 := by
  unfold Entry.te at h
  simp only [Prod.mk.injEq] at h
  unfold absVal
  rw [h.1, h.2]

theorem goodEntry_congr (e1 e2 : Entry) (h : e1.te = e2.te) : goodEntry e1 = goodEntry e2 := by
  unfold Entry.te at h
  simp only [Prod.mk.injEq] at h
  unfold goodEntry
  rw [h.1, h.2]

theorem map_absVal_congr : ∀ (l1 l2 : List Entry), l1.map Entry.te = l2.map Entry.te →
    l1.map absVal = l2.map absVal := by
  intro l1
  induction l1 with
  | nil =>
    intro l2 h
    cases l2 with
    | nil => rfl
    | cons b l2 => cases h
  | cons a l1 ih =>
    intro l2 h
    cases l2 with
    | nil => cases h
    | cons b l2 =>
      simp only [List.map_cons, List.cons.injEq] at h ⊢
      exact ⟨absVal_congr a b h.1, ih l2 h.2⟩

theorem all_goodEntry_congr : ∀ (l1 l2 : List Entry), l1.map Entry.te = l2.map Entry.te →
    l1.all goodEntry = l2.all goodEntry := by
  intro l1
  induction l1 with
  | nil =>
    intro l2 h
    cases l2 with
    | nil => rfl
    | cons b l2 => cases h
  | cons a l1 ih =>
    intro l2 h
    cases l2 with
    | nil => cases h
    | cons b l2 =>
      simp only [List.map_cons, List.cons.injEq] at h
      simp only [List.all_cons]
      rw [goodEntry_congr a b h.1, ih l2 h.2]

theorem trackerOk_iff (s : PSC) :
    trackerOk s = true ↔ s.sp ≤ s.st.length ∧ s.tracked.all goodEntry = true := by
  unfold trackerOk
  simp

theorem trackerOk_of_tracked (s : PSC) (X : List Entry) (h : s.tracked = X)
    (hl : X.length = s.sp) (hg : X.all goodEntry = true) : trackerOk s = true := by
  rw [trackerOk_iff]
  constructor
  · have := congrArg List.length h
    unfold PSC.tracked at this
    rw [List.length_take, hl] at this
    omega
  · rw [h]
    exact hg

theorem logical_length (s : PSC) (b : Nat) (h : s.sp ≤ s.st.length) :
    (logical s b).length = s.sp + b := by
  unfold logical
  simp [tracked_length s h]

theorem popEntries_shape : ∀ (k t q : Nat), ∀ e ∈ popEntries k t q,
    e.type = TYPE_UNKNOWN ∧ ∃ i, e.expr = some (tvar i) := by
  intro k
  induction k with
  | zero => intro t q e he; cases he
  | succ k ih =>
    intro t q e he
    simp only [popEntries, List.mem_append, List.mem_singleton] at he
    rcases he with he | rfl
    · exact ih _ _ e he
    · exact ⟨rfl, t, rfl⟩

theorem goodEntry_temp (e : Entry) (i : Nat) (ht : e.type ≠ TYPE_INTLIT)
    (hx : e.expr = some (tvar i)) : goodEntry e = true := by
  unfold goodEntry
  rw [hx]
  simp [goodExpr_tvar, ht]

theorem absVal_other (e : Entry) (ht : e.type ≠ TYPE_INTLIT) : absVal e = .other := by
  unfold absVal
  rw [if_neg ht]

/-! ## `need` and the operand stack a state stands for -/

theorem decrRoom_mono (block : List Line) (m m1 : Nat) (h : decrRoom block m = true)
    (hm : m1 ≤ m) : decrRoom block m1 = true := by
  unfold decrRoom at h ⊢
  simp only [decide_eq_true_eq] at h ⊢
  omega

theorem decrCount_snoc_var (block : List Line) (l : Line) (cs : List Char)
    (hc : l.code.data = 'v' :: cs) : decrCount (block ++ [l]) = 0 := by
  unfold decrCount
  rw [List.getLast?_append]
  have h1 : l.code ≠ "$j--;" := by
    intro h
    rw [h] at hc
    cases hc
  simp [reDecr_var cs l.code hc, h1]

theorem decrRoom_lt (block : List Line) (m : Nat) (h : decrRoom block m = true) :
    m < maxSafe := by
  unfold decrRoom at h
  simp only [decide_eq_true_eq] at h
  omega

theorem decrRoom_snoc_var (block : List Line) (l : Line) (cs : List Char) (m : Nat)
    (hc : l.code.data = 'v' :: cs) (h : m < maxSafe) :
    decrRoom (block ++ [l]) m = true := by
  unfold decrRoom
  rw [decrCount_snoc_var block l cs hc]
  simp only [decide_eq_true_eq]
  omega

theorem popEntries_absVal (k t q : Nat) :
    (popEntries k t q).map absVal = List.replicate k RVal.other := by
  rw [List.eq_replicate_iff]
  constructor
  · simp [popEntries_length]
  · intro v hv
    rw [List.mem_map] at hv
    obtain ⟨e, he, rfl⟩ := hv
    exact absVal_other e (by rw [(popEntries_shape k t q e he).1]; decide)

theorem popEntries_good (k t q : Nat) : (popEntries k t q).all goodEntry = true := by
  rw [List.all_eq_true]
  intro e he
  obtain ⟨h1, i, h2⟩ := popEntries_shape k t q e he
  exact goodEntry_temp e i (by rw [h1]; decide) h2

theorem need_logical (s : PSC) (k b m : Nat) (hok : trackerOk s = true) (hk : k ≤ s.sp + b)
    (hd : decrRoom s.block m = true) :
    trackerOk (need k s) = true ∧ logical (need k s) (b - (k - s.sp)) = logical s b ∧
    net (need k s).block = net s.block - ((k - s.sp : Nat) : Int) ∧ k ≤ (need k s).sp ∧
    k - s.sp ≤ b ∧ decrRoom (need k s).block m = true ∧ (need k s).lex = s.lex := by
  obtain ⟨hwf, hgood⟩ := (trackerOk_iff s).mp hok
  have hj : (((k : Nat) : Int) - (s.sp : Int)).toNat = k - s.sp := by omega
  obtain ⟨h1, _, _, _, h5, _⟩ := need_eq s (k : Int)
  rw [hj] at h1 h5
  have hsp : (need k s).sp = s.sp + (k - s.sp) := by rw [h1]
  have hblock : (need k s).block = s.block ++ popLines s.lex.lnbr (k - s.sp) s.tvarno s.seq := by
    rw [h1]
  refine ⟨?_, ?_, ?_, ?_, ?_, ?_, need_lex s k⟩
  · apply trackerOk_of_tracked _ _ h5
    · rw [List.length_append, popEntries_length, tracked_length s hwf, hsp]
      omega
    · rw [List.all_append, popEntries_good, hgood]
      rfl
  · unfold logical
    rw [h5, List.map_append, List.reverse_append, popEntries_absVal, List.reverse_replicate,
      List.append_assoc, ← List.replicate_add]
    congr 2
    omega
  · rw [hblock, net_append, net_popLines]
    ring
  · rw [hsp]; omega
  · omega
  · rw [hblock]
    cases hk0 : k - s.sp with
    | zero => simpa [popLines] using hd
    | succ j =>
      rw [popLines_snoc, ← List.append_assoc]
      exact decrRoom_snoc_var _ _
        ('a' :: 'r' :: ' ' :: ((tvar (s.tvarno + j)).data ++ "=$k[--$j];".data)) m
        (by simp [String.data_append]) (decrRoom_lt _ _ hd)

theorem logical_snoc (s s1 : PSC) (b : Nat) (e : Entry) (h : s1.tracked = s.tracked ++ [e]) :
    logical s1 b = absVal e :: logical s b := by
  unfold logical
  rw [h]
  simp

theorem trackerOk_snoc (s s1 : PSC) (e : Entry) (hok : trackerOk s = true)
    (h : s1.tracked = s.tracked ++ [e]) (hsp : s1.sp = s.sp + 1) (he : goodEntry e = true) :
    trackerOk s1 = true := by
  obtain ⟨hwf, hgood⟩ := (trackerOk_iff s).mp hok
  apply trackerOk_of_tracked _ _ h
  · rw [List.length_append, tracked_length s hwf, hsp]
    rfl
  · rw [List.all_append, hgood]
    simp [he]

theorem pushEntry_tracked (s : PSC) (ty : Nat) (x : String) (hwf : s.sp ≤ s.st.length) :
    (pushEntry ty x s).tracked =
      s.tracked ++ [{ type := ty, expr := some x, tokens := none, seq := s.seq + 1 }] := by
  unfold pushEntry PSC.tracked
  exact take_stSet_push s.st s.sp _ hwf

theorem pushEntry_stepOk (s : PSC) (b m : Nat) (ty : Nat) (x : String)
    (hok : trackerOk s = true) (hd : decrRoom s.block m = true)
    (hg : goodEntry { type := ty, expr := some x, tokens := none, seq := s.seq + 1 } = true) :
    StepOk s b m
      (absVal { type := ty, expr := some x, tokens := none, seq := s.seq + 1 } :: logical s b)
      (.ok (pushEntry ty x s)) := by
  obtain ⟨hwf, _⟩ := (trackerOk_iff s).mp hok
  have ht := pushEntry_tracked s ty x hwf
  refine ⟨pushEntry ty x s, b, rfl, trackerOk_snoc s _ _ hok ht rfl hg,
    logical_snoc s _ b _ ht, ?_, rfl, decrRoom_mono _ _ _ hd (by omega)⟩
  show net s.block - net s.block = _
  ring

theorem intStr_head (n : Int) :
    ∃ c rest, (intStr n).data = c :: rest ∧ (c = '-' ∨ c.isDigit = true) := by
  cases n with
  | ofNat k =>
    cases h : decLoop k k [] with
    | nil => exact absurd h (decLoop_ne_nil k)
    | cons c rest =>
      refine ⟨c, rest, h, Or.inr ?_⟩
      have hall := decLoop_all_digits k
      rw [h] at hall
      simp only [List.all_cons, Bool.and_eq_true] at hall
      exact hall.1
  | negSucc k => exact ⟨'-', _, rfl, Or.inl rfl⟩

theorem compileToken_int (comp : Comp) (n : Int) (lnbr : Nat) (s : PSC)
    (hn : n.natAbs < maxSafe) :
    compileToken comp (intStr n) lnbr s = .ok (pushEntry TYPE_INTLIT (intStr n) s) := by
  obtain ⟨c, rest, hd, hc⟩ := intStr_head n
  have hne : ∀ t : String, (∀ c1 r1, t.data = c1 :: r1 → c1 ≠ '-' ∧ c1.isDigit = false) →
      intStr n ≠ t := by
    intro t ht heq
    rw [heq] at hd
    have := ht c rest hd
    rcases hc with hc | hc
    · exact this.1 hc
    · rw [this.2] at hc; cases hc
  have h1 : intStr n ≠ "\x7b" := hne _ (by intro c1 r1 h; cases h; decide)
  have h2 : intStr n ≠ "[" := hne _ (by intro c1 r1 h; cases h; decide)
  have h3 : intStr n ≠ "<<" := hne _ (by intro c1 r1 h; cases h; decide)
  unfold compileToken
  rw [if_neg h1, if_neg h2, if_neg h3, hd]
  have hcond : (c == '-' || c.isDigit || c == '.') = true := by
    rcases hc with hc | hc
    · simp [hc]
    · simp [hc]
  simp only [hcond, if_true, intOfText_intStr n hn]

theorem step_int (comp : Comp) (n : Int) (lnbr : Nat) (s : PSC) (b m : Nat)
    (hok : trackerOk s = true) (hd : decrRoom s.block m = true) (hn : n.natAbs < maxSafe) :
    StepOk s b m (.lit n :: logical s b) (compileToken comp (intStr n) lnbr s) := by
  rw [compileToken_int comp n lnbr s hn]
  have hg : goodEntry (Entry.mk TYPE_INTLIT (some (intStr n)) none (s.seq + 1)) = true := by
    unfold goodEntry
    simp [goodExpr_intStr, intOfText_intStr n hn]
  have ha : absVal (Entry.mk TYPE_INTLIT (some (intStr n)) none (s.seq + 1)) = .lit n := by
    unfold absVal
    simp [intOfText_intStr n hn]
  have := pushEntry_stepOk s b m TYPE_INTLIT (intStr n) hok hd hg
  rw [ha] at this
  exact this

theorem compileToken_str (comp : Comp) (t : String) (lnbr : Nat) (s : PSC) :
    compileToken comp ("(" ++ t ++ ")") lnbr s =
      .ok (pushEntry TYPE_STRLIT ("\"" ++ unquote ("(" ++ t ++ ")") ++ "\"") s) := by
  have hd : ("(" ++ t ++ ")").data = '(' :: (t.data ++ [')']) := by
    simp [String.data_append]
  have hne : ∀ u : String, (∀ c1 r1, u.data = c1 :: r1 → c1 ≠ '(') → "(" ++ t ++ ")" ≠ u := by
    intro u hu heq
    rw [heq] at hd
    exact hu _ _ hd rfl
  have h1 : "(" ++ t ++ ")" ≠ "\x7b" := hne _ (by intro c1 r1 h; cases h; decide)
  have h2 : "(" ++ t ++ ")" ≠ "[" := hne _ (by intro c1 r1 h; cases h; decide)
  have h3 : "(" ++ t ++ ")" ≠ "<<" := hne _ (by intro c1 r1 h; cases h; decide)
  unfold compileToken
  rw [if_neg h1, if_neg h2, if_neg h3, hd]
  rfl

theorem step_str (comp : Comp) (t : String) (lnbr : Nat) (s : PSC) (b m : Nat)
    (hok : trackerOk s = true) (hd : decrRoom s.block m = true) :
    StepOk s b m (.other :: logical s b) (compileToken comp ("(" ++ t ++ ")") lnbr s) := by
  rw [compileToken_str comp t lnbr s]
  have hg : goodEntry (Entry.mk TYPE_STRLIT
      (some ("\"" ++ unquote ("(" ++ t ++ ")") ++ "\"")) none (s.seq + 1)) = true := by
    unfold goodEntry
    simp only [goodExpr_quoted, Bool.true_and]
    have h : (TYPE_STRLIT != TYPE_INTLIT) = true := by decide
    rw [h]
    rfl
  have := pushEntry_stepOk s b m TYPE_STRLIT ("\"" ++ unquote ("(" ++ t ++ ")") ++ "\"") hok hd hg
  rw [absVal_other _ (show TYPE_STRLIT ≠ TYPE_INTLIT by decide)] at this
  exact this

/-! ### `pop` -/

theorem starLoop_digits_then {α : Type} (K : List Char → Caps → Option α) (v : α) (c : Caps)
    (r : List Char) (hr : ∀ x t, r = x :: t → isDigitChar x = false) (hK : K r c = some v)
    (ds : List Char) :
    ∀ n : Nat, ds.all isDigitChar = true → ds.length < n →
      RE.starLoop (fun s1 c1 k1 => RE.run (RE.cls isDigitChar) s1 c1 k1) n (ds ++ r) c K =
        some v := by
  induction ds with
  | nil =>
    intro n _ hn
    cases n with
    | zero => simp at hn
    | succ n =>
      cases r with
      | nil => simpa [RE.starLoop, RE.run] using hK
      | cons x t =>
        have hx := hr x t rfl
        simp only [List.nil_append, RE.starLoop, RE.run, hx, Bool.false_eq_true, if_false]
        exact hK
  | cons d ds ih =>
    intro n hall hn
    cases n with
    | zero => simp at hn
    | succ n =>
      simp only [List.all_cons, Bool.and_eq_true] at hall
      simp only [List.length_cons] at hn
      have ih1 := ih n hall.2 (by omega)
      simp only [RE.run] at ih1
      simp only [List.cons_append, RE.starLoop, RE.run, hall.1, if_true, List.length_cons,
        Nat.lt_succ_self]
      rw [ih1]

theorem execStart_digitRun (d : Char) (ds r : List Char) (hd : isDigitChar d = true)
    (hds : ds.all isDigitChar = true) (hr : ∀ x t, r = x :: t → isDigitChar x = false) :
    RE.execStart reDigitRun (d :: ds ++ r) = some (r, []) := by
  unfold RE.execStart reDigitRun RE.plus
  rw [run_seq, List.cons_append, run_cls_cons, if_pos hd, run_star]
  exact starLoop_digits_then _ _ _ r hr rfl ds _ hds (by rw [List.length_append]; omega)

theorem execStart_digitRun_none (x : Char) (t : List Char) (hx : isDigitChar x = false) :
    RE.execStart reDigitRun (x :: t) = none := by
  unfold RE.execStart reDigitRun RE.plus
  rw [run_seq, run_cls_cons, if_neg (by simp [hx])]

theorem searchL_digitRun_skip (x : Char) (t : List Char) (hx : isDigitChar x = false) :
    RE.searchL reDigitRun (x :: t) =
      (RE.searchL reDigitRun t).map (fun q => (x :: q.1, q.2.1, q.2.2.1, q.2.2.2)) := by
  rw [RE.searchL, execStart_digitRun_none x t hx]

theorem searchL_digitRun_hit (d : Char) (ds r : List Char) (hd : isDigitChar d = true)
    (hds : ds.all isDigitChar = true) (hr : ∀ x t, r = x :: t → isDigitChar x = false) :
    RE.searchL reDigitRun (d :: ds ++ r) = some ([], d :: ds, r, []) := by
  have hex := execStart_digitRun d ds r hd hds hr
  rw [List.cons_append] at hex ⊢
  rw [RE.searchL, hex]
  simp only [Option.some.injEq, Prod.mk.injEq, true_and, and_true]
  have hl : (d :: (ds ++ r)).length - r.length = (d :: ds).length := by
    simp only [List.length_cons, List.length_append]
    omega
  rw [hl, ← List.cons_append, List.take_left']
  rfl

theorem firstNumber_decr (n : Nat) : firstNumber ("$j-=" ++ natStr n ++ ";") = n := by
  unfold firstNumber
  have hdata : ("$j-=" ++ natStr n ++ ";").data = '$' :: 'j' :: '-' :: '=' ::
      (decLoop n n [] ++ [';']) := by
    simp [String.data_append, natStr]
  rw [hdata]
  cases hdl : decLoop n n [] with
  | nil => exact absurd hdl (decLoop_ne_nil n)
  | cons d ds =>
    have hall := decLoop_all_digits n
    rw [hdl] at hall
    simp only [List.all_cons, Bool.and_eq_true] at hall
    have hp := parseDigits_decLoop n
    rw [hdl] at hp
    rw [searchL_digitRun_skip '$' _ (by decide), searchL_digitRun_skip 'j' _ (by decide),
      searchL_digitRun_skip '-' _ (by decide), searchL_digitRun_skip '=' _ (by decide),
      searchL_digitRun_hit d ds [';'] hall.1 hall.2 (by intro x t h; cases h; decide)]
    exact hp

theorem testStart_decr (n : Nat) : RE.testStart reDecr ("$j-=" ++ natStr n ++ ";") = true := by
  unfold RE.testStart RE.execStart reDecr
  have hdata : ("$j-=" ++ natStr n ++ ";").data = "$j-=".data ++ (decLoop n n [] ++ [';']) := by
    simp [String.data_append, natStr]
  rw [hdata]
  cases hdl : decLoop n n [] with
  | nil => exact absurd hdl (decLoop_ne_nil n)
  | cons d ds =>
    have hall := decLoop_all_digits n
    rw [hdl] at hall
    simp only [List.all_cons, Bool.and_eq_true] at hall
    simp only [RE.cat]
    rw [run_seq, run_lit_append, run_seq]
    unfold RE.plus
    rw [run_seq, List.cons_append, run_cls_cons, if_pos hall.1, run_star]
    rw [starLoop_digits_then _ (([] : List Char), ([] : Caps)) _ [';']
      (by intro x t h; cases h; decide) (by simp [RE.run]) ds _ hall.2
      (by rw [List.length_append]; simp only [List.length_singleton]; omega)]
    rfl

theorem lineEffect_coalesced (n : Nat) :
    lineEffect ("$j-=" ++ natStr n ++ ";") = -(n : Int) := by
  unfold lineEffect
  have h1 : "$j-=" ++ natStr n ++ ";" ≠ "$j--;" := by
    intro h
    have := congrArg (fun t => t.data.drop 3) h
    simp [String.data_append] at this
  rw [if_neg h1, testStart_decr, if_pos rfl, firstNumber_decr]

/-! ## `pop`, binary arithmetic, `and`, `or`, `xor` -/

theorem replaceTop2_tracked (s : PSC) (e : Entry) (q : Nat) (hsp : 2 ≤ s.sp)
    (hwf : s.sp ≤ s.st.length) :
    (replaceTop2 s e q).tracked = s.tracked.take (s.sp - 2) ++ [e] := by
  unfold replaceTop2 PSC.tracked
  have h1 : s.sp - 1 = (s.sp - 2) + 1 := by omega
  simp only
  rw [h1, take_stSet_push _ _ _ (by omega), List.take_take, Nat.min_eq_left (by omega)]

theorem getLast?_snoc_line (b : List Line) (l : Line) : (b ++ [l]).getLast? = some l := by
  simp

theorem opPop_tracked (s : PSC) (h : 0 < s.sp) : opPop s = .ok { s with sp := s.sp - 1 } := by
  unfold opPop
  rw [if_pos h]

theorem opPop_fresh (s : PSC) (h0 : s.sp = 0) (hl : lastIsDecrement s.block = false) :
    opPop s = .ok (emit "$j--;" s) := by
  unfold opPop
  rw [if_neg (by omega)]
  unfold lastIsDecrement at hl
  cases hg : s.block.getLast? with
  | none => rfl
  | some l =>
    rw [hg] at hl
    simp only [Bool.or_eq_false_iff, beq_eq_false_iff_ne, ne_eq] at hl
    simp only [if_neg hl.1, hl.2, Bool.false_eq_true, if_false]

theorem natStr_two : natStr 2 = "2" := by decide

theorem popLineCode_ne (k : Nat) (hk : 2 ≤ k) : popLineCode k ≠ "$j--;" := by
  unfold popLineCode
  rw [if_neg (by omega)]
  intro h
  have := congrArg (fun t => t.data.drop 3) h
  simp [String.data_append] at this

theorem opPop_coalesce (s : PSC) (l : Line) (k : Nat) (h0 : s.sp = 0) (hk : 1 ≤ k)
    (hk2 : k + 1 < maxSafe) (hc : l.code = popLineCode k) (B : List Line)
    (hb : s.block = B ++ [l]) :
    opPop s = .ok { s with block := B ++ [{ l with code := popLineCode (k + 1) }] } := by
  unfold opPop
  rw [if_neg (by omega), hb, getLast?_snoc_line, List.dropLast_concat]
  by_cases h1 : k = 1
  · subst h1
    have hc1 : l.code = "$j--;" := hc
    simp only [if_pos hc1]
    rfl
  · have hne := popLineCode_ne k (by omega)
    have hpl : popLineCode k = "$j-=" ++ natStr k ++ ";" := by
      unfold popLineCode
      rw [if_neg h1]
    have hpl1 : popLineCode (k + 1) = "$j-=" ++ natStr (k + 1) ++ ";" := by
      unfold popLineCode
      rw [if_neg (by omega)]
    simp only [hc, if_neg hne]
    rw [hpl, testStart_decr, firstNumber_decr, hpl1]
    simp only [if_true, if_pos hk2]

/-- C21.  `pop` with a tracked entry lowers the pointer of the trace stack by
one and leaves everything else, the block included, as it is, so that the top
entry is removed.  `k` consecutive pops (`1 <= k < 2^53`) on an empty trace
stack, the last line of the block not being a decrement, leave the state with
exactly one more line in the block: `$j--;` for `k = 1` and `$j-=k;` for
`k >= 2`. -/
theorem pop_spec (s : PSC) :
    (0 < s.sp → opPop s = .ok { s with sp := s.sp - 1 } ∧
      (s.sp ≤ s.st.length → ({ s with sp := s.sp - 1 } : PSC).tracked = s.tracked.dropLast)) ∧
    (∀ k : Nat, s.sp = 0 → lastIsDecrement s.block = false → 1 ≤ k → k < maxSafe →
      popN k s = .ok { s with
        block := s.block ++ [{ code := popLineCode k, lnbr := s.lex.lnbr, seq := s.seq + 1 }]
        seq := s.seq + 1 }) := by
  constructor
  · intro h
    refine ⟨opPop_tracked s h, ?_⟩
    intro hwf
    unfold PSC.tracked
    simp only
    rw [List.dropLast_eq_take, List.length_take, Nat.min_eq_left hwf, List.take_take,
      Nat.min_eq_left (by omega)]
  · intro k h0 hl hk1 hk2
    induction k with
    | zero => omega
    | succ k ih =>
      unfold popN
      by_cases hk0 : k = 0
      · subst hk0
        simp only [popN]
        rw [opPop_fresh s h0 hl]
        rfl
      · rw [ih (by omega) (by omega)]
        simp only
        exact opPop_coalesce
          { s with block := s.block ++ [Line.mk (popLineCode k) s.lex.lnbr (s.seq + 1)],
                   seq := s.seq + 1 }
          (Line.mk (popLineCode k) s.lex.lnbr (s.seq + 1)) k h0 (by omega) hk2 rfl s.block rfl

theorem pop_spec_witness :
    opPop flushWitnessState = .ok { flushWitnessState with sp := 1 } ∧
    (popN 3 (PSC.init { devar := true, coverage := false } [])).map
        (fun s => (s.block.map (·.code), s.sp)) = .ok (["$j-=3;"], 0) := by
  constructor
  · exact ((pop_spec flushWitnessState).1 (by decide)).1
  · rw [(pop_spec (PSC.init { devar := true, coverage := false } [])).2 3 rfl (by decide)
      (by decide) (by decide)]
    decide

theorem top2_get (s : PSC) (a b : Entry) (hsp : 2 ≤ s.sp)
    (ha : s.st[s.sp - 2]? = some a) (hb : s.st[s.sp - 1]? = some b) :
    need 2 s = s ∧ stGet s.st ((s.sp : Int) - 1) = .ok b ∧
      stGet s.st ((s.sp : Int) - 2) = .ok a := by
  refine ⟨need_of_le s 2 hsp, ?_, ?_⟩
  · simpa using stGet_sub s.st s.sp 1 b (by omega) hb
  · simpa using stGet_sub s.st s.sp 2 a hsp ha

theorem binarith_eq (op : String) (s : PSC) (a b : Entry) (hsp : 2 ≤ s.sp)
    (ha : s.st[s.sp - 2]? = some a) (hb : s.st[s.sp - 1]? = some b) :
    binarith op s = .ok (replaceTop2 s
      { a with type := arithType a b op
               expr := some (parens (exprStr a.expr) ++ op ++ parens (exprStr b.expr))
               seq := s.seq + 1 } (s.seq + 1)) := by
  obtain ⟨h1, h2, h3⟩ := top2_get s a b hsp ha hb
  unfold binarith
  have hn : need (2 : Int) s = s := h1
  simp only [hn, h2, h3]
  rfl

theorem binbool_eq (ariop funop : String) (s : PSC) (a b : Entry) (hsp : 2 ≤ s.sp)
    (ha : s.st[s.sp - 2]? = some a) (hb : s.st[s.sp - 1]? = some b) :
    binbool ariop funop s = .ok (replaceTop2 s
      { a with type := TYPE_BOOLEAN
               expr := some (if isNumeric b || isNumeric a || isBoolean b || isBoolean a then
                               parens (exprStr a.expr) ++ ariop ++ parens (exprStr b.expr)
                             else funop ++ "(" ++ exprStr a.expr ++ "," ++ exprStr b.expr ++ ")")
               seq := s.seq + 1 } (s.seq + 1)) := by
  obtain ⟨h1, h2, h3⟩ := top2_get s a b hsp ha hb
  unfold binbool
  have hn : need (2 : Int) s = s := h1
  simp only [hn, h2, h3]
  rfl

/-- C22.  `binarith(op)` on a trace stack whose two top entries are `a`
(below) and `b` (top): the two entries are replaced by one entry with the
expression parens(a) `op` parens(b), whatever the operands are, and with the
type integer value when both operand types have a bit of the integer family and
`op` is not the division, real value otherwise; no line is emitted.  The
tokens `add`, `sub`, `mul`, `div`, `mod` are compiled by `binarith` with the
operators `+`, `-`, `*`, `/`, `%`. -/
theorem binarith_spec (op : String) (s : PSC) (a b : Entry) (hsp : 2 ≤ s.sp)
    (hwf : s.sp ≤ s.st.length)
    (ha : s.st[s.sp - 2]? = some a) (hb : s.st[s.sp - 1]? = some b) :
    (∃ s', binarith op s = .ok s' ∧ s'.block = s.block ∧ s'.sp = s.sp - 1 ∧
      s'.tracked = s.tracked.take (s.sp - 2) ++
        [{ type := if hasType a.type TYPE_INTTYP && hasType b.type TYPE_INTTYP && op != "/"
                   then TYPE_INTVAL else TYPE_NUMVAL
           expr := some (parens (exprStr a.expr) ++ op ++ parens (exprStr b.expr))
           tokens := a.tokens
           seq := s.seq + 1 }]) ∧
    (∀ (comp : Comp) (lnbr : Nat) (t : PSC),
      compileToken comp "add" lnbr t = binarith "+" t ∧
      compileToken comp "sub" lnbr t = binarith "-" t ∧
      compileToken comp "mul" lnbr t = binarith "*" t ∧
      compileToken comp "div" lnbr t = binarith "/" t ∧
      compileToken comp "mod" lnbr t = binarith "%" t) := by
  constructor
  · refine ⟨_, binarith_eq op s a b hsp ha hb, rfl, rfl, ?_⟩
    rw [replaceTop2_tracked s _ _ hsp hwf]
    unfold arithType
    rw [Bool.and_comm (hasType b.type TYPE_INTTYP)]
  · intro comp lnbr t
    exact ⟨rfl, rfl, rfl, rfl, rfl⟩

theorem binarith_spec_witness :
    (binarith "+" (pairState TYPE_INTLIT TYPE_INTLIT)).map
        (fun s => (s.block, s.tracked.map Entry.te)) = .ok ([], [(TYPE_INTVAL, some "a+b")]) ∧
    (binarith "/" (pairState TYPE_INTLIT TYPE_INTLIT)).map
        (fun s => (s.block, s.tracked.map Entry.te)) = .ok ([], [(TYPE_NUMVAL, some "a/b")]) := by
  constructor
  · obtain ⟨s', h, hb, _, ht⟩ := (binarith_spec "+" (pairState TYPE_INTLIT TYPE_INTLIT)
      { type := TYPE_INTLIT, expr := some "a", tokens := none, seq := 1 }
      { type := TYPE_INTLIT, expr := some "b", tokens := none, seq := 2 }
      (by decide) (by decide) (by decide) (by decide)).1
    rw [h]
    simp only [Except.map, hb, ht]
    decide
  · obtain ⟨s', h, hb, _, ht⟩ := (binarith_spec "/" (pairState TYPE_INTLIT TYPE_INTLIT)
      { type := TYPE_INTLIT, expr := some "a", tokens := none, seq := 1 }
      { type := TYPE_INTLIT, expr := some "b", tokens := none, seq := 2 }
      (by decide) (by decide) (by decide) (by decide)).1
    rw [h]
    simp only [Except.map, hb, ht]
    decide

/-- C23, the claim as stated fails: with two operands of unknown type `and`
and `or` produce the calls `$an(a,b)` and `$or(a,b)` of the runtime helpers, not
`a&&b` and `a||b`; and with one numeric and one boolean operand they produce
the bitwise expressions. -/
theorem and_or_helper_counterexample :
    (opAnd (pairState TYPE_UNKNOWN TYPE_UNKNOWN)).map (fun s => s.tracked.map Entry.te) =
      .ok [(TYPE_BOOLEAN, some "$an(a,b)")] ∧
    (opOr (pairState TYPE_UNKNOWN TYPE_UNKNOWN)).map (fun s => s.tracked.map Entry.te) =
      .ok [(TYPE_BOOLEAN, some "$or(a,b)")] ∧
    (opAnd (pairState TYPE_INTVAL TYPE_BOOLEAN)).map (fun s => s.tracked.map Entry.te) =
      .ok [(TYPE_NUMVAL, some "a&b")] := by
  decide

/-- C23 (as amended).  `and` and `or` on a trace stack whose two top entries
are `a` (below) and `b` (top).  When at least one of them is of a numeric type,
they are compiled by `binarith` with `&` and `|`: the result has the bitwise
expression parens(a)`&`parens(b), parens(a)`|`parens(b).  When none is numeric
and at least one is boolean, the result is the native logical expression
parens(a)`&&`parens(b), parens(a)`||`parens(b), typed boolean.  When none is
numeric or boolean, the result is the call `$an(a,b)`, `$or(a,b)` of the
runtime helper, typed boolean. -/
theorem and_or_dispatch (s : PSC) (a b : Entry) (hsp : 2 ≤ s.sp)
    (ha : s.st[s.sp - 2]? = some a) (hb : s.st[s.sp - 1]? = some b) :
    ((isNumeric a || isNumeric b) = true →
      opAnd s = .ok (replaceTop2 s
        { a with type := arithType a b "&"
                 expr := some (parens (exprStr a.expr) ++ "&" ++ parens (exprStr b.expr))
                 seq := s.seq + 1 } (s.seq + 1)) ∧
      opOr s = .ok (replaceTop2 s
        { a with type := arithType a b "|"
                 expr := some (parens (exprStr a.expr) ++ "|" ++ parens (exprStr b.expr))
                 seq := s.seq + 1 } (s.seq + 1))) ∧
    ((isNumeric a || isNumeric b) = false → (isBoolean a || isBoolean b) = true →
      opAnd s = .ok (replaceTop2 s
        { a with type := TYPE_BOOLEAN
                 expr := some (parens (exprStr a.expr) ++ "&&" ++ parens (exprStr b.expr))
                 seq := s.seq + 1 } (s.seq + 1)) ∧
      opOr s = .ok (replaceTop2 s
        { a with type := TYPE_BOOLEAN
                 expr := some (parens (exprStr a.expr) ++ "||" ++ parens (exprStr b.expr))
                 seq := s.seq + 1 } (s.seq + 1))) ∧
    ((isNumeric a || isNumeric b) = false → (isBoolean a || isBoolean b) = false →
      opAnd s = .ok (replaceTop2 s
        { a with type := TYPE_BOOLEAN
                 expr := some ("$an" ++ "(" ++ exprStr a.expr ++ "," ++ exprStr b.expr ++ ")")
                 seq := s.seq + 1 } (s.seq + 1)) ∧
      opOr s = .ok (replaceTop2 s
        { a with type := TYPE_BOOLEAN
                 expr := some ("$or" ++ "(" ++ exprStr a.expr ++ "," ++ exprStr b.expr ++ ")")
                 seq := s.seq + 1 } (s.seq + 1))) := by
  obtain ⟨h1, h2, h3⟩ := top2_get s a b hsp ha hb
  have hn : need (2 : Int) s = s := h1
  have hand : ∀ x y z : String, andOr x y z s =
      if hasType b.type TYPE_NUMTYP || hasType a.type TYPE_NUMTYP then binarith x s
      else binbool y z s := by
    intro x y z
    unfold andOr
    simp only [hn, h2, h3]
  unfold isNumeric isBoolean
  refine ⟨?_, ?_, ?_⟩
  · intro hnum
    have hc : (hasType b.type TYPE_NUMTYP || hasType a.type TYPE_NUMTYP) = true := by
      rw [Bool.or_comm]; exact hnum
    unfold opAnd opOr
    rw [hand, hand, if_pos hc, if_pos hc]
    exact ⟨binarith_eq "&" s a b hsp ha hb, binarith_eq "|" s a b hsp ha hb⟩
  · intro hnum hbool
    have hc : ¬ (hasType b.type TYPE_NUMTYP || hasType a.type TYPE_NUMTYP) = true := by
      rw [Bool.or_comm, hnum]; decide
    simp only [Bool.or_eq_false_iff] at hnum
    simp only [Bool.or_eq_true] at hbool
    have hcond : (isNumeric b || isNumeric a || isBoolean b || isBoolean a) = true := by
      unfold isNumeric isBoolean
      rcases hbool with h | h <;> simp [h]
    unfold opAnd opOr
    rw [hand, hand, if_neg hc, if_neg hc, binbool_eq "&&" "$an" s a b hsp ha hb,
      binbool_eq "||" "$or" s a b hsp ha hb]
    simp only [if_pos hcond, and_self]
  · intro hnum hbool
    have hc : ¬ (hasType b.type TYPE_NUMTYP || hasType a.type TYPE_NUMTYP) = true := by
      rw [Bool.or_comm, hnum]; decide
    simp only [Bool.or_eq_false_iff] at hnum hbool
    have hcond : ¬ (isNumeric b || isNumeric a || isBoolean b || isBoolean a) = true := by
      unfold isNumeric isBoolean
      simp [hnum.1, hnum.2, hbool.1, hbool.2]
    unfold opAnd opOr
    rw [hand, hand, if_neg hc, if_neg hc, binbool_eq "&&" "$an" s a b hsp ha hb,
      binbool_eq "||" "$or" s a b hsp ha hb]
    simp only [if_neg hcond, and_self]

theorem and_or_dispatch_witness :
    (opAnd (pairState TYPE_BOOLEAN TYPE_UNKNOWN)).map (fun s => s.tracked.map Entry.te) =
      .ok [(TYPE_BOOLEAN, some "a&&b")] := by
  rw [((and_or_dispatch (pairState TYPE_BOOLEAN TYPE_UNKNOWN)
      { type := TYPE_BOOLEAN, expr := some "a", tokens := none, seq := 1 }
      { type := TYPE_UNKNOWN, expr := some "b", tokens := none, seq := 2 }
      (by decide) (by decide) (by decide)).2.1 (by decide) (by decide)).1]
  decide

/-- C24, the claim as stated fails: with a numeric operand below a
non-numeric one, `xor` produces the native expression `a^b`, not the call of
the runtime helper. -/
theorem xor_one_numeric_counterexample :
    (opXor (pairState TYPE_INTVAL TYPE_UNKNOWN)).map (fun s => s.tracked.map Entry.te) =
      .ok [(TYPE_NUMVAL, some "a^b")] ∧
    isNumeric { type := TYPE_UNKNOWN, expr := some "b", tokens := none, seq := 2 } = false := by
  decide

/-- C24 (as amended).  `xor` on a trace stack whose two top entries are `a`
(below) and `b` (top).  When at least one of them is of a numeric type, it is
compiled by `binarith` with `^`: the result has the native expression
parens(a)`^`parens(b).  When none is numeric, the result is the call
`$xo(a,b)` of the runtime helper, typed boolean when one of the operands is
boolean and unknown otherwise. -/
theorem xor_dispatch (s : PSC) (a b : Entry) (hsp : 2 ≤ s.sp)
    (ha : s.st[s.sp - 2]? = some a) (hb : s.st[s.sp - 1]? = some b) :
    ((isNumeric a || isNumeric b) = true →
      opXor s = .ok (replaceTop2 s
        { a with type := arithType a b "^"
                 expr := some (parens (exprStr a.expr) ++ "^" ++ parens (exprStr b.expr))
                 seq := s.seq + 1 } (s.seq + 1))) ∧
    ((isNumeric a || isNumeric b) = false →
      opXor s = .ok (replaceTop2 s
        { a with type := if isBoolean a || isBoolean b then TYPE_BOOLEAN else TYPE_UNKNOWN
                 expr := some ("$xo(" ++ exprStr a.expr ++ "," ++ exprStr b.expr ++ ")") }
        s.seq)) := by
  obtain ⟨h1, h2, h3⟩ := top2_get s a b hsp ha hb
  have hn : need (2 : Int) s = s := h1
  unfold isNumeric isBoolean
  constructor
  · intro hnum
    have hc : (hasType b.type TYPE_NUMTYP || hasType a.type TYPE_NUMTYP) = true := by
      rw [Bool.or_comm]; exact hnum
    unfold opXor
    simp only [hn, h2, h3, hc, if_true]
    exact binarith_eq "^" s a b hsp ha hb
  · intro hnum
    have hc : (hasType b.type TYPE_NUMTYP || hasType a.type TYPE_NUMTYP) = false := by
      rw [Bool.or_comm]; exact hnum
    unfold opXor
    simp only [hn, h2, h3, hc, Bool.false_eq_true, if_false]
    rw [Bool.or_comm (hasType b.type TYPE_BOOLEAN)]
    rfl

theorem xor_dispatch_witness :
    (opXor (pairState TYPE_BOOLEAN TYPE_UNKNOWN)).map (fun s => s.tracked.map Entry.te) =
      .ok [(TYPE_BOOLEAN, some "$xo(a,b)")] := by
  rw [(xor_dispatch (pairState TYPE_BOOLEAN TYPE_UNKNOWN)
      { type := TYPE_BOOLEAN, expr := some "a", tokens := none, seq := 1 }
      { type := TYPE_UNKNOWN, expr := some "b", tokens := none, seq := 2 }
      (by decide) (by decide) (by decide)).2 (by decide)]
  decide

/-! ## The lexer on raw text: string literals at concrete inputs -/

/-- C29, the code at the failing input.  The token of the literal `<4G>` is
checked against the class `[a-zA-Z0-9]`, which the letter `G` passes although
it is no hexadecimal digit: `next` returns the token `(\x4G)` instead of
raising `Invalid hex string`.  A character outside that class, as in `<4$>`,
is rejected. -/
theorem hex_literal_accepts_letters :
    (PSLEX.init "<4G>").next.2 = .ok (some "(\\x4G)") ∧
    (PSLEX.init "<zz>").next.2 = .ok (some "(\\xzz)") ∧
    (PSLEX.init "<4$>").next.2 = .error (.thrown "Invalid hex string: \"4$\"") := by
  decide

/-- C28, the code at the failing input.  An angle-bracket literal that is not
closed makes `next` throw `Unexpected end of string`, and so does a
parenthesized literal that ends with a backslash; `lnbr` is then the line on
which the literal began.  But when the tokens of a line are used up inside a
parenthesized literal, the source calls the result of `_next` as a function:
the unterminated literal `(abc` on line 2 ends in a `TypeError`, not in the
lexical error. -/
theorem unterminated_paren_literal :
    ((PSLEX.init "x\n<12\n34").next.1.next.2 = .error (.thrown "Unexpected end of string") ∧
      (PSLEX.init "x\n<12\n34").next.1.next.1.lnbr = 2) ∧
    ((PSLEX.init "x\n(abc\\").next.1.next.2 = .error (.thrown "Unexpected end of string") ∧
      (PSLEX.init "x\n(abc\\").next.1.next.1.lnbr = 2) ∧
    (PSLEX.init "x\n(abc").next.1.next.2 =
      .error (.typeError "_next.call(...) is not a function") ∧
    (PSLEX.init "x\n(abc\ndef)").next.1.next.2 =
      .error (.typeError "_next.call(...) is not a function") := by
  decide

/-- C27, the code at the failing input.  The backslash of an escape does not
reach the token: `(a\)b)` gives the token `(a)b)`, `(a\nb)` the token `(anb)`
and `(a\"b)` the token `(a"b)`, from which `compile` builds the text `"a"b"`,
which is no string literal of JavaScript; the double quote of `(a"b)`, which
has no backslash, is escaped. -/
theorem escape_backslash_dropped :
    (PSLEX.init "(a\\)b) c").next.2 = .ok (some "(a)b)") ∧
    (PSLEX.init "(a\\nb) c").next.2 = .ok (some "(anb)") ∧
    (PSLEX.init "(a\\\"b) c").next.2 = .ok (some "(a\"b)") ∧
    (PSLEX.init "(a\"b) c").next.2 = .ok (some "(a\\\"b)") ∧
    (PSLEX.tokens 20 (PSLEX.init "/f \x7b (a\\\"b) \x7d bind def")).1.map (·.token) =
      ["/f", "\x7b", "(a\"b)", "\x7d", "bind", "def"] ∧
    PSCmain 40 { devar := false, coverage := false }
        (PSLEX.tokens 20 (PSLEX.init "/f \x7b (a\\\"b) \x7d bind def")).1 =
      .ok "$0.f=function()\x7b\n$k[$j++]=\"a\"b\";/*1*/\n\x7d;\n" ∧
    PSCmain 40 { devar := false, coverage := false }
        (PSLEX.tokens 20 (PSLEX.init "/f \x7b (a\"b) \x7d bind def")).1 =
      .ok "$0.f=function()\x7b\n$k[$j++]=\"a\\\"b\";/*1*/\n\x7d;\n" := by
  decide!

/-! ## The tokenizer, one character at a time -/

theorem tokenize_nil : tokenize [] = [] := rfl

theorem flushText_nil : flushText [] = [] := rfl

theorem tok_cr (b : Bool) (cur rest : List Char) :
    tokenizeFrom b cur ('\r' :: rest) = flushText cur ++ tokenize rest := by
  cases rest with
  | nil => simp [tokenizeFrom, tokenize, flushText]
  | cons c2 r2 =>
    rw [tokenizeFrom]
    simp [tokenize]

theorem tok_pair (b : Bool) (cur rest : List Char) (c : Char) (hc : c = '<' ∨ c = '>') :
    tokenizeFrom b cur (c :: c :: rest) = flushText cur ++ String.mk [c, c] :: tokenize rest := by
  rw [tokenizeFrom]
  rcases hc with rfl | rfl <;> simp [tokenize]

theorem tok_delim (b : Bool) (cur rest : List Char) (c : Char) (hd : isDelimChar c = true)
    (hp : ∀ c2 r2, rest = c2 :: r2 → ((c == '<' && c2 == '<') || (c == '>' && c2 == '>')) = false) :
    tokenizeFrom b cur (c :: rest) = flushText cur ++ String.mk [c] :: tokenize rest := by
  have hcr : (c == '\r') = false := by
    cases h : c == '\r'
    · rfl
    · have : c = '\r' := by simpa using h
      subst this
      exact absurd hd (by decide)
  cases rest with
  | nil =>
    rw [tokenizeFrom]
    simp [hcr, hd, tokenize, flushText, tokenizeFrom]
  | cons c2 r2 =>
    rw [tokenizeFrom]
    have := hp c2 r2 rfl
    simp only [this, hcr, hd, tokenize]
    simp

theorem tok_plain_same (b : Bool) (cur rest : List Char) (c : Char)
    (hd : isDelimChar c = false) (hcr : c ≠ '\r')
    (hs : (isBlankChar c == b || cur.isEmpty) = true) :
    tokenizeFrom b cur (c :: rest) = tokenizeFrom (isBlankChar c) (cur ++ [c]) rest := by
  have hcr1 : (c == '\r') = false := by simpa using hcr
  have hlt : (c == '<') = false := by
    cases h : c == '<'
    · rfl
    · have : c = '<' := by simpa using h
      subst this
      exact absurd hd (by decide)
  have hgt : (c == '>') = false := by
    cases h : c == '>'
    · rfl
    · have : c = '>' := by simpa using h
      subst this
      exact absurd hd (by decide)
  cases rest with
  | nil =>
    rw [tokenizeFrom]
    simp [hcr1, hd, hs, tokenizeFrom]
  | cons c2 r2 =>
    rw [tokenizeFrom]
    simp only [hlt, hgt, hcr1, hd, hs]
    try simp

theorem tok_plain_other (b : Bool) (cur rest : List Char) (c : Char)
    (hd : isDelimChar c = false) (hcr : c ≠ '\r')
    (hs : (isBlankChar c == b || cur.isEmpty) = false) :
    tokenizeFrom b cur (c :: rest) = flushText cur ++ tokenizeFrom (isBlankChar c) [c] rest := by
  have hcr1 : (c == '\r') = false := by simpa using hcr
  have hlt : (c == '<') = false := by
    cases h : c == '<'
    · rfl
    · have : c = '<' := by simpa using h
      subst this
      exact absurd hd (by decide)
  have hgt : (c == '>') = false := by
    cases h : c == '>'
    · rfl
    · have : c = '>' := by simpa using h
      subst this
      exact absurd hd (by decide)
  cases rest with
  | nil =>
    rw [tokenizeFrom]
    simp [hcr1, hd, hs, tokenizeFrom, flushText]
  | cons c2 r2 =>
    rw [tokenizeFrom]
    simp only [hlt, hgt, hcr1, hd, hs]
    try simp

/-! ## The `()` branch on the text of one line -/

theorem parenScan_esc (u : String) (ts : List String) (s : String) (l : Int) :
    parenScan ("\\" :: u :: ts) s l = parenScan ts (s ++ u) l := by
  conv_lhs => rw [parenScan.eq_def]
  simp

theorem parenScan_other (t : String) (ts : List String) (s : String) (l : Int)
    (h1 : t ≠ "\\") (h2 : t ≠ "\"") (h3 : t ≠ "(") (h4 : t ≠ ")") :
    parenScan (t :: ts) s l = parenScan ts (s ++ t) l := by
  conv_lhs => rw [parenScan.eq_def]
  simp [h1, h2, h3, h4]

theorem mk_ne_single (cur : List Char) (c : Char) (hc : isDelimChar c = true)
    (hcur : ∀ x ∈ cur, isDelimChar x = false) : String.mk cur ≠ String.mk [c] := by
  intro h
  have h1 : cur = [c] := by
    have := congrArg String.data h
    simpa using this
  have := hcur c (by rw [h1]; simp)
  rw [hc] at this
  exact absurd this (by decide)

/-- Pushing the pending text in front of the tokens still to come is the same
as appending it to the string collected: a pending text that is not empty is
no special token, escaped or not. -/
theorem parenScan_flush (e : Bool) (cur : List Char) (X : List String) (sd : List Char) (l : Int)
    (hcur : ∀ x ∈ cur, isDelimChar x = false) :
    parenScan (escPrefix e ++ (flushText cur ++ X)) (String.mk sd) l =
      parenScan (escPrefix (e && cur.isEmpty) ++ X) (String.mk (sd ++ cur)) l := by
  cases cur with
  | nil => simp [flushText]
  | cons a r =>
    have hne : ∀ c, isDelimChar c = true → String.mk (a :: r) ≠ String.mk [c] :=
      fun c hc => mk_ne_single (a :: r) c hc hcur
    have hfl : flushText (a :: r) = [String.mk (a :: r)] := by simp [flushText]
    rw [hfl]
    cases e with
    | true =>
      simp only [escPrefix, if_true, List.singleton_append, List.cons_append, List.nil_append,
        Bool.true_and, List.isEmpty_cons, Bool.false_eq_true, if_false]
      rw [parenScan_esc]
      rfl
    | false =>
      simp only [escPrefix, Bool.false_eq_true, if_false, List.singleton_append, List.cons_append,
        List.nil_append, Bool.false_and]
      rw [parenScan_other _ _ _ _ (hne '\\' (by decide)) (hne '"' (by decide))
        (hne '(' (by decide)) (hne ')' (by decide))]
      rfl

theorem parenScan_quote (ts : List String) (sd : List Char) (l : Int) :
    parenScan ("\"" :: ts) (String.mk sd) l = parenScan ts (String.mk (sd ++ ['\\', '"'])) l := by
  conv_lhs => rw [parenScan.eq_def]
  simp
  rfl

theorem parenScan_open (ts : List String) (sd : List Char) (l : Int) :
    parenScan ("(" :: ts) (String.mk sd) l = parenScan ts (String.mk (sd ++ ['('])) (l + 1) := by
  conv_lhs => rw [parenScan.eq_def]
  simp
  rfl

theorem parenScan_close0 (ts : List String) (s : String) (l : Int) (h : l - 1 = 0) :
    parenScan (")" :: ts) s l = .closed s ts := by
  conv_lhs => rw [parenScan.eq_def]
  simp [h]

theorem parenScan_close (ts : List String) (sd : List Char) (l : Int) (h : l - 1 ≠ 0) :
    parenScan (")" :: ts) (String.mk sd) l = parenScan ts (String.mk (sd ++ [')'])) (l - 1) := by
  conv_lhs => rw [parenScan.eq_def]
  simp [h]
  rfl

theorem parenScan_text_nil (post : List Char) (e b : Bool) (cur sd : List Char) (l : Int)
    (hcur : ∀ x ∈ cur, isDelimChar x = false)
    (hl : escLevel (e && cur.isEmpty) l [] = some 1) :
    parenScan (escPrefix e ++ tokenizeFrom b cur (')' :: post)) (String.mk sd) l =
      .closed (String.mk (sd ++ (cur ++ escText (e && cur.isEmpty) []))) (tokenize post) := by
  rw [tok_delim b cur post ')' (by decide) (by intro c2 r2 _; simp), parenScan_flush e cur _ sd l hcur]
  cases he : (e && cur.isEmpty) with
  | true => rw [he] at hl; simp [escLevel] at hl
  | false =>
    rw [he] at hl
    simp only [escLevel, Bool.false_eq_true, if_false, Option.some.injEq] at hl
    subst hl
    simp only [escPrefix, Bool.false_eq_true, if_false, List.nil_append]
    rw [parenScan_close0 _ _ _ (by norm_num)]
    simp [escText]

theorem escText_true (c : Char) (r : List Char) (h : c ≠ '\r') :
    escText true (c :: r) = c :: escText false r := by
  simp [escText, h]

theorem escLevel_true (c : Char) (r : List Char) (l : Int) (h : c ≠ '\r') :
    escLevel true l (c :: r) = escLevel false l r := by
  simp [escLevel, h]

theorem escText_plain (e : Bool) (c : Char) (r : List Char) (h : c ≠ '\r') (h1 : c ≠ '\\')
    (h2 : c ≠ '"') : escText e (c :: r) = c :: escText false r := by
  cases e <;> simp [escText, h, h1, h2]

theorem escLevel_plain (e : Bool) (c : Char) (r : List Char) (l : Int) (h : c ≠ '\r')
    (h1 : c ≠ '\\') (h2 : c ≠ '(') (h3 : c ≠ ')') :
    escLevel e l (c :: r) = escLevel false l r := by
  cases e <;> simp [escLevel, h, h1, h2, h3]

theorem ne_of_not_delim (c d : Char) (hc : isDelimChar c = false) (hd : isDelimChar d = true) :
    c ≠ d := by
  intro h
  rw [h, hd] at hc
  exact absurd hc (by decide)

theorem parenScan_single (c : Char) (ts : List String) (sd : List Char) (l : Int)
    (h1 : c ≠ '\\') (h2 : c ≠ '"') (h3 : c ≠ '(') (h4 : c ≠ ')') :
    parenScan (String.mk [c] :: ts) (String.mk sd) l = parenScan ts (String.mk (sd ++ [c])) l := by
  rw [parenScan_other]
  · rfl
  · intro h
    exact h1 (by simpa using congrArg String.data h)
  · intro h
    exact h2 (by simpa using congrArg String.data h)
  · intro h
    exact h3 (by simpa using congrArg String.data h)
  · intro h
    exact h4 (by simpa using congrArg String.data h)

theorem parenScan_double (c : Char) (ts : List String) (sd : List Char) (l : Int) :
    parenScan (String.mk [c, c] :: ts) (String.mk sd) l =
      parenScan ts (String.mk (sd ++ [c, c])) l := by
  rw [parenScan_other]
  · rfl
  all_goals
    intro h
    have := congrArg String.data h
    simp at this

theorem escPrefix_false (X : List String) : escPrefix false ++ X = X := rfl

theorem escPrefix_true (X : List String) : escPrefix true ++ X = "\\" :: X := rfl

/-- The inner loop of the `()` branch over the tokens of the text
`body ++ ")" ++ post` of one line, when `body` leaves the nesting level at 1
without closing it before: the loop ends on the parenthesis behind `body` with
the text `escText body` collected, and the tokens of `post` are left. -/
theorem parenScan_text (post : List Char) : ∀ n : Nat, ∀ body : List Char, body.length ≤ n →
    ∀ (e b : Bool) (cur sd : List Char) (l : Int),
    (∀ x ∈ cur, isDelimChar x = false) →
    escLevel (e && cur.isEmpty) l body = some 1 →
    parenScan (escPrefix e ++ tokenizeFrom b cur (body ++ ')' :: post)) (String.mk sd) l =
      .closed (String.mk (sd ++ (cur ++ escText (e && cur.isEmpty) body))) (tokenize post) := by
  intro n
  induction n with
  | zero =>
    intro body hlen e b cur sd l hcur hl
    have : body = [] := List.length_eq_zero.mp (Nat.le_zero.mp hlen)
    subst this
    exact parenScan_text_nil post e b cur sd l hcur hl
  | succ n ih =>
    intro body hlen e b cur sd l hcur hl
    cases body with
    | nil => exact parenScan_text_nil post e b cur sd l hcur hl
    | cons c r =>
      have hr : r.length ≤ n := by simpa using hlen
      rw [List.cons_append]
      by_cases hcr : c = '\r'
      · subst hcr
        rw [tok_cr, parenScan_flush e cur _ sd l hcur]
        have hl2 : escLevel ((e && cur.isEmpty) && ([] : List Char).isEmpty) l r = some 1 := by
          cases he : (e && cur.isEmpty) <;> rw [he] at hl <;> simpa [escLevel] using hl
        have h2 := ih r hr (e && cur.isEmpty) false [] (sd ++ cur) l (by simp) hl2
        rw [tokenize, h2]
        cases he : (e && cur.isEmpty) <;> simp [escText]
      · by_cases hd : isDelimChar c = true
        · by_cases hpair : (c = '<' ∨ c = '>') ∧ ∃ r2, r = c :: r2
          · obtain ⟨hc, r2, rfl⟩ := hpair
            rw [List.cons_append, tok_pair b cur _ c hc, parenScan_flush e cur _ sd l hcur]
            have hr2 : r2.length ≤ n := by
              simp only [List.length_cons] at hr
              omega
            have hne1 : c ≠ '\\' := by rcases hc with rfl | rfl <;> decide
            have hne2 : c ≠ '"' := by rcases hc with rfl | rfl <;> decide
            have hne3 : c ≠ '(' := by rcases hc with rfl | rfl <;> decide
            have hne4 : c ≠ ')' := by rcases hc with rfl | rfl <;> decide
            have hstep : parenScan (escPrefix (e && cur.isEmpty) ++
                  String.mk [c, c] :: tokenize (r2 ++ ')' :: post)) (String.mk (sd ++ cur)) l =
                parenScan (tokenize (r2 ++ ')' :: post)) (String.mk ((sd ++ cur) ++ [c, c])) l := by
              cases he : (e && cur.isEmpty)
              · rw [escPrefix_false, parenScan_double]
              · rw [escPrefix_true, parenScan_esc]
                rfl
            rw [hstep]
            have hl2 : escLevel (false && ([] : List Char).isEmpty) l r2 = some 1 := by
              rw [escLevel_plain _ c _ l hcr hne1 hne3 hne4,
                escLevel_plain _ c _ l hcr hne1 hne3 hne4] at hl
              exact hl
            have h2 := ih r2 hr2 false false [] ((sd ++ cur) ++ [c, c]) l (by simp) hl2
            rw [escPrefix_false] at h2
            rw [tokenize, h2, escText_plain _ c _ hcr hne1 hne2, escText_plain _ c _ hcr hne1 hne2]
            simp
          · have hp : ∀ c2 r2, r ++ ')' :: post = c2 :: r2 →
                ((c == '<' && c2 == '<') || (c == '>' && c2 == '>')) = false := by
              intro c2 r2 h
              cases r with
              | nil =>
                simp only [List.nil_append, List.cons.injEq] at h
                obtain ⟨rfl, _⟩ := h
                simp
              | cons a r1 =>
                simp only [List.cons_append, List.cons.injEq] at h
                obtain ⟨rfl, _⟩ := h
                cases hx : ((c == '<' && a == '<') || (c == '>' && a == '>'))
                · rfl
                · exfalso
                  apply hpair
                  simp only [Bool.or_eq_true, Bool.and_eq_true, beq_iff_eq] at hx
                  rcases hx with ⟨h1, h2⟩ | ⟨h1, h2⟩
                  · exact ⟨Or.inl h1, r1, by rw [h1, h2]⟩
                  · exact ⟨Or.inr h1, r1, by rw [h1, h2]⟩
            rw [tok_delim b cur _ c hd hp, parenScan_flush e cur _ sd l hcur]
            cases he : (e && cur.isEmpty) with
            | true =>
              rw [he] at hl
              rw [escPrefix_true, parenScan_esc]
              rw [escLevel_true c r l hcr] at hl
              have h2 := ih r hr false false [] ((sd ++ cur) ++ [c]) l (by simp) hl
              rw [escPrefix_false] at h2
              rw [escText_true c r hcr]
              show parenScan (tokenizeFrom false [] (r ++ ')' :: post))
                (String.mk ((sd ++ cur) ++ [c])) l = _
              rw [h2]
              simp
            | false =>
              rw [he] at hl
              rw [escPrefix_false]
              by_cases h1 : c = '\\'
              · subst h1
                have hl2 : escLevel (true && ([] : List Char).isEmpty) l r = some 1 := by
                  simpa [escLevel] using hl
                have h2 := ih r hr true false [] (sd ++ cur) l (by simp) hl2
                rw [escPrefix_true] at h2
                show parenScan ("\\" :: tokenizeFrom false [] (r ++ ')' :: post))
                  (String.mk (sd ++ cur)) l = _
                rw [h2]
                simp [escText]
              · by_cases h2 : c = '"'
                · subst h2
                  have hl2 : escLevel (false && ([] : List Char).isEmpty) l r = some 1 := by
                    simpa [escLevel] using hl
                  have h3 := ih r hr false false [] ((sd ++ cur) ++ ['\\', '"']) l (by simp) hl2
                  rw [escPrefix_false] at h3
                  show parenScan ("\"" :: tokenizeFrom false [] (r ++ ')' :: post))
                    (String.mk (sd ++ cur)) l = _
                  rw [parenScan_quote, h3]
                  simp [escText]
                · by_cases h3 : c = '('
                  · subst h3
                    have hl2 : escLevel (false && ([] : List Char).isEmpty) (l + 1) r = some 1 := by
                      simpa [escLevel] using hl
                    have h4 := ih r hr false false [] ((sd ++ cur) ++ ['(']) (l + 1) (by simp) hl2
                    rw [escPrefix_false] at h4
                    show parenScan ("(" :: tokenizeFrom false [] (r ++ ')' :: post))
                      (String.mk (sd ++ cur)) l = _
                    rw [parenScan_open, h4]
                    simp [escText]
                  · by_cases h4 : c = ')'
                    · subst h4
                      have hl1 : l - 1 ≠ 0 := by
                        intro h0
                        simp [escLevel, h0] at hl
                      have hl2 : escLevel (false && ([] : List Char).isEmpty) (l - 1) r =
                          some 1 := by
                        simpa [escLevel, hl1] using hl
                      have h5 := ih r hr false false [] ((sd ++ cur) ++ [')']) (l - 1)
                        (by simp) hl2
                      rw [escPrefix_false] at h5
                      show parenScan (")" :: tokenizeFrom false [] (r ++ ')' :: post))
                        (String.mk (sd ++ cur)) l = _
                      rw [parenScan_close _ _ _ hl1, h5]
                      simp [escText]
                    · rw [escLevel_plain _ c r l hcr h1 h3 h4] at hl
                      have h5 := ih r hr false false [] ((sd ++ cur) ++ [c]) l (by simp) hl
                      rw [escPrefix_false] at h5
                      rw [parenScan_single c _ _ l h1 h2 h3 h4, tokenize, h5,
                        escText_plain _ c r hcr h1 h2]
                      simp
        · have hd1 : isDelimChar c = false := by simpa using hd
          have h1 : c ≠ '\\' := ne_of_not_delim c _ hd1 (by decide)
          have h2 : c ≠ '"' := ne_of_not_delim c _ hd1 (by decide)
          have h3 : c ≠ '(' := ne_of_not_delim c _ hd1 (by decide)
          have h4 : c ≠ ')' := ne_of_not_delim c _ hd1 (by decide)
          rw [escLevel_plain _ c r l hcr h1 h3 h4] at hl
          rw [escText_plain _ c r hcr h1 h2]
          by_cases hs : (isBlankChar c == b || cur.isEmpty) = true
          · rw [tok_plain_same b cur _ c hd1 hcr hs]
            have hcur2 : ∀ x ∈ cur ++ [c], isDelimChar x = false := by
              intro x hx
              rcases List.mem_append.mp hx with hx | hx
              · exact hcur x hx
              · have : x = c := by simpa using hx
                rw [this]
                exact hd1
            have hne : (cur ++ [c]).isEmpty = false := by cases cur <;> rfl
            have hl2 : escLevel (e && (cur ++ [c]).isEmpty) l r = some 1 := by
              rw [hne, Bool.and_false]
              exact hl
            have h5 := ih r hr e (isBlankChar c) (cur ++ [c]) sd l hcur2 hl2
            rw [h5, hne, Bool.and_false]
            simp
          · have hs1 : (isBlankChar c == b || cur.isEmpty) = false := by simpa using hs
            have hce : cur.isEmpty = false := by
              simp only [Bool.or_eq_false_iff] at hs1
              exact hs1.2
            rw [tok_plain_other b cur _ c hd1 hcr hs1, parenScan_flush e cur _ sd l hcur, hce,
              Bool.and_false, escPrefix_false]
            have hl2 : escLevel (false && ([c] : List Char).isEmpty) l r = some 1 := by
              simpa using hl
            have h5 := ih r hr false (isBlankChar c) [c] (sd ++ cur) l
              (by intro x hx; have : x = c := by simpa using hx
                  rw [this]; exact hd1) hl2
            rw [escPrefix_false] at h5
            rw [h5]
            simp

/-- A delimiter other than `<` and `>` is a token of its own wherever it
stands: the tokens of the text before it and of the text behind it do not
depend on each other. -/
theorem tok_split (c : Char) (post : List Char) (hd : isDelimChar c = true) (h1 : c ≠ '<')
    (h2 : c ≠ '>') : ∀ n : Nat, ∀ pre : List Char, pre.length ≤ n → ∀ (b : Bool) (cur : List Char),
    tokenizeFrom b cur (pre ++ c :: post) =
      tokenizeFrom b cur pre ++ String.mk [c] :: tokenize post := by
  have hbase : ∀ (b : Bool) (cur : List Char),
      tokenizeFrom b cur ([] ++ c :: post) =
        tokenizeFrom b cur [] ++ String.mk [c] :: tokenize post := by
    intro b cur
    rw [List.nil_append, tok_delim b cur post c hd]
    · rfl
    · intro c2 r2 _
      simp [h1, h2]
  intro n
  induction n with
  | zero =>
    intro pre hlen b cur
    have : pre = [] := List.length_eq_zero.mp (Nat.le_zero.mp hlen)
    subst this
    exact hbase b cur
  | succ n ih =>
    intro pre hlen b cur
    cases pre with
    | nil => exact hbase b cur
    | cons a r =>
      have hr : r.length ≤ n := by simpa using hlen
      rw [List.cons_append]
      by_cases hcr : a = '\r'
      · subst hcr
        rw [tok_cr, tok_cr, tokenize, ih r hr false [], List.append_assoc]
        rfl
      · by_cases hda : isDelimChar a = true
        · by_cases hpair : (a = '<' ∨ a = '>') ∧ ∃ r2, r = a :: r2
          · obtain ⟨hc, r2, rfl⟩ := hpair
            have hr2 : r2.length ≤ n := by
              simp only [List.length_cons] at hr
              omega
            rw [List.cons_append, tok_pair b cur _ a hc, tok_pair b cur _ a hc, tokenize,
              ih r2 hr2 false []]
            simp [tokenize]
          · have hp : ∀ (tl : List Char), (tl = [] ∨ ∃ t, tl = c :: t) → ∀ c2 r2,
                r ++ tl = c2 :: r2 →
                ((a == '<' && c2 == '<') || (a == '>' && c2 == '>')) = false := by
              intro tl htl c2 r2 h
              cases r with
              | nil =>
                rcases htl with rfl | ⟨t, rfl⟩
                · simp at h
                · simp only [List.nil_append, List.cons.injEq] at h
                  obtain ⟨rfl, _⟩ := h
                  simp [h1, h2]
              | cons x r1 =>
                simp only [List.cons_append, List.cons.injEq] at h
                obtain ⟨rfl, _⟩ := h
                cases hx : ((a == '<' && x == '<') || (a == '>' && x == '>'))
                · rfl
                · exfalso
                  apply hpair
                  simp only [Bool.or_eq_true, Bool.and_eq_true, beq_iff_eq] at hx
                  rcases hx with ⟨h3, h4⟩ | ⟨h3, h4⟩
                  · exact ⟨Or.inl h3, r1, by rw [h3, h4]⟩
                  · exact ⟨Or.inr h3, r1, by rw [h3, h4]⟩
            rw [tok_delim b cur _ a hda (hp (c :: post) (Or.inr ⟨post, rfl⟩)),
              tok_delim b cur r a hda (by
                intro c2 r2 h
                exact hp [] (Or.inl rfl) c2 r2 (by rw [List.append_nil]; exact h)),
              tokenize, ih r hr false []]
            simp [tokenize]
        · have hd1 : isDelimChar a = false := by simpa using hda
          by_cases hs : (isBlankChar a == b || cur.isEmpty) = true
          · rw [tok_plain_same b cur _ a hd1 hcr hs, tok_plain_same b cur _ a hd1 hcr hs,
              ih r hr]
          · have hs1 : (isBlankChar a == b || cur.isEmpty) = false := by simpa using hs
            rw [tok_plain_other b cur _ a hd1 hcr hs1, tok_plain_other b cur _ a hd1 hcr hs1,
              ih r hr, List.append_assoc]

theorem tokenize_split (c : Char) (pre post : List Char) (hd : isDelimChar c = true)
    (h1 : c ≠ '<') (h2 : c ≠ '>') :
    tokenize (pre ++ c :: post) = tokenize pre ++ String.mk [c] :: tokenize post :=
  tok_split c post hd h1 h2 pre.length pre (Nat.le_refl _) false []

theorem parenLoop_closed (f : Nat) (l : PSLEX) (s0 s : String) (lv : Int) (rest : List String)
    (hscan : parenScan (l.tks.drop l.idx) s0 lv = .closed s rest) :
    PSLEX.parenLoop (f + 1) l s0 lv =
      ({ l with idx := l.tks.length - rest.length - 1 }, .ok s) := by
  rw [PSLEX.parenLoop, hscan]

theorem next_paren (l l1 : PSLEX) (s : String) (rest : List String)
    (hseek : PSLEX.seek (l.str.length + 2) { l with idx := skipBlanks l.tks l.idx } =
      .ok (true, l1))
    (hget : l1.tks[l1.idx]? = some "(")
    (hscan : parenScan (l1.tks.drop (l1.idx + 1)) "" 1 = .closed s rest) :
    l.next = ({ l1 with lnbr := l1.lnr, idx := l1.tks.length - rest.length - 1 + 1,
                        token := some ("(" ++ s ++ ")") }, .ok (some ("(" ++ s ++ ")"))) := by
  unfold PSLEX.next
  rw [hseek]
  simp only [hget, if_true]
  rw [parenLoop_closed (l1.str.length + 1) _ "" s 1 rest hscan]

theorem escText_eq_quoteText (body : List Char) (h : '\\' ∉ body) :
    escText false body = quoteText body := by
  induction body with
  | nil => rfl
  | cons c r ih =>
    have hc : c ≠ '\\' := fun e => h (by rw [e]; simp)
    have hr : '\\' ∉ r := fun e => h (List.mem_cons_of_mem _ e)
    simp only [escText, quoteText, ih hr]
    simp [hc]

theorem escLevel_eq_levelAfter (body : List Char) (h : '\\' ∉ body) (l : Int) :
    escLevel false l body = levelAfter l body := by
  induction body generalizing l with
  | nil => rfl
  | cons c r ih =>
    have hc : c ≠ '\\' := fun e => h (by rw [e]; simp)
    have hr : '\\' ∉ r := fun e => h (List.mem_cons_of_mem _ e)
    simp only [escLevel, levelAfter, ih hr]
    by_cases h1 : c = '\r'
    · subst h1
      simp
    · simp [hc, h1]

/-- The `()` branch on one line, from the text: when the lexer stands on the
opening parenthesis of `(body)` and `body` leaves the nesting level at 1
without closing it before, `next` returns `(` ++ `escText body` ++ `)` and
stands behind the closing parenthesis afterwards. -/
theorem next_paren_text (l l1 : PSLEX) (pre body post : List Char)
    (hseek : PSLEX.seek (l.str.length + 2) { l with idx := skipBlanks l.tks l.idx } =
      .ok (true, l1))
    (htks : l1.tks = tokenize (pre ++ '(' :: (body ++ ')' :: post)))
    (hidx : l1.idx = (tokenize pre).length)
    (hlev : escLevel false 1 body = some 1) :
    l.next.2 = .ok (some (String.mk ('(' :: (escText false body ++ [')'])))) ∧
    (l.next.1.tks = l1.tks ∧ l.next.1.tks.drop l.next.1.idx = tokenize post) ∧
    l.next.1.lnbr = l1.lnr := by
  have hsplit1 : l1.tks = tokenize pre ++ "(" :: tokenize (body ++ ')' :: post) := by
    rw [htks, tokenize_split '(' pre _ (by decide) (by decide) (by decide)]
  have hsplit2 : l1.tks = tokenize (pre ++ '(' :: body) ++ ")" :: tokenize post := by
    rw [htks]
    have : pre ++ '(' :: (body ++ ')' :: post) = (pre ++ '(' :: body) ++ ')' :: post := by simp
    rw [this, tokenize_split ')' _ _ (by decide) (by decide) (by decide)]
  have hget : l1.tks[l1.idx]? = some "(" := by
    rw [hsplit1, hidx, List.getElem?_append_right (Nat.le_refl _)]
    simp
  have hdrop : l1.tks.drop (l1.idx + 1) = tokenize (body ++ ')' :: post) := by
    rw [hsplit1, hidx]
    simp
  have hscan : parenScan (l1.tks.drop (l1.idx + 1)) "" 1 =
      .closed (String.mk (escText false body)) (tokenize post) := by
    rw [hdrop]
    have := parenScan_text post body.length body (Nat.le_refl _) false false [] [] 1
      (by simp) hlev
    rw [escPrefix_false] at this
    simpa using this
  rw [next_paren l l1 _ _ hseek hget hscan]
  refine ⟨rfl, ⟨rfl, ?_⟩, rfl⟩
  show l1.tks.drop (l1.tks.length - (tokenize post).length - 1 + 1) = tokenize post
  rw [hsplit2]
  have : (tokenize (pre ++ '(' :: body) ++ ")" :: tokenize post).length -
      (tokenize post).length - 1 + 1 = (tokenize (pre ++ '(' :: body)).length + 1 := by
    simp only [List.length_append, List.length_cons]
    omega
  rw [this]
  simp

/-- C26, the claim as stated fails: a carriage return between the parentheses
does not reach the token.  The literal `(a\rb)` (a carriage return between `a` and `b`), on one line and without
backslash, gives the token `(ab)`. -/
theorem paren_literal_carriage_return_counterexample :
    (PSLEX.init "(a\rb) c").next.2 = .ok (some "(ab)") := by
  decide

/-- C26 (as amended).  For every string literal `(body)` that lies on one line
(the tokens of the line are those of `pre ++ "(" ++ body ++ ")" ++ post` and
the lexer has come to the opening parenthesis), contains no backslash and has
balanced nested parentheses, `next` returns one token made of `(`, the text
`body` with each carriage return left out and each double quote written as an
escaped double quote, and `)`; the tokens left on the line are then those of
`post`, and `lnbr` is the number of the line. -/
theorem paren_literal_one_line (l l1 : PSLEX) (pre body post : List Char)
    (hseek : PSLEX.seek (l.str.length + 2) { l with idx := skipBlanks l.tks l.idx } =
      .ok (true, l1))
    (htks : l1.tks = tokenize (pre ++ '(' :: (body ++ ')' :: post)))
    (hidx : l1.idx = (tokenize pre).length)
    (hbs : '\\' ∉ body)
    (hbal : levelAfter 1 body = some 1) :
    l.next.2 = .ok (some (String.mk ('(' :: (quoteText body ++ [')'])))) ∧
    (l.next.1.tks = l1.tks ∧ l.next.1.tks.drop l.next.1.idx = tokenize post) ∧
    l.next.1.lnbr = l1.lnr := by
  have h := next_paren_text l l1 pre body post hseek htks hidx
    (by rw [escLevel_eq_levelAfter body hbs]; exact hbal)
  rw [escText_eq_quoteText body hbs] at h
  exact h

/-- What `next` makes of backslash escapes.  For every parenthesized string on
one line with backslash escapes (`escLevel` is the nesting level in which an escaped character does
not count, `escText` the text with each backslash left out and the character
behind it taken as it is), `next` returns `(`, `escText body` and `)`, and the
tokens left on the line are those of the text behind the closing parenthesis. -/
theorem paren_literal_escapes (l l1 : PSLEX) (pre body post : List Char)
    (hseek : PSLEX.seek (l.str.length + 2) { l with idx := skipBlanks l.tks l.idx } =
      .ok (true, l1))
    (htks : l1.tks = tokenize (pre ++ '(' :: (body ++ ')' :: post)))
    (hidx : l1.idx = (tokenize pre).length)
    (hlev : escLevel false 1 body = some 1) :
    l.next.2 = .ok (some (String.mk ('(' :: (escText false body ++ [')'])))) ∧
    (l.next.1.tks = l1.tks ∧ l.next.1.tks.drop l.next.1.idx = tokenize post) ∧
    l.next.1.lnbr = l1.lnr :=
  next_paren_text l l1 pre body post hseek htks hidx hlev

theorem paren_literal_one_line_witness :
    (PSLEX.seek (parenWitness.str.length + 2)
        { parenWitness with idx := skipBlanks parenWitness.tks parenWitness.idx } =
      .ok (true, parenWitnessFound)) ∧
    parenWitnessFound.tks =
      tokenize ("a ".data ++ '(' :: ("x (y) \"z\" % [ ".data ++ ')' :: " b".data)) ∧
    parenWitnessFound.idx = (tokenize "a ".data).length ∧
    '\\' ∉ "x (y) \"z\" % [ ".data ∧
    levelAfter 1 "x (y) \"z\" % [ ".data = some 1 ∧
    (parenWitness.next.2 =
        .ok (some (String.mk ('(' :: (quoteText "x (y) \"z\" % [ ".data ++ [')'])))) ∧
      (parenWitness.next.1.tks = parenWitnessFound.tks ∧
        parenWitness.next.1.tks.drop parenWitness.next.1.idx = tokenize " b".data) ∧
      parenWitness.next.1.lnbr = parenWitnessFound.lnr) :=
  ⟨by decide, by decide, by decide, by decide, by decide,
    paren_literal_one_line parenWitness parenWitnessFound "a ".data "x (y) \"z\" % [ ".data
      " b".data (by decide) (by decide) (by decide) (by decide) (by decide)⟩

theorem paren_literal_escapes_witness :
    (PSLEX.seek (escapeWitness.str.length + 2)
        { escapeWitness with idx := skipBlanks escapeWitness.tks escapeWitness.idx } =
      .ok (true, escapeWitnessFound)) ∧
    escapeWitnessFound.tks =
      tokenize ([] ++ '(' :: ("a\\)b \\\"c\\\\".data ++ ')' :: " d".data)) ∧
    escapeWitnessFound.idx = (tokenize []).length ∧
    escLevel false 1 "a\\)b \\\"c\\\\".data = some 1 ∧
    (escapeWitness.next.2 =
        .ok (some (String.mk ('(' :: (escText false "a\\)b \\\"c\\\\".data ++ [')'])))) ∧
      (escapeWitness.next.1.tks = escapeWitnessFound.tks ∧
        escapeWitness.next.1.tks.drop escapeWitness.next.1.idx = tokenize " d".data) ∧
      escapeWitness.next.1.lnbr = escapeWitnessFound.lnr) :=
  ⟨by decide, by decide, by decide, by decide,
    paren_literal_escapes escapeWitness escapeWitnessFound [] "a\\)b \\\"c\\\\".data
      " d".data (by decide) (by decide) (by decide) (by decide)⟩

/-! ## The `<>` branch on the text -/

theorem char_eq_ofNat (c : Char) (n : Nat) (h : c.toNat = n) : c = Char.ofNat n := by
  rw [← h, Char.ofNat_toNat]

theorem hexDigit_cases (c : Char) (h : isHexDigit c = true) :
    c ∈ "0123456789abcdefABCDEF".data := by
  simp only [isHexDigit, Bool.or_eq_true, Bool.and_eq_true, decide_eq_true_eq] at h
  have hc := char_eq_ofNat c c.toNat rfl
  generalize c.toNat = n at h hc
  subst hc
  rcases h with (⟨h1, h2⟩ | ⟨h1, h2⟩) | ⟨h1, h2⟩ <;> interval_cases n <;> decide

theorem jsSpace_cases (c : Char) (h : isJsSpace c = true) :
    c ∈ [' ', '\t', '\n', '\r', Char.ofNat 0x0b, Char.ofNat 0x0c, Char.ofNat 0xa0,
      Char.ofNat 0x1680, Char.ofNat 0x2000, Char.ofNat 0x2001, Char.ofNat 0x2002,
      Char.ofNat 0x2003, Char.ofNat 0x2004, Char.ofNat 0x2005, Char.ofNat 0x2006,
      Char.ofNat 0x2007, Char.ofNat 0x2008, Char.ofNat 0x2009, Char.ofNat 0x200a,
      Char.ofNat 0x2028, Char.ofNat 0x2029, Char.ofNat 0x202f, Char.ofNat 0x205f,
      Char.ofNat 0x3000, Char.ofNat 0xfeff] := by
  simp only [isJsSpace, Bool.or_eq_true, Bool.and_eq_true, decide_eq_true_eq, beq_iff_eq] at h
  have hc := char_eq_ofNat c c.toNat rfl
  rcases h with ((((((((((((((h | h) | h) | h) | h) | h) | h) | h) | ⟨h1, h2⟩) | h) | h) | h) | h) | h) | h)
  · subst h; decide
  · subst h; decide
  · subst h; decide
  · subst h; decide
  · rw [h] at hc; subst hc; decide
  · rw [h] at hc; subst hc; decide
  · rw [h] at hc; subst hc; decide
  · rw [h] at hc; subst hc; decide
  · generalize c.toNat = n at h1 h2 hc
    subst hc
    interval_cases n <;> decide
  · rw [h] at hc; subst hc; decide
  · rw [h] at hc; subst hc; decide
  · rw [h] at hc; subst hc; decide
  · rw [h] at hc; subst hc; decide
  · rw [h] at hc; subst hc; decide
  · rw [h] at hc; subst hc; decide

theorem hexDigit_alnum (c : Char) (h : isHexDigit c = true) : isAlnumChar c = true := by
  have := hexDigit_cases c h
  simp only [List.mem_cons, List.mem_nil_iff, or_false] at this
  rcases this with rfl | rfl | rfl | rfl | rfl | rfl | rfl | rfl | rfl | rfl | rfl | rfl | rfl |
    rfl | rfl | rfl | rfl | rfl | rfl | rfl | rfl | rfl <;> decide

theorem hexDigit_not_space (c : Char) (h : isHexDigit c = true) : isJsSpace c = false := by
  have := hexDigit_cases c h
  simp only [List.mem_cons, List.mem_nil_iff, or_false] at this
  rcases this with rfl | rfl | rfl | rfl | rfl | rfl | rfl | rfl | rfl | rfl | rfl | rfl | rfl |
    rfl | rfl | rfl | rfl | rfl | rfl | rfl | rfl | rfl <;> decide

theorem hexDigit_not_delim (c : Char) (h : isHexDigit c = true) : isDelimChar c = false := by
  have := hexDigit_cases c h
  simp only [List.mem_cons, List.mem_nil_iff, or_false] at this
  rcases this with rfl | rfl | rfl | rfl | rfl | rfl | rfl | rfl | rfl | rfl | rfl | rfl | rfl |
    rfl | rfl | rfl | rfl | rfl | rfl | rfl | rfl | rfl <;> decide

theorem jsSpace_not_delim (c : Char) (h : isJsSpace c = true) : isDelimChar c = false := by
  have := jsSpace_cases c h
  simp only [List.mem_cons, List.mem_nil_iff, or_false] at this
  rcases this with rfl | rfl | rfl | rfl | rfl | rfl | rfl | rfl | rfl | rfl | rfl | rfl | rfl |
    rfl | rfl | rfl | rfl | rfl | rfl | rfl | rfl | rfl | rfl | rfl | rfl <;> decide

theorem hexContent_not_delim (c : Char) (h : isHexContent c = true) : isDelimChar c = false := by
  simp only [isHexContent, Bool.or_eq_true] at h
  rcases h with h | h
  · exact hexDigit_not_delim c h
  · exact jsSpace_not_delim c h

theorem dropSpace_alnum (cur : List Char) (hcur : ∀ x ∈ cur, isHexContent x = true) :
    (dropSpace cur).all isAlnumChar = true := by
  rw [List.all_eq_true]
  intro x hx
  simp only [dropSpace, List.mem_filter, Bool.not_eq_true'] at hx
  have := hcur x hx.1
  simp only [isHexContent, Bool.or_eq_true, hx.2, Bool.false_eq_true, or_false] at this
  exact hexDigit_alnum x this

theorem dropSpace_append (x y : List Char) : dropSpace (x ++ y) = dropSpace x ++ dropSpace y := by
  simp [dropSpace]

theorem hexScan_flush (cur : List Char) (X : List String) (s : List Char)
    (hcur : ∀ x ∈ cur, isHexContent x = true) :
    hexScan (flushText cur ++ X) s = hexScan X (s ++ dropSpace cur) := by
  cases cur with
  | nil => simp [flushText, dropSpace]
  | cons a r =>
    have hfl : flushText (a :: r) = [String.mk (a :: r)] := by simp [flushText]
    have hne : String.mk (a :: r) ≠ ">" := by
      intro h
      have h1 : a :: r = ['>'] := by simpa using congrArg String.data h
      have h2 := hexContent_not_delim a (hcur a (by simp))
      simp only [List.cons.injEq] at h1
      rw [h1.1] at h2
      exact absurd h2 (by decide)
    rw [hfl, List.singleton_append, hexScan]
    have hal := dropSpace_alnum (a :: r) hcur
    simp only [dropSpace] at hal
    simp only [hne, if_false, hal, Bool.not_true, Bool.and_false, Bool.false_eq_true]
    rfl

theorem hexScan_close (post1 : List Char) (hpost : post1.head? ≠ some '>') :
    ∀ (content : List Char) (b : Bool) (cur s : List Char),
    (∀ x ∈ cur, isHexContent x = true) → (∀ x ∈ content, isHexContent x = true) →
    hexScan (tokenizeFrom b cur (content ++ '>' :: post1)) s =
      .closed (s ++ dropSpace (cur ++ content)) (tokenize post1) := by
  intro content
  induction content with
  | nil =>
    intro b cur s hcur _
    rw [List.nil_append, tok_delim b cur post1 '>' (by decide), hexScan_flush cur _ s hcur,
      hexScan]
    · simp
    · intro c2 r2 h
      rw [h] at hpost
      have : c2 ≠ '>' := by simpa using hpost
      simp [this]
  | cons c r ih =>
    intro b cur s hcur hcont
    have hc := hcont c (by simp)
    have hr : ∀ x ∈ r, isHexContent x = true := fun x hx => hcont x (List.mem_cons_of_mem _ hx)
    have hd := hexContent_not_delim c hc
    rw [List.cons_append]
    by_cases hcr : c = '\r'
    · subst hcr
      rw [tok_cr, hexScan_flush cur _ s hcur, tokenize, ih false [] _ (by simp) hr]
      simp [dropSpace_append, dropSpace, isJsSpace]
    · by_cases hs : (isBlankChar c == b || cur.isEmpty) = true
      · rw [tok_plain_same b cur _ c hd hcr hs, ih _ (cur ++ [c]) s _ hr]
        · simp
        · intro x hx
          rcases List.mem_append.mp hx with hx | hx
          · exact hcur x hx
          · have : x = c := by simpa using hx
            rw [this]
            exact hc
      · have hs1 : (isBlankChar c == b || cur.isEmpty) = false := by simpa using hs
        rw [tok_plain_other b cur _ c hd hcr hs1, hexScan_flush cur _ s hcur,
          ih _ [c] _ _ hr]
        · simp [dropSpace_append]
        · intro x hx
          have : x = c := by simpa using hx
          rw [this]
          exact hc

theorem hexScan_end :
    ∀ (content : List Char) (b : Bool) (cur s : List Char),
    (∀ x ∈ cur, isHexContent x = true) → (∀ x ∈ content, isHexContent x = true) →
    hexScan (tokenizeFrom b cur content) s = .lineEnd (s ++ dropSpace (cur ++ content)) := by
  intro content
  induction content with
  | nil =>
    intro b cur s hcur _
    have : tokenizeFrom b cur [] = flushText cur ++ [] := by simp [tokenizeFrom]
    rw [this, hexScan_flush cur _ s hcur, hexScan]
    simp
  | cons c r ih =>
    intro b cur s hcur hcont
    have hc := hcont c (by simp)
    have hr : ∀ x ∈ r, isHexContent x = true := fun x hx => hcont x (List.mem_cons_of_mem _ hx)
    have hd := hexContent_not_delim c hc
    by_cases hcr : c = '\r'
    · subst hcr
      rw [tok_cr, hexScan_flush cur _ s hcur, tokenize, ih false [] _ (by simp) hr]
      simp [dropSpace_append, dropSpace, isJsSpace]
    · by_cases hs : (isBlankChar c == b || cur.isEmpty) = true
      · rw [tok_plain_same b cur _ c hd hcr hs, ih _ (cur ++ [c]) s _ hr]
        · simp
        · intro x hx
          rcases List.mem_append.mp hx with hx | hx
          · exact hcur x hx
          · have : x = c := by simpa using hx
            rw [this]
            exact hc
      · have hs1 : (isBlankChar c == b || cur.isEmpty) = false := by simpa using hs
        rw [tok_plain_other b cur _ c hd hcr hs1, hexScan_flush cur _ s hcur,
          ih _ [c] _ _ hr]
        · simp [dropSpace_append]
        · intro x hx
          have : x = c := by simpa using hx
          rw [this]
          exact hc

/-! ## The function `_next` on the text that is left -/

theorem drop_takeWhile_length (p : Char → Bool) (x : List Char) :
    x.drop (x.takeWhile p).length = x.dropWhile p := by
  induction x with
  | nil => rfl
  | cons a r ih =>
    by_cases h : p a = true
    · simp [List.takeWhile, List.dropWhile, h, ih]
    · simp [List.takeWhile, List.dropWhile, h]

theorem drop_add (x : List Char) (a b : Nat) : x.drop (a + b) = (x.drop a).drop b := by
  rw [List.drop_drop, Nat.add_comm]

theorem next_eq (l : PSLEX) :
    l._next = if l.rest.isEmpty then (false, { l with off := l.off + l.breaks, lnr := l.lnr + l.breaks })
      else (true, { l with off := l.off + l.breaks + l.line.length + 1,
                           lnr := l.lnr + l.breaks + 1, tks := tokenize l.line, idx := 0 }) := by
  unfold PSLEX._next PSLEX.line PSLEX.rest PSLEX.breaks
  simp only [drop_add, drop_takeWhile_length]

theorem next_false (l : PSLEX) (h : l.rest = []) :
    l._next = (false, { l with off := l.off + l.breaks, lnr := l.lnr + l.breaks }) := by
  rw [next_eq, h]
  rfl

theorem next_true (l : PSLEX) (h : l.rest ≠ []) :
    l._next = (true, { l with off := l.off + l.breaks + l.line.length + 1,
                              lnr := l.lnr + l.breaks + 1, tks := tokenize l.line, idx := 0 }) := by
  rw [next_eq]
  have : l.rest.isEmpty = false := by
    cases hr : l.rest with
    | nil => exact absurd hr h
    | cons a r => rfl
  rw [this]
  rfl

/-- The text that is left behind the line that `_next` has read. -/
theorem drop_after_line (l : PSLEX) :
    l.str.drop (l.off + l.breaks + l.line.length + 1) = l.rest.drop (l.line.length + 1) := by
  have h1 : l.str.drop (l.off + l.breaks) = l.rest := by
    unfold PSLEX.breaks PSLEX.rest
    rw [drop_add, drop_takeWhile_length]
  have h2 : l.off + l.breaks + l.line.length + 1 = (l.off + l.breaks) + (l.line.length + 1) := by
    omega
  rw [h2, drop_add, h1]

theorem line_no_break (l : PSLEX) : '\n' ∉ l.line := by
  intro h
  have := List.mem_takeWhile_imp h
  simp at this

/-- The text behind the line breaks is the line, and behind it either nothing
or a line break and the text that is left. -/
theorem rest_split (l : PSLEX) :
    (l.rest = l.line ∧ l.rest.drop (l.line.length + 1) = []) ∨
    l.rest = l.line ++ '\n' :: l.rest.drop (l.line.length + 1) := by
  have h := List.takeWhile_append_dropWhile (fun c => c != '\n') l.rest
  cases hd : l.rest.dropWhile (fun c => c != '\n') with
  | nil =>
    left
    rw [hd, List.append_nil] at h
    have h1 : l.line = l.rest := h
    refine ⟨h1.symm, ?_⟩
    rw [h1]
    simp
  | cons a t =>
    right
    have ha : a = '\n' := by
      have := List.head_dropWhile_not (fun c => c != '\n') l.rest (by rw [hd]; simp)
      simp only [hd, List.head_cons] at this
      simpa using this
    rw [hd] at h
    have h1 : l.line ++ a :: t = l.rest := h
    have h2 : l.rest.drop (l.line.length + 1) = t := by
      conv_lhs => rw [← h1]
      rw [drop_add]
      simp
    rw [h2, ← ha]
    exact h1.symm

theorem dropWhile_append_stop (p : Char → Bool) (x : List Char) (y : Char) (ys : List Char)
    (hy : p y = false) : (x ++ y :: ys).dropWhile p = x.dropWhile p ++ y :: ys := by
  induction x with
  | nil => simp [List.dropWhile, hy]
  | cons a r ih =>
    by_cases h : p a = true
    · simp [List.dropWhile, h, ih]
    · simp [List.dropWhile, h]

theorem dropSpace_dropWhile (x : List Char) :
    dropSpace (x.dropWhile (fun c => c == '\n')) = dropSpace x := by
  induction x with
  | nil => rfl
  | cons a r ih =>
    by_cases h : a = '\n'
    · subst h
      simp only [List.dropWhile, beq_self_eq_true]
      rw [ih]
      simp [dropSpace, isJsSpace]
    · have h1 : (a == '\n') = false := by simpa using h
      simp only [List.dropWhile, h1]

theorem length_dropWhile_le (p : Char → Bool) (x : List Char) :
    (x.dropWhile p).length ≤ x.length := by
  induction x with
  | nil => simp
  | cons a r ih =>
    by_cases h : p a = true
    · simp only [List.dropWhile, h, List.length_cons]
      omega
    · simp [List.dropWhile, h]

theorem mem_of_mem_dropWhile (p : Char → Bool) (x : List Char) (c : Char)
    (h : c ∈ x.dropWhile p) : c ∈ x := by
  induction x with
  | nil => simp at h
  | cons a r ih =>
    by_cases hp : p a = true
    · simp only [List.dropWhile, hp] at h
      exact List.mem_cons_of_mem _ (ih h)
    · simp only [List.dropWhile, hp] at h
      exact h

/-- The loop of the `<>` branch, from the text: `lineRest` is the text of the
tokens left on the line, and the text from there on is `content`, of digits
and white space over any number of lines, then `>`, then `post` that does not
begin with `>`.  The loop collects the digits of `content`. -/
theorem hexLoop_text : ∀ (f : Nat) (l : PSLEX) (s lineRest content post : List Char),
    (l.str.drop l.off).length < f →
    l.tks.drop l.idx = tokenize lineRest →
    '\n' ∉ lineRest →
    lineRest ++ '\n' :: l.str.drop l.off = content ++ '>' :: post →
    (∀ x ∈ content, isHexContent x = true) →
    post.head? ≠ some '>' →
    (PSLEX.hexLoop f l s).2 = .ok (s ++ dropSpace content) := by
  intro f
  induction f with
  | zero =>
    intro l s lineRest content post hf
    exact absurd hf (Nat.not_lt_zero _)
  | succ f ih =>
    intro l s lineRest content post hf htks hnl hsplit hcont hpost
    rcases List.append_eq_append_iff.mp hsplit with ⟨a1, h1, h2⟩ | ⟨c1, h1, h2⟩
    · cases a1 with
      | nil =>
        simp only [List.nil_append, List.cons.injEq] at h2
        exact absurd h2.1 (by decide)
      | cons x a2 =>
        simp only [List.cons_append, List.cons.injEq] at h2
        obtain ⟨hx, hafter⟩ := h2
        subst hx
        have hline : ∀ x ∈ lineRest, isHexContent x = true := by
          intro x hx
          exact hcont x (by rw [h1]; exact List.mem_append_left _ hx)
        have ha2 : ∀ x ∈ a2, isHexContent x = true := by
          intro x hx
          exact hcont x (by rw [h1]; exact List.mem_append_right _ (List.mem_cons_of_mem _ hx))
        have hscan : hexScan (l.tks.drop l.idx) s = .lineEnd (s ++ dropSpace lineRest) := by
          rw [htks, tokenize, hexScan_end lineRest false [] s (by simp) hline]
          simp
        have hrest : ({ l with idx := l.tks.length } : PSLEX).rest =
            a2.dropWhile (fun c => c == '\n') ++ '>' :: post := by
          show (l.str.drop l.off).dropWhile (fun c => c == '\n') = _
          rw [hafter, dropWhile_append_stop _ _ _ _ (by decide)]
        have hne : ({ l with idx := l.tks.length } : PSLEX).rest ≠ [] := by
          rw [hrest]
          simp
        rw [PSLEX.hexLoop, hscan]
        simp only []
        rw [next_true _ hne]
        simp only []
        have hlen : (({ l with idx := l.tks.length } : PSLEX).rest.drop
            (({ l with idx := l.tks.length } : PSLEX).line.length + 1)).length < f := by
          have h3 : ({ l with idx := l.tks.length } : PSLEX).rest.length ≤
              (l.str.drop l.off).length := length_dropWhile_le _ _
          have h4 : 0 < ({ l with idx := l.tks.length } : PSLEX).rest.length :=
            List.length_pos.mpr hne
          rw [List.length_drop]
          omega
        have hres : s ++ dropSpace content =
            (s ++ dropSpace lineRest) ++ dropSpace (a2.dropWhile (fun c => c == '\n')) := by
          rw [h1, dropSpace_dropWhile, dropSpace_append, List.append_assoc]
          congr 2
        rw [hres]
        rcases rest_split { l with idx := l.tks.length } with ⟨h5, h6⟩ | h5
        · apply ih _ _ ({ l with idx := l.tks.length } : PSLEX).line
            (a2.dropWhile (fun c => c == '\n')) (post ++ ['\n'])
          · show (l.str.drop _).length < f
            rw [drop_after_line { l with idx := l.tks.length }]
            exact hlen
          · rfl
          · exact line_no_break _
          · show _ ++ '\n' :: l.str.drop _ = _
            rw [drop_after_line { l with idx := l.tks.length }, h6, ← h5, hrest]
            simp
          · intro x hx
            exact ha2 x (mem_of_mem_dropWhile _ _ _ hx)
          · cases post with
            | nil => simp
            | cons p ps => simpa using hpost
        · apply ih _ _ ({ l with idx := l.tks.length } : PSLEX).line
            (a2.dropWhile (fun c => c == '\n')) post
          · show (l.str.drop _).length < f
            rw [drop_after_line { l with idx := l.tks.length }]
            exact hlen
          · rfl
          · exact line_no_break _
          · show _ ++ '\n' :: l.str.drop _ = _
            rw [drop_after_line { l with idx := l.tks.length }, ← h5, hrest]
          · intro x hx
            exact ha2 x (mem_of_mem_dropWhile _ _ _ hx)
          · exact hpost
    · cases c1 with
      | nil =>
        simp only [List.nil_append, List.cons.injEq] at h2
        exact absurd h2.1 (by decide)
      | cons x c2 =>
        simp only [List.cons_append, List.cons.injEq] at h2
        obtain ⟨hx, hp2⟩ := h2
        subst hx
        have hc2 : c2.head? ≠ some '>' := by
          cases c2 with
          | nil => simp
          | cons y ys =>
            rw [hp2] at hpost
            simpa using hpost
        have hscan : hexScan (l.tks.drop l.idx) s =
            .closed (s ++ dropSpace content) (tokenize c2) := by
          rw [htks, h1, tokenize, hexScan_close c2 hc2 content false [] s (by simp) hcont]
          simp
        rw [PSLEX.hexLoop, hscan]

theorem next_hex (l l1 : PSLEX) (s : List Char)
    (hseek : PSLEX.seek (l.str.length + 2) { l with idx := skipBlanks l.tks l.idx } =
      .ok (true, l1))
    (hget : l1.tks[l1.idx]? = some "<")
    (hloop : (PSLEX.hexLoop (l1.str.length + 2)
      { l1 with lnbr := l1.lnr, idx := l1.idx + 1 } []).2 = .ok s) :
    l.next.2 = .ok (some (String.mk ('(' :: (hexPairs (padEven s) ++ [')'])))) := by
  unfold PSLEX.next
  rw [hseek]
  simp only [hget]
  have h1 : ("<" = "(") = False := by decide
  simp only [h1, if_false, if_true]
  cases hh : PSLEX.hexLoop (l1.str.length + 2) { l1 with lnbr := l1.lnr, idx := l1.idx + 1 } []
    with
  | mk l3 r =>
    rw [hh] at hloop
    simp only at hloop
    subst hloop
    rfl

/-- C25, the code at the failing input.  The closing `>` of a literal is not
found when another `>` follows it at once, because the line tokenizer makes the
two one token `>>`: in `<< /k <12>>>` the third call of `next` reads the
literal `<12>`, takes `>>` for its content and throws, where the token
`(\x12)` is due; with a blank before `>>` it returns that token. -/
theorem hex_literal_before_gt :
    (PSLEX.init "<< /k <12>>>").next.1.next.1.next.2 =
      .error (.thrown "Invalid hex string: \">>\"") ∧
    (PSLEX.init "<< /k <12> >>").next.1.next.1.next.2 = .ok (some "(\\x12)") := by
  decide

/-- Where the closing `>` is found, the token is the one that is due.  For
every angle-bracket literal whose closing `>` is not
followed at once by another `>` and whose content (`content`, on any number of
lines: `lineRest` is the text of the tokens behind `<` on its line, and the
text goes on behind the line) is made of hexadecimal digits and white space,
`next` returns the token `(`, one `\x`-escape for each pair of the digits in
order, a `0` being appended to them when their number is odd, and `)`; the
empty literal `<>` yields `()`. -/
theorem hex_literal (l l1 : PSLEX) (lineRest content post : List Char)
    (hseek : PSLEX.seek (l.str.length + 2) { l with idx := skipBlanks l.tks l.idx } =
      .ok (true, l1))
    (htks : l1.tks.drop l1.idx = "<" :: tokenize lineRest)
    (hnl : '\n' ∉ lineRest)
    (htext : lineRest ++ '\n' :: l1.str.drop l1.off = content ++ '>' :: post)
    (hcont : ∀ x ∈ content, isHexContent x = true)
    (hpost : post.head? ≠ some '>') :
    l.next.2 = .ok (some (String.mk ('(' :: (hexPairs (padEven (dropSpace content)) ++ [')'])))) ∧
    (PSLEX.init "<>").next.2 = .ok (some "()") := by
  refine ⟨?_, by decide⟩
  have hget : l1.tks[l1.idx]? = some "<" := by
    have := congrArg List.head? htks
    simpa [List.head?_drop] using this
  have hdrop : l1.tks.drop (l1.idx + 1) = tokenize lineRest := by
    have := congrArg (List.drop 1) htks
    simpa [List.drop_drop, Nat.add_comm] using this
  apply next_hex l l1 _ hseek hget
  have := hexLoop_text (l1.str.length + 2) { l1 with lnbr := l1.lnr, idx := l1.idx + 1 } []
    lineRest content post
    (by
      show (l1.str.drop l1.off).length < _
      rw [List.length_drop]
      omega)
    hdrop hnl htext hcont hpost
  simpa using this

theorem hex_literal_witness :
    (PSLEX.seek (hexWitness.str.length + 2)
        { hexWitness with idx := skipBlanks hexWitness.tks hexWitness.idx } =
      .ok (true, hexWitness._next.2)) ∧
    hexWitness._next.2.tks.drop hexWitness._next.2.idx = "<" :: tokenize "48 65".data ∧
    '\n' ∉ "48 65".data ∧
    "48 65".data ++ '\n' :: hexWitness._next.2.str.drop hexWitness._next.2.off =
      "48 65\n\n 6c7".data ++ '>' :: " x".data ∧
    (∀ x ∈ "48 65\n\n 6c7".data, isHexContent x = true) ∧
    " x".data.head? ≠ some '>' ∧
    hexWitness.next.2 = .ok (some "(\\x48\\x65\\x6c\\x70)") ∧
    (hexWitness.next.2 =
        .ok (some (String.mk ('(' ::
          (hexPairs (padEven (dropSpace "48 65\n\n 6c7".data)) ++ [')'])))) ∧
      (PSLEX.init "<>").next.2 = .ok (some "()")) :=
  ⟨by decide, by decide, by decide, by decide, by decide, by decide, by decide,
    hex_literal hexWitness hexWitness._next.2 "48 65".data "48 65\n\n 6c7".data " x".data
      (by decide) (by decide) (by decide) (by decide) (by decide) (by decide)⟩

/-! ## Line numbers -/

theorem take_takeWhile_length (p : Char → Bool) (x : List Char) :
    x.take (x.takeWhile p).length = x.takeWhile p := by
  induction x with
  | nil => rfl
  | cons a r ih =>
    by_cases h : p a = true
    · simp [List.takeWhile, h, ih]
    · simp [List.takeWhile, h]

theorem count_takeWhile_nl (x : List Char) :
    (x.takeWhile (fun c => c == '\n')).count '\n' =
      (x.takeWhile (fun c => c == '\n')).length := by
  induction x with
  | nil => rfl
  | cons a r ih =>
    by_cases h : a = '\n'
    · subst h
      simp [List.takeWhile, ih]
    · have h1 : (a == '\n') = false := by simpa using h
      simp only [List.takeWhile, h1]
      rfl

theorem count_takeWhile_not_nl (x : List Char) :
    (x.takeWhile (fun c => c != '\n')).count '\n' = 0 := by
  rw [List.count_eq_zero]
  intro h
  have := List.mem_takeWhile_imp h
  simp at this

theorem take_add_drop (x : List Char) (a b : Nat) :
    x.take (a + b) = x.take a ++ (x.drop a).take b := by
  rw [List.take_add]

/-- Line breaks before the position behind the line breaks at `off`. -/
theorem count_breaks (l : PSLEX) :
    (l.str.take (l.off + l.breaks)).count '\n' = (l.str.take l.off).count '\n' + l.breaks := by
  rw [take_add_drop, List.count_append]
  unfold PSLEX.breaks
  rw [take_takeWhile_length, count_takeWhile_nl]

theorem getElem?_add_drop (x : List Char) (a b : Nat) : x[a + b]? = (x.drop a)[b]? := by
  rw [List.getElem?_drop]

theorem takeWhile_getElem_nl (x : List Char) (i : Nat)
    (h : i < (x.takeWhile (fun c => c == '\n')).length) : x[i]? = some '\n' := by
  induction x generalizing i with
  | nil => simp at h
  | cons a r ih =>
    by_cases ha : a = '\n'
    · subst ha
      cases i with
      | zero => simp
      | succ j =>
        simp only [List.takeWhile, beq_self_eq_true, List.length_cons,
          Nat.add_lt_add_iff_right] at h
        simpa using ih j h
    · have h1 : (a == '\n') = false := by simpa using ha
      simp [List.takeWhile, h1] at h

/-- The character before the position behind the line breaks at `off`, when
there is a line break at `off`. -/
theorem break_before (l : PSLEX) (h : 0 < l.breaks) :
    l.str[l.off + l.breaks - 1]? = some '\n' := by
  have h1 : l.off + l.breaks - 1 = l.off + (l.breaks - 1) := by omega
  rw [h1, getElem?_add_drop]
  apply takeWhile_getElem_nl
  unfold PSLEX.breaks at h ⊢
  omega

theorem drop_breaks (l : PSLEX) : l.str.drop (l.off + l.breaks) = l.rest := by
  unfold PSLEX.breaks PSLEX.rest
  rw [drop_add, drop_takeWhile_length]

theorem rest_pos_lt (l : PSLEX) (hne : l.rest ≠ []) : l.off + l.breaks < l.str.length := by
  by_contra h
  apply hne
  rw [← drop_breaks]
  exact List.drop_eq_nil_of_le (by omega)

theorem str_length_rest (l : PSLEX) (hne : l.rest ≠ []) :
    l.str.length = l.off + l.breaks + l.rest.length := by
  have h1 := rest_pos_lt l hne
  rw [← drop_breaks, List.length_drop]
  omega

theorem rest_take_line (l : PSLEX) (t : List Char) (h : l.rest = l.line ++ '\n' :: t) :
    l.rest.take (l.line.length + 1) = l.line ++ ['\n'] := by
  rw [h, List.take_append]
  simp

theorem rest_get_line (l : PSLEX) (t : List Char) (h : l.rest = l.line ++ '\n' :: t) :
    l.rest[l.line.length]? = some '\n' := by
  rw [h, List.getElem?_append_right (Nat.le_refl _)]
  simp

/-- What `_next` leaves when it has read a line: the tokens of the line that
starts behind the line breaks at `off`, and the index of that line in `lnr`. -/
theorem next_true_inv (l : PSLEX) (hc : LineCount l) (hb : AtBreak l) (hne : l.rest ≠ []) :
    l._next.1 = true ∧ OnLine l._next.2 (l.off + l.breaks) ∧ LineCount l._next.2 ∧
    AtBreak l._next.2 ∧ l._next.2.idx = 0 ∧ l._next.2.str = l.str ∧
    l._next.2.lnbr = l.lnbr ∧ (l._next.2.str.drop l._next.2.off).length < (l.str.drop l.off).length := by
  have hp := rest_pos_lt l hne
  have hlen := str_length_rest l hne
  have hoff : l.off ≤ l.str.length := by omega
  have hlnr := hc hoff
  rw [next_true l hne]
  have hline : lineAt l.str (l.off + l.breaks) = l.line := by
    unfold lineAt
    rw [drop_breaks]
    rfl
  refine ⟨rfl, ⟨hp, ?_, ?_, ?_, by
    show l.off + l.breaks + l.line.length + 1 = _
    rw [hline]⟩, ?_, ?_, rfl, rfl, rfl, ?_⟩
  · by_cases hk : l.breaks = 0
    · rw [hk, Nat.add_zero]
      rcases hb with h | h | h
      · exact Or.inl h
      · exact Or.inr h
      · omega
    · exact Or.inr (break_before l (by omega))
  · show tokenize l.line = tokenize (lineAt l.str (l.off + l.breaks))
    unfold lineAt
    rw [drop_breaks]
    rfl
  · show l.lnr + l.breaks + 1 = lineNo l.str (l.off + l.breaks)
    unfold lineNo
    rw [count_breaks, hlnr]
  · intro h
    have h' : l.off + l.breaks + l.line.length + 1 ≤ l.str.length := h
    show l.lnr + l.breaks + 1 = (l.str.take (l.off + l.breaks + l.line.length + 1)).count '\n'
    rcases rest_split l with ⟨h5, _⟩ | h5
    · have : l.rest.length = l.line.length := by rw [← h5]
      omega
    · have h6 : l.off + l.breaks + l.line.length + 1 =
          (l.off + l.breaks) + (l.line.length + 1) := by omega
      rw [h6, take_add_drop, drop_breaks, rest_take_line l _ h5, List.count_append,
        List.count_append, count_breaks, hlnr]
      have := count_takeWhile_not_nl l.rest
      have h7 : List.count '\n' l.line = 0 := this
      rw [h7]
      simp
  · show l.off + l.breaks + l.line.length + 1 = 0 ∨
      l.str[l.off + l.breaks + l.line.length + 1 - 1]? = some '\n' ∨
      l.str.length < l.off + l.breaks + l.line.length + 1
    rcases rest_split l with ⟨h5, _⟩ | h5
    · have : l.rest.length = l.line.length := by rw [← h5]
      right
      right
      omega
    · right
      left
      have h6 : l.off + l.breaks + l.line.length + 1 - 1 = (l.off + l.breaks) + l.line.length := by
        omega
      rw [h6, getElem?_add_drop, drop_breaks]
      exact rest_get_line l _ h5
  · show (l.str.drop (l.off + l.breaks + l.line.length + 1)).length < (l.str.drop l.off).length
    rw [List.length_drop, List.length_drop]
    omega

/-- What `_next` leaves at the end of the text. -/
theorem next_false_inv (l : PSLEX) (hc : LineCount l) (hb : AtBreak l) (h : l.rest = []) :
    l._next.1 = false ∧ LineCount l._next.2 ∧ AtBreak l._next.2 ∧ l._next.2.str = l.str ∧
    l._next.2.tks = l.tks ∧ l._next.2.idx = l.idx ∧ l._next.2.lnbr = l.lnbr := by
  rw [next_false l h]
  refine ⟨rfl, ?_, ?_, rfl, rfl, rfl, rfl⟩
  · intro h1
    have h2 : l.off + l.breaks ≤ l.str.length := h1
    show l.lnr + l.breaks = (l.str.take (l.off + l.breaks)).count '\n'
    rw [count_breaks, hc (by omega)]
  · show l.off + l.breaks = 0 ∨ l.str[l.off + l.breaks - 1]? = some '\n' ∨
      l.str.length < l.off + l.breaks
    by_cases hk : l.breaks = 0
    · rw [hk, Nat.add_zero]
      exact hb
    · exact Or.inr (Or.inl (break_before l (by omega)))

theorem skipBlanks_eq_self (tks : List String) (idx : Nat)
    (h : tks.length ≤ idx ∨ tks[idx]? = some "%") : skipBlanks tks idx = idx := by
  unfold skipBlanks
  rcases h with h | h
  · rw [List.drop_eq_nil_of_le h]
    rfl
  · have hlt : idx < tks.length := by
      by_contra hn
      rw [List.getElem?_eq_none (by omega)] at h
      exact absurd h (by simp)
    rw [List.drop_eq_getElem_cons hlt]
    have h2 : tks[idx] = "%" := by
      rw [List.getElem?_eq_getElem hlt] at h
      exact Option.some.inj h
    rw [h2]
    have h3 : startsBlank "%" = false := by decide
    simp [List.takeWhile, h3]

theorem seek_inv : ∀ (f : Nat) (l l1 : PSLEX) (b : Bool), LineCount l → AtBreak l →
    (TokenAt l → ∃ p, OnLine l p) →
    PSLEX.seek f l = .ok (b, l1) →
    LineCount l1 ∧ AtBreak l1 ∧ l1.str = l.str ∧ l1.lnbr = l.lnbr ∧
    (b = true → (∃ p, OnLine l1 p) ∧ TokenAt l1) ∧
    (b = false → ¬ TokenAt { l1 with idx := skipBlanks l1.tks l1.idx }) := by
  intro f
  induction f with
  | zero =>
    intro l l1 b _ _ _ h
    simp [PSLEX.seek] at h
  | succ f ih =>
    intro l l1 b hc hb hon h
    rw [PSLEX.seek] at h
    by_cases hcond : (decide (l.tks.length ≤ l.idx) || decide (l.tks[l.idx]? = some "%")) = true
    · rw [if_pos hcond] at h
      have hcond2 : l.tks.length ≤ l.idx ∨ l.tks[l.idx]? = some "%" := by
        simpa using hcond
      by_cases hr : l.rest = []
      · obtain ⟨h1, h2, h3, h4, h5, h6, h7⟩ := next_false_inv l hc hb hr
        cases hn : l._next with
        | mk b2 l2 =>
          rw [hn] at h h1 h2 h3 h4 h5 h6 h7
          simp only at h1 h2 h3 h4 h5 h6 h7
          subst h1
          simp only [Except.ok.injEq, Prod.mk.injEq] at h
          obtain ⟨hb2, hl1⟩ := h
          subst hb2
          subst hl1
          refine ⟨h2, h3, h4, h7, by intro hx; exact absurd hx (by decide), ?_⟩
          intro _ hta
          obtain ⟨t, ht, hne⟩ := hta
          simp only [h5, h6] at ht
          rw [skipBlanks_eq_self _ _ hcond2] at ht
          rcases hcond2 with hx | hx
          · rw [List.getElem?_eq_none hx] at ht
            exact absurd ht (by simp)
          · rw [hx] at ht
            exact hne (Option.some.inj ht).symm
      · obtain ⟨h1, h2, h3, h4, h5, h6, h7, _⟩ := next_true_inv l hc hb hr
        cases hn : l._next with
        | mk b2 l2 =>
          rw [hn] at h h1 h2 h3 h4 h5 h6 h7
          simp only at h1 h2 h3 h4 h5 h6 h7
          subst h1
          simp only at h
          have := ih { l2 with idx := skipBlanks l2.tks l2.idx } l1 b h3 h4
            (fun _ => ⟨_, h2⟩) h
          obtain ⟨g1, g2, g3, g4, g5, g6⟩ := this
          exact ⟨g1, g2, g3.trans h6, g4.trans h7, g5, g6⟩
    · rw [if_neg hcond] at h
      simp only [Except.ok.injEq, Prod.mk.injEq] at h
      obtain ⟨hb2, hl1⟩ := h
      subst hb2
      subst hl1
      have hta : TokenAt l := by
        simp only [Bool.or_eq_true, decide_eq_true_eq, not_or, not_le] at hcond
        exact ⟨l.tks[l.idx], List.getElem?_eq_getElem hcond.1, by
          intro hx
          apply hcond.2
          rw [List.getElem?_eq_getElem hcond.1, hx]⟩
      exact ⟨hc, hb, rfl, rfl, fun _ => ⟨hon hta, hta⟩, by
        intro hx
        exact absurd hx (by decide)⟩

theorem parenLoop_inv : ∀ (f : Nat) (l l3 : PSLEX) (s r : String) (lv : Int),
    LineCount l → AtBreak l → (∃ p, OnLine l p) →
    PSLEX.parenLoop f l s lv = (l3, .ok r) →
    LineCount l3 ∧ AtBreak l3 ∧ (∃ p, OnLine l3 p) ∧ l3.str = l.str ∧ l3.lnbr = l.lnbr := by
  intro f
  induction f with
  | zero =>
    intro l l3 s r lv _ _ _ h
    simp [PSLEX.parenLoop] at h
  | succ f ih =>
    intro l l3 s r lv hc hb hon h
    rw [PSLEX.parenLoop] at h
    cases hscan : parenScan (l.tks.drop l.idx) s lv with
    | closed s1 rest =>
      rw [hscan] at h
      simp only [Prod.mk.injEq, Except.ok.injEq] at h
      obtain ⟨hl3, _⟩ := h
      subst hl3
      exact ⟨hc, hb, hon, rfl, rfl⟩
    | lineEnd s1 l1 =>
      rw [hscan] at h
      simp at h
    | escEnd s1 lv1 =>
      rw [hscan] at h
      simp only at h
      by_cases hr : ({ l with idx := l.tks.length } : PSLEX).rest = []
      · obtain ⟨h1, _⟩ := next_false_inv { l with idx := l.tks.length } hc hb hr
        cases hn : ({ l with idx := l.tks.length } : PSLEX)._next with
        | mk b2 l2 =>
          rw [hn] at h h1
          simp only at h1
          subst h1
          simp at h
      · obtain ⟨h1, h2, h3, h4, h5, h6, h7, _⟩ :=
          next_true_inv { l with idx := l.tks.length } hc hb hr
        cases hn : ({ l with idx := l.tks.length } : PSLEX)._next with
        | mk b2 l2 =>
          rw [hn] at h h1 h2 h3 h4 h5 h6 h7
          simp only at h1 h2 h3 h4 h5 h6 h7
          subst h1
          simp only at h
          obtain ⟨g1, g2, g3, g4, g5⟩ := ih { l2 with idx := 1 } l3 _ r lv1 h3 h4 ⟨_, h2⟩ h
          exact ⟨g1, g2, g3, g4.trans h6, g5.trans h7⟩

theorem hexLoop_inv : ∀ (f : Nat) (l l3 : PSLEX) (s r : List Char),
    LineCount l → AtBreak l → (∃ p, OnLine l p) →
    PSLEX.hexLoop f l s = (l3, .ok r) →
    LineCount l3 ∧ AtBreak l3 ∧ (∃ p, OnLine l3 p) ∧ l3.str = l.str ∧ l3.lnbr = l.lnbr := by
  intro f
  induction f with
  | zero =>
    intro l l3 s r _ _ _ h
    simp [PSLEX.hexLoop] at h
  | succ f ih =>
    intro l l3 s r hc hb hon h
    rw [PSLEX.hexLoop] at h
    cases hscan : hexScan (l.tks.drop l.idx) s with
    | closed s1 rest =>
      rw [hscan] at h
      simp only [Prod.mk.injEq, Except.ok.injEq] at h
      obtain ⟨hl3, _⟩ := h
      subst hl3
      exact ⟨hc, hb, hon, rfl, rfl⟩
    | invalid u rest =>
      rw [hscan] at h
      simp at h
    | lineEnd s1 =>
      rw [hscan] at h
      simp only at h
      by_cases hr : ({ l with idx := l.tks.length } : PSLEX).rest = []
      · obtain ⟨h1, _⟩ := next_false_inv { l with idx := l.tks.length } hc hb hr
        cases hn : ({ l with idx := l.tks.length } : PSLEX)._next with
        | mk b2 l2 =>
          rw [hn] at h h1
          simp only at h1
          subst h1
          simp at h
      · obtain ⟨h1, h2, h3, h4, h5, h6, h7, _⟩ :=
          next_true_inv { l with idx := l.tks.length } hc hb hr
        cases hn : ({ l with idx := l.tks.length } : PSLEX)._next with
        | mk b2 l2 =>
          rw [hn] at h h1 h2 h3 h4 h5 h6 h7
          simp only at h1 h2 h3 h4 h5 h6 h7
          subst h1
          simp only at h
          obtain ⟨g1, g2, g3, g4, g5⟩ := ih l2 l3 _ r h3 h4 ⟨_, h2⟩ h
          exact ⟨g1, g2, g3, g4.trans h6, g5.trans h7⟩

theorem init_inv (src : String) : LexInv (PSLEX.init src) := by
  refine ⟨?_, Or.inl rfl, ?_⟩
  · intro _
    show 0 = (List.take 0 src.data).count '\n'
    simp
  · intro h
    obtain ⟨t, ht, _⟩ := h
    simp [PSLEX.init] at ht

/-- One call of `next` that does not throw: the invariant is kept, and a token
that is returned was found by the loop over blanks, comments and lines at the
index `idx` of a line of the text, whose index in the text is recorded in
`lnbr`. -/
theorem next_inv (l : PSLEX) (hinv : LexInv l) :
    (∀ r, l.next.2 = .ok r → LexInv l.next.1 ∧ l.next.1.str = l.str) ∧
    (∀ tok, l.next.2 = .ok (some tok) → ∃ l1 p t0,
      PSLEX.seek (l.str.length + 2) { l with idx := skipBlanks l.tks l.idx } = .ok (true, l1) ∧
      OnLine l1 p ∧ l1.str = l.str ∧ l1.tks[l1.idx]? = some t0 ∧
      (t0 = "(" ∨ t0 = "<" ∨ tok = t0) ∧ l.next.1.lnbr = lineNo l.str p) := by
  obtain ⟨hc, hb, hon⟩ := hinv
  unfold PSLEX.next
  cases hs : PSLEX.seek (l.str.length + 2) { l with idx := skipBlanks l.tks l.idx } with
  | error e =>
    simp
  | ok pr =>
    obtain ⟨b, l1⟩ := pr
    obtain ⟨g1, g2, g3, g4, g5, g6⟩ :=
      seek_inv _ { l with idx := skipBlanks l.tks l.idx } l1 b hc hb hon hs
    cases b with
    | false =>
      simp only [Except.ok.injEq, Option.some.injEq]
      refine ⟨fun r _ => ⟨⟨g1, g2, fun hx => absurd hx (g6 rfl)⟩, g3⟩, ?_⟩
      intro tok h
      exact absurd h (by simp)
    | true =>
      obtain ⟨⟨p, hp⟩, t0, ht0, hne⟩ := g5 rfl
      have hlno : l1.lnr = lineNo l.str p := by
        rw [hp.2.2.2.1, g3]
      simp only [ht0]
      by_cases hpar : t0 = "("
      · rw [if_pos hpar]
        cases hloop : PSLEX.parenLoop (l1.str.length + 2)
            { l1 with lnbr := l1.lnr, idx := l1.idx + 1 } "" 1 with
        | mk l3 res =>
          cases res with
          | error e => simp
          | ok s =>
            obtain ⟨k1, k2, k3, k4, k5⟩ := parenLoop_inv _
              { l1 with lnbr := l1.lnr, idx := l1.idx + 1 } l3 _ s _ g1 g2 ⟨p, hp⟩ hloop
            simp only [Except.ok.injEq, Option.some.injEq]
            refine ⟨fun r _ => ⟨⟨k1, k2, fun _ => k3⟩, k4.trans g3⟩, ?_⟩
            intro tok _
            exact ⟨l1, p, t0, rfl, hp, g3, ht0, Or.inl hpar, k5.trans hlno⟩
      · rw [if_neg hpar]
        by_cases hhex : t0 = "<"
        · rw [if_pos hhex]
          cases hloop : PSLEX.hexLoop (l1.str.length + 2)
              { l1 with lnbr := l1.lnr, idx := l1.idx + 1 } [] with
          | mk l3 res =>
            cases res with
            | error e => simp
            | ok s =>
              obtain ⟨k1, k2, k3, k4, k5⟩ := hexLoop_inv _
                { l1 with lnbr := l1.lnr, idx := l1.idx + 1 } l3 _ s g1 g2 ⟨p, hp⟩ hloop
              simp only [Except.ok.injEq, Option.some.injEq]
              refine ⟨fun r _ => ⟨⟨k1, k2, fun _ => k3⟩, k4.trans g3⟩, ?_⟩
              intro tok _
              exact ⟨l1, p, t0, rfl, hp, g3, ht0, Or.inr (Or.inl hhex), k5.trans hlno⟩
        · rw [if_neg hhex]
          simp only [Except.ok.injEq, Option.some.injEq]
          refine ⟨fun r _ => ⟨⟨g1, g2, fun _ => ⟨p, hp⟩⟩, g3⟩, ?_⟩
          intro tok h
          exact ⟨l1, p, t0, rfl, hp, g3, ht0, Or.inr (Or.inr h.symm), hlno⟩

theorem next_true_shrink (l : PSLEX) (hne : l.rest ≠ []) :
    l._next.1 = true ∧
    (l._next.2.str.drop l._next.2.off).length < (l.str.drop l.off).length := by
  have hp := rest_pos_lt l hne
  rw [next_true l hne]
  refine ⟨rfl, ?_⟩
  show (l.str.drop (l.off + l.breaks + l.line.length + 1)).length < (l.str.drop l.off).length
  rw [List.length_drop, List.length_drop]
  omega

theorem next_false_fst (l : PSLEX) (h : l.rest = []) : l._next.1 = false := by
  rw [next_false l h]

theorem seek_fuel : ∀ (f : Nat) (l : PSLEX), (l.str.drop l.off).length < f →
    ∀ e, PSLEX.seek f l ≠ .error e := by
  intro f
  induction f with
  | zero =>
    intro l h
    exact absurd h (Nat.not_lt_zero _)
  | succ f ih =>
    intro l h e
    rw [PSLEX.seek]
    split
    · by_cases hr : l.rest = []
      · have h1 := next_false_fst l hr
        cases hn : l._next with
        | mk b2 l2 =>
          rw [hn] at h1
          simp only at h1
          subst h1
          simp
      · obtain ⟨h1, h2⟩ := next_true_shrink l hr
        cases hn : l._next with
        | mk b2 l2 =>
          rw [hn] at h1 h2
          simp only at h1 h2
          subst h1
          simp only
          exact ih { l2 with idx := skipBlanks l2.tks l2.idx } (by
            show (l2.str.drop l2.off).length < f
            omega) e
    · simp

theorem parenLoop_fuel : ∀ (f : Nat) (l : PSLEX) (s : String) (lv : Int),
    (l.str.drop l.off).length < f → (PSLEX.parenLoop f l s lv).2 ≠ .error .fuel := by
  intro f
  induction f with
  | zero =>
    intro l s lv h
    exact absurd h (Nat.not_lt_zero _)
  | succ f ih =>
    intro l s lv h
    rw [PSLEX.parenLoop]
    cases hscan : parenScan (l.tks.drop l.idx) s lv with
    | closed s1 rest => simp
    | lineEnd s1 l1 => simp
    | escEnd s1 lv1 =>
      simp only
      by_cases hr : ({ l with idx := l.tks.length } : PSLEX).rest = []
      · have h1 := next_false_fst { l with idx := l.tks.length } hr
        cases hn : ({ l with idx := l.tks.length } : PSLEX)._next with
        | mk b2 l2 =>
          rw [hn] at h1
          simp only at h1
          subst h1
          simp
      · obtain ⟨h1, h2⟩ := next_true_shrink { l with idx := l.tks.length } hr
        cases hn : ({ l with idx := l.tks.length } : PSLEX)._next with
        | mk b2 l2 =>
          rw [hn] at h1 h2
          simp only at h1 h2
          subst h1
          simp only
          exact ih { l2 with idx := 1 } _ _ (by
            show (l2.str.drop l2.off).length < f
            omega)

theorem hexLoop_fuel : ∀ (f : Nat) (l : PSLEX) (s : List Char),
    (l.str.drop l.off).length < f → (PSLEX.hexLoop f l s).2 ≠ .error .fuel := by
  intro f
  induction f with
  | zero =>
    intro l s h
    exact absurd h (Nat.not_lt_zero _)
  | succ f ih =>
    intro l s h
    rw [PSLEX.hexLoop]
    cases hscan : hexScan (l.tks.drop l.idx) s with
    | closed s1 rest => simp
    | invalid u rest => simp
    | lineEnd s1 =>
      simp only
      by_cases hr : ({ l with idx := l.tks.length } : PSLEX).rest = []
      · have h1 := next_false_fst { l with idx := l.tks.length } hr
        cases hn : ({ l with idx := l.tks.length } : PSLEX)._next with
        | mk b2 l2 =>
          rw [hn] at h1
          simp only at h1
          subst h1
          simp
      · obtain ⟨h1, h2⟩ := next_true_shrink { l with idx := l.tks.length } hr
        cases hn : ({ l with idx := l.tks.length } : PSLEX)._next with
        | mk b2 l2 =>
          rw [hn] at h1 h2
          simp only at h1 h2
          subst h1
          simp only
          exact ih l2 _ (by omega)

/-- The bounds on the loops in `next` are never reached: a call of `next`
returns a token, or `null`, or throws as the source does. -/
theorem next_fuel (l : PSLEX) : l.next.2 ≠ .error .fuel := by
  unfold PSLEX.next
  cases hs : PSLEX.seek (l.str.length + 2) { l with idx := skipBlanks l.tks l.idx } with
  | error e =>
    exact absurd hs (seek_fuel _ _ (by
      show (l.str.drop l.off).length < _
      rw [List.length_drop]
      omega) e)
  | ok pr =>
    obtain ⟨b, l1⟩ := pr
    cases b with
    | false => simp
    | true =>
      simp only
      cases hg : l1.tks[l1.idx]? with
      | none => simp
      | some t =>
        simp only
        split
        · have := parenLoop_fuel (l1.str.length + 2)
            { l1 with lnbr := l1.lnr, idx := l1.idx + 1 } "" 1 (by
              show (l1.str.drop l1.off).length < _
              rw [List.length_drop]
              omega)
          cases hloop : PSLEX.parenLoop (l1.str.length + 2)
              { l1 with lnbr := l1.lnr, idx := l1.idx + 1 } "" 1 with
          | mk l3 res =>
            rw [hloop] at this
            cases res with
            | error e =>
              simp only at this ⊢
              intro h
              exact this (by rw [Except.error.inj h])
            | ok s => simp
        · split
          · have := hexLoop_fuel (l1.str.length + 2)
              { l1 with lnbr := l1.lnr, idx := l1.idx + 1 } [] (by
                show (l1.str.drop l1.off).length < _
                rw [List.length_drop]
                omega)
            cases hloop : PSLEX.hexLoop (l1.str.length + 2)
                { l1 with lnbr := l1.lnr, idx := l1.idx + 1 } [] with
            | mk l3 res =>
              rw [hloop] at this
              cases res with
              | error e =>
                simp only at this ⊢
                intro h
                exact this (by rw [Except.error.inj h])
              | ok s => simp
          · simp

theorem reach_inv : ∀ (n : Nat) (l l2 : PSLEX), LexInv l → PSLEX.reach n l = some l2 →
    LexInv l2 ∧ l2.str = l.str := by
  intro n
  induction n with
  | zero =>
    intro l l2 hinv h
    simp only [PSLEX.reach, Option.some.injEq] at h
    subst h
    exact ⟨hinv, rfl⟩
  | succ n ih =>
    intro l l2 hinv h
    rw [PSLEX.reach] at h
    have hn := (next_inv l hinv).1
    cases hx : l.next with
    | mk l1 res =>
      rw [hx] at h hn
      cases res with
      | error e => simp at h
      | ok r =>
        simp only at h hn
        obtain ⟨h1, h2⟩ := hn r rfl
        obtain ⟨h3, h4⟩ := ih l1 l2 h1 h
        exact ⟨h3, h4.trans h2⟩

theorem takeWhile_prefix_get {α : Type} (q : α → Bool) : ∀ (x : List α) (i : Nat),
    i < (x.takeWhile q).length → ∃ c, x[i]? = some c ∧ q c = true := by
  intro x
  induction x with
  | nil => intro i h; simp at h
  | cons a x ih =>
    intro i h
    by_cases ha : q a = true
    · rw [List.takeWhile_cons_of_pos ha] at h
      cases i with
      | zero => exact ⟨a, by simp, ha⟩
      | succ i =>
        simp only [List.length_cons, Nat.add_lt_add_iff_right] at h
        obtain ⟨c, hc, hq⟩ := ih i h
        exact ⟨c, by simpa using hc, hq⟩
    · rw [List.takeWhile_cons_of_neg ha] at h
      simp at h

/-- A line is determined by the position behind it: two lines that start at
the text start or behind a line break and end at the same position are the
same line. -/
theorem line_start_unique (x : List Char) (p q : Nat)
    (hq : q = 0 ∨ x[q - 1]? = some '\n')
    (h : p + (lineAt x p).length = q + (lineAt x q).length) (hpq : p < q) : False := by
  rcases hq with hq | hq
  · omega
  · have hlen : q - 1 - p < ((x.drop p).takeWhile (fun c => c != '\n')).length := by
      unfold lineAt at h
      omega
    obtain ⟨c, hc, hne⟩ := takeWhile_prefix_get _ _ _ hlen
    rw [List.getElem?_drop] at hc
    have e : p + (q - 1 - p) = q - 1 := by omega
    rw [e, hq] at hc
    simp only [Option.some.injEq] at hc
    subst hc
    simp at hne

/-- C30.  For every source text `src` and every token that `next` returns,
after any number of calls that have not thrown: the call does not stop at the
bound of the model, and when it returns the token `tok`, the loop of `next`
over blanks, comments and lines (`seek`) has stopped on the raw token `t0` with
which the token begins (`tok` itself, or the opening `(` or `<` of a string),
at the index `idx` of the line at hand.  This line is the line of the text
that starts at a position `p` (the start of the text or behind a line break):
the lexer has read the text up to `off`, the position directly behind the line
break that ends this line (no other line of the text ends there), and its
tokens `tks` are those of this line.  The line number recorded in `lnbr` is the
1-based index of this line in the text: one more than the number of line
breaks before `p`. -/
theorem token_line_numbers (src : String) (n : Nat) (l : PSLEX)
    (hr : PSLEX.reach n (PSLEX.init src) = some l) :
    l.next.2 ≠ .error .fuel ∧
    ∀ tok, l.next.2 = .ok (some tok) → ∃ l1 p t0,
      PSLEX.seek (l.str.length + 2) { l with idx := skipBlanks l.tks l.idx } = .ok (true, l1) ∧
      (p < src.data.length ∧ (p = 0 ∨ src.data[p - 1]? = some '\n')) ∧
      l1.off = p + (lineAt src.data p).length + 1 ∧
      (∀ q, (q = 0 ∨ src.data[q - 1]? = some '\n') →
        l1.off = q + (lineAt src.data q).length + 1 → q = p) ∧
      l1.tks = tokenize (lineAt src.data p) ∧
      l1.tks[l1.idx]? = some t0 ∧ (t0 = "(" ∨ t0 = "<" ∨ tok = t0) ∧
      l.next.1.lnbr = (src.data.take p).count '\n' + 1 := by
  obtain ⟨hinv, hstr⟩ := reach_inv n _ l (init_inv src) hr
  have hs : l.str = src.data := hstr
  refine ⟨next_fuel l, ?_⟩
  intro tok ht
  obtain ⟨l1, p, t0, h1, h2, h3, h4, h5, h6⟩ := (next_inv l hinv).2 tok ht
  have hoff : l1.off = p + (lineAt src.data p).length + 1 := by
    rw [← hs, ← h3]
    exact h2.2.2.2.2
  have hstart : p = 0 ∨ src.data[p - 1]? = some '\n' := by
    rw [← hs, ← h3]
    exact h2.2.1
  refine ⟨l1, p, t0, h1, ?_, hoff, ?_, ?_, h4, h5, ?_⟩
  · rw [← hs, ← h3]
    exact ⟨h2.1, h2.2.1⟩
  · intro q hq hoq
    rcases Nat.lt_trichotomy q p with hlt | heq | hgt
    · exact absurd (line_start_unique src.data q p hstart (by omega) hlt) id
    · exact heq
    · exact absurd (line_start_unique src.data p q hq (by omega) hgt) id
  · rw [← hs, ← h3]
    exact h2.2.2.1
  · rw [← hs]
    exact h6

theorem token_line_numbers_witness :
    PSLEX.reach 3 (PSLEX.init lineWitnessText) = some lineWitness ∧
    ((PSLEX.init lineWitnessText).next.1.lnbr = 1 ∧
      (PSLEX.init lineWitnessText).next.1.next.1.lnbr = 2 ∧ lineWitness.lnbr = 6 ∧
      lineWitness.next.2 = .ok (some "(bc)") ∧ lineWitness.next.1.lnbr = 6 ∧
      lineWitness.next.1.next.2 = .ok (some "d") ∧ lineWitness.next.1.next.1.lnbr = 7) ∧
    (lineWitness.next.2 ≠ .error .fuel ∧
     ∀ tok, lineWitness.next.2 = .ok (some tok) → ∃ l1 p t0,
      PSLEX.seek (lineWitness.str.length + 2)
        { lineWitness with idx := skipBlanks lineWitness.tks lineWitness.idx } = .ok (true, l1) ∧
      (p < lineWitnessText.data.length ∧ (p = 0 ∨ lineWitnessText.data[p - 1]? = some '\n')) ∧
      l1.off = p + (lineAt lineWitnessText.data p).length + 1 ∧
      (∀ q, (q = 0 ∨ lineWitnessText.data[q - 1]? = some '\n') →
        l1.off = q + (lineAt lineWitnessText.data q).length + 1 → q = p) ∧
      l1.tks = tokenize (lineAt lineWitnessText.data p) ∧
      l1.tks[l1.idx]? = some t0 ∧ (t0 = "(" ∨ t0 = "<" ∨ tok = t0) ∧
      lineWitness.next.1.lnbr = (lineWitnessText.data.take p).count '\n' + 1) :=
  ⟨by decide, by decide, token_line_numbers lineWitnessText 3 lineWitness (by decide)⟩

/-! ## Pushed token streams -/

theorem next_stack_cons (m : Lexer) (x : List Token) (rest : List (List Token))
    (h : m.stack = x :: rest) :
    m.next.2.stack = x.drop 1 :: rest ∧ m.next.2.raw = m.raw ∧
    m.next.1 = (x.head?).map (·.token) ∧
    (∀ t, x.head? = some t → m.next.2.lnbr = t.lnbr) ∧ (x = [] → m.next.2 = m) := by
  obtain ⟨st, raw, tok, ln⟩ := m
  simp only at h
  subst h
  cases x with
  | nil => exact ⟨rfl, rfl, rfl, by intro t ht; simp at ht, fun _ => rfl⟩
  | cons t ts =>
    refine ⟨rfl, rfl, rfl, ?_, by intro hx; simp at hx⟩
    intro t1 ht
    simp only [List.head?_cons, Option.some.injEq] at ht
    subst ht
    rfl

theorem nexts_stack : ∀ (k : Nat) (m : Lexer) (x : List Token) (rest : List (List Token)),
    m.stack = x :: rest →
    (Lexer.nexts k m).stack = x.drop k :: rest ∧ (Lexer.nexts k m).raw = m.raw := by
  intro k
  induction k with
  | zero =>
    intro m x rest h
    exact ⟨by simpa [Lexer.nexts] using h, rfl⟩
  | succ k ih =>
    intro m x rest h
    obtain ⟨h1, h2, _⟩ := next_stack_cons m x rest h
    obtain ⟨h3, h4⟩ := ih m.next.2 (x.drop 1) rest h1
    refine ⟨?_, ?_⟩
    · show (Lexer.nexts k m.next.2).stack = _
      rw [h3, List.drop_drop, Nat.add_comm]
    · show (Lexer.nexts k m.next.2).raw = _
      rw [h4, h2]

theorem peek_stack_cons (m : Lexer) (x : List Token) (rest : List (List Token))
    (h : m.stack = x :: rest) :
    m.peek.1 = (x.head?).map (·.token) ∧ m.peek.2.stack = m.stack ∧ m.peek.2.raw = m.raw := by
  obtain ⟨st, raw, tok, ln⟩ := m
  simp only at h
  subst h
  cases x with
  | nil => exact ⟨rfl, rfl, rfl⟩
  | cons t ts => exact ⟨rfl, rfl, rfl⟩

/-- C31.  For every lexer `l` and every token stream `ts`, after `push(ts)`:
the call of `next` number `k` (from 0) returns the token `ts[k]` and records its
line number; once the stream is used up, `next` returns `null` and leaves the
lexer as it is, the outer streams and the raw text included; `peek` returns
what the following `next` returns and removes nothing, and it returns `null`
when no stream is pushed; after `pop`, at any point, the streams and the raw
text are those of `l`, so that `next` returns what it would have returned
before the `push`. -/
theorem token_stream_override (l : Lexer) (ts : List Token) :
    (∀ k t, ts[k]? = some t →
      (Lexer.nexts k (l.push ts)).next.1 = some t.token ∧
      (Lexer.nexts k (l.push ts)).next.2.lnbr = t.lnbr) ∧
    (∀ k, ts.length ≤ k →
      (Lexer.nexts k (l.push ts)).next.1 = none ∧
      (Lexer.nexts k (l.push ts)).next.2 = Lexer.nexts k (l.push ts)) ∧
    (∀ k, (Lexer.nexts k (l.push ts)).peek.1 = (Lexer.nexts k (l.push ts)).next.1 ∧
      (Lexer.nexts k (l.push ts)).peek.2.stack = (Lexer.nexts k (l.push ts)).stack ∧
      (Lexer.nexts k (l.push ts)).peek.2.raw = (Lexer.nexts k (l.push ts)).raw ∧
      (Lexer.nexts k (l.push ts)).peek.2.next.1 = (Lexer.nexts k (l.push ts)).next.1) ∧
    (l.stack = [] → l.peek.1 = none) ∧
    (∀ k, (Lexer.nexts k (l.push ts)).pop.stack = l.stack ∧
      (Lexer.nexts k (l.push ts)).pop.raw = l.raw ∧
      (Lexer.nexts k (l.push ts)).pop.next.1 = l.next.1) := by
  have hpush : (l.push ts).stack = ts :: l.stack := rfl
  have hst := fun k => nexts_stack k (l.push ts) ts l.stack hpush
  refine ⟨?_, ?_, ?_, ?_, ?_⟩
  · intro k t ht
    obtain ⟨h1, _⟩ := hst k
    obtain ⟨_, _, h4, h5, _⟩ := next_stack_cons _ _ _ h1
    have hh : (ts.drop k).head? = some t := by
      rw [List.head?_drop]
      exact ht
    exact ⟨by rw [h4, hh]; rfl, h5 t hh⟩
  · intro k hk
    obtain ⟨h1, _⟩ := hst k
    obtain ⟨_, _, h4, _, h6⟩ := next_stack_cons _ _ _ h1
    have hd : ts.drop k = [] := List.drop_eq_nil_of_le hk
    exact ⟨by rw [h4, hd]; rfl, h6 hd⟩
  · intro k
    obtain ⟨h1, _⟩ := hst k
    obtain ⟨_, _, h4, _, _⟩ := next_stack_cons _ _ _ h1
    obtain ⟨p1, p2, p3⟩ := peek_stack_cons _ _ _ h1
    refine ⟨by rw [p1, h4], p2, p3, ?_⟩
    obtain ⟨_, _, h7, _, _⟩ := next_stack_cons (Lexer.nexts k (l.push ts)).peek.2 _ _ (p2.trans h1)
    rw [h7, h4]
  · intro h
    unfold Lexer.peek
    rw [h]
  · intro k
    obtain ⟨h1, h2⟩ := hst k
    have hs : (Lexer.nexts k (l.push ts)).pop.stack = l.stack := by
      show (Lexer.nexts k (l.push ts)).stack.tail = _
      rw [h1]
      rfl
    have hr : (Lexer.nexts k (l.push ts)).pop.raw = l.raw := by
      show (Lexer.nexts k (l.push ts)).raw = _
      rw [h2]
      rfl
    refine ⟨hs, hr, ?_⟩
    unfold Lexer.next
    rw [hs, hr]
    cases l.stack with
    | nil =>
      simp only
      cases l.raw <;> rfl
    | cons x rest =>
      cases x <;> rfl

theorem token_stream_override_witness :
    streamWitnessTokens[1]? = some { token := "b", lnbr := 4 } ∧
    streamWitnessTokens.length ≤ 2 ∧
    ((Lexer.nexts 1 (streamWitness.push streamWitnessTokens)).next.1 = some "b" ∧
      (Lexer.nexts 1 (streamWitness.push streamWitnessTokens)).next.2.lnbr = 4) ∧
    ((Lexer.nexts 2 (streamWitness.push streamWitnessTokens)).next.1 = none ∧
      (Lexer.nexts 2 (streamWitness.push streamWitnessTokens)).next.2 =
        Lexer.nexts 2 (streamWitness.push streamWitnessTokens)) ∧
    (Lexer.nexts 2 (streamWitness.push streamWitnessTokens)).pop.next.1 = some "outer" :=
  ⟨by decide, by decide,
    (token_stream_override streamWitness streamWitnessTokens).1 1 (Token.mk "b" 4) (by decide),
    (token_stream_override streamWitness streamWitnessTokens).2.1 2 (by decide),
    by decide⟩

/-! ## Inputs on which the code leaves what the claims say -/

/-- C37, the code at the failing input.  A parenthesized literal that is
closed on the next line makes `next` end in a `TypeError`: when the tokens of
the line are used up, the source calls the result of `_next` as a function.
Only a backslash at the end of the line lets the string go on: the token then
carries the line number of the opening parenthesis. -/
theorem multiline_paren_literal :
    (PSLEX.init "(abc\ndef) x").next.2 =
      .error (.typeError "_next.call(...) is not a function") ∧
    (PSLEX.init "(abc\\\ndef) x").next.2 = .ok (some "(abcdef)") ∧
    (PSLEX.init "(abc\\\ndef) x").next.1.lnbr = 1 := by
  decide!

/-- C39, the code at the failing input.  The scan of the lines of a dictionary
body ends with a verdict for the empty body and for a body of whole key/value
groups; for a body that is a key without a value, a body of declarations only,
and a body that ends in a declaration, it reads `lines[i].code` past the last
line, which is a `TypeError`. -/
theorem dict_scan_reads_past_end :
    dictScan 1 (codeLines []) = some true ∧
    dictScan 3 (codeLines ["$k[$j++]=\"a\";", "$k[$j++]=1;"]) = some true ∧
    dictScan 2 (codeLines ["$k[$j++]=\"a\";"]) = none ∧
    dictScan 2 (codeLines ["var _0=$0.x;"]) = none ∧
    dictScan 4 (codeLines ["$k[$j++]=\"a\";", "$k[$j++]=1;", "var _0=$0.x;"]) = none := by
  decide!

/-- C40, the code at the failing input.  `parens` returns a negative number
literal as it is, so `3 -5 sub` is compiled to `3--5` and `-5 neg` to `--5`:
the operator and the sign of the operand form the token `--`. -/
theorem sub_negative_literal :
    parens "-5" = "-5" ∧
    PSCmain 40 { devar := false, coverage := false } progSubNegative =
      .ok "$0.f=function()\x7b\n$k[$j++]=3--5;/*1*/\n\x7d;\n" ∧
    PSCmain 40 { devar := false, coverage := false } progNegNegative =
      .ok "$0.f=function()\x7b\n$k[$j++]=--5;/*1*/\n\x7d;\n" := by
  decide!

/-- C36, the code at the failing input.  In `dup 5 true {exch} if` the entry
below the two top entries is the variable `_0` as well: the swap assigns to
`_0`, and the three pushes leave `5 5 x` where the source leaves `x 5 x`. -/
theorem exch_if_aliased_variable :
    PSCmain 40 { devar := false, coverage := false } progExchIf =
      .ok ("$0.f=function()\x7b\nvar _0=$k[--$j];/*1*/\nvar _1=5;/*1*/\nif(true)\x7b/*1*/\n" ++
           "var _=_1;/*1*/\n_1=_0;/*1*/\n_0=_;/*1*/\n\x7d/*1*/\n$k[$j++]=_0;/*1*/\n" ++
           "$k[$j++]=_0;/*1*/\n$k[$j++]=_1;/*1*/\n\x7d;\n") := by
  decide!

/-- C38, the code at the failing input.  The declaration of `_1` has no use;
the characters `_1` inside the identifier `_10` are counted as its use, the
declaration is eliminated and `_10` is rewritten to `$1.a0`. -/
theorem devar_rewrites_longer_identifier :
    lineCodes (devar (codeLines ["var _1=$1.a;", "$1.b=_10;"])) = ["$1.b=$1.a0;"] := by
  decide!

/-- C33, the code at the failing input.  The use of `_0` is counted on the
line without its string literals, but the replacement is made at the first
occurrence of the characters `_0` in the line as it is, here inside the string
literal: the use itself stays and the declaration is removed.  A declaration
with a second use behind a line that starts with a closing brace, or behind an
assignment to the declared expression, is removed as well. -/
theorem devar_substitutes_inside_string :
    lineCodes (devar (codeLines ["var _0=$1.a;", "$1.b=\"_0\"+_0;"])) =
      ["$1.b=\"$1.a\"+_0;"] ∧
    lineCodes (devar (codeLines ["var _0=$1.a;", "$1.b=_0;", "\x7d", "$1.c=_0;"])) =
      ["$1.b=$1.a;", "\x7d", "$1.c=_0;"] ∧
    lineCodes (devar (codeLines ["var _0=$1.a;", "$1.b=_0;", "$1.a=5;", "$1.c=_0;"])) =
      ["$1.b=$1.a;", "$1.a=5;", "$1.c=_0;"] := by
  decide!

/-- C34, the code at the failing input.  With the names `xy` and `xz` the
declaration `var _0=$0.xy;` of the swap is kept, because the line
`$0.xy=_1;` assigns to its expression.  With the names `x-y` and `x-z` the
expression is `$0["x-y"]`: the assignment is looked for on the line without
its string literals, where it reads `$0[]=`, and is not seen; the declaration
is eliminated and both names end with the value of `x-z`. -/
theorem devar_swap_with_quoted_keys :
    PSCmain 60 { devar := true, coverage := false } progSwapPlain =
      .ok ("$0.xy=1;\n$0.xz=2;\n$0.f=function()\x7b\nvar _0=$0.xy;/*1*/\n$0.xy=$0.xz;/*1*/\n" ++
           "$0.xz=_0;/*1*/\n\x7d;\n") ∧
    PSCmain 60 { devar := false, coverage := false } progSwapQuoted =
      .ok ("$0[\"x-y\"]=1;\n$0[\"x-z\"]=2;\n$0.f=function()\x7b\nvar _0=$0[\"x-y\"];/*1*/\n" ++
           "var _1=$0[\"x-z\"];/*1*/\n$0[\"x-y\"]=_1;/*1*/\n$0[\"x-z\"]=_0;/*1*/\n\x7d;\n") ∧
    PSCmain 60 { devar := true, coverage := false } progSwapQuoted =
      .ok ("$0[\"x-y\"]=1;\n$0[\"x-z\"]=2;\n$0.f=function()\x7b\n" ++
           "$0[\"x-y\"]=$0[\"x-z\"];/*1*/\n$0[\"x-z\"]=$0[\"x-y\"];/*1*/\n\x7d;\n") := by
  decide!

/-! ## The static detection applied to the output of a static rewrite -/

theorem starLoop_cls_then {α : Type} (p : Char → Bool) (K : List Char → Caps → Option α) (v : α)
    (c : Caps) (r : List Char) (hr : ∀ x t, r = x :: t → p x = false) (hK : K r c = some v)
    (ds : List Char) :
    ∀ n : Nat, ds.all p = true → ds.length < n →
      RE.starLoop (fun s1 c1 k1 => RE.run (RE.cls p) s1 c1 k1) n (ds ++ r) c K = some v := by
  induction ds with
  | nil =>
    intro n _ hn
    cases n with
    | zero => simp at hn
    | succ n =>
      cases r with
      | nil => simpa [RE.starLoop, RE.run] using hK
      | cons x t =>
        have hx := hr x t rfl
        simp only [List.nil_append, RE.starLoop, RE.run, hx, Bool.false_eq_true, if_false]
        exact hK
  | cons d ds ih =>
    intro n hall hn
    cases n with
    | zero => simp at hn
    | succ n =>
      simp only [List.all_cons, Bool.and_eq_true] at hall
      simp only [List.length_cons] at hn
      have ih1 := ih n hall.2 (by omega)
      simp only [RE.run] at ih1
      simp only [List.cons_append, RE.starLoop, RE.run, hall.1, if_true, List.length_cons,
        Nat.lt_succ_self]
      rw [ih1]

theorem tvar_data (n : Nat) : (tvar n).data = '_' :: b62Loop n n [] := rfl

theorem tvar_no_eq (n : Nat) : (b62Loop n n []).all (fun c => c != '=') = true := by
  unfold b62Loop
  exact radixLoop_all 62 b62Char (fun c => c != '=') (by omega) (by decide) n n []
    (le_refl _) rfl

theorem constructionCode_decl (n : Nat) (code : String) :
    RE.testStart reVarDecl (constructionCode n code) = true := by
  have hd : (constructionCode n code).data =
      "var ".data ++ ('_' :: (b62Loop n n [] ++ ('=' :: ("$a([" ++ code ++ "]);").data))) := by
    unfold constructionCode
    simp [String.data_append, tvar_data]
  unfold RE.testStart RE.execStart reVarDecl
  rw [hd]
  simp only [RE.cat]
  rw [run_seq, run_lit_append]
  unfold RE.plus
  rw [run_seq, run_seq, run_cls_cons, if_pos (by decide), run_star]
  rw [starLoop_cls_then (fun c => c != '=') _ ((("$a([" ++ code ++ "]);").data), [])
    [] ('=' :: ("$a([" ++ code ++ "]);").data)
    (by intro x t h; simp only [List.cons.injEq] at h; rw [← h.1]; rfl)
    (by simp [RE.run]) _ _ (tvar_no_eq n) (by rw [List.length_append]; omega)]
  rfl

theorem declLines_all (lines : List Line) : (declLines lines).all isDeclLine = true := by
  unfold declLines
  rw [List.all_eq_true]
  intro l hl
  exact (List.mem_filter.mp hl).2

theorem arrayBuild_decls : ∀ (out : List Line) (code : String) (s : PSC),
    out.all isDeclLine = true →
    arrayBuild out code s = .ok (code, out.foldl (fun acc l => emitLine l acc) s) := by
  intro out
  induction out with
  | nil => intro code s _; rfl
  | cons l ls ih =>
    intro code s h
    simp only [List.all_cons, Bool.and_eq_true] at h
    obtain ⟨_, _, h3, _⟩ := decl_line_tests l h.1
    unfold arrayBuild
    rw [if_pos h3, ih _ _ h.2]
    rfl

theorem staticArrayOutput_all (lines : List Line) (n : Nat)
    (hc : RE.testStart reVarPop (constructionCode n (joinComma (staticExprs lines))) = false) :
    (staticArrayOutput lines n).all isDeclLine = true := by
  unfold staticArrayOutput
  rw [List.all_append, declLines_all]
  simp only [List.all_cons, List.all_nil, Bool.and_true, Bool.true_and]
  unfold isDeclLine
  simp only
  rw [constructionCode_decl, hc]
  rfl

/-- In `[ [ 1 2 ] pop ]` the lines of the body of the outer literal are the
output of the rewrite of the inner one, the line `var _0=$a([1,2]);`.  The
detection is applied to it: the line is hoisted as it is, in front of the
construction `var _1=$a([]);` of the outer literal. -/
theorem static_output_as_body :
    PSCmain 40 { devar := false, coverage := false } progStaticAgain =
      .ok ("$0.f=function()\x7b\nvar _0=$a([1,2]);/*1*/\nvar _1=$a([]);/*1*/\n" ++
           "$k[$j++]=_1;/*1*/\n\x7d;\n") := by
  decide!

/-- The array half of the idempotence of the static detection.  Let the
static-array detection have rewritten the body
`lines` (every line a declaration that does not read the real stack or a push)
to the declarations of the body followed by the construction line
`var T=$a([e1,...,en]);`, and let this line not read the real stack with
`$k[--$j]`.  Applied to this output, the scan of the static-array detection
passes every line again, and the build hoists every line of the output with
its text unchanged and collects no expression: the array constructed from it is
`$a([])`. -/
theorem static_detection_again (lines : List Line) (n : Nat) (s : PSC)
    (hl : lines.all isStaticLine = true)
    (hc : RE.testStart reVarPop (constructionCode n (joinComma (staticExprs lines))) = false) :
    arrayScan lines = lines.length ∧
    arrayScan (staticArrayOutput lines n) = (staticArrayOutput lines n).length ∧
    ∃ added : List Line,
      arrayBuild (staticArrayOutput lines n) "" s =
        .ok ("", { s with block := s.block ++ added
                          seq := s.seq + (staticArrayOutput lines n).length }) ∧
      added.map (·.code) = (staticArrayOutput lines n).map (·.code) := by
  have hall := staticArrayOutput_all lines n hc
  have hst : (staticArrayOutput lines n).all isStaticLine = true := by
    rw [List.all_eq_true] at hall ⊢
    intro l hm
    unfold isStaticLine
    rw [hall l hm]
    rfl
  refine ⟨arrayScan_static lines hl, arrayScan_static _ hst, ?_⟩
  obtain ⟨added, h1, h2⟩ := emitLines_state (staticArrayOutput lines n) s
  exact ⟨added, by rw [arrayBuild_decls _ _ _ hall, h1], h2⟩

/-- C32, the code at the failing input.  The static-dictionary detection
rewrites `<< /a 1 >>` to one construction line.  In `<< << /a 1 >> pop >>` this
line is the body of the outer literal: the scan of the detection steps over it
as a declaration and reads the line behind it, which does not exist, and the
compilation stops with a `TypeError` where the output is to be returned
unchanged.  The scan of the static-array detection passes the output of an
array rewrite line by line. -/
theorem static_dict_output_scanned_again :
    PSCmain 60 { devar := false, coverage := false } progStaticDictOnce =
      .ok "$0.f=function()\x7b\nvar _0=\x7b\na:1\n\x7d;/*1*/\n$k[$j++]=_0;/*1*/\n\x7d;\n" ∧
    dictScan 2 (codeLines ["var _0=\x7b\na:1\n\x7d;"]) = none ∧
    PSCmain 60 { devar := false, coverage := false } progStaticDictAgain =
      .error (.typeError "lines[i] is undefined") ∧
    arrayScan (codeLines ["var _0=$a([1,2]);"]) = 1 := by
  decide!

theorem static_detection_again_witness :
    staticAgainWitness.all isStaticLine = true ∧
    RE.testStart reVarPop (constructionCode 1 (joinComma (staticExprs staticAgainWitness))) =
      false ∧
    lineCodes (staticArrayOutput staticAgainWitness 1) = ["var _0=$0.x;", "var _1=$a([1,_0]);"] ∧
    (arrayScan staticAgainWitness = staticAgainWitness.length ∧
    arrayScan (staticArrayOutput staticAgainWitness 1) =
      (staticArrayOutput staticAgainWitness 1).length ∧
    ∃ added : List Line,
      arrayBuild (staticArrayOutput staticAgainWitness 1) "" arrayWitnessState =
        .ok ("", { arrayWitnessState with
                     block := arrayWitnessState.block ++ added
                     seq := arrayWitnessState.seq +
                       (staticArrayOutput staticAgainWitness 1).length }) ∧
      added.map (·.code) = (staticArrayOutput staticAgainWitness 1).map (·.code)) :=
  ⟨by decide!, by decide!, by decide!,
    static_detection_again staticAgainWitness 1 arrayWitnessState (by decide!) (by decide!)⟩

/-! ## The pattern of `unanorxo` -/

theorem run_chr_some {α : Type} (x : Char) (s : List Char) (c : Caps)
    (k : List Char → Caps → Option α) (v : α) (h : RE.run (RE.chr x) s c k = some v) :
    ∃ t, s = x :: t ∧ k t c = some v := by
  cases s with
  | nil => simp [RE.run] at h
  | cons y t =>
    simp only [RE.run] at h
    by_cases hxy : (x == y) = true
    · rw [if_pos hxy] at h
      have : x = y := by simpa using hxy
      exact ⟨t, by rw [this], h⟩
    · rw [if_neg hxy] at h
      cases h

theorem run_chr_cons {α : Type} (x : Char) (t : List Char) (c : Caps)
    (k : List Char → Caps → Option α) : RE.run (RE.chr x) (x :: t) c k = k t c := by
  simp [RE.run]

theorem run_lit_some {α : Type} (w : String) (s : List Char) (c : Caps)
    (k : List Char → Caps → Option α) (v : α) (h : RE.run (RE.lit w) s c k = some v) :
    ∃ t, s = w.data ++ t ∧ k t c = some v := by
  unfold RE.lit at h
  rw [run_lit] at h
  by_cases hs : startsWithL w.data s = true
  · rw [if_pos hs] at h
    exact ⟨s.drop w.data.length, startsWithL_eq _ _ hs, h⟩
  · rw [if_neg hs] at h
    cases h

theorem run_alt_some {α : Type} (a b : RE) (s : List Char) (c : Caps)
    (k : List Char → Caps → Option α) (v : α) (h : RE.run (RE.alt a b) s c k = some v) :
    RE.run a s c k = some v ∨ RE.run b s c k = some v := by
  simp only [RE.run] at h
  cases ha : RE.run a s c k with
  | none =>
    rw [ha] at h
    exact Or.inr h
  | some r =>
    rw [ha] at h
    exact Or.inl h

theorem run_alt_left {α : Type} (a b : RE) (s : List Char) (c : Caps)
    (k : List Char → Caps → Option α) (v : α) (h : RE.run a s c k = some v) :
    RE.run (RE.alt a b) s c k = some v := by
  simp only [RE.run, h]

theorem run_alt_right {α : Type} (a b : RE) (s : List Char) (c : Caps)
    (k : List Char → Caps → Option α) (h : RE.run a s c k = none) :
    RE.run (RE.alt a b) s c k = RE.run b s c k := by
  simp only [RE.run, h]

theorem starLoop_cls_some {α : Type} (p : Char → Bool) (k : List Char → Caps → Option α)
    (v : α) (c : Caps) : ∀ (n : Nat) (s : List Char),
    RE.starLoop (fun s1 c1 k1 => RE.run (RE.cls p) s1 c1 k1) n s c k = some v →
    ∃ ds r, s = ds ++ r ∧ ds.all p = true ∧ k r c = some v := by
  intro n
  induction n with
  | zero =>
    intro s h
    exact ⟨[], s, rfl, rfl, by simpa [RE.starLoop] using h⟩
  | succ n ih =>
    intro s h
    rw [RE.starLoop] at h
    cases s with
    | nil =>
      have h0 : RE.run (RE.cls p) ([] : List Char) c
          (fun s1 c1 => if s1.length < ([] : List Char).length then
            RE.starLoop (fun s1 c1 k1 => RE.run (RE.cls p) s1 c1 k1) n s1 c1 k else none) =
          none := by simp [RE.run]
      simp only [h0] at h
      exact ⟨[], [], rfl, rfl, h⟩
    | cons y t =>
      simp only [run_cls_cons] at h
      by_cases hy : p y = true
      · simp only [hy, if_true, List.length_cons, Nat.lt_succ_self] at h
        cases hr : RE.starLoop (fun s1 c1 k1 => RE.run (RE.cls p) s1 c1 k1) n t c k with
        | none =>
          rw [hr] at h
          exact ⟨[], y :: t, rfl, rfl, h⟩
        | some r =>
          rw [hr] at h
          simp only [Option.some.injEq] at h
          subst h
          obtain ⟨ds, r1, h1, h2, h3⟩ := ih t hr
          exact ⟨y :: ds, r1, by rw [h1]; rfl, by simp [hy, h2], h3⟩
      · simp only [hy, Bool.false_eq_true, if_false] at h
        exact ⟨[], y :: t, rfl, rfl, h⟩

theorem run_plus_cls_some {α : Type} (p : Char → Bool) (s : List Char) (c : Caps)
    (k : List Char → Caps → Option α) (v : α)
    (h : RE.run (RE.plus (RE.cls p)) s c k = some v) :
    ∃ ds r, s = ds ++ r ∧ ds ≠ [] ∧ ds.all p = true ∧ k r c = some v := by
  unfold RE.plus at h
  rw [run_seq] at h
  cases s with
  | nil => simp [RE.run] at h
  | cons y t =>
    rw [run_cls_cons] at h
    by_cases hy : p y = true
    · rw [if_pos hy, run_star] at h
      obtain ⟨ds, r, h1, h2, h3⟩ := starLoop_cls_some p k v c _ t h
      exact ⟨y :: ds, r, by rw [h1]; rfl, by simp, by simp [hy, h2], h3⟩
    · rw [if_neg hy] at h
      cases h

theorem run_plus_cls_then {α : Type} (p : Char → Bool) (ds r : List Char) (c : Caps)
    (k : List Char → Caps → Option α) (v : α) (hne : ds ≠ []) (hds : ds.all p = true)
    (hr : ∀ x t, r = x :: t → p x = false) (hk : k r c = some v) :
    RE.run (RE.plus (RE.cls p)) (ds ++ r) c k = some v := by
  cases ds with
  | nil => exact absurd rfl hne
  | cons d ds =>
    simp only [List.all_cons, Bool.and_eq_true] at hds
    unfold RE.plus
    rw [run_seq, List.cons_append, run_cls_cons, if_pos hds.1, run_star]
    exact starLoop_cls_then p k v c r hr hk ds _ hds.2 (by rw [List.length_append]; omega)

theorem take_length_sub (w t : List Char) :
    (w ++ t).take ((w ++ t).length - t.length) = w := by
  rw [List.length_append, Nat.add_sub_cancel, List.take_left']
  rfl

theorem helperName_cases (nm : List Char) (h : isHelperName nm = true) :
    nm = "an".data ∨ nm = "or".data ∨ nm = "xo".data := by
  unfold isHelperName at h
  simp only [Bool.or_eq_true, beq_iff_eq] at h
  rcases h with (h | h) | h
  · exact Or.inl h
  · exact Or.inr (Or.inl h)
  · exact Or.inr (Or.inr h)

theorem identText_parts (A : List Char) (h : isIdentText A = true) :
    A ≠ [] ∧ A.all isDollarWordChar = true := by
  unfold isIdentText at h
  simp only [Bool.and_eq_true, Bool.not_eq_true', List.isEmpty_eq_false_iff_exists_mem] at h
  refine ⟨?_, h.2⟩
  intro hA
  obtain ⟨x, hx⟩ := h.1
  rw [hA] at hx
  simp at hx

theorem identText_of_parts (A : List Char) (h1 : A ≠ []) (h2 : A.all isDollarWordChar = true) :
    isIdentText A = true := by
  unfold isIdentText
  rw [h2]
  cases A with
  | nil => exact absurd rfl h1
  | cons a r => rfl

/-- What a match of the pattern at the head of a text says about the text:
it begins with a call of a helper, and the captures are the name and the two
arguments. -/
theorem shape_of_exec (u rest : List Char) (caps : Caps)
    (h : RE.execStart reAnOrXo u = some (rest, caps)) :
    ∃ nm A B, u = callText nm A B ++ rest ∧ isHelperName nm = true ∧ isIdentText A = true ∧
      isIdentText B = true ∧ caps = [(3, B), (2, A), (1, nm)] := by
  unfold RE.execStart reAnOrXo at h
  simp only [RE.cat] at h
  rw [run_seq] at h
  obtain ⟨t1, hu, h⟩ := run_chr_some _ _ _ _ _ h
  rw [run_seq, run_group] at h
  have hname : ∃ nm t2, t1 = nm ++ t2 ∧ isHelperName nm = true ∧
      RE.run (RE.seq (RE.chr '(')
        (RE.seq (RE.group 2 (RE.plus (RE.cls isDollarWordChar)))
          (RE.seq (RE.chr ',')
            (RE.seq (RE.group 3 (RE.plus (RE.cls isDollarWordChar))) (RE.chr ')')))))
        t2 [(1, nm)] (fun s1 c1 => some (s1, c1)) = some (rest, caps) := by
    rcases run_alt_some _ _ _ _ _ _ h with h1 | h1
    · obtain ⟨t2, ht, hk⟩ := run_lit_some _ _ _ _ _ h1
      refine ⟨"an".data, t2, ht, by decide, ?_⟩
      try dsimp only at hk
      rw [ht, take_length_sub] at hk
      exact hk
    · rcases run_alt_some _ _ _ _ _ _ h1 with h2 | h2
      · obtain ⟨t2, ht, hk⟩ := run_lit_some _ _ _ _ _ h2
        refine ⟨"or".data, t2, ht, by decide, ?_⟩
        try dsimp only at hk
        rw [ht, take_length_sub] at hk
        exact hk
      · obtain ⟨t2, ht, hk⟩ := run_lit_some _ _ _ _ _ h2
        refine ⟨"xo".data, t2, ht, by decide, ?_⟩
        try dsimp only at hk
        rw [ht, take_length_sub] at hk
        exact hk
  obtain ⟨nm, t2, ht1, hnm, h⟩ := hname
  rw [run_seq] at h
  obtain ⟨t3, ht2, h⟩ := run_chr_some _ _ _ _ _ h
  rw [run_seq, run_group] at h
  obtain ⟨A, t4, ht3, hA1, hA2, h⟩ := run_plus_cls_some _ _ _ _ _ h
  try dsimp only at h
  rw [ht3, take_length_sub, run_seq] at h
  obtain ⟨t5, ht4, h⟩ := run_chr_some _ _ _ _ _ h
  rw [run_seq, run_group] at h
  obtain ⟨B, t6, ht5, hB1, hB2, h⟩ := run_plus_cls_some _ _ _ _ _ h
  try dsimp only at h
  rw [ht5, take_length_sub] at h
  obtain ⟨t7, ht6, h⟩ := run_chr_some _ _ _ _ _ h
  simp only [Option.some.injEq, Prod.mk.injEq] at h
  obtain ⟨hr, hc⟩ := h
  refine ⟨nm, A, B, ?_, hnm, identText_of_parts A hA1 hA2, identText_of_parts B hB1 hB2,
    hc.symm⟩
  rw [hu, ht1, ht2, ht3, ht4, ht5, ht6, hr]
  simp [callText]

theorem call_tail_ok (A B rest : List Char) (c : Caps) (hA : isIdentText A = true)
    (hB : isIdentText B = true) :
    RE.run (RE.seq (RE.chr '(')
        (RE.seq (RE.group 2 (RE.plus (RE.cls isDollarWordChar)))
          (RE.seq (RE.chr ',')
            (RE.seq (RE.group 3 (RE.plus (RE.cls isDollarWordChar))) (RE.chr ')')))))
      ('(' :: (A ++ ',' :: (B ++ ')' :: rest))) c (fun s1 c1 => some (s1, c1)) =
      some (rest, (3, B) :: (2, A) :: c) := by
  obtain ⟨hA1, hA2⟩ := identText_parts A hA
  obtain ⟨hB1, hB2⟩ := identText_parts B hB
  rw [run_seq, run_chr_cons, run_seq, run_group]
  apply run_plus_cls_then isDollarWordChar A _ c _ _ hA1 hA2
  · intro x t h
    simp only [List.cons.injEq] at h
    rw [← h.1]
    rfl
  · dsimp only
    rw [take_length_sub, run_seq, run_chr_cons, run_seq, run_group]
    apply run_plus_cls_then isDollarWordChar B _ _ _ _ hB1 hB2
    · intro x t h
      simp only [List.cons.injEq] at h
      rw [← h.1]
      rfl
    · dsimp only
      rw [take_length_sub, run_chr_cons]

/-- A call of a helper at the head of a text is matched by the pattern, with
the name and the two arguments as captures. -/
theorem exec_of_shape (nm A B rest : List Char) (hnm : isHelperName nm = true)
    (hA : isIdentText A = true) (hB : isIdentText B = true) :
    RE.execStart reAnOrXo (callText nm A B ++ rest) =
      some (rest, [(3, B), (2, A), (1, nm)]) := by
  have hd : callText nm A B ++ rest = '$' :: (nm ++ '(' :: (A ++ ',' :: (B ++ ')' :: rest))) := by
    simp [callText]
  rw [hd]
  unfold RE.execStart reAnOrXo
  simp only [RE.cat]
  rw [run_seq, run_chr_cons, run_seq, run_group]
  rcases helperName_cases nm hnm with h | h | h
  · subst h
    apply run_alt_left
    rw [run_lit_append]
    dsimp only
    rw [take_length_sub]
    exact call_tail_ok A B rest _ hA hB
  · subst h
    rw [run_alt_right _ _ _ _ _ (by
      unfold RE.lit
      rw [run_lit]
      rfl)]
    apply run_alt_left
    rw [run_lit_append]
    dsimp only
    rw [take_length_sub]
    exact call_tail_ok A B rest _ hA hB
  · subst h
    rw [run_alt_right _ _ _ _ _ (by
      unfold RE.lit
      rw [run_lit]
      rfl)]
    rw [run_alt_right _ _ _ _ _ (by
      unfold RE.lit
      rw [run_lit]
      rfl)]
    rw [run_lit_append]
    dsimp only
    rw [take_length_sub]
    exact call_tail_ok A B rest _ hA hB

/-! ## Where the pattern of `unanorxo` can match -/

theorem anOrXoRepl_caps (m nm A B : List Char) :
    anOrXoRepl m [(3, B), (2, A), (1, nm)] = replText nm A B := by
  unfold anOrXoRepl replText
  have h1 : Caps.get [(3, B), (2, A), (1, nm)] 1 = some nm := rfl
  have h2 : Caps.get [(3, B), (2, A), (1, nm)] 2 = some A := rfl
  have h3 : Caps.get [(3, B), (2, A), (1, nm)] 3 = some B := rfl
  simp only [h1, h2, h3, Option.getD_some, Option.some.injEq]

theorem searchL_none_iff (r : RE) : ∀ s : List Char,
    RE.searchL r s = none ↔ ∀ u, u <:+ s → RE.execStart r u = none := by
  intro s
  induction s with
  | nil =>
    constructor
    · intro h u hu
      have : u = [] := List.eq_nil_of_suffix_nil hu
      subst this
      cases he : RE.execStart r [] with
      | none => rfl
      | some p => simp [RE.searchL, he] at h
    · intro h
      simp [RE.searchL, h [] (List.suffix_refl _)]
  | cons c s ih =>
    constructor
    · intro h u hu
      cases he : RE.execStart r (c :: s) with
      | some p => simp [RE.searchL, he] at h
      | none =>
        simp only [RE.searchL, he, Option.map_eq_none'] at h
        rcases List.suffix_cons_iff.mp hu with h1 | h1
        · rw [h1]
          exact he
        · exact ih.mp h u h1
    · intro h
      have he := h (c :: s) (List.suffix_refl _)
      simp only [RE.searchL, he, Option.map_eq_none']
      exact ih.mpr (fun u hu => h u (List.suffix_cons_iff.mpr (Or.inr hu)))

theorem callText_ne_nil (nm A B : List Char) : callText nm A B ≠ [] := by
  simp [callText]

/-- What a match found by the search says: the text is `pre`, a call of a
helper, and `rest`; and no call begins inside `pre`. -/
theorem searchL_some : ∀ (s pre m rest : List Char) (caps : Caps),
    RE.searchL reAnOrXo s = some (pre, m, rest, caps) →
    ∃ nm A B, s = pre ++ (callText nm A B ++ rest) ∧ m = callText nm A B ∧
      isHelperName nm = true ∧ isIdentText A = true ∧ isIdentText B = true ∧
      caps = [(3, B), (2, A), (1, nm)] ∧
      ∀ p2, p2 ≠ [] → p2 <:+ pre →
        RE.execStart reAnOrXo (p2 ++ (callText nm A B ++ rest)) = none := by
  intro s
  induction s with
  | nil =>
    intro pre m rest caps h
    cases he : RE.execStart reAnOrXo [] with
    | none => simp [RE.searchL, he] at h
    | some p =>
      obtain ⟨nm, A, B, h1, _⟩ := shape_of_exec [] p.1 p.2 he
      simp [callText] at h1
  | cons c s ih =>
    intro pre m rest caps h
    cases he : RE.execStart reAnOrXo (c :: s) with
    | some p =>
      simp only [RE.searchL, he, Option.some.injEq, Prod.mk.injEq] at h
      obtain ⟨h1, h2, h3, h4⟩ := h
      obtain ⟨nm, A, B, g1, g2, g3, g4, g5⟩ := shape_of_exec (c :: s) p.1 p.2 he
      subst h1
      subst h3
      subst h4
      refine ⟨nm, A, B, by simpa using g1, ?_, g2, g3, g4, g5, ?_⟩
      · rw [← h2, g1, take_length_sub]
      · intro p2 hp2 hs
        exact absurd (List.eq_nil_of_suffix_nil hs) hp2
    | none =>
      simp only [RE.searchL, he, Option.map_eq_some', Prod.mk.injEq] at h
      obtain ⟨q, hq, h1, h2, h3, h4⟩ := h
      obtain ⟨nm, A, B, g1, g2, g3, g4, g5, g6, g7⟩ := ih q.1 q.2.1 q.2.2.1 q.2.2.2 hq
      subst h1
      subst h2
      subst h3
      subst h4
      refine ⟨nm, A, B, by rw [g1]; rfl, g2, g3, g4, g5, g6, ?_⟩
      intro p2 hp2 hs
      rcases List.suffix_cons_iff.mp hs with h5 | h5
      · rw [h5, List.cons_append, ← g1]
        exact he
      · exact g7 p2 hp2 h5

theorem helperName_chars (nm : List Char) (h : isHelperName nm = true) :
    ∃ n1 n2, nm = [n1, n2] ∧ n1 ≠ '(' ∧ n2 ≠ '(' ∧ n1 ≠ ')' ∧ n2 ≠ ')' := by
  rcases helperName_cases nm h with h | h | h
  · exact ⟨'a', 'n', h, by decide, by decide, by decide, by decide⟩
  · exact ⟨'o', 'r', h, by decide, by decide, by decide, by decide⟩
  · exact ⟨'x', 'o', h, by decide, by decide, by decide, by decide⟩

/-- Two runs of the class that are followed by characters outside it and
begin the same text are equal, and so are the characters behind them. -/
theorem run_unique (p : Char → Bool) : ∀ (A X : List Char) (x y : Char) (t1 t2 : List Char),
    A.all p = true → X.all p = true → p x = false → p y = false →
    A ++ x :: t1 = X ++ y :: t2 → x = y := by
  intro A
  induction A with
  | nil =>
    intro X x y t1 t2 _ hX hx _ h
    cases X with
    | nil =>
      simp only [List.nil_append, List.cons.injEq] at h
      exact h.1
    | cons a X =>
      simp only [List.nil_append, List.cons_append, List.cons.injEq] at h
      simp only [List.all_cons, Bool.and_eq_true] at hX
      rw [h.1, hX.1] at hx
      exact absurd hx (by decide)
  | cons a A ih =>
    intro X x y t1 t2 hA hX hx hy h
    simp only [List.all_cons, Bool.and_eq_true] at hA
    cases X with
    | nil =>
      simp only [List.nil_append, List.cons_append, List.cons.injEq] at h
      rw [← h.1, hA.1] at hy
      exact absurd hy (by decide)
    | cons b X =>
      simp only [List.cons_append, List.cons.injEq] at h
      simp only [List.all_cons, Bool.and_eq_true] at hX
      exact ih X x y t1 t2 hA.2 hX.2 hx hy h.2

/-- A run of the class followed by `x` at the head of a text `p4 ++ z :: Z`,
`z` being outside the class and not `x`: the run and `x` lie inside `p4`. -/
theorem run_inside (p : Char → Bool) : ∀ (A p4 : List Char) (x z : Char) (T Z : List Char),
    A.all p = true → p z = false → x ≠ z →
    p4 ++ z :: Z = A ++ x :: T → ∃ p5, p4 = A ++ x :: p5 ∧ p5 ++ z :: Z = T := by
  intro A
  induction A with
  | nil =>
    intro p4 x z T Z _ _ hxz h
    cases p4 with
    | nil =>
      simp only [List.nil_append, List.cons.injEq] at h
      exact absurd h.1.symm hxz
    | cons a p5 =>
      simp only [List.nil_append, List.cons_append, List.cons.injEq] at h
      exact ⟨p5, by rw [h.1]; rfl, h.2⟩
  | cons a A ih =>
    intro p4 x z T Z hA hz hxz h
    simp only [List.all_cons, Bool.and_eq_true] at hA
    cases p4 with
    | nil =>
      simp only [List.nil_append, List.cons_append, List.cons.injEq] at h
      rw [h.1, hA.1] at hz
      exact absurd hz (by decide)
    | cons b p4 =>
      simp only [List.cons_append, List.cons.injEq] at h
      obtain ⟨p5, h1, h2⟩ := ih p4 x z T Z hA.2 hz hxz h.2
      exact ⟨p5, by rw [h.1, h1]; rfl, h2⟩

/-- The shape of the replacement text: `(`, a run of the class, a character
outside the class that is not a comma. -/
theorem replText_shape (nm A B : List Char) (hA : isIdentText A = true) :
    ∃ X y t, replText nm A B = '(' :: (X ++ y :: t) ∧ X.all isDollarWordChar = true ∧
      isDollarWordChar y = false ∧ y ≠ ',' := by
  obtain ⟨_, hA2⟩ := identText_parts A hA
  unfold replText
  by_cases h1 : nm = "an".data
  · rw [if_pos h1]
    exact ⟨A, '&', '&' :: (B ++ [')']), by simp, hA2, by decide, by decide⟩
  · rw [if_neg h1]
    by_cases h2 : nm = "or".data
    · rw [if_pos h2]
      exact ⟨A, '|', '|' :: (B ++ [')']), by simp, hA2, by decide, by decide⟩
    · rw [if_neg h2]
      exact ⟨[], '!', A ++ "&&".data ++ B ++ "||".data ++ A ++ "&&!".data ++ B ++ ")".data,
        by simp, rfl, by decide, by decide⟩

theorem identText_no_paren (A : List Char) (hA : isIdentText A = true) :
    A.all (fun c => c != '(') = true := by
  obtain ⟨_, hA2⟩ := identText_parts A hA
  rw [List.all_eq_true] at hA2 ⊢
  intro c hc
  have := hA2 c hc
  simp only [bne_iff_ne, ne_eq]
  intro h
  rw [h] at this
  exact absurd this (by decide)

/-- The replacement text begins with `(`, has no other `(`, and ends with `)`. -/
theorem replText_parens (nm A B : List Char) (hA : isIdentText A = true)
    (hB : isIdentText B = true) :
    ∃ body, replText nm A B = '(' :: (body ++ [')']) ∧
      body.all (fun c => c != '(') = true := by
  have nA := identText_no_paren A hA
  have nB := identText_no_paren B hB
  unfold replText
  by_cases h1 : nm = "an".data
  · rw [if_pos h1]
    refine ⟨A ++ "&&".data ++ B, by simp, ?_⟩
    simp only [List.all_append, nA, nB]
    rfl
  · rw [if_neg h1]
    by_cases h2 : nm = "or".data
    · rw [if_pos h2]
      refine ⟨A ++ "||".data ++ B, by simp, ?_⟩
      simp only [List.all_append, nA, nB]
      rfl
    · rw [if_neg h2]
      refine ⟨"!".data ++ A ++ "&&".data ++ B ++ "||".data ++ A ++ "&&!".data ++ B,
        by simp, ?_⟩
      simp only [List.all_append, nA, nB]
      rfl

/-! ## `unanorxo` leaves no call behind -/

theorem suffix_append_split {α : Type} : ∀ (X Y u : List α), u <:+ X ++ Y →
    u <:+ Y ∨ ∃ x2, x2 ≠ [] ∧ x2 <:+ X ∧ u = x2 ++ Y := by
  intro X
  induction X with
  | nil =>
    intro Y u h
    exact Or.inl h
  | cons a X ih =>
    intro Y u h
    rw [List.cons_append] at h
    rcases List.suffix_cons_iff.mp h with h1 | h1
    · exact Or.inr ⟨a :: X, by simp, List.suffix_refl _, by rw [h1]; rfl⟩
    · rcases ih Y u h1 with h2 | ⟨x2, h2, h3, h4⟩
      · exact Or.inl h2
      · exact Or.inr ⟨x2, h2, List.suffix_cons_iff.mpr (Or.inr h3), h4⟩

/-- No call of a helper begins inside the replacement text. -/
theorem no_call_in_repl (nm A B q out : List Char) (hA : isIdentText A = true)
    (hB : isIdentText B = true) (hq : q ≠ []) (hs : q <:+ replText nm A B) :
    RE.execStart reAnOrXo (q ++ out) = none := by
  obtain ⟨body, hb, hall⟩ := replText_parens nm A B hA hB
  rw [hb] at hs
  cases he : RE.execStart reAnOrXo (q ++ out) with
  | none => rfl
  | some p =>
    exfalso
    obtain ⟨nm2, A2, B2, h1, h2, _, _, _⟩ := shape_of_exec (q ++ out) p.1 p.2 he
    obtain ⟨n1, n2, hn, hn1, hn2, hn3, hn4⟩ := helperName_chars nm2 h2
    subst hn
    simp only [callText, List.cons_append, List.nil_append, List.append_assoc] at h1
    rcases List.suffix_cons_iff.mp hs with h3 | h3
    · rw [h3] at h1
      simp only [List.cons_append, List.cons.injEq] at h1
      exact absurd h1.1 (by decide)
    · obtain ⟨t, ht⟩ := h3
      rcases List.eq_nil_or_concat q with h4 | ⟨L, b, h4⟩
      · exact hq h4
      · subst h4
        rw [List.concat_eq_append] at ht h1
        rw [← List.append_assoc] at ht
        obtain ⟨h5, h6⟩ := List.append_inj' ht rfl
        simp only [List.cons.injEq, and_true] at h6
        subst h6
        subst h5
        simp only [List.all_append, Bool.and_eq_true] at hall
        have hL := hall.2
        match L, hL, h1 with
        | [], _, h1 =>
          simp only [List.nil_append, List.cons_append, List.cons.injEq] at h1
          exact absurd h1.1 (by decide)
        | [c1], _, h1 =>
          simp only [List.nil_append, List.cons_append, List.cons.injEq] at h1
          exact hn3 h1.2.1.symm
        | [c1, c2], _, h1 =>
          simp only [List.nil_append, List.cons_append, List.cons.injEq] at h1
          exact hn4 h1.2.2.1.symm
        | [c1, c2, c3], _, h1 =>
          simp only [List.nil_append, List.cons_append, List.cons.injEq] at h1
          exact absurd h1.2.2.2.1 (by decide)
        | c1 :: c2 :: c3 :: c4 :: L2, hL, h1 =>
          simp only [List.cons_append, List.cons.injEq] at h1
          simp only [List.all_cons, Bool.and_eq_true, bne_iff_ne, ne_eq] at hL
          exact hL.2.2.2.1 h1.2.2.2.1

/-- A call of a helper that begins before the replacement text ends before it. -/
theorem call_before_repl (nm A B p2 out rest : List Char) (caps : Caps)
    (hA : isIdentText A = true)
    (h : RE.execStart reAnOrXo (p2 ++ (replText nm A B ++ out)) = some (rest, caps)) :
    p2 = [] ∨ ∃ nm2 A2 B2 p6, p2 = callText nm2 A2 B2 ++ p6 ∧ isHelperName nm2 = true ∧
      isIdentText A2 = true ∧ isIdentText B2 = true := by
  obtain ⟨nm2, A2, B2, h1, h2, hA2, hB2, _⟩ := shape_of_exec _ rest caps h
  obtain ⟨n1, n2, hn, hn1, hn2, hn3, hn4⟩ := helperName_chars nm2 h2
  obtain ⟨X, y, t, hr, hX, hy, hyc⟩ := replText_shape nm A B hA
  obtain ⟨_, hA2c⟩ := identText_parts A2 hA2
  obtain ⟨_, hB2c⟩ := identText_parts B2 hB2
  rw [hr] at h1
  subst hn
  simp only [callText, List.cons_append, List.nil_append, List.append_assoc] at h1
  match p2, h1 with
  | [], _ => exact Or.inl rfl
  | [c1], h1 =>
    simp only [List.nil_append, List.cons_append, List.cons.injEq] at h1
    exact absurd h1.2.1.symm hn1
  | [c1, c2], h1 =>
    simp only [List.nil_append, List.cons_append, List.cons.injEq] at h1
    exact absurd h1.2.2.1.symm hn2
  | [c1, c2, c3], h1 =>
    simp only [List.nil_append, List.cons_append, List.cons.injEq, true_and] at h1
    have := run_unique isDollarWordChar A2 X ',' y _ _ hA2c hX (by decide) hy h1.2.2.2.symm
    exact absurd this.symm hyc
  | c1 :: c2 :: c3 :: c4 :: p3, h1 =>
    simp only [List.cons_append, List.cons.injEq] at h1
    obtain ⟨e1, e2, e3, e4, h5⟩ := h1
    obtain ⟨p5, h6, h7⟩ := run_inside isDollarWordChar A2 p3 ',' '(' _ _ hA2c (by decide)
      (by decide) h5
    obtain ⟨p6, h8, _⟩ := run_inside isDollarWordChar B2 p5 ')' '(' _ _ hB2c (by decide)
      (by decide) h7
    refine Or.inr ⟨[n1, n2], A2, B2, p6, ?_, h2, hA2, hB2⟩
    rw [e1, e2, e3, e4, h6, h8]
    simp [callText]

theorem length_lt_of_call (pre nm A B rest : List Char) (n : Nat)
    (h : (pre ++ (callText nm A B ++ rest)).length < n + 1) : rest.length < n := by
  simp only [callText, List.length_append, List.length_cons, List.length_nil] at h
  omega

/-- One step of the global replacement of `unanorxo`. -/
theorem replaceAllL_step (n : Nat) (s pre m rest nm A B : List Char) (caps : Caps)
    (h : RE.searchL reAnOrXo s = some (pre, m, rest, caps)) (h2 : m = callText nm A B)
    (h6 : caps = [(3, B), (2, A), (1, nm)]) :
    RE.replaceAllL reAnOrXo anOrXoRepl (n + 1) s =
      pre ++ (replText nm A B ++ RE.replaceAllL reAnOrXo anOrXoRepl n rest) := by
  have hm : m.isEmpty = false := by
    rw [h2]
    simp [callText]
  rw [RE.replaceAllL]
  simp only [h, hm, Bool.false_eq_true, if_false]
  rw [h6, anOrXoRepl_caps, List.append_assoc]

/-- The result of the replacement does not depend on the fuel. -/
theorem replaceAllL_fuel : ∀ (n : Nat) (s : List Char) (k : Nat), s.length < n →
    s.length < k →
    RE.replaceAllL reAnOrXo anOrXoRepl n s = RE.replaceAllL reAnOrXo anOrXoRepl k s := by
  intro n
  induction n with
  | zero =>
    intro s k h
    exact absurd h (Nat.not_lt_zero _)
  | succ n ih =>
    intro s k hn hk
    cases k with
    | zero => exact absurd hk (Nat.not_lt_zero _)
    | succ k =>
      cases hs : RE.searchL reAnOrXo s with
      | none =>
        rw [RE.replaceAllL, RE.replaceAllL]
        simp only [hs]
      | some q =>
        obtain ⟨pre, m, rest, caps⟩ := q
        obtain ⟨nm, A, B, h1, h2, _, _, _, h6, _⟩ := searchL_some s pre m rest caps hs
        rw [replaceAllL_step n s pre m rest nm A B caps hs h2 h6,
          replaceAllL_step k s pre m rest nm A B caps hs h2 h6]
        rw [h1] at hn hk
        rw [ih rest k (length_lt_of_call pre nm A B rest n hn)
          (length_lt_of_call pre nm A B rest k hk)]

/-- No call of a helper is left in the result of the replacement. -/
theorem out_no_match : ∀ (n : Nat) (s : List Char), s.length < n →
    ∀ u, u <:+ RE.replaceAllL reAnOrXo anOrXoRepl n s → RE.execStart reAnOrXo u = none := by
  intro n
  induction n with
  | zero =>
    intro s h
    exact absurd h (Nat.not_lt_zero _)
  | succ n ih =>
    intro s hn u hu
    cases hs : RE.searchL reAnOrXo s with
    | none =>
      rw [RE.replaceAllL] at hu
      simp only [hs] at hu
      exact (searchL_none_iff reAnOrXo s).mp hs u hu
    | some q =>
      obtain ⟨pre, m, rest, caps⟩ := q
      obtain ⟨nm, A, B, h1, h2, _, hA, hB, h6, h7⟩ := searchL_some s pre m rest caps hs
      rw [replaceAllL_step n s pre m rest nm A B caps hs h2 h6] at hu
      rw [h1] at hn
      have hr := length_lt_of_call pre nm A B rest n hn
      rcases suffix_append_split _ _ u hu with h3 | ⟨p2, hp2, hp3, hp4⟩
      · rcases suffix_append_split _ _ u h3 with h4 | ⟨q2, hq2, hq3, hq4⟩
        · exact ih rest hr u h4
        · rw [hq4]
          exact no_call_in_repl nm A B q2 _ hA hB hq2 hq3
      · rw [hp4]
        cases he : RE.execStart reAnOrXo
            (p2 ++ (replText nm A B ++ RE.replaceAllL reAnOrXo anOrXoRepl n rest)) with
        | none => rfl
        | some p =>
          exfalso
          rcases call_before_repl nm A B p2 _ p.1 p.2 hA he with h8 | ⟨nm2, A2, B2, p6, h8, g1, g2, g3⟩
          · exact hp2 h8
          · have h9 := h7 p2 hp2 hp3
            rw [h8, List.append_assoc, exec_of_shape nm2 A2 B2 _ g1 g2 g3] at h9
            cases h9

/-- A text in which no call of a helper begins is left as it is. -/
theorem replaceAllL_fixed (n : Nat) (s : List Char)
    (h : ∀ u, u <:+ s → RE.execStart reAnOrXo u = none) :
    RE.replaceAllL reAnOrXo anOrXoRepl n s = s := by
  cases n with
  | zero => rfl
  | succ n =>
    rw [RE.replaceAllL]
    simp only [(searchL_none_iff reAnOrXo s).mpr h]

/-! ## `unanorxo`: the claim -/

theorem execStart_not_dollar (c : Char) (t : List Char) (h : c ≠ '$') :
    RE.execStart reAnOrXo (c :: t) = none := by
  cases he : RE.execStart reAnOrXo (c :: t) with
  | none => rfl
  | some p =>
    obtain ⟨nm, A, B, h1, _⟩ := shape_of_exec (c :: t) p.1 p.2 he
    simp only [callText, List.cons_append, List.cons.injEq] at h1
    exact absurd h1.1 h

/-- The search finds the first call behind a text without `$`. -/
theorem searchL_call (nm A B post : List Char) (hnm : isHelperName nm = true)
    (hA : isIdentText A = true) (hB : isIdentText B = true) : ∀ pre : List Char,
    '$' ∉ pre →
    RE.searchL reAnOrXo (pre ++ (callText nm A B ++ post)) =
      some (pre, callText nm A B, post, [(3, B), (2, A), (1, nm)]) := by
  intro pre
  induction pre with
  | nil =>
    intro _
    obtain ⟨c, t, hct⟩ : ∃ c t, callText nm A B ++ post = c :: t := ⟨'$', _, rfl⟩
    have he := exec_of_shape nm A B post hnm hA hB
    rw [List.nil_append]
    rw [hct] at he ⊢
    simp only [RE.searchL, he]
    rw [← hct, take_length_sub]
  | cons c pre ih =>
    intro hp
    simp only [List.mem_cons, not_or] at hp
    have hc : c ≠ '$' := fun h => hp.1 h.symm
    rw [List.cons_append]
    simp only [RE.searchL, execStart_not_dollar c _ hc, ih hp.2, Option.map_some']

theorem unanorxo_data (s : String) :
    (unanorxo s).data = RE.replaceAllL reAnOrXo anOrXoRepl (s.data.length + 1) s.data := rfl

/-- The call behind a text without `$` is replaced, and the rest of the text
is rewritten in the same way. -/
theorem unanorxo_call (pre post nm A B : List Char) (hnm : isHelperName nm = true)
    (hA : isIdentText A = true) (hB : isIdentText B = true) (hp : '$' ∉ pre) :
    unanorxo (String.mk (pre ++ (callText nm A B ++ post))) =
      String.mk (pre ++ (replText nm A B ++ (unanorxo (String.mk post)).data)) := by
  have hs := searchL_call nm A B post hnm hA hB pre hp
  unfold unanorxo RE.replaceAll
  simp only
  rw [replaceAllL_step _ _ pre (callText nm A B) post nm A B _ hs rfl rfl]
  rw [replaceAllL_fuel _ post (post.length + 1)
    (length_lt_of_call pre nm A B post _ (Nat.lt_succ_self _)) (Nat.lt_succ_self _)]

theorem unanorxo_no_call (s : String)
    (h : ∀ p nm A B q, isHelperName nm = true → isIdentText A = true →
      isIdentText B = true → s.data ≠ p ++ (callText nm A B ++ q)) :
    unanorxo s = s := by
  unfold unanorxo RE.replaceAll
  rw [replaceAllL_fixed]
  intro u hu
  cases he : RE.execStart reAnOrXo u with
  | none => rfl
  | some p =>
    exfalso
    obtain ⟨nm, A, B, h1, h2, h3, h4, _⟩ := shape_of_exec u p.1 p.2 he
    obtain ⟨t, ht⟩ := hu
    exact h t nm A B p.1 h2 h3 h4 (by rw [← ht, h1])

theorem unanorxo_twice (s : String) : unanorxo (unanorxo s) = unanorxo s := by
  have h := out_no_match (s.data.length + 1) s.data (Nat.lt_succ_self _)
  rw [← unanorxo_data] at h
  have h2 : unanorxo (unanorxo s) =
      String.mk (RE.replaceAllL reAnOrXo anOrXoRepl ((unanorxo s).data.length + 1)
        (unanorxo s).data) := rfl
  rw [h2, replaceAllL_fixed _ _ h]

theorem unanorxo_text (nm : String) (a b : String) (hnm : isHelperName nm.data = true)
    (ha : isIdentText a.data = true) (hb : isIdentText b.data = true) :
    unanorxo ("$" ++ nm ++ "(" ++ a ++ "," ++ b ++ ")") =
      String.mk (replText nm.data a.data b.data) := by
  have h := unanorxo_call [] [] nm.data a.data b.data hnm ha hb (List.not_mem_nil _)
  have h0 : unanorxo (String.mk []) = String.mk [] := by decide
  rw [h0] at h
  simp only [List.nil_append, List.append_nil] at h
  rw [← h]
  congr 1
  apply String.ext
  simp [callText]

theorem replText_an (A B : List Char) :
    replText "an".data A B = "(".data ++ A ++ "&&".data ++ B ++ ")".data := by
  unfold replText
  rw [if_pos rfl]

theorem replText_or (A B : List Char) :
    replText "or".data A B = "(".data ++ A ++ "||".data ++ B ++ ")".data := by
  unfold replText
  rw [if_neg (by decide), if_pos rfl]

theorem replText_xo (A B : List Char) :
    replText "xo".data A B =
      "(!".data ++ A ++ "&&".data ++ B ++ "||".data ++ A ++ "&&!".data ++ B ++ ")".data := by
  unfold replText
  rw [if_neg (by decide), if_neg (by decide)]

/-- C35: for all texts `a` and `b` of the class `[\w$]+`, `unanorxo` rewrites
`$an(a,b)` to `(a&&b)`, `$or(a,b)` to `(a||b)` and `$xo(a,b)` to
`(!a&&b||a&&!b)`, also where the call stands behind a text without `$` and
before any text, which is rewritten in the same way; the three texts are the
JavaScript texts of the conjunction, the disjunction and the exclusive or of
`a` and `b`; a text that contains no call of a helper is returned unchanged;
and `unanorxo` applied to its own output changes nothing. -/
theorem unanorxo_spec :
    (∀ a b : String, isIdentText a.data = true → isIdentText b.data = true →
      unanorxo ("$an(" ++ a ++ "," ++ b ++ ")") = "(" ++ a ++ "&&" ++ b ++ ")" ∧
      unanorxo ("$or(" ++ a ++ "," ++ b ++ ")") = "(" ++ a ++ "||" ++ b ++ ")" ∧
      unanorxo ("$xo(" ++ a ++ "," ++ b ++ ")") =
        "(!" ++ a ++ "&&" ++ b ++ "||" ++ a ++ "&&!" ++ b ++ ")") ∧
    (∀ pre post nm A B : List Char, isHelperName nm = true → isIdentText A = true →
      isIdentText B = true → '$' ∉ pre →
      unanorxo (String.mk (pre ++ (callText nm A B ++ post))) =
        String.mk (pre ++ (replText nm A B ++ (unanorxo (String.mk post)).data))) ∧
    (∀ (a b : String) (env : List Char → Bool),
      "(" ++ a ++ "&&" ++ b ++ ")" =
        String.mk ((BExp.and (.var a.data) (.var b.data)).text 2) ∧
      (BExp.and (.var a.data) (.var b.data)).eval env = (env a.data && env b.data) ∧
      "(" ++ a ++ "||" ++ b ++ ")" =
        String.mk ((BExp.or (.var a.data) (.var b.data)).text 2) ∧
      (BExp.or (.var a.data) (.var b.data)).eval env = (env a.data || env b.data) ∧
      "(!" ++ a ++ "&&" ++ b ++ "||" ++ a ++ "&&!" ++ b ++ ")" =
        String.mk ((BExp.or (.and (.not (.var a.data)) (.var b.data))
          (.and (.var a.data) (.not (.var b.data)))).text 2) ∧
      (BExp.or (.and (.not (.var a.data)) (.var b.data))
          (.and (.var a.data) (.not (.var b.data)))).eval env =
        Bool.xor (env a.data) (env b.data)) ∧
    (∀ s : String,
      (∀ p nm A B q, isHelperName nm = true → isIdentText A = true →
        isIdentText B = true → s.data ≠ p ++ (callText nm A B ++ q)) →
      unanorxo s = s) ∧
    (∀ s : String, unanorxo (unanorxo s) = unanorxo s) := by
  refine ⟨?_, unanorxo_call, ?_, unanorxo_no_call, unanorxo_twice⟩
  · intro a b ha hb
    refine ⟨?_, ?_, ?_⟩
    · have h := unanorxo_text "an" a b (by decide) ha hb
      rw [replText_an] at h
      have e : "$" ++ "an" ++ "(" = "$an(" := by decide
      rw [e] at h
      rw [h]
      apply String.ext
      simp
    · have h := unanorxo_text "or" a b (by decide) ha hb
      rw [replText_or] at h
      have e : "$" ++ "or" ++ "(" = "$or(" := by decide
      rw [e] at h
      rw [h]
      apply String.ext
      simp
    · have h := unanorxo_text "xo" a b (by decide) ha hb
      rw [replText_xo] at h
      have e : "$" ++ "xo" ++ "(" = "$xo(" := by decide
      rw [e] at h
      rw [h]
      apply String.ext
      simp
  · intro a b env
    refine ⟨?_, rfl, ?_, rfl, ?_, ?_⟩
    · apply String.ext
      simp [BExp.text, parenIf]
    · apply String.ext
      simp [BExp.text, parenIf]
    · apply String.ext
      simp [BExp.text, parenIf]
    · simp only [BExp.eval]
      cases env a.data <;> cases env b.data <;> rfl

theorem unanorxo_spec_witness :
    isIdentText "a".data = true ∧ isIdentText "$1".data = true ∧
    unanorxo ("$xo(" ++ "a" ++ "," ++ "$1" ++ ")") =
      "(!" ++ "a" ++ "&&" ++ "$1" ++ "||" ++ "a" ++ "&&!" ++ "$1" ++ ")" ∧
    unanorxo unanorxoWitness = "x=(!a&&$1||a&&!$1);if((_0&&b))" ∧
    unanorxo (unanorxo unanorxoWitness) = unanorxo unanorxoWitness :=
  ⟨by decide, by decide,
    (unanorxo_spec.1 "a" "$1" (by decide) (by decide)).2.2,
    by decide,
    unanorxo_spec.2.2.2.2 unanorxoWitness⟩

/-! ## Straight-line code: the operators one by one -/

theorem logical_of_tracked (s : PSC) (b : Nat) (X : List Entry) (h : s.tracked = X) :
    logical s b = (X.map absVal).reverse ++ List.replicate b RVal.other := by
  unfold logical
  rw [h]

theorem tracked_pred (s : PSC) (hwf : s.sp ≤ s.st.length) :
    ({ s with sp := s.sp - 1 } : PSC).tracked = s.tracked.dropLast := by
  show s.st.take (s.sp - 1) = (s.st.take s.sp).dropLast
  rw [List.dropLast_eq_take, List.take_take, List.length_take]
  congr 1
  omega

theorem tracked_snoc_of_pos (s : PSC) (hwf : s.sp ≤ s.st.length) (hp : 0 < s.sp) :
    ∃ e, s.tracked = s.tracked.dropLast ++ [e] := by
  have hl := tracked_length s hwf
  rcases List.eq_nil_or_concat s.tracked with h | ⟨L, e, h⟩
  · rw [h] at hl
    simp at hl
    omega
  · refine ⟨e, ?_⟩
    rw [h, List.concat_eq_append, List.dropLast_concat]

theorem lineEffect_two : lineEffect "$j-=2;" = -2 := by
  have := lineEffect_coalesced 2
  rw [natStr_two] at this
  exact this

theorem testStart_decr_two : RE.testStart reDecr "$j-=2;" = true := by
  have := testStart_decr 2
  rw [natStr_two] at this
  exact this

theorem firstNumber_two : firstNumber "$j-=2;" = 2 := by
  have := firstNumber_decr 2
  rw [natStr_two] at this
  exact this

theorem coalesced_ne (n : Nat) : "$j-=" ++ natStr n ++ ";" ≠ "$j--;" := by
  intro h
  have := congrArg (fun t => t.data.drop 3) h
  simp [String.data_append] at this

theorem decrCount_snoc (B : List Line) (l : Line) :
    decrCount (B ++ [l]) =
      if l.code = "$j--;" then 1 else if RE.testStart reDecr l.code then firstNumber l.code
      else 0 := by
  unfold decrCount
  rw [getLast?_snoc_line]

/-- The operator `pop` on an empty trace stack: one more pop is counted in the
last line of the block or in a new line. -/
theorem opPop_empty (s : PSC) (h0 : s.sp = 0) (hd : decrRoom s.block 1 = true) :
    ∃ s1, opPop s = .ok s1 ∧ s1.sp = 0 ∧ s1.st = s.st ∧ s1.lex = s.lex ∧
      net s1.block = net s.block - 1 ∧ decrCount s1.block = decrCount s.block + 1 := by
  unfold decrRoom at hd
  simp only [decide_eq_true_eq] at hd
  unfold opPop
  rw [if_neg (by omega)]
  cases hl : s.block.getLast? with
  | none =>
    have hb : s.block = [] := List.getLast?_eq_none_iff.mp hl
    refine ⟨emit "$j--;" s, rfl, h0, rfl, rfl, ?_, ?_⟩
    · unfold emit
      simp only [net_append, net_singleton, lineEffect_decr]
      ring
    · unfold emit
      simp only [decrCount_snoc]
      rw [hb]
      rfl
  | some l =>
    obtain ⟨B, hB⟩ := List.getLast?_eq_some_iff.mp hl
    have hdc : decrCount s.block =
        if l.code = "$j--;" then 1 else if RE.testStart reDecr l.code then firstNumber l.code
        else 0 := by
      unfold decrCount
      rw [hl]
    simp only
    by_cases h1 : l.code = "$j--;"
    · rw [if_pos h1]
      refine ⟨_, rfl, h0, rfl, rfl, ?_, ?_⟩
      · simp only [hB, List.dropLast_concat, net_append, net_singleton, h1, lineEffect_decr,
          lineEffect_two]
        ring
      · rw [hdc, if_pos h1]
        simp only [decrCount_snoc]
        rw [if_neg (by decide), testStart_decr_two, if_pos rfl, firstNumber_two]
    · rw [if_neg h1]
      by_cases h2 : RE.testStart reDecr l.code = true
      · rw [if_pos h2]
        rw [hdc, if_neg h1, if_pos h2] at hd
        rw [if_pos hd]
        refine ⟨_, rfl, h0, rfl, rfl, ?_, ?_⟩
        · have hle : lineEffect l.code = -(firstNumber l.code : Int) := by
            unfold lineEffect
            rw [if_neg h1, if_pos h2]
          simp only [hB, List.dropLast_concat, net_append, net_singleton, hle,
            lineEffect_coalesced]
          push_cast
          ring
        · rw [hdc, if_neg h1, if_pos h2]
          simp only [decrCount_snoc]
          rw [if_neg (coalesced_ne _), testStart_decr, if_pos rfl, firstNumber_decr]
      · rw [if_neg h2]
        refine ⟨emit "$j--;" s, rfl, h0, rfl, rfl, ?_, ?_⟩
        · unfold emit
          simp only [net_append, net_singleton, lineEffect_decr]
          ring
        · rw [hdc, if_neg h1, if_neg h2]
          unfold emit
          simp only [decrCount_snoc]
          rfl

/-! ### The lexer is left alone -/

theorem opPop_lex (s s1 : PSC) (h : opPop s = .ok s1) : s1.lex = s.lex := by
  unfold opPop at h
  repeat' split at h
  all_goals first | (cases h; done) | (cases h; rfl)

theorem opExch_lex (s s1 : PSC) (h : opExch s = .ok s1) : s1.lex = s.lex := by
  unfold opExch at h
  simp only [] at h
  repeat' split at h
  all_goals first | (cases h; done) | (cases h; exact need_lex _ _)

theorem opDup_lex (s s1 : PSC) (h : opDup s = .ok s1) : s1.lex = s.lex := by
  unfold opDup at h
  simp only [] at h
  repeat' split at h
  all_goals first | (cases h; done) | (cases h; exact need_lex _ _)

theorem copyLoop_lex : ∀ (n : Nat) (idx : Int) (s s1 : PSC),
    copyLoop n idx s = .ok s1 → s1.lex = s.lex := by
  intro n
  induction n with
  | zero => intro idx s s1 h; cases h; rfl
  | succ n ih =>
    intro idx s s1 h
    unfold copyLoop at h
    split at h
    · cases h
    · exact (ih _ _ _ h).trans rfl

theorem opCopy_lex (s s1 : PSC) (h : opCopy s = .ok s1) : s1.lex = s.lex := by
  unfold opCopy at h
  simp only [] at h
  split at h
  · cases h
  · split at h
    · split at h
      · cases h
      · exact (copyLoop_lex _ _ _ _ h).trans (need_lex _ _)
    · repeat' split at h
      all_goals first | (cases h; done) | (cases h; exact need_lex _ _)

theorem opRoll_lex (s s1 : PSC) (h : opRoll s = .ok s1) : s1.lex = s.lex := by
  unfold opRoll at h
  have hs := rollOperands_state s
  cases hr : rollOperands s with
  | mk s0 r =>
    rw [hr] at h hs
    simp only at hs
    subst hs
    cases r with
    | error e => cases h
    | ok p =>
      obtain ⟨d, n⟩ := p
      simp only at h
      split at h
      · unfold rollTail at h
        simp only [] at h
        repeat' split at h
        all_goals first | (cases h; done) | (cases h; exact need_lex _ _)
      · cases h

theorem ctxflush_lex (s s1 : PSC) (h : ctxflush s = .ok s1) : s1.lex = s.lex := by
  unfold ctxflush at h
  split at h
  · cases h
  · split at h
    · cases h
    · cases h
      rfl

theorem opIndex_lex (s s1 : PSC) (h : opIndex s = .ok s1) : s1.lex = s.lex := by
  unfold opIndex at h
  simp only [] at h
  split at h
  · cases h
  · split at h
    · repeat' split at h
      all_goals first
        | (cases h; done)
        | (cases h; exact (need_lex _ _).trans (need_lex _ _))
    · split at h
      · cases h
      · rename_i s3 hf
        cases h
        exact (ctxflush_lex _ _ hf).trans (need_lex _ _)

theorem binarith_lex (op : String) (s s1 : PSC) (h : binarith op s = .ok s1) :
    s1.lex = s.lex := by
  unfold binarith at h
  simp only [] at h
  repeat' split at h
  all_goals first | (cases h; done) | (cases h; exact need_lex _ _)

/-! ### The steps -/

/-- How a step is put together: `s0` is the state after `need`, `s1` the state
after the operator. -/
theorem stepOk_finish (s s0 s1 : PSC) (b b0 m : Nat) (X : List Entry) (R1 : List RVal)
    (hnet0 : net s0.block = net s.block - ((b : Int) - (b0 : Int)))
    (hX : s1.tracked = X) (hsp : X.length = s1.sp) (hg : X.all goodEntry = true)
    (hR : (X.map absVal).reverse ++ List.replicate b0 RVal.other = R1)
    (hnet : net s1.block = net s0.block) (hlex : s1.lex = s.lex)
    (hroom : decrRoom s1.block (m - 1) = true) : StepOk s b m R1 (.ok s1) := by
  refine ⟨s1, b0, rfl, trackerOk_of_tracked s1 X hX hsp hg, ?_, ?_, hlex, hroom⟩
  · rw [logical_of_tracked s1 b0 X hX, hR]
  · rw [hnet, hnet0]
    ring

theorem tracked_nil (s : PSC) (h0 : s.sp = 0) : s.tracked = [] := by
  unfold PSC.tracked
  rw [h0]
  rfl

theorem step_pop (s : PSC) (b m : Nat) (R1 : List RVal) (hok : trackerOk s = true)
    (hd : decrRoom s.block m = true) (hm : 1 ≤ m)
    (hi : interpStep .pop (logical s b) = some R1) : StepOk s b m R1 (opPop s) := by
  obtain ⟨hwf, hgood⟩ := (trackerOk_iff s).mp hok
  by_cases hp : 0 < s.sp
  · rw [opPop_tracked s hp]
    obtain ⟨e, he⟩ := tracked_snoc_of_pos s hwf hp
    have hl : logical s b =
        absVal e :: ((s.tracked.dropLast.map absVal).reverse ++ List.replicate b RVal.other) := by
      rw [logical_of_tracked s b _ he]
      simp
    rw [hl] at hi
    simp only [interpStep, Option.some.injEq] at hi
    have hlen := tracked_length s hwf
    apply stepOk_finish s s _ b b m s.tracked.dropLast R1 (by ring) (tracked_pred s hwf)
    · rw [List.length_dropLast, hlen]
    · rw [he, List.all_append] at hgood
      simp only [Bool.and_eq_true] at hgood
      exact hgood.1
    · exact hi
    · rfl
    · rfl
    · exact decrRoom_mono _ _ _ hd (by omega)
  · have h0 : s.sp = 0 := by omega
    have hl : logical s b = List.replicate b RVal.other := by
      rw [logical_of_tracked s b [] (tracked_nil s h0)]
      rfl
    rw [hl] at hi
    cases b with
    | zero => simp [interpStep] at hi
    | succ b1 =>
      simp only [List.replicate_succ, interpStep, Option.some.injEq] at hi
      obtain ⟨s1, h1, h2, h3, h4, h5, h6⟩ := opPop_empty s h0 (decrRoom_mono _ _ _ hd hm)
      rw [h1]
      have ht : s1.tracked = [] := tracked_nil s1 h2
      refine ⟨s1, b1, rfl, trackerOk_of_tracked s1 [] ht (by rw [h2]; rfl) rfl, ?_, ?_, h4, ?_⟩
      · rw [logical_of_tracked s1 b1 [] ht, ← hi]
        rfl
      · rw [h5]
        push_cast
        ring
      · unfold decrRoom at hd ⊢
        simp only [decide_eq_true_eq] at hd ⊢
        rw [h6]
        omega

/-! ## Straight-line code: `exch`, `dup` and the arithmetic operators -/

theorem need_front (s : PSC) (k b m : Nat) (hok : trackerOk s = true)
    (hd : decrRoom s.block m = true) (hlen : k ≤ (logical s b).length) :
    trackerOk (need k s) = true ∧ logical (need k s) (b - (k - s.sp)) = logical s b ∧
    net (need k s).block = net s.block - ((b : Int) - ((b - (k - s.sp) : Nat) : Int)) ∧
    k ≤ (need k s).sp ∧ decrRoom (need k s).block m = true ∧ (need k s).lex = s.lex := by
  obtain ⟨hwf, _⟩ := (trackerOk_iff s).mp hok
  rw [logical_length s b hwf] at hlen
  obtain ⟨h1, h2, h3, h4, h5, h6, h7⟩ := need_logical s k b m hok hlen hd
  refine ⟨h1, h2, ?_, h4, h6, h7⟩
  rw [h3]
  omega

/-- The trace stack as the entries below the top `k`, the top `k` entries and
what lies above the pointer. -/
theorem st_decomp (s : PSC) (k : Nat) (hwf : s.sp ≤ s.st.length) (hk : k ≤ s.sp) :
    ∃ D G J, s.st = D ++ G ++ J ∧ s.tracked = D ++ G ∧ D.length = s.sp - k ∧ G.length = k := by
  obtain ⟨h1, h2, h3⟩ := tracked_split s k hwf hk
  exact ⟨_, _, _, h1, (List.take_append_drop _ _).symm, h2, h3⟩

theorem stSet_mid (D J : List Entry) (e x : Entry) (i : Nat) (hi : i = D.length) :
    stSet (D ++ e :: J) i x = D ++ x :: J := by
  subst hi
  unfold stSet
  simp

theorem getElem?_mid (D J : List Entry) (e : Entry) (i : Nat) (hi : i = D.length) :
    (D ++ e :: J)[i]? = some e := by
  subst hi
  rw [List.getElem?_append_right (Nat.le_refl _)]
  simp

theorem list_length_two {α : Type} (G : List α) (h : G.length = 2) : ∃ u t, G = [u, t] := by
  match G, h with
  | [u, t], _ => exact ⟨u, t, rfl⟩

theorem list_length_one {α : Type} (G : List α) (h : G.length = 1) : ∃ t, G = [t] := by
  match G, h with
  | [t], _ => exact ⟨t, rfl⟩

theorem need_two_idem (s : PSC) : need 2 (need 2 s) = need 2 s := need_idem s 2

theorem need_one_idem (s : PSC) : need 1 (need 1 s) = need 1 s := need_idem s 1

theorem opExch_need (s : PSC) : opExch s = opExch (need 2 s) := by
  unfold opExch
  simp only [need_two_idem]

theorem opDup_need (s : PSC) : opDup s = opDup (need 1 s) := by
  unfold opDup
  simp only [need_one_idem]

theorem binarith_need (op : String) (s : PSC) : binarith op s = binarith op (need 2 s) := by
  unfold binarith
  simp only [need_two_idem]

/-- The operator `exch` on a state with two tracked entries. -/
theorem exch_at (s : PSC) (hwf : s.sp ≤ s.st.length) (h2 : 2 ≤ s.sp) :
    ∃ s1 D u t u1 t1, opExch s = .ok s1 ∧ s.tracked = D ++ [u, t] ∧
      s1.tracked = D ++ [t1, u1] ∧ t1.te = t.te ∧ u1.te = u.te ∧ s1.sp = s.sp ∧
      s1.block = s.block := by
  obtain ⟨D, G, J, hst, htr, hD, hG⟩ := st_decomp s 2 hwf h2
  obtain ⟨u, t, rfl⟩ := list_length_two G hG
  have hsp : s.sp = D.length + 2 := by omega
  have hst2 : s.st = (D ++ [u]) ++ t :: J := by rw [hst]; simp
  have hst3 : s.st = D ++ u :: (t :: J) := by rw [hst]; simp
  have g1 : stGet s.st ((s.sp : Int) - 1) = .ok t := by
    have := stGet_sub s.st s.sp 1 t (by omega)
      (by rw [hst2]; exact getElem?_mid _ _ _ _ (by simp; omega))
    simpa using this
  have g2 : stGet s.st ((s.sp : Int) - 2) = .ok u := by
    have := stGet_sub s.st s.sp 2 u (by omega)
      (by rw [hst3]; exact getElem?_mid _ _ _ _ (by omega))
    simpa using this
  have hn : need 2 s = s := need_of_le s 2 h2
  refine ⟨{ s with st := stSet (stSet s.st (s.sp - 1) { u with seq := s.seq + 2 })
                          (s.sp - 2) { t with seq := s.seq + 1 },
                     seq := s.seq + 2 },
    D, u, t, { u with seq := s.seq + 2 }, { t with seq := s.seq + 1 }, ?_, htr, ?_,
    rfl, rfl, rfl, rfl⟩
  · unfold opExch
    simp only [hn, g1, g2]
  · show (stSet (stSet s.st (s.sp - 1) _) (s.sp - 2) _).take s.sp = _
    rw [hst2, stSet_mid _ _ _ _ _ (by simp; omega)]
    have : D ++ [u] ++ ({ u with seq := s.seq + 2 } : Entry) :: J =
        D ++ u :: ({ u with seq := s.seq + 2 } :: J) := by simp
    rw [this, stSet_mid _ _ _ _ _ (by omega), hsp]
    simp [List.take_append_eq_append_take]

theorem cast_two : ((2 : Nat) : Int) = 2 := rfl

theorem cast_one : ((1 : Nat) : Int) = 1 := rfl

theorem step_exch (s : PSC) (b m : Nat) (R1 : List RVal) (hok : trackerOk s = true)
    (hd : decrRoom s.block m = true)
    (hi : interpStep .exch (logical s b) = some R1) : StepOk s b m R1 (opExch s) := by
  obtain ⟨x, y, R, hL, hR1⟩ : ∃ x y R, logical s b = x :: y :: R ∧ R1 = y :: x :: R := by
    match hl : logical s b, hi with
    | x :: y :: R, hi =>
      simp only [interpStep, Option.some.injEq] at hi
      exact ⟨x, y, R, rfl, hi.symm⟩
  obtain ⟨h1, h2, h3, h4, h5, h6⟩ := need_front s 2 b m hok hd (by rw [hL]; simp)
  rw [cast_two] at h1 h2 h3 h4 h5 h6
  obtain ⟨hwf, hgood⟩ := (trackerOk_iff _).mp h1
  obtain ⟨s1, D, u, t, u1, t1, g1, g2, g3, g4, g5, g6, g7⟩ := exch_at (need 2 s) hwf h4
  rw [opExch_need, g1]
  rw [logical_of_tracked _ _ _ g2, hL] at h2
  simp only [List.map_append, List.map_cons, List.map_nil, List.reverse_append,
    List.reverse_cons, List.reverse_nil, List.nil_append, List.cons_append,
    List.cons.injEq] at h2
  obtain ⟨e1, e2, e3⟩ := h2
  apply stepOk_finish s (need 2 s) s1 b _ m (D ++ [t1, u1]) R1 h3 g3
  · rw [g6, ← tracked_length _ hwf, g2]
    simp
  · rw [g2] at hgood
    simp only [List.all_append, List.all_cons, List.all_nil, Bool.and_true,
      Bool.and_eq_true] at hgood ⊢
    rw [goodEntry_congr t1 t g4, goodEntry_congr u1 u g5]
    exact ⟨hgood.1, hgood.2.2, hgood.2.1⟩
  · rw [hR1, ← e1, ← e2, ← e3]
    simp [absVal_congr t1 t g4, absVal_congr u1 u g5]
  · rw [g7]
  · exact (opExch_lex _ _ g1).trans h6
  · rw [g7]
    exact decrRoom_mono _ _ _ h5 (by omega)

theorem goodEntry_expr (e : Entry) (h : goodEntry e = true) :
    ∃ x, e.expr = some x ∧ goodExpr x = true := by
  unfold goodEntry at h
  cases hx : e.expr with
  | none => simp [hx] at h
  | some x =>
    rw [hx] at h
    simp only [Bool.and_eq_true] at h
    exact ⟨x, rfl, h.1⟩

theorem goodEntry_other (e : Entry) (x : String) (hx : e.expr = some x)
    (hg : goodExpr x = true) (ht : e.type ≠ TYPE_INTLIT) : goodEntry e = true := by
  unfold goodEntry
  rw [hx]
  simp [hg, ht]

theorem dupAsIs_false_type (t : Entry) (h : dupAsIs t = false) : t.type ≠ TYPE_INTLIT := by
  intro ht
  unfold dupAsIs at h
  rw [ht] at h
  simp only [Bool.or_eq_false_iff] at h
  exact absurd h.1 (by decide)

theorem step_dup (s : PSC) (b m : Nat) (R1 : List RVal) (hok : trackerOk s = true)
    (hd : decrRoom s.block m = true)
    (hi : interpStep .dup (logical s b) = some R1) : StepOk s b m R1 (opDup s) := by
  obtain ⟨x, R, hL, hR1⟩ : ∃ x R, logical s b = x :: R ∧ R1 = x :: x :: R := by
    match hl : logical s b, hi with
    | x :: R, hi =>
      simp only [interpStep, Option.some.injEq] at hi
      exact ⟨x, R, rfl, hi.symm⟩
  obtain ⟨h1, h2, h3, h4, h5, h6⟩ := need_front s 1 b m hok hd (by rw [hL]; simp)
  rw [cast_one] at h1 h2 h3 h4 h5 h6
  obtain ⟨hwf, hgood⟩ := (trackerOk_iff _).mp h1
  obtain ⟨D, G, J, hst, htr, hD, hG⟩ := st_decomp (need 1 s) 1 hwf h4
  obtain ⟨t, rfl⟩ := list_length_one G hG
  have ht : (need 1 s).st[(need 1 s).sp - 1]? = some t := by
    rw [hst, List.append_assoc]
    exact getElem?_mid _ _ _ _ hD.symm
  obtain ⟨s1, u, v, g1, g2, g3, g4, g5, g6, g7, g8⟩ := dup_core s t ht
  rw [g1]
  rw [htr, List.dropLast_concat] at g3
  rw [logical_of_tracked _ _ _ htr, hL] at h2
  simp only [List.map_append, List.map_cons, List.map_nil, List.reverse_append,
    List.reverse_cons, List.reverse_nil, List.nil_append, List.cons_append,
    List.cons.injEq] at h2
  obtain ⟨e1, e3⟩ := h2
  rw [htr] at hgood
  simp only [List.all_append, List.all_cons, List.all_nil, Bool.and_true,
    Bool.and_eq_true] at hgood
  obtain ⟨x0, hx0, hgx⟩ := goodEntry_expr t hgood.2
  have hlen : (D ++ [u, v]).length = s1.sp := by
    rw [g2, ← tracked_length _ hwf, htr]
    simp
  have hlex : s1.lex = s.lex := (opDup_lex _ _ g1)
  by_cases hA : dupAsIs t = true
  · obtain ⟨a1, a2, a3⟩ := g7 hA
    have hv : v.te = t.te := by
      unfold Entry.te
      rw [g5, ← g6, a1]
    apply stepOk_finish s (need 1 s) s1 b _ m (D ++ [u, v]) R1 h3 g3 hlen
    · simp only [List.all_append, List.all_cons, List.all_nil, Bool.and_true,
        Bool.and_eq_true]
      rw [goodEntry_congr v t hv, a1]
      exact ⟨hgood.1, hgood.2, hgood.2⟩
    · rw [hR1, ← e1, ← e3]
      simp [absVal_congr v t hv, a1]
    · rw [a2]
    · exact hlex
    · rw [a2]
      exact decrRoom_mono _ _ _ h5 (by omega)
  · have hA2 : dupAsIs t = false := by simpa using hA
    obtain ⟨a1, a2, a3⟩ := g8 hA2
    have hty := dupAsIs_false_type t hA2
    have hgu : goodEntry u = true :=
      goodEntry_temp u _ (by rw [g4]; exact hty) a1
    have hgv : goodEntry v = true :=
      goodEntry_temp v _ (by rw [g5]; exact hty) (by rw [← g6]; exact a1)
    apply stepOk_finish s (need 1 s) s1 b _ m (D ++ [u, v]) R1 h3 g3 hlen
    · simp only [List.all_append, List.all_cons, List.all_nil, Bool.and_true,
        Bool.and_eq_true]
      exact ⟨hgood.1, hgu, hgv⟩
    · rw [hR1, ← e1, ← e3]
      simp [absVal_other u (by rw [g4]; exact hty), absVal_other v (by rw [g5]; exact hty),
        absVal_other t hty]
    · rw [a3, net_append, net_singleton, hx0]
      simp only [exprStr]
      rw [lineEffect_dupLine _ _ hgx]
      ring
    · exact hlex
    · rw [a3]
      exact decrRoom_snoc_var _ _
        ('a' :: 'r' :: ' ' :: ((tvar (need 1 s).tvarno).data ++
          ('=' :: (exprStr t.expr).data ++ [';']))) _
        (by simp [String.data_append])
        (Nat.lt_of_le_of_lt (Nat.sub_le _ _) (decrRoom_lt _ _ h5))

theorem arithType_ne (a b : Entry) (op : String) : arithType a b op ≠ TYPE_INTLIT := by
  unfold arithType
  split <;> decide

/-- A binary arithmetic operator whose sign is the character `c`. -/
theorem step_arith (op : String) (c : Char) (hop : op.data = [c]) (c1 : c ≠ ']')
    (c2 : c ≠ 'j') (c3 : c ≠ '$') (s : PSC) (b m : Nat) (R1 : List RVal)
    (hok : trackerOk s = true) (hd : decrRoom s.block m = true)
    (hi : ∃ x y R, logical s b = x :: y :: R ∧ R1 = RVal.other :: R) :
    StepOk s b m R1 (binarith op s) := by
  obtain ⟨x, y, R, hL, hR1⟩ := hi
  obtain ⟨h1, h2, h3, h4, h5, h6⟩ := need_front s 2 b m hok hd (by rw [hL]; simp)
  rw [cast_two] at h1 h2 h3 h4 h5 h6
  obtain ⟨hwf, hgood⟩ := (trackerOk_iff _).mp h1
  obtain ⟨D, G, J, hst, htr, hD, hG⟩ := st_decomp (need 2 s) 2 hwf h4
  obtain ⟨u, t, rfl⟩ := list_length_two G hG
  have hu : (need 2 s).st[(need 2 s).sp - 2]? = some u := by
    rw [hst, List.append_assoc]
    exact getElem?_mid _ _ _ _ hD.symm
  have ht : (need 2 s).st[(need 2 s).sp - 1]? = some t := by
    have : (need 2 s).st = (D ++ [u]) ++ t :: J := by rw [hst]; simp
    rw [this]
    exact getElem?_mid _ _ _ _ (by simp; omega)
  have g1 := binarith_eq op (need 2 s) u t h4 hu ht
  have g3 := replaceTop2_tracked (need 2 s)
    { u with type := arithType u t op
             expr := some (parens (exprStr u.expr) ++ op ++ parens (exprStr t.expr))
             seq := (need 2 s).seq + 1 } ((need 2 s).seq + 1) h4 hwf
  rw [htr] at g3
  have hDt : (D ++ [u, t]).take ((need 2 s).sp - 2) = D := by
    rw [← hD]
    simp
  rw [hDt] at g3
  rw [binarith_need, g1]
  rw [logical_of_tracked _ _ _ htr, hL] at h2
  simp only [List.map_append, List.map_cons, List.map_nil, List.reverse_append,
    List.reverse_cons, List.reverse_nil, List.nil_append, List.cons_append,
    List.cons.injEq] at h2
  obtain ⟨_, _, e3⟩ := h2
  rw [htr] at hgood
  simp only [List.all_append, List.all_cons, List.all_nil, Bool.and_true,
    Bool.and_eq_true] at hgood
  obtain ⟨xt, hxt, hgt⟩ := goodEntry_expr t hgood.2.2
  apply stepOk_finish s (need 2 s) _ b _ m _ R1 h3 g3
  · show _ = (need 2 s).sp - 1
    simp only [List.length_append, List.length_singleton]
    omega
  · simp only [List.all_append, List.all_cons, List.all_nil, Bool.and_true,
      Bool.and_eq_true]
    refine ⟨hgood.1, goodEntry_other _ _ rfl ?_ (arithType_ne u t op)⟩
    rw [hxt]
    exact goodExpr_arith xt (exprStr u.expr) op c hop c1 c2 c3 hgt
  · rw [hR1, ← e3]
    have ha : absVal { u with type := arithType u t op
                              expr := some (parens (exprStr u.expr) ++ op ++
                                parens (exprStr t.expr))
                              seq := (need 2 s).seq + 1 } = RVal.other :=
      absVal_other _ (arithType_ne u t op)
    simp [ha]
  · rfl
  · exact h6
  · exact decrRoom_mono _ _ _ h5 (by omega)

/-! ## Straight-line code: `copy`, `index` and `roll` -/

theorem intOfText_lt (t : String) (n : Int) (h : intOfText t = some n) :
    n.natAbs < maxSafe := by
  unfold intOfText at h
  split at h
  · split at h
    · rename_i hc
      simp only [Bool.and_eq_true, decide_eq_true_eq] at hc
      simp only [Option.some.injEq] at h
      rw [← h]
      simp only [Int.natAbs_neg, Int.natAbs_ofNat]
      exact hc.2
    · cases h
  · split at h
    · rename_i hc
      simp only [Bool.and_eq_true, decide_eq_true_eq] at hc
      simp only [Option.some.injEq] at h
      rw [← h]
      simp only [Int.natAbs_ofNat]
      exact hc.2
    · cases h

/-- A tracked entry that stands for the integer `n`. -/
theorem absVal_lit (e : Entry) (n : Int) (hg : goodEntry e = true) (h : absVal e = .lit n) :
    e.type = TYPE_INTLIT ∧ e.expr = some (intStr n) ∧ e.expr.bind intOfText = some n ∧
    n.natAbs < maxSafe := by
  unfold absVal at h
  by_cases ht : e.type = TYPE_INTLIT
  · rw [if_pos ht] at h
    cases hb : e.expr.bind intOfText with
    | none => simp [hb] at h
    | some k =>
      rw [hb] at h
      simp only [RVal.lit.injEq] at h
      subst h
      unfold goodEntry at hg
      cases hx : e.expr with
      | none => simp [hx] at hb
      | some x =>
        rw [hx] at hg hb
        have hb : intOfText x = some k := hb
        simp only [hb, Bool.and_eq_true, Bool.or_eq_true, bne_iff_ne, ne_eq, beq_iff_eq] at hg
        rcases hg.2 with h1 | h1
        · exact absurd ht h1
        · exact ⟨ht, by rw [← h1], rfl, intOfText_lt x k hb⟩
  · rw [if_neg ht] at h
    cases h

theorem maxSafe_int : (maxSafe : Int) = 2 ^ 53 := by
  unfold maxSafe
  norm_num

/-- The top of the operand stack is a known integer: it is a tracked entry. -/
theorem logical_lit_top (s : PSC) (b : Nat) (n : Int) (R : List RVal)
    (hok : trackerOk s = true) (hL : logical s b = .lit n :: R) :
    ∃ D e, s.tracked = D ++ [e] ∧ 1 ≤ s.sp ∧ absVal e = .lit n ∧ goodEntry e = true ∧
      D.all goodEntry = true ∧
      (D.map absVal).reverse ++ List.replicate b RVal.other = R ∧
      s.st[s.sp - 1]? = some e ∧ D.length = s.sp - 1 := by
  obtain ⟨hwf, hgood⟩ := (trackerOk_iff s).mp hok
  by_cases hp : 0 < s.sp
  · obtain ⟨D, G, J, hst, htr, hD, hG⟩ := st_decomp s 1 hwf hp
    obtain ⟨e, rfl⟩ := list_length_one G hG
    rw [logical_of_tracked s b _ htr] at hL
    simp only [List.map_append, List.map_cons, List.map_nil, List.reverse_append,
      List.reverse_cons, List.reverse_nil, List.nil_append, List.cons_append,
      List.cons.injEq] at hL
    rw [htr] at hgood
    simp only [List.all_append, List.all_cons, List.all_nil, Bool.and_true,
      Bool.and_eq_true] at hgood
    refine ⟨D, e, htr, hp, hL.1, hgood.2, hgood.1, hL.2, ?_, hD⟩
    rw [hst, List.append_assoc]
    exact getElem?_mid _ _ _ _ hD.symm
  · have h0 : s.sp = 0 := by omega
    rw [logical_of_tracked s b [] (tracked_nil s h0)] at hL
    cases b with
    | zero => simp at hL
    | succ b => simp [List.replicate_succ] at hL

/-- The state without its top entry. -/
theorem trackerOk_pred (s : PSC) (D : List Entry) (e : Entry) (hok : trackerOk s = true)
    (htr : s.tracked = D ++ [e]) (hp : 1 ≤ s.sp) :
    trackerOk { s with sp := s.sp - 1 } = true ∧
    ({ s with sp := s.sp - 1 } : PSC).tracked = D := by
  obtain ⟨hwf, hgood⟩ := (trackerOk_iff s).mp hok
  have ht : ({ s with sp := s.sp - 1 } : PSC).tracked = D := by
    rw [tracked_pred s hwf, htr, List.dropLast_concat]
  refine ⟨trackerOk_of_tracked _ D ht ?_ ?_, ht⟩
  · have := tracked_length s hwf
    rw [htr] at this
    simp only [List.length_append, List.length_singleton] at this
    show D.length = s.sp - 1
    omega
  · rw [htr] at hgood
    simp only [List.all_append, Bool.and_eq_true] at hgood
    exact hgood.1

theorem all_drop {α : Type} (p : α → Bool) (l : List α) (k : Nat) (h : l.all p = true) :
    (l.drop k).all p = true := by
  rw [List.all_eq_true] at h ⊢
  intro x hx
  exact h x (List.mem_of_mem_drop hx)

theorem all_take {α : Type} (p : α → Bool) (l : List α) (k : Nat) (h : l.all p = true) :
    (l.take k).all p = true := by
  rw [List.all_eq_true] at h ⊢
  intro x hx
  exact h x (List.mem_of_mem_take hx)

theorem step_copy (s : PSC) (b m : Nat) (R1 : List RVal) (hok : trackerOk s = true)
    (hd : decrRoom s.block m = true)
    (hi : interpStep .copy (logical s b) = some R1) : StepOk s b m R1 (opCopy s) := by
  obtain ⟨n, R, hL, hn0, hnR, hR1⟩ : ∃ n R, logical s b = .lit n :: R ∧ 0 ≤ n ∧
      n.toNat ≤ R.length ∧ R1 = R.take n.toNat ++ R := by
    match hl : logical s b, hi with
    | .lit n :: R, hi =>
      simp only [interpStep] at hi
      split at hi
      · rename_i hc
        simp only [Option.some.injEq] at hi
        exact ⟨n, R, rfl, hc.1, hc.2, hi.symm⟩
      · cases hi
  obtain ⟨D, e, htr, hp, ha, hge, hgD, hR, hget, hDl⟩ := logical_lit_top s b n R hok hL
  obtain ⟨a1, a2, a3, a4⟩ := absVal_lit e n hge ha
  obtain ⟨hok1, htr1⟩ := trackerOk_pred s D e hok htr hp
  have hL1 : logical { s with sp := s.sp - 1 } b = R := by
    rw [logical_of_tracked _ b D htr1, hR]
  have hnn : ((n.toNat : Nat) : Int) = n := Int.toNat_of_nonneg hn0
  obtain ⟨h1, h2, h3, h4, h5, h6⟩ := need_front { s with sp := s.sp - 1 } n.toNat b m hok1 hd
    (by rw [hL1]; exact hnR)
  rw [hnn] at h1 h2 h3 h4 h5 h6
  obtain ⟨hwf0, hgood0⟩ := (trackerOk_iff _).mp h1
  have hlt : n < 2 ^ 53 := by
    have := maxSafe_int
    omega
  obtain ⟨s1, C, g1, g2, g3, g4, g5, g6⟩ := (copy_core s e hp hget).1 n
    (by rw [a1]; decide) a2 hn0 hlt
  rw [g1]
  have hT0 := tracked_length _ hwf0
  rw [hL1] at h2
  apply stepOk_finish s (need n { s with sp := s.sp - 1 }) s1 b _ m _ R1 h3 g4
  · rw [List.length_append, g5, hT0, g2]
  · rw [List.all_append, hgood0, all_goodEntry_congr _ _ g6, all_drop _ _ _ hgood0]
    rfl
  · rw [hR1, List.map_append, List.reverse_append, List.append_assoc,
      ← logical_of_tracked _ _ _ rfl, h2, map_absVal_congr _ _ g6, List.map_drop,
      List.reverse_drop, List.length_map, hT0]
    congr 1
    have e1 : (need n { s with sp := s.sp - 1 }).sp -
        ((need n { s with sp := s.sp - 1 }).sp - n.toNat) = n.toNat := by omega
    rw [e1, ← h2, logical_of_tracked _ _ _ rfl,
      List.take_append_of_le_length (by simp [hT0]; omega)]
  · rw [g3]
  · exact opCopy_lex _ _ g1
  · rw [g3]
    exact decrRoom_mono _ _ _ h5 (by omega)

theorem absVal_clone (x : Entry) (q : Nat) : absVal (clone x q) = absVal x :=
  absVal_congr _ _ rfl

theorem goodEntry_clone (x : Entry) (q : Nat) : goodEntry (clone x q) = goodEntry x :=
  goodEntry_congr _ _ rfl

theorem step_index (s : PSC) (b m : Nat) (R1 : List RVal) (hok : trackerOk s = true)
    (hd : decrRoom s.block m = true)
    (hi : interpStep .index (logical s b) = some R1) : StepOk s b m R1 (opIndex s) := by
  obtain ⟨k, R, w, hL, hk0, hw, hR1⟩ : ∃ k R w, logical s b = .lit k :: R ∧ 0 ≤ k ∧
      R[k.toNat]? = some w ∧ R1 = w :: R := by
    match hl : logical s b, hi with
    | .lit k :: R, hi =>
      simp only [interpStep] at hi
      split at hi
      · rename_i hc
        cases hw : R[k.toNat]? with
        | none => simp [hw] at hi
        | some w =>
          rw [hw] at hi
          simp only [Option.map_some', Option.some.injEq] at hi
          exact ⟨k, R, w, rfl, hc, hw, hi.symm⟩
      · cases hi
  obtain ⟨D, e, htr, hp, ha, hge, hgD, hR, hget, hDl⟩ := logical_lit_top s b k R hok hL
  obtain ⟨a1, a2, a3, a4⟩ := absVal_lit e k hge ha
  obtain ⟨hok1, htr1⟩ := trackerOk_pred s D e hok htr hp
  have hL1 : logical { s with sp := s.sp - 1 } b = R := by
    rw [logical_of_tracked _ b D htr1, hR]
  have hkk : ((k.toNat + 1 : Nat) : Int) = k + 1 := by
    push_cast
    rw [Int.toNat_of_nonneg hk0]
  have hkR : k.toNat < R.length := by
    by_contra hc
    rw [List.getElem?_eq_none (by omega)] at hw
    cases hw
  obtain ⟨h1, h2, h3, h4, h5, h6⟩ := need_front { s with sp := s.sp - 1 } (k.toNat + 1) b m
    hok1 hd (by rw [hL1]; omega)
  rw [hkk] at h1 h2 h3 h4 h5 h6
  obtain ⟨hwf0, hgood0⟩ := (trackerOk_iff _).mp h1
  have hlt : k < 2 ^ 53 := by
    have := maxSafe_int
    omega
  have hn1 : need 1 s = s := need_of_le s 1 hp
  have hget1 : (need 1 s).st[(need 1 s).sp - 1]? = some e := by rw [hn1]; exact hget
  obtain ⟨s1, x, g1, g2, g3, g4, g5⟩ := (index_core s e hget1).1 k a1 a2 hk0 hlt
  rw [hn1] at g2 g3 g4 g5
  rw [g1]
  have hT0 := tracked_length _ hwf0
  rw [hL1] at h2
  have hxm : x ∈ (need (k + 1) { s with sp := s.sp - 1 }).tracked :=
    List.mem_iff_getElem?.mpr ⟨_, g2⟩
  have hgx : goodEntry x = true := (List.all_eq_true.mp hgood0) x hxm
  have hwx : w = absVal x := by
    rw [← h2, logical_of_tracked _ _ _ rfl,
      List.getElem?_append_left (by simp [hT0]; omega),
      List.getElem?_reverse (by simp [hT0]; omega), List.length_map, hT0,
      List.getElem?_map, g2] at hw
    simp only [Option.map_some', Option.some.injEq] at hw
    exact hw.symm
  apply stepOk_finish s (need (k + 1) { s with sp := s.sp - 1 }) s1 b _ m _ R1 h3 g3
  · rw [List.length_append, hT0, g5]
    rfl
  · rw [List.all_append, hgood0]
    simp [goodEntry_clone, hgx]
  · rw [hR1, List.map_append, List.reverse_append, List.append_assoc,
      ← logical_of_tracked _ _ _ rfl, h2, hwx]
    simp [absVal_clone]
  · rw [g4]
  · exact opIndex_lex _ _ g1
  · rw [g4]
    exact decrRoom_mono _ _ _ h5 (by omega)

/-! ## Straight-line code: `roll` -/

/-- Rotating the top `n` values: the order of the tracker (top last) against
the order of the operand stack (top first). -/
theorem roll_list (G : List RVal) (n c r : Nat) (hG : G.length = n) (hc : c ≤ n)
    (hr : (n - c) % n = r % n) :
    (G.drop c ++ G.take c).reverse = G.reverse.rotate r := by
  rw [List.reverse_append, List.reverse_take, List.reverse_drop, hG]
  have h1 : G.reverse.rotate r = G.reverse.rotate (n - c) := by
    rw [← List.rotate_mod G.reverse r, ← List.rotate_mod G.reverse (n - c),
      List.length_reverse, hG, hr]
  rw [h1, List.rotate_eq_drop_append_take (by rw [List.length_reverse, hG]; omega)]

theorem roll_shift (n d : Int) (hn : 0 ≤ n) (h1 : -n ≤ d) (h2 : d ≤ n) :
    (n.toNat - (if d < 0 then -d else n - d).toNat) % n.toNat = (d % n).toNat % n.toNat := by
  obtain ⟨N, rfl⟩ := Int.eq_ofNat_of_zero_le hn
  by_cases hd : d < 0
  · rw [if_pos hd]
    obtain ⟨E, hE⟩ := Int.eq_ofNat_of_zero_le (show 0 ≤ -d by omega)
    have hd2 : d = -(E : Int) := by omega
    subst hd2
    have hEN : E ≤ N := by omega
    have e1 : (-(E : Int)) % (N : Int) = (((N - E : Nat) : Int)) % (N : Int) := by
      rw [← Int.add_emod_self]
      congr 1
      omega
    rw [e1, ← Int.natCast_mod]
    simp only [neg_neg, Int.toNat_ofNat, Nat.mod_mod]
  · rw [if_neg hd]
    obtain ⟨D, rfl⟩ := Int.eq_ofNat_of_zero_le (show 0 ≤ d by omega)
    have hDN : D ≤ N := by omega
    have e1 : ((N : Int) - (D : Int)).toNat = N - D := by omega
    rw [e1, ← Int.natCast_mod]
    simp only [Int.toNat_ofNat, Nat.mod_mod]
    congr 1
    omega

/-- The two top values of the operand stack are known integers: they are
tracked entries. -/
theorem logical_lit_top2 (s : PSC) (b : Nat) (d n : Int) (R : List RVal)
    (hok : trackerOk s = true) (hL : logical s b = .lit d :: .lit n :: R) :
    ∃ D nE dE, s.tracked = D ++ [nE, dE] ∧ 2 ≤ s.sp ∧ absVal dE = .lit d ∧
      absVal nE = .lit n ∧ goodEntry dE = true ∧ goodEntry nE = true ∧
      D.all goodEntry = true ∧
      (D.map absVal).reverse ++ List.replicate b RVal.other = R ∧
      s.st[s.sp - 1]? = some dE ∧ s.st[s.sp - 2]? = some nE ∧
      trackerOk { s with sp := s.sp - 2 } = true ∧
      ({ s with sp := s.sp - 2 } : PSC).tracked = D := by
  obtain ⟨D1, dE, htr, hp, ha, hge, hgD, hR, hget, hDl⟩ :=
    logical_lit_top s b d (.lit n :: R) hok hL
  obtain ⟨hok1, htr1⟩ := trackerOk_pred s D1 dE hok htr hp
  have hL1 : logical { s with sp := s.sp - 1 } b = .lit n :: R := by
    rw [logical_of_tracked _ b D1 htr1, hR]
  obtain ⟨D, nE, htr2, hp2, ha2, hge2, hgD2, hR2, hget2, hDl2⟩ :=
    logical_lit_top _ b n R hok1 hL1
  obtain ⟨hok2, htr3⟩ := trackerOk_pred _ D nE hok1 htr2 hp2
  have hp3 : 1 ≤ s.sp - 1 := hp2
  refine ⟨D, nE, dE, ?_, by omega, ha, ha2, hge, hge2, hgD2, hR2, hget, hget2, hok2, htr3⟩
  rw [htr, ← htr1, htr2]
  simp

/-- Rolling no value at all. -/
theorem rollTail_zero (s1 : PSC) : rollTail s1 0 0 = .ok s1 := by
  unfold rollTail
  have h1 : jsSplice s1.st ((s1.sp : Int) - 0) (0 - 0) = ([], s1.st) := by
    unfold jsSplice
    simp
  have h2 : jsInsert s1.st ((s1.sp : Int) - (([] : List Entry).length : Int)) [] = s1.st := by
    unfold jsInsert
    simp
  simp only [lt_self_iff_false, if_false, h1, h2]
  have h3 : ((s1.sp : Int) - 1 - ((s1.sp : Int) - 0)).toNat = 0 := by omega
  rw [h3]
  rfl

/-- The trace stack after `roll`, entry by entry, against the rotated operand
stack. -/
theorem roll_lists (T0 X : List Entry) (N k c r b0 : Nat) (hk : k + N = T0.length)
    (g4 : X.take k = T0.take k)
    (hc : (X.drop k).map Entry.te =
      ((T0.drop k).drop c ++ (T0.drop k).take c).map Entry.te)
    (hgood0 : T0.all goodEntry = true) (hcn : c ≤ N) (hsh : (N - c) % N = r % N) :
    X.length = T0.length ∧ X.all goodEntry = true ∧
    (X.map absVal).reverse ++ List.replicate b0 RVal.other =
      (((T0.map absVal).reverse ++ List.replicate b0 RVal.other).take N).rotate r ++
        ((T0.map absVal).reverse ++ List.replicate b0 RVal.other).drop N := by
  have hGl : (T0.drop k).length = N := by
    rw [List.length_drop]
    omega
  have hXs : X = T0.take k ++ X.drop k := by
    rw [← g4, List.take_append_drop]
  have hXdl : (X.drop k).length = N := by
    have := congrArg List.length hc
    simp only [List.length_map, List.length_append, List.length_drop, List.length_take] at this
    simp only [List.length_drop]
    rw [List.length_drop] at hGl
    omega
  refine ⟨?_, ?_, ?_⟩
  · rw [hXs, List.length_append, hXdl, List.length_take]
    omega
  · rw [hXs, List.all_append, all_take _ _ _ hgood0, all_goodEntry_congr _ _ hc,
      List.all_append, all_drop _ _ _ (all_drop _ _ _ hgood0),
      all_take _ _ _ (all_drop _ _ _ hgood0)]
    rfl
  · have hRl := roll_list ((T0.drop k).map absVal) N c r
      (by rw [List.length_map, hGl]) hcn hsh
    have hRs : (T0.map absVal).reverse ++ List.replicate b0 RVal.other =
        ((T0.drop k).map absVal).reverse ++
          (((T0.take k).map absVal).reverse ++ List.replicate b0 RVal.other) := by
      rw [← List.append_assoc, ← List.reverse_append, ← List.map_append,
        List.take_append_drop]
    have hlen : (((T0.drop k).map absVal).reverse).length = N := by
      rw [List.length_reverse, List.length_map, hGl]
    rw [hRs, List.take_left' hlen, List.drop_left' hlen, ← hRl, hXs, List.map_append,
      List.reverse_append, List.append_assoc, map_absVal_congr _ _ hc, List.map_append,
      List.map_drop, List.map_take]

/-- The operator `roll` on a state whose two top entries are the integer
literals `n` (below) and `d`, with `1 <= n` and `-n <= d <= n`; `s2` is the
state without the two. -/
theorem roll_at (s s2 : PSC) (dE nE : Entry) (d n : Int) (b0 : Nat)
    (hs2 : ({ s with sp := s.sp - 2 } : PSC) = s2) (hp : 2 ≤ s.sp)
    (hgetd : s.st[s.sp - 1]? = some dE) (hgetn : s.st[s.sp - 2]? = some nE)
    (d1 : dE.type = TYPE_INTLIT) (n1 : nE.type = TYPE_INTLIT)
    (d2 : dE.expr = some (intStr d)) (n2 : nE.expr = some (intStr n))
    (hn1 : 1 ≤ n) (hlt : n < 2 ^ 53) (hd1 : -n ≤ d) (hd2 : d ≤ n)
    (hok0 : trackerOk (need n s2) = true) (h4 : n.toNat ≤ (need n s2).sp) :
    ∃ s1, opRoll s = .ok s1 ∧ s1.block = (need n s2).block ∧
      s1.tracked.length = s1.sp ∧ s1.tracked.all goodEntry = true ∧
      (s1.tracked.map absVal).reverse ++ List.replicate b0 RVal.other =
        ((logical (need n s2) b0).take n.toNat).rotate (d % n).toNat ++
          (logical (need n s2) b0).drop n.toNat := by
  obtain ⟨hwf0, hgood0⟩ := (trackerOk_iff _).mp hok0
  have hT0 := tracked_length _ hwf0
  obtain ⟨s1, g1, g2, g3, g4, g5, g6⟩ := roll_core s dE nE d n hp hgetd hgetn d1 n1 d2 n2
    hn1 hlt hd1 hd2
  rw [hs2] at g2 g3 g4 g5 g6
  rw [g2] at g4 g5 g6
  have hc : (s1.tracked.drop ((need n s2).sp - n.toNat)).map Entry.te =
      (((need n s2).tracked.drop ((need n s2).sp - n.toNat)).drop
          (if d < 0 then -d else n - d).toNat ++
       ((need n s2).tracked.drop ((need n s2).sp - n.toNat)).take
          (if d < 0 then -d else n - d).toNat).map Entry.te := by
    by_cases hdn : d < 0
    · rw [if_pos hdn]
      exact g6 hdn
    · rw [if_neg hdn]
      exact g5 (by omega)
  have hcn : (if d < 0 then -d else n - d).toNat ≤ n.toNat := by
    split <;> omega
  obtain ⟨r1, r2, r3⟩ := roll_lists (need n s2).tracked s1.tracked n.toNat
    ((need n s2).sp - n.toNat) (if d < 0 then -d else n - d).toNat (d % n).toNat b0
    (by rw [hT0]; omega) g4 hc hgood0 hcn (roll_shift n d (by omega) hd1 hd2)
  refine ⟨s1, g1, g3, ?_, r2, ?_⟩
  · rw [r1, hT0, g2]
  · rw [r3]
    rfl

theorem step_roll (s : PSC) (b m : Nat) (R1 : List RVal) (hok : trackerOk s = true)
    (hd : decrRoom s.block m = true)
    (hi : interpStep .roll (logical s b) = some R1)
    (hr : rollInRange .roll (logical s b) = true) : StepOk s b m R1 (opRoll s) := by
  obtain ⟨d, n, R, hL, hn0, hnR, hR1⟩ : ∃ d n R, logical s b = .lit d :: .lit n :: R ∧
      0 ≤ n ∧ n.toNat ≤ R.length ∧
      R1 = (R.take n.toNat).rotate (d % n).toNat ++ R.drop n.toNat := by
    match hl : logical s b, hi with
    | .lit d :: .lit n :: R, hi =>
      simp only [interpStep] at hi
      split at hi
      · rename_i hc
        simp only [Option.some.injEq] at hi
        exact ⟨d, n, R, rfl, hc.1, hc.2, hi.symm⟩
      · cases hi
  rw [hL] at hr
  simp only [rollInRange, Bool.and_eq_true, decide_eq_true_eq] at hr
  obtain ⟨hd1, hd2⟩ := hr
  obtain ⟨D, nE, dE, htr, hp, had, han, hgd, hgn, hgD, hR, hgetd, hgetn, hok2, htr2⟩ :=
    logical_lit_top2 s b d n R hok hL
  obtain ⟨d1, d2, d3, d4⟩ := absVal_lit dE d hgd had
  obtain ⟨n1, n2, n3, n4⟩ := absVal_lit nE n hgn han
  generalize hs2 : ({ s with sp := s.sp - 2 } : PSC) = s2 at hok2 htr2
  have hb2 : s2.block = s.block := by rw [← hs2]
  have hl2 : s2.lex = s.lex := by rw [← hs2]
  have hL2 : logical s2 b = R := by
    rw [logical_of_tracked _ b D htr2, hR]
  have hnn : ((n.toNat : Nat) : Int) = n := Int.toNat_of_nonneg hn0
  have hfront := need_front s2 n.toNat b m hok2 (by rw [hb2]; exact hd)
    (by rw [hL2]; exact hnR)
  rw [hnn, hb2, hL2] at hfront
  obtain ⟨h1, h2, h3, h4, h5, h6⟩ := hfront
  by_cases hz : n = 0
  · subst hz
    have hd0 : d = 0 := by omega
    subst hd0
    obtain ⟨hwf0, hgood0⟩ := (trackerOk_iff _).mp h1
    have g1 : opRoll s = .ok (need 0 s2) := by
      rw [opRoll_eq s dE nE 0 0 hp hgetd hgetn d1 n1 d3 n3, hs2, rollTail_zero]
    rw [g1]
    apply stepOk_finish s (need 0 s2) (need 0 s2) b _ m _ R1 h3 rfl
      (tracked_length _ hwf0) hgood0
    · rw [hR1, ← logical_of_tracked _ _ _ rfl, h2]
      simp
    · rfl
    · exact h6.trans hl2
    · exact decrRoom_mono _ _ _ h5 (by omega)
  · have hlt : n < 2 ^ 53 := by
      have := maxSafe_int
      omega
    obtain ⟨s1, g1, g3, r1, r2, r3⟩ := roll_at s s2 dE nE d n (b - (n.toNat - s2.sp)) hs2 hp
      hgetd hgetn d1 n1 d2 n2 (by omega) hlt hd1 hd2 h1 h4
    rw [g1]
    apply stepOk_finish s (need n s2) s1 b _ m _ R1 h3 rfl r1 r2
    · rw [r3, h2, hR1]
    · rw [g3]
    · exact opRoll_lex _ _ g1
    · rw [g3]
      exact decrRoom_mono _ _ _ h5 (by omega)

/-! ## Straight-line code: the tokens and the loop of `compile` -/

theorem compileToken_pop (comp : Comp) (lnbr : Nat) (s : PSC) :
    compileToken comp "pop" lnbr s = opPop s := by
  rfl

theorem compileToken_dup (comp : Comp) (lnbr : Nat) (s : PSC) :
    compileToken comp "dup" lnbr s = opDup s := by
  rfl

theorem compileToken_exch (comp : Comp) (lnbr : Nat) (s : PSC) :
    compileToken comp "exch" lnbr s = opExch s := by
  rfl

theorem compileToken_copy (comp : Comp) (lnbr : Nat) (s : PSC) :
    compileToken comp "copy" lnbr s = opCopy s := by
  rfl

theorem compileToken_index (comp : Comp) (lnbr : Nat) (s : PSC) :
    compileToken comp "index" lnbr s = opIndex s := by
  rfl

theorem compileToken_roll (comp : Comp) (lnbr : Nat) (s : PSC) :
    compileToken comp "roll" lnbr s = opRoll s := by
  rfl

theorem compileToken_add (comp : Comp) (lnbr : Nat) (s : PSC) :
    compileToken comp "add" lnbr s = binarith "+" s := by
  rfl

theorem compileToken_sub (comp : Comp) (lnbr : Nat) (s : PSC) :
    compileToken comp "sub" lnbr s = binarith "-" s := by
  rfl

theorem compileToken_mul (comp : Comp) (lnbr : Nat) (s : PSC) :
    compileToken comp "mul" lnbr s = binarith "*" s := by
  rfl

theorem compileToken_div (comp : Comp) (lnbr : Nat) (s : PSC) :
    compileToken comp "div" lnbr s = binarith "/" s := by
  rfl

theorem compileToken_mod (comp : Comp) (lnbr : Nat) (s : PSC) :
    compileToken comp "mod" lnbr s = binarith "%" s := by
  rfl

/-- One operator of straight-line code: the compiled state follows the direct
interpretation. -/
theorem step_op (comp : Comp) (op : SLOp) (lnbr : Nat) (s : PSC) (b m : Nat)
    (R1 : List RVal) (hok : trackerOk s = true) (hd : decrRoom s.block m = true)
    (hm : 1 ≤ m) (hi : interpStep op (logical s b) = some R1)
    (hr : rollInRange op (logical s b) = true)
    (hlit : ∀ n, op = .int n → n.natAbs < maxSafe) :
    StepOk s b m R1 (compileToken comp op.token lnbr s) := by
  cases op with
  | int n =>
    simp only [interpStep, Option.some.injEq] at hi
    rw [← hi]
    exact step_int comp n lnbr s b m hok hd (hlit n rfl)
  | str t =>
    simp only [interpStep, Option.some.injEq] at hi
    rw [← hi]
    exact step_str comp t lnbr s b m hok hd
  | pop => exact step_pop s b m R1 hok hd hm hi
  | dup => exact step_dup s b m R1 hok hd hi
  | exch => exact step_exch s b m R1 hok hd hi
  | copy => exact step_copy s b m R1 hok hd hi
  | index => exact step_index s b m R1 hok hd hi
  | roll => exact step_roll s b m R1 hok hd hi hr
  | add =>
    have h : ∃ x y R, logical s b = x :: y :: R ∧ R1 = RVal.other :: R := by
      match hl : logical s b, hi with
      | x :: y :: R, hi =>
        simp only [interpStep, Option.some.injEq] at hi
        exact ⟨x, y, R, rfl, hi.symm⟩
    exact step_arith "+" '+' rfl (by decide) (by decide) (by decide) s b m R1 hok hd h
  | sub =>
    have h : ∃ x y R, logical s b = x :: y :: R ∧ R1 = RVal.other :: R := by
      match hl : logical s b, hi with
      | x :: y :: R, hi =>
        simp only [interpStep, Option.some.injEq] at hi
        exact ⟨x, y, R, rfl, hi.symm⟩
    exact step_arith "-" '-' rfl (by decide) (by decide) (by decide) s b m R1 hok hd h
  | mul =>
    have h : ∃ x y R, logical s b = x :: y :: R ∧ R1 = RVal.other :: R := by
      match hl : logical s b, hi with
      | x :: y :: R, hi =>
        simp only [interpStep, Option.some.injEq] at hi
        exact ⟨x, y, R, rfl, hi.symm⟩
    exact step_arith "*" '*' rfl (by decide) (by decide) (by decide) s b m R1 hok hd h
  | div =>
    have h : ∃ x y R, logical s b = x :: y :: R ∧ R1 = RVal.other :: R := by
      match hl : logical s b, hi with
      | x :: y :: R, hi =>
        simp only [interpStep, Option.some.injEq] at hi
        exact ⟨x, y, R, rfl, hi.symm⟩
    exact step_arith "/" '/' rfl (by decide) (by decide) (by decide) s b m R1 hok hd h
  | mod =>
    have h : ∃ x y R, logical s b = x :: y :: R ∧ R1 = RVal.other :: R := by
      match hl : logical s b, hi with
      | x :: y :: R, hi =>
        simp only [interpStep, Option.some.injEq] at hi
        exact ⟨x, y, R, rfl, hi.symm⟩
    exact step_arith "%" '%' rfl (by decide) (by decide) (by decide) s b m R1 hok hd h

theorem next_stack_nil (l : Lexer) (rest : List (List Token)) (h : l.stack = [] :: rest) :
    l.next = (none, l) := by
  unfold Lexer.next
  rw [h]

theorem next_stack_token (l : Lexer) (t : Token) (ts : List Token) (rest : List (List Token))
    (h : l.stack = (t :: ts) :: rest) :
    l.next = (some t.token,
      { l with stack := ts :: rest, token := some t.token, lnbr := t.lnbr }) := by
  unfold Lexer.next
  rw [h]

/-- The loop of `compile` over the tokens of straight-line code: it ends, and
the state it ends in stands for the operand stack of the direct
interpretation. -/
theorem straightline_sim : ∀ (ops : List SLOp) (s : PSC) (b : Nat) (R : List RVal)
    (fuel lnbr : Nat) (rest : List (List Token)),
    trackerOk s = true → decrRoom s.block ops.length = true →
    interp ops (logical s b) = some R → inRange ops (logical s b) = true →
    s.lex.stack = slTokens lnbr ops :: rest → ops.length < fuel →
    ∃ s1 b1, compile fuel s = .ok s1 ∧ trackerOk s1 = true ∧ logical s1 b1 = R ∧
      net s1.block - net s.block = (b1 : Int) - (b : Int) := by
  intro ops
  induction ops with
  | nil =>
    intro s b R fuel lnbr rest hok _ hi _ hlex hf
    cases fuel with
    | zero => exact absurd hf (Nat.not_lt_zero _)
    | succ f =>
      simp only [interp, Option.some.injEq] at hi
      refine ⟨s, b, ?_, hok, hi, by ring⟩
      rw [compile, next_stack_nil s.lex rest hlex]
  | cons op ops ih =>
    intro s b R fuel lnbr rest hok hd hi hr hlex hf
    cases fuel with
    | zero => exact absurd hf (Nat.not_lt_zero _)
    | succ f =>
      simp only [interp] at hi
      cases hs : interpStep op (logical s b) with
      | none => simp [hs] at hi
      | some R1 =>
        rw [hs] at hi
        simp only at hi
        simp only [inRange, hs, Bool.and_eq_true] at hr
        obtain ⟨⟨hr1, hr2⟩, hr3⟩ := hr
        have hlit : ∀ n, op = .int n → n.natAbs < maxSafe := by
          intro n hn
          subst hn
          simpa using hr2
        have hx : s.lex.stack =
            (({ token := op.token, lnbr := lnbr } : Token) :: slTokens lnbr ops) :: rest := hlex
        obtain ⟨s1, b1, g1, g2, g3, g4, g5, g6⟩ := step_op (compile f) op lnbr
          { s with lex := { s.lex with stack := slTokens lnbr ops :: rest,
                                       token := some op.token, lnbr := lnbr } }
          b (ops.length + 1) R1 hok hd (by omega) hs hr1 hlit
        obtain ⟨s2, b2, k1, k2, k3, k4⟩ := ih s1 b1 R f lnbr rest g2 g6
          (by rw [g3]; exact hi) (by rw [g3]; exact hr3) (by rw [g5])
          (by simp only [List.length_cons] at hf; omega)
        refine ⟨s2, b2, ?_, k2, k3, ?_⟩
        · rw [compile, next_stack_token s.lex { token := op.token, lnbr := lnbr }
            (slTokens lnbr ops) rest hx]
          simp only
          have g1b : compileToken (compile f) op.token lnbr
              { s with lex := { s.lex with stack := slTokens lnbr ops :: rest,
                                           token := some op.token, lnbr := lnbr } } =
              .ok s1 := g1
          rw [g1b]
          exact k1
        · have g4b : net s1.block - net s.block = (b1 : Int) - (b : Int) := g4
          omega

/-- C3, the code at the failing input.  In `0 1 0 0 3 -4 roll copy` the shift
-4 is outside `-3 .. 3`.  `$.roll` does not reduce the shift modulo the count:
its first splice removes four entries, the count 3 of the roll among them, and
the second splice puts them back below the pointer, so that the count comes to
lie on top of the trace stack.  `copy` takes it for its count, and the tracker
ends with 6 entries and no emitted line, where direct interpretation (a shift
by -4 is a shift by -1) leaves 4 values: 6 is not 4. -/
theorem roll_shift_out_of_range :
    trackerOk (slStart rollProg) = true ∧
    interp rollProg (logical (slStart rollProg) 0) =
      some [.lit 0, .lit 0, .lit 0, .lit 0] ∧
    (compile 20 (slStart rollProg)).toOption.map
      (fun s1 => (s1.sp : Int) + (net s1.block - net (slStart rollProg).block)) = some 6 ∧
    ((slStart rollProg).sp : Int) +
      ((4 : Int) - ((logical (slStart rollProg) 0).length : Int)) = 4 := by
  decide!

/-- Stack-depth soundness of straight-line code where every shift of a `roll`
is in range.  Straight-line code: a sequence `ops` of pushes of
integer and string literals, `pop`, `dup`, `exch`, `copy`, `index`, `roll` and
the arithmetic operators `add`, `sub`, `mul`, `div`, `mod`, whose tokens are
the pushed token stream.  The starting state `s` is one whose tracked entries
are as the compiler makes them (`trackerOk`), above `b` values on the real
stack.  Direct interpretation of `ops` on the operand stack that `s` stands
for succeeds and gives `R` (so the counts of `copy`, `index` and `roll` are
integers known as literals), every shift `d` of a `roll` of `n` values has
`-n <= d <= n`, every integer literal is below `2^53` in magnitude, and so
stays the count of a coalesced decrement.  Then `compile` ends, and in the
state it ends in the number of tracked entries plus the net number of pushes
minus pops of the emitted lines is the starting number of tracked entries plus
the change of the depth of the operand stack under direct interpretation.
Every initial part of such a sequence is such a sequence, so the equation holds
at every point of the compilation. -/
theorem straightline_depth (ops : List SLOp) (s : PSC) (b fuel lnbr : Nat)
    (rest : List (List Token)) (R : List RVal)
    (hok : trackerOk s = true) (hroom : decrRoom s.block ops.length = true)
    (hi : interp ops (logical s b) = some R) (hr : inRange ops (logical s b) = true)
    (hlex : s.lex.stack = slTokens lnbr ops :: rest) (hfuel : ops.length < fuel) :
    ∃ s1, compile fuel s = .ok s1 ∧
      (s1.sp : Int) + (net s1.block - net s.block) =
        (s.sp : Int) + ((R.length : Int) - ((logical s b).length : Int)) := by
  obtain ⟨s1, b1, h1, h2, h3, h4⟩ := straightline_sim ops s b R fuel lnbr rest hok hroom hi hr
    hlex hfuel
  refine ⟨s1, h1, ?_⟩
  obtain ⟨hwf, _⟩ := (trackerOk_iff s).mp hok
  obtain ⟨hwf1, _⟩ := (trackerOk_iff s1).mp h2
  rw [← h3, logical_length s b hwf, logical_length s1 b1 hwf1, h4]
  push_cast
  ring

theorem straightline_depth_witness :
    trackerOk (slStart slWitness) = true ∧
    decrRoom (slStart slWitness).block slWitness.length = true ∧
    interp slWitness (logical (slStart slWitness) 5) = some [.other] ∧
    inRange slWitness (logical (slStart slWitness) 5) = true ∧
    ∃ s1, compile 40 (slStart slWitness) = .ok s1 ∧
      (s1.sp : Int) + (net s1.block - net (slStart slWitness).block) =
        ((slStart slWitness).sp : Int) +
          ((([RVal.other] : List RVal).length : Int) -
            ((logical (slStart slWitness) 5).length : Int)) :=
  ⟨by decide, by decide, by decide, by decide,
    straightline_depth slWitness (slStart slWitness) 5 40 1 [] [.other] (by decide) (by decide)
      (by decide) (by decide) rfl (by decide)⟩

/-! ## Forward references inside the body of a top-level procedure -/

/-- A character that passes a test is none of the characters that fail it. -/
theorem ne_of_test (p : Char → Bool) (c x : Char) (hc : p c = true) (hx : p x = false) : c ≠ x := by
  intro h
  rw [h, hx] at hc
  cases hc

theorem isDigit_cases (c : Char) (h : c.isDigit = true) : c ∈ "0123456789".data := by
  have hc := char_eq_ofNat c c.toNat rfl
  have h1 : 48 ≤ c.toNat ∧ c.toNat ≤ 57 := by
    simp only [Char.isDigit, Bool.and_eq_true, decide_eq_true_eq] at h
    exact ⟨h.1, h.2⟩
  generalize c.toNat = n at h1 hc
  subst hc
  obtain ⟨h2, h3⟩ := h1
  interval_cases n <;> decide

theorem identStart_not_digit (c : Char) (h : isIdentStart c = true) : c.isDigit = false := by
  cases hd : c.isDigit with
  | false => rfl
  | true =>
    have := isDigit_cases c hd
    simp only [String.data, List.mem_cons, List.mem_nil_iff, or_false] at this
    rcases this with rfl | rfl | rfl | rfl | rfl | rfl | rfl | rfl | rfl | rfl <;>
      exact absurd h (by decide)

theorem wordChar_ne_backslash (c : Char) (h : isWordChar c = true) : c ≠ '\\' :=
  ne_of_test isWordChar c '\\' h (by decide)

theorem identStart_word (c : Char) (h : isIdentStart c = true) : isWordChar c = true := by
  unfold isIdentStart at h
  unfold isWordChar
  simp only [Bool.or_eq_true, beq_iff_eq] at h ⊢
  rcases h with h | h
  · left
    unfold Char.isAlphanum
    simp [h]
  · right
    exact h

/-- The shape of a text that `/^[A-Za-z_]\w*$/` accepts. -/
theorem reIdent_shape (x : String) (h : RE.testStart reIdent x = true) :
    ∃ c rest, x.data = c :: rest ∧ isIdentStart c = true ∧ rest.all isWordChar = true := by
  unfold RE.testStart RE.execStart at h
  rw [Option.isSome_iff_exists] at h
  obtain ⟨v, hv⟩ := h
  unfold reIdent at hv
  simp only [RE.cat] at hv
  rw [run_seq] at hv
  cases hx : x.data with
  | nil =>
    rw [hx] at hv
    simp [RE.run] at hv
  | cons c rest =>
    rw [hx, run_cls_cons] at hv
    by_cases hc : isIdentStart c = true
    · rw [if_pos hc, run_seq, run_star] at hv
      obtain ⟨ds, r, h1, h2, h3⟩ := starLoop_cls_some _ _ _ _ _ _ hv
      have hr : r = [] := by
        cases r with
        | nil => rfl
        | cons a b => simp [RE.run] at h3
      rw [hr, List.append_nil] at h1
      exact ⟨c, rest, rfl, hc, by rw [h1]; exact h2⟩
    · rw [if_neg hc] at hv
      cases hv

/-- A run of word characters, whatever follows it when that is no word
character, is what `\w*` takes. -/
theorem run_word_star {α : Type} (ds r : List Char) (c : Caps)
    (k : List Char → Caps → Option α) (v : α) (hds : ds.all isWordChar = true)
    (hr : ∀ x t, r = x :: t → isWordChar x = false) (hk : k r c = some v) :
    RE.run (RE.star (RE.cls isWordChar)) (ds ++ r) c k = some v := by
  rw [run_star]
  exact starLoop_cls_then isWordChar k v c r hr hk ds _ hds (by simp; omega)

theorem reIdent_of_shape (c : Char) (rest : List Char) (hc : isIdentStart c = true)
    (hr : rest.all isWordChar = true) : RE.testStart reIdent (String.mk (c :: rest)) = true := by
  unfold RE.testStart RE.execStart reIdent
  simp only [RE.cat]
  rw [run_seq, run_cls_cons, if_pos hc, run_seq]
  have h := run_word_star rest [] [] (fun s1 c1 => RE.run RE.eos s1 c1 (fun s2 c2 => some (s2, c2)))
    ([], []) hr (by intro x t h; cases h) (by simp [RE.run])
  rw [List.append_nil] at h
  rw [h]
  rfl

theorem reIdentDollar_of_shape (c : Char) (rest : List Char) (hc : isIdentStart c = true)
    (hr : rest.all isWordChar = true) :
    RE.testStart reIdentDollar (String.mk (c :: rest)) = true := by
  unfold RE.testStart RE.execStart reIdentDollar
  simp only [RE.cat]
  rw [run_seq, run_cls_cons, if_pos (by simp [hc]), run_seq]
  have h := run_word_star rest [] [] (fun s1 c1 => RE.run RE.eos s1 c1 (fun s2 c2 => some (s2, c2)))
    ([], []) hr (by intro x t h; cases h) (by simp [RE.run])
  rw [List.append_nil] at h
  rw [h]
  rfl

theorem reQuotedIdent_of_shape (c : Char) (rest : List Char) (hc : isIdentStart c = true)
    (hr : rest.all isWordChar = true) :
    RE.testStart reQuotedIdent ("\"" ++ String.mk (c :: rest) ++ "\"") = true := by
  unfold RE.testStart RE.execStart reQuotedIdent
  simp only [RE.cat]
  have hd : ("\"" ++ String.mk (c :: rest) ++ "\"").data = '"' :: c :: (rest ++ ['"']) := by
    simp [String.data_append]
  rw [hd, run_seq, run_chr_cons, run_seq, run_cls_cons, if_pos hc, run_seq]
  rw [run_word_star rest ['"'] [] _ ([], []) hr
    (by intro x t h; cases h; decide) (by simp [RE.run])]
  rfl

theorem run_strChar {α : Type} (d : Char) (t : List Char) (c : Caps)
    (k1 : List Char → Caps → Option α) (v : α) (hd1 : d ≠ '"') (hd2 : d ≠ '\\')
    (hk : k1 t ((1, [d]) :: c) = some v) :
    RE.run (RE.group 1 (RE.alt (RE.cls (fun c => c != '"' && c != '\\'))
      (RE.seq (RE.chr '\\') RE.dot))) (d :: t) c k1 = some v := by
  have e : (t.length + 1 - t.length) = 1 := by omega
  simp [RE.run, hd1, hd2, e, hk]

/-- The body of a string literal made of word characters is taken by the
iteration of `/^"([^"\\]|\\.)*"$/`, which then finds the closing quote. -/
theorem starLoop_strBody (ds : List Char) (hds : ds.all isWordChar = true) :
    ∀ (n : Nat) (c : Caps), ds.length < n →
      (RE.starLoop (fun s1 c1 k1 =>
          RE.run (RE.group 1 (RE.alt (RE.cls (fun c => c != '"' && c != '\\'))
            (RE.seq (RE.chr '\\') RE.dot))) s1 c1 k1) n (ds ++ ['"']) c
        (fun s1 c1 => RE.run (RE.chr '"') s1 c1
          (fun s2 c2 => RE.run RE.eos s2 c2 (fun s3 c3 => some (s3, c3))))).isSome = true := by
  induction ds with
  | nil =>
    intro n c hn
    cases n with
    | zero => omega
    | succ m => simp [RE.starLoop, RE.run]
  | cons d ds ih =>
    intro n c hn
    simp only [List.all_cons, Bool.and_eq_true] at hds
    cases n with
    | zero => omega
    | succ m =>
      have hd1 : d ≠ '"' := ne_of_test isWordChar d '"' hds.1 (by decide)
      have hd2 : d ≠ '\\' := ne_of_test isWordChar d '\\' hds.1 (by decide)
      have hm : ds.length < m := by simp only [List.length_cons] at hn; omega
      have h := ih hds.2 m ((1, [d]) :: c) hm
      rw [Option.isSome_iff_exists] at h
      obtain ⟨v, hv⟩ := h
      rw [List.cons_append, RE.starLoop]
      rw [run_strChar d (ds ++ ['"']) c _ v hd1 hd2 (by
        show (if (ds ++ ['"']).length < (d :: (ds ++ ['"'])).length then _ else none) = some v
        rw [if_pos (by simp)]
        exact hv)]
      rfl

theorem reStrLit_of_shape (c : Char) (rest : List Char) (hc : isIdentStart c = true)
    (hr : rest.all isWordChar = true) :
    RE.testStart reStrLit ("\"" ++ String.mk (c :: rest) ++ "\"") = true := by
  unfold RE.testStart RE.execStart reStrLit
  simp only [RE.cat]
  have hd : ("\"" ++ String.mk (c :: rest) ++ "\"").data = '"' :: ((c :: rest) ++ ['"']) := by
    simp [String.data_append]
  rw [hd, run_seq, run_chr_cons, run_seq, run_star]
  have hall : (c :: rest).all isWordChar = true := by
    simp only [List.all_cons, Bool.and_eq_true]
    exact ⟨identStart_word c hc, hr⟩
  have h := starLoop_strBody (c :: rest) hall (((c :: rest) ++ ['"']).length + 1) [] (by simp)
  simp only [run_seq]
  exact h

theorem unquote_quoted (x : String) : unquote ("\"" ++ x ++ "\"") = x := by
  unfold unquote
  have hd : ("\"" ++ x ++ "\"").data = '"' :: (x.data ++ ['"']) := by
    simp [String.data_append]
  rw [hd]
  simp

/-- A text without a backslash is left as it is by `replace(/\\(.)/g, '$1')`. -/
theorem unescape_plain (x : String) (h : ∀ c ∈ x.data, c ≠ '\\') : unescape x = x := by
  unfold unescape RE.replaceAll
  rw [RE.replaceAllL]
  have hn : RE.searchL (RE.seq (RE.chr '\\') (RE.group 1 RE.dot)) x.data = none := by
    rw [searchL_none_iff]
    intro u hu
    cases u with
    | nil => simp [RE.execStart, RE.run]
    | cons y t =>
      have hy : y ∈ x.data := hu.subset (List.mem_cons_self y t)
      have hne := h y hy
      simp [RE.execStart, RE.run, Ne.symm hne]
  rw [hn]

theorem ident_ne (x y : String) (c : Char) (rest : List Char) (hd : x.data = c :: rest)
    (hc : isIdentStart c = true) (hy : (y.data.head?.map isIdentStart).getD false = false) :
    x ≠ y := by
  intro h
  rw [← h, hd] at hy
  simp [hc] at hy

theorem slash_ne (x y : String) (hy : y.data.head? ≠ some '/') : "/" ++ x ≠ y := by
  intro h
  rw [← h] at hy
  simp [String.data_append] at hy

/-- What the compiler finds out about an identifier `x` when it meets it as a
token, in a name literal and as the key of a definition. -/
theorem ident_facts (x : String) (h : RE.testStart reIdent x = true) :
    ∃ (c : Char) (rest : List Char), x.data = c :: rest ∧ String.mk (c :: rest) = x ∧
      ((c == '-') = false ∧ c.isDigit = false ∧ (c == '.') = false ∧ (c == '(') = false ∧
        (c == '/') = false ∧ ¬ c = '/') ∧
      (x ≠ "\x7b" ∧ x ≠ "\x7d" ∧ x ≠ "[" ∧ x ≠ "]" ∧ x ≠ "<<" ∧ x ≠ ">>") ∧
      ("/" ++ x ≠ "\x7b" ∧ "/" ++ x ≠ "\x7d" ∧ "/" ++ x ≠ "[" ∧ "/" ++ x ≠ "]" ∧
        "/" ++ x ≠ "<<" ∧ "/" ++ x ≠ ">>") ∧
      (RE.testStart reIdentDollar x = true ∧
        RE.testStart reStrLit ("\"" ++ x ++ "\"") = true ∧
        RE.testStart reQuotedIdent ("\"" ++ x ++ "\"") = true ∧
        unquote ("\"" ++ x ++ "\"") = x ∧ unescape x = x) := by
  obtain ⟨c, rest, hd, hc, hr⟩ := reIdent_shape x h
  have hmk : String.mk (c :: rest) = x := by rw [← hd]
  have hne : ∀ y : Char, isIdentStart y = false → c ≠ y := fun y hy => ne_of_test _ c y hc hy
  refine ⟨c, rest, hd, hmk, ⟨?_, identStart_not_digit c hc, ?_, ?_, ?_, ?_⟩, ⟨?_, ?_, ?_, ?_, ?_, ?_⟩,
    ⟨?_, ?_, ?_, ?_, ?_, ?_⟩, ⟨?_, ?_, ?_, ?_, ?_⟩⟩
  · exact beq_false_of_ne (hne _ (by decide))
  · exact beq_false_of_ne (hne _ (by decide))
  · exact beq_false_of_ne (hne _ (by decide))
  · exact beq_false_of_ne (hne _ (by decide))
  · exact hne _ (by decide)
  · exact ident_ne x _ c rest hd hc (by decide)
  · exact ident_ne x _ c rest hd hc (by decide)
  · exact ident_ne x _ c rest hd hc (by decide)
  · exact ident_ne x _ c rest hd hc (by decide)
  · exact ident_ne x _ c rest hd hc (by decide)
  · exact ident_ne x _ c rest hd hc (by decide)
  · exact slash_ne x _ (by decide)
  · exact slash_ne x _ (by decide)
  · exact slash_ne x _ (by decide)
  · exact slash_ne x _ (by decide)
  · exact slash_ne x _ (by decide)
  · exact slash_ne x _ (by decide)
  · rw [← hmk]; exact reIdentDollar_of_shape c rest hc hr
  · rw [← hmk]; exact reStrLit_of_shape c rest hc hr
  · rw [← hmk]; exact reQuotedIdent_of_shape c rest hc hr
  · exact unquote_quoted x
  · apply unescape_plain
    intro d hdm
    rw [hd] at hdm
    have hw : isWordChar d = true := by
      rcases List.mem_cons.mp hdm with rfl | hm
      · exact identStart_word _ hc
      · exact (List.all_eq_true.mp hr) d hm
    exact wordChar_ne_backslash d hw

/-- What the compiler finds out about a name for a procedure beyond its being
an identifier: the operator table has no entry for it, it is not an inherited
name, and the seeded dictionary does not hold it. -/
theorem procName_facts (x : String) (h : isProcName x = true) :
    RE.testStart reIdent x = true ∧ (∀ comp : Comp, opTable comp x = none) ∧
      (x ∈ protoNames) = False ∧
      (("bwipjs_dontdraw" == x) = false ∧ ("pixs" == x) = false ∧ ("pixy" == x) = false ∧
        ("pixx" == x) = false ∧ ("opt" == x) = false ∧ ("$error" == x) = false) := by
  unfold isProcName at h
  simp only [Bool.and_eq_true, Bool.not_eq_true', decide_eq_false_iff_not,
    Option.isNone_iff_eq_none] at h
  obtain ⟨⟨⟨h1, h2⟩, h3⟩, h4⟩ := h
  refine ⟨h1, ?_, eq_false h3, ?_⟩
  · intro comp
    have := opTable_total comp x
    rw [decide_eq_false h2] at this
    cases ho : opTable comp x with
    | none => rfl
    | some v => rw [ho] at this; cases this
  · unfold dictGet seedDict at h4
    simp only [List.find?, Option.map_eq_none'] at h4
    repeat' split at h4
    all_goals first | (cases h4; done) | skip
    refine ⟨?_, ?_, ?_, ?_, ?_, ?_⟩ <;> assumption

/-- A line that does not begin with `var ` is no declaration for `devar`. -/
theorem redecl_none_of_head (code : String) (h : code.data.head? ≠ some 'v') :
    RE.execStart redecl code.data = none := by
  unfold RE.execStart redecl
  simp only [RE.cat]
  rw [run_seq]
  unfold RE.lit
  rw [run_lit]
  cases hd : code.data with
  | nil => simp [startsWithL]
  | cons x t =>
    rw [hd] at h
    have hx : ('v' == x) = false := by
      apply beq_false_of_ne
      intro e
      apply h
      rw [e]
      rfl
    simp [startsWithL, hx]

/-- The lines among which `devar` finds no declaration are left as they are. -/
theorem devarLoop_no_decl : ∀ (n i : Nat) (lines : List Line),
    (∀ l ∈ lines, RE.execStart redecl l.code.data = none) → devarLoop n i lines = lines := by
  intro n
  induction n with
  | zero => intro i lines _; rfl
  | succ m ih =>
    intro i lines h
    cases lines with
    | nil => rfl
    | cons l rest =>
      rw [devarLoop, h l (List.mem_cons_self _ _)]
      simp only []
      rw [ih (i + 1) rest (fun x hx => h x (List.mem_cons_of_mem _ hx))]

theorem devar_no_decl (lines : List Line)
    (h : ∀ l ∈ lines, l.code.data.head? ≠ some 'v' ∨ l.code = "var $1=\x7b\x7d;") :
    devar lines = lines := by
  apply devarLoop_no_decl
  intro l hl
  rcases h l hl with h1 | h1
  · exact redecl_none_of_head _ h1
  · rw [h1]
    decide

theorem compile_succ (f : Nat) (s : PSC) :
    compile (f + 1) s =
      match s.lex.next with
      | (none, lx) => .ok { s with lex := lx }
      | (some tkn, lx) =>
        match compileToken (compile f) tkn lx.lnbr { s with lex := lx } with
        | .error e => .error e
        | .ok s1 => compile f s1 := rfl

theorem opTable_dict (comp : Comp) : opTable comp "dict" = some opDict := rfl

theorem opTable_begin (comp : Comp) : opTable comp "begin" = some opBegin := rfl

theorem opTable_end (comp : Comp) : opTable comp "end" = some opEnd := rfl

theorem opTable_bind (comp : Comp) : opTable comp "bind" = some (opBind comp) := rfl

theorem opTable_def (comp : Comp) : opTable comp "def" = some (opDef comp) := rfl

set_option maxRecDepth 100000 in
set_option maxHeartbeats 4000000 in
theorem forward_run (dv : Bool) (A f g : String) (hA : isProcName A = true) (hf : isProcName f = true)
    (hg : isProcName g = true) (hfg : f ≠ g) :
    PSCmain 60 { devar := dv, coverage := false } (progForward A f g) =
      .ok ("$0." ++ A ++ "=function()\x7b\nvar $1=\x7b\x7d;/*1*/\n$1." ++ f ++ "=function()\x7b\n$1." ++ g ++
           "();/*1*/\n\x7d;/*1*/\n$1." ++ g ++ "=function()\x7b\n$k[$j++]=1;/*1*/\n\x7d;/*1*/\n$1." ++ f ++
           "();/*1*/\n\x7d;\n") := by
  obtain ⟨hr1A, hopA, hpA, ⟨hs0A, hs1A, hs2A, hs3A, hs4A, hs5A⟩⟩ := procName_facts A hA
  obtain ⟨cA, rA, hdA, hmkA, ⟨hc1A, hc2A, hc3A, hc4A, hc5A, hc6A⟩, ⟨hn0A, hn1A, hn2A, hn3A, hn4A, hn5A⟩,
    ⟨hk0A, hk1A, hk2A, hk3A, hk4A, hk5A⟩, ⟨hr2A, hq1A, hq2A, hu1A, hu2A⟩⟩ := ident_facts A hr1A
  obtain ⟨hr1f, hopf, hpf, ⟨hs0f, hs1f, hs2f, hs3f, hs4f, hs5f⟩⟩ := procName_facts f hf
  obtain ⟨cf, rf, hdf, hmkf, ⟨hc1f, hc2f, hc3f, hc4f, hc5f, hc6f⟩, ⟨hn0f, hn1f, hn2f, hn3f, hn4f, hn5f⟩,
    ⟨hk0f, hk1f, hk2f, hk3f, hk4f, hk5f⟩, ⟨hr2f, hq1f, hq2f, hu1f, hu2f⟩⟩ := ident_facts f hr1f
  obtain ⟨hr1g, hopg, hpg, ⟨hs0g, hs1g, hs2g, hs3g, hs4g, hs5g⟩⟩ := procName_facts g hg
  obtain ⟨cg, rg, hdg, hmkg, ⟨hc1g, hc2g, hc3g, hc4g, hc5g, hc6g⟩, ⟨hn0g, hn1g, hn2g, hn3g, hn4g, hn5g⟩,
    ⟨hk0g, hk1g, hk2g, hk3g, hk4g, hk5g⟩, ⟨hr2g, hq1g, hq2g, hu1g, hu2g⟩⟩ := ident_facts g hr1g
  have hfg1 : (f == g) = false := beq_false_of_ne hfg
  have hgf1 : (g == f) = false := beq_false_of_ne (Ne.symm hfg)
  have e1 : intOfText "1" = some 1 := by decide
  have e2 : intStr 1 = "1" := by decide
  have e3 : intStr 0 = "0" := by decide
  have e4 : tvar 0 = "_0" := by decide
  have e5 : lnbrStr 1 = "1" := by decide
  have e6 : (8192 &&& 21 : Nat) = 0 := by decide
  simp only [PSCmain, progForward, forwardBody, tokensOnLine, PSC.init, List.map, List.cons_append,
    List.nil_append, Bool.false_eq_true, if_false]
  repeat
    rw [compile_succ]
    simp [Lexer.next, Lexer.push, Lexer.pop, Lexer.peek, compileToken, pushEntry, stSet, dictGet,
      dictSet, readtokens, readtokensL,
      opTable_dict, opTable_begin, opTable_end, opTable_bind, opTable_def,
      opBind, opDef, bindPass1, ctxpush, ctxpop, ctxflush, flushEntries, stGet, opDict, opBegin,
      opEnd, need, emit, seedDict, compileIdent, functionCode, hasType, exprStr,
      TYPE_UNKNOWN, TYPE_INTLIT, TYPE_INTVAL, TYPE_INTTYP, TYPE_NUMLIT, TYPE_NUMVAL, TYPE_NUMTYP,
      TYPE_STRLIT, TYPE_STRVAL, TYPE_STRTYP, TYPE_ARRAY, TYPE_DICT, TYPE_NULL, TYPE_BOOLEAN,
      TYPE_IDENT, TYPE_IENAME, TYPE_TOKENS, TYPE_FUNCTION, TYPE_PRECALC,
      hdA, hmkA, hc1A, hc2A, hc3A, hc4A, hc5A, hc6A, hn0A, hn1A, hn2A, hn3A, hn4A, hn5A, hk0A, hk1A, hk2A, hk3A, hk4A, hk5A, hr1A, hr2A, hq1A, hq2A, hu1A, hu2A, hopA, hpA, hs0A, hs1A, hs2A, hs3A, hs4A, hs5A, hdf, hmkf, hc1f, hc2f, hc3f, hc4f, hc5f, hc6f, hn0f, hn1f, hn2f, hn3f, hn4f, hn5f, hk0f, hk1f, hk2f, hk3f, hk4f, hk5f, hr1f, hr2f, hq1f, hq2f, hu1f, hu2f, hopf, hpf, hs0f, hs1f, hs2f, hs3f, hs4f, hs5f, hdg, hmkg, hc1g, hc2g, hc3g, hc4g, hc5g, hc6g, hn0g, hn1g, hn2g, hn3g, hn4g, hn5g, hk0g, hk1g, hk2g, hk3g, hk4g, hk5g, hr1g, hr2g, hq1g, hq2g, hu1g, hu2g, hopg, hpg, hs0g, hs1g, hs2g, hs3g, hs4g, hs5g, hfg1, hgf1, e1, e2, e3, e4, e5, e6]
  cases dv
  · simp only [Bool.false_eq_true, if_false, List.foldl, e5]
    apply String.ext
    simp [String.data_append]
  · simp only [if_true]
    repeat rw [devar_no_decl _ (by simp [String.data_append])]
    simp only [List.foldl, e5]
    apply String.ext
    simp [String.data_append]

set_option maxRecDepth 100000 in
set_option maxHeartbeats 4000000 in
theorem forward_pass1 (f g : String) (hf : isProcName f = true)
    (hg : isProcName g = true) (hfg : f ≠ g) (s : PSC) (hdl : s.dlvl = 0)
    (hcov : s.cfg.coverage = false) :
    ∃ s1, bindPass1 (compile 58) (forwardBody f g) s = .ok s1 ∧
      dictGet s1.dict g = some TYPE_FUNCTION ∧ s1.allowunknown = false ∧
      compile 58 (ctxpush (forwardBody f g) { s1 with dict := seedDict }) =
        .error (.thrown ("UNKNOWN IDENT: (" ++ g ++ ") #1")) := by
  obtain ⟨hr1f, hopf, hpf, ⟨hs0f, hs1f, hs2f, hs3f, hs4f, hs5f⟩⟩ := procName_facts f hf
  obtain ⟨cf, rf, hdf, hmkf, ⟨hc1f, hc2f, hc3f, hc4f, hc5f, hc6f⟩, ⟨hn0f, hn1f, hn2f, hn3f, hn4f, hn5f⟩,
    ⟨hk0f, hk1f, hk2f, hk3f, hk4f, hk5f⟩, ⟨hr2f, hq1f, hq2f, hu1f, hu2f⟩⟩ := ident_facts f hr1f
  obtain ⟨hr1g, hopg, hpg, ⟨hs0g, hs1g, hs2g, hs3g, hs4g, hs5g⟩⟩ := procName_facts g hg
  obtain ⟨cg, rg, hdg, hmkg, ⟨hc1g, hc2g, hc3g, hc4g, hc5g, hc6g⟩, ⟨hn0g, hn1g, hn2g, hn3g, hn4g, hn5g⟩,
    ⟨hk0g, hk1g, hk2g, hk3g, hk4g, hk5g⟩, ⟨hr2g, hq1g, hq2g, hu1g, hu2g⟩⟩ := ident_facts g hr1g
  have hfg1 : (f == g) = false := beq_false_of_ne hfg
  have hgf1 : (g == f) = false := beq_false_of_ne (Ne.symm hfg)
  have e1 : intOfText "1" = some 1 := by decide
  have e2 : intStr 1 = "1" := by decide
  have e3 : intStr 0 = "0" := by decide
  have e4 : tvar 0 = "_0" := by decide
  have e5 : lnbrStr 1 = "1" := by decide
  have e6 : (8192 &&& 21 : Nat) = 0 := by decide
  simp only [bindPass1, forwardBody, tokensOnLine, List.map]
  rw [compile_succ]
  simp [Lexer.next, Lexer.push, Lexer.pop, Lexer.peek, compileToken, pushEntry, stSet, dictGet,
      dictSet, readtokens, readtokensL,
      opTable_dict, opTable_begin, opTable_end, opTable_bind, opTable_def,
      opBind, opDef, bindPass1, ctxpush, ctxpop, ctxflush, flushEntries, stGet, opDict, opBegin,
      opEnd, need, emit, seedDict, compileIdent, functionCode, hasType, exprStr,
      TYPE_UNKNOWN, TYPE_INTLIT, TYPE_INTVAL, TYPE_INTTYP, TYPE_NUMLIT, TYPE_NUMVAL, TYPE_NUMTYP,
      TYPE_STRLIT, TYPE_STRVAL, TYPE_STRTYP, TYPE_ARRAY, TYPE_DICT, TYPE_NULL, TYPE_BOOLEAN,
      TYPE_IDENT, TYPE_IENAME, TYPE_TOKENS, TYPE_FUNCTION, TYPE_PRECALC, hdl, hcov,
      hdf, hmkf, hc1f, hc2f, hc3f, hc4f, hc5f, hc6f, hn0f, hn1f, hn2f, hn3f, hn4f, hn5f, hk0f, hk1f, hk2f, hk3f, hk4f, hk5f, hr1f, hr2f, hq1f, hq2f, hu1f, hu2f, hopf, hpf, hs0f, hs1f, hs2f, hs3f, hs4f, hs5f, hdg, hmkg, hc1g, hc2g, hc3g, hc4g, hc5g, hc6g, hn0g, hn1g, hn2g, hn3g, hn4g, hn5g, hk0g, hk1g, hk2g, hk3g, hk4g, hk5g, hr1g, hr2g, hq1g, hq2g, hu1g, hu2g, hopg, hpg, hs0g, hs1g, hs2g, hs3g, hs4g, hs5g, hfg1, hgf1, e1, e2, e3, e4, e5, e6]
  repeat
    rw [compile_succ]
    simp [Lexer.next, Lexer.push, Lexer.pop, Lexer.peek, compileToken, pushEntry, stSet, dictGet,
      dictSet, readtokens, readtokensL,
      opTable_dict, opTable_begin, opTable_end, opTable_bind, opTable_def,
      opBind, opDef, bindPass1, ctxpush, ctxpop, ctxflush, flushEntries, stGet, opDict, opBegin,
      opEnd, need, emit, seedDict, compileIdent, functionCode, hasType, exprStr,
      TYPE_UNKNOWN, TYPE_INTLIT, TYPE_INTVAL, TYPE_INTTYP, TYPE_NUMLIT, TYPE_NUMVAL, TYPE_NUMTYP,
      TYPE_STRLIT, TYPE_STRVAL, TYPE_STRTYP, TYPE_ARRAY, TYPE_DICT, TYPE_NULL, TYPE_BOOLEAN,
      TYPE_IDENT, TYPE_IENAME, TYPE_TOKENS, TYPE_FUNCTION, TYPE_PRECALC, hdl, hcov,
      hdf, hmkf, hc1f, hc2f, hc3f, hc4f, hc5f, hc6f, hn0f, hn1f, hn2f, hn3f, hn4f, hn5f, hk0f, hk1f, hk2f, hk3f, hk4f, hk5f, hr1f, hr2f, hq1f, hq2f, hu1f, hu2f, hopf, hpf, hs0f, hs1f, hs2f, hs3f, hs4f, hs5f, hdg, hmkg, hc1g, hc2g, hc3g, hc4g, hc5g, hc6g, hn0g, hn1g, hn2g, hn3g, hn4g, hn5g, hk0g, hk1g, hk2g, hk3g, hk4g, hk5g, hr1g, hr2g, hq1g, hq2g, hu1g, hu2g, hopg, hpg, hs0g, hs1g, hs2g, hs3g, hs4g, hs5g, hfg1, hgf1, e1, e2, e3, e4, e5, e6]
  apply String.ext
  simp [String.data_append]

/-- C10 (as amended). Let `A`, `f` and `g` be names for procedures:
identifiers (`/^[A-Za-z_]\w*$/`) that are no operator of the table `$`, no
inherited property name and no seeded environment symbol, with `f` and `g`
different. The source
`/A { 1 dict begin /f { g } bind def /g { 1 } bind def f end } bind def`,
in which `f` calls `g` and the body of `A` defines `g` later, (1) compiles,
without coverage and with or without the elimination of temporaries, to the
text in which the call is `$1.g();`; (2) the first pass of a global `bind` over that body, from any
state at dictionary level 0 without coverage, ends with `g` recorded as a
function in the dictionary and with unknown identifiers forbidden, and the
second pass started from the seeded dictionary instead, without what the first
pass recorded, rejects the call with `UNKNOWN IDENT: (g) #1`. -/
theorem forward_reference_within_body (A f g : String) (hA : isProcName A = true)
    (hf : isProcName f = true) (hg : isProcName g = true) (hfg : f ≠ g) :
    (∀ dv : Bool, PSCmain 60 { devar := dv, coverage := false } (progForward A f g) =
      .ok ("$0." ++ A ++ "=function()\x7b\nvar $1=\x7b\x7d;/*1*/\n$1." ++ f ++ "=function()\x7b\n$1." ++ g ++
           "();/*1*/\n\x7d;/*1*/\n$1." ++ g ++ "=function()\x7b\n$k[$j++]=1;/*1*/\n\x7d;/*1*/\n$1." ++ f ++
           "();/*1*/\n\x7d;\n")) ∧
    (∀ s : PSC, s.dlvl = 0 → s.cfg.coverage = false →
      ∃ s1, bindPass1 (compile 58) (forwardBody f g) s = .ok s1 ∧
        dictGet s1.dict g = some TYPE_FUNCTION ∧ s1.allowunknown = false ∧
        compile 58 (ctxpush (forwardBody f g) { s1 with dict := seedDict }) =
          .error (.thrown ("UNKNOWN IDENT: (" ++ g ++ ") #1"))) :=
  ⟨fun dv => forward_run dv A f g hA hf hg hfg,
   fun s hdl hcov => forward_pass1 f g hf hg hfg s hdl hcov⟩

theorem forward_reference_within_body_witness :
    PSCmain 60 { devar := true, coverage := false } (progForward "render" "row" "cell") =
      .ok ("$0.render=function()\x7b\nvar $1=\x7b\x7d;/*1*/\n$1.row=function()\x7b\n$1.cell();/*1*/\n\x7d;/*1*/\n" ++
           "$1.cell=function()\x7b\n$k[$j++]=1;/*1*/\n\x7d;/*1*/\n$1.row();/*1*/\n\x7d;\n") ∧
    ∃ s1, bindPass1 (compile 58) (forwardBody "row" "cell")
        (PSC.init { devar := true, coverage := false } []) = .ok s1 ∧
      dictGet s1.dict "cell" = some TYPE_FUNCTION ∧ s1.allowunknown = false ∧
      compile 58 (ctxpush (forwardBody "row" "cell") { s1 with dict := seedDict }) =
        .error (.thrown "UNKNOWN IDENT: (cell) #1") :=
  ⟨(forward_reference_within_body "render" "row" "cell" (by decide!) (by decide!) (by decide!)
      (by decide)).1 true,
   (forward_reference_within_body "render" "row" "cell" (by decide!) (by decide!) (by decide!)
      (by decide)).2 (PSC.init { devar := true, coverage := false } []) rfl rfl⟩

end PSCompiler
